import Mathlib

/-!
# Bitmap codec of the image-processing project (`bmp.h`)

A shallow embedding of the codec in `bmp.h`: the header parser, the payload
reader with its normalisation of pixel rows, and the two writers. The later
sections embed the pixel access helpers of `bmp.h`, the blocking queue of
`sync_queue.h`, the worker pool of `threadpool.h`, and the scalar loops and the
fan-out of the filters (`brightness.c`, `sepia.c`, `mt_sepia.c`).

Conventions of the embedding.

* The target is x86-64 (the filters use AVX-512 assembly): `size_t` is 64 bits
  wide and all `size_t` arithmetic is taken modulo `2 ^ 64`; `int` is 32 bits
  wide and wraps in two's complement; integers in the file are little-endian.
* The three leading members of `bmp_image` are packed byte arrays (14, 40 and
  256 bytes): they are kept as the bytes `fread` stored, and the header fields
  are decoded from them.
* A stream is the list of bytes still to be read together with what has been
  written to it and the room left for writing.
* An access outside a buffer has no defined result in C: the embedding stops
  with a `Fault` there instead of inventing a value.
-/

namespace BMP

/-- One octet of a stream or of memory. -/
abbrev Byte := Fin 256

/-! ## Machine arithmetic -/

/-- Addition of two `size_t` values. -/
def size_add (a b : Nat) : Nat := (a + b) % 2 ^ 64

/-- Subtraction of two `size_t` values (both below `2 ^ 64`). -/
def size_sub (a b : Nat) : Nat := (a + (2 ^ 64 - b % 2 ^ 64)) % 2 ^ 64

/-- Multiplication of two `size_t` values. -/
def size_mul (a b : Nat) : Nat := (a * b) % 2 ^ 64

/-- Conversion of an integer to `size_t`. -/
def to_size_t (n : Int) : Nat := (n % 2 ^ 64).toNat

/-- Conversion of a `size_t` value to `ssize_t`. -/
def to_ssize_t (n : Nat) : Int := if n % 2 ^ 64 < 2 ^ 63 then (n % 2 ^ 64 : Nat) else (n % 2 ^ 64 : Nat) - 2 ^ 64

/-- Reduction of an integer to the range of `int` (32-bit two's complement). -/
def to_int (n : Int) : Int := (n + 2 ^ 31) % 2 ^ 32 - 2 ^ 31

/-! ## Little-endian fields -/

/-- Byte `i` of a buffer as a number (0 outside the buffer). -/
def byte_at (bytes : List Byte) (i : Nat) : Nat := (bytes.getD i 0).val

/-- Unsigned 16-bit little-endian field at offset `off`. -/
def le16 (bytes : List Byte) (off : Nat) : Nat :=
  byte_at bytes off + 256 * byte_at bytes (off + 1)

/-- Unsigned 32-bit little-endian field at offset `off`. -/
def le32 (bytes : List Byte) (off : Nat) : Nat :=
  byte_at bytes off + 256 * byte_at bytes (off + 1) + 65536 * byte_at bytes (off + 2)
    + 16777216 * byte_at bytes (off + 3)

/-- Signed 32-bit little-endian field at offset `off`. -/
def le32s (bytes : List Byte) (off : Nat) : Int :=
  if le32 bytes off < 2 ^ 31 then (le32 bytes off : Int) else (le32 bytes off : Int) - 2 ^ 32

/-! ## Error messages -/

/-- The error messages of `bmp.h`, one constructor per string constant
`BMP_Error_...`. -/
inductive bmp_error where
  | Invalid_File_Descriptor
  | Failed_to_Read_File_Header
  | Invalid_File_Signature
  | Failed_to_Read_DIB_Header
  | Invalid_Dib_Header_Size
  | Unsupported_Color_Depth
  | Invalid_Size_Information
  | Invalid_Image_Structure
  | Not_Enough_Memory_to_Read
  | Failed_to_Read_Image_Data
  | Invalid_Pixel_Offset_or_DIB_Header_Size
  | Failed_to_Calculate_Padding
  | Failed_to_Write_File_Header
  | Failed_to_Write_DIB_Header
  | Failed_to_Write_Image_Data
  deriving DecidableEq, Repr

/-- The text of each message. -/
def bmp_error.text : bmp_error → String
  | .Invalid_File_Descriptor => "Invalid file descriptor"
  | .Failed_to_Read_File_Header => "Failed to read the bitmap file header"
  | .Invalid_File_Signature => "Invalid bitmap file signature"
  | .Failed_to_Read_DIB_Header => "Failed to read the DIB header"
  | .Invalid_Dib_Header_Size => "Invalid DIB header size"
  | .Unsupported_Color_Depth => "Invalid color depth (not 24 or 32 bits per pixel)"
  | .Invalid_Size_Information => "The bitmap image containes invalid size information"
  | .Invalid_Image_Structure => "Invalid bitmap image structure"
  | .Not_Enough_Memory_to_Read => "Not enough memory to read the image"
  | .Failed_to_Read_Image_Data => "Failed to read the image data"
  | .Invalid_Pixel_Offset_or_DIB_Header_Size => "Invalid pixel offset or DIB header size"
  | .Failed_to_Calculate_Padding => "Failed to calculate padding information"
  | .Failed_to_Write_File_Header => "Failed to write the bitmap file header"
  | .Failed_to_Write_DIB_Header => "Failed to write the DIB header"
  | .Failed_to_Write_Image_Data => "Failed to write the image data"

/-- First magic byte, `BMP_First_Magic_Byte`. -/
def BMP_First_Magic_Byte : Nat := 0x42

/-- Second magic byte, `BMP_Second_Magic_Byte`. -/
def BMP_Second_Magic_Byte : Nat := 0x4D

/-- Size of the buffer for the header bytes after the 40-byte core. -/
def REST_OF_DIB_HEADER_SIZE : Nat := 256

/-! ## Streams -/

/-- A stdio stream: the bytes still to be read, the bytes written so far and
the number of bytes the stream still accepts. -/
structure FILE where
  input : List Byte
  output : List Byte
  room : Nat
  deriving DecidableEq, Repr

/-- What one `fread(ptr, size, 1, stream)` leaves: the stream, the bytes stored
at `ptr` and the returned item count. -/
structure fread_result where
  stream : FILE
  data : List Byte
  count : Nat
  deriving DecidableEq, Repr

/-- One call `fread(ptr, size, 1, stream)`: a single item of `size` bytes. The
count is 1 when the whole item was read; a zero-sized item or a stream that
ends early gives 0 (the bytes that were there are still stored). -/
def fread (size : Nat) (stream : FILE) : fread_result :=
  if size = 0 then ⟨stream, [], 0⟩
  else if size ≤ stream.input.length then
    ⟨{ stream with input := stream.input.drop size }, stream.input.take size, 1⟩
  else ⟨{ stream with input := [] }, stream.input, 0⟩

/-- What one `fwrite(ptr, size, 1, stream)` leaves: the stream and the returned
item count. -/
structure fwrite_result where
  stream : FILE
  count : Nat
  deriving DecidableEq, Repr

/-- One call `fwrite(ptr, size, 1, stream)` with `data` the `size` bytes at
`ptr`: the count is 1 when the whole item was accepted. -/
def fwrite (data : List Byte) (stream : FILE) : fwrite_result :=
  if data.length = 0 then ⟨stream, 0⟩
  else if data.length ≤ stream.room then
    ⟨{ stream with output := stream.output ++ data, room := stream.room - data.length }, 1⟩
  else ⟨{ stream with output := stream.output ++ data.take stream.room, room := 0 }, 0⟩

/-- Bytes stored over the start of an array: the rest of the array keeps its
content. -/
def overwrite (old new : List Byte) : List Byte := new ++ old.drop new.length

/-! ## The image record -/

/-- The record `bmp_image`. `file_header`, `dib_header` and
`rest_of_dib_header` are the packed members as bytes; `raw_pixels` is the
index in `payload` the pointer of that name points to; an absent buffer is a
null pointer. -/
structure bmp_image where
  file_header : List Byte
  dib_header : List Byte
  rest_of_dib_header : List Byte
  payload_size : Nat
  payload : Option (List Byte)
  raw_pixels : Nat
  pixels : Option (List Byte)
  absolute_image_width : Nat
  absolute_image_height : Nat
  pixel_row_padding : Nat
  image_size : Nat
  aligned_image_size : Nat
  channels : Nat
  deriving DecidableEq, Repr

namespace bmp_image

/-- Field `file_header.signature[i]`. -/
def signature (image : bmp_image) (i : Nat) : Nat := byte_at image.file_header i

/-- Field `file_header.file_size`. -/
def file_size (image : bmp_image) : Nat := le32 image.file_header 2

/-- Field `file_header.pixel_array_offset`. -/
def pixel_array_offset (image : bmp_image) : Nat := le32 image.file_header 10

/-- Field `dib_header.dib_header_size`. -/
def dib_header_size (image : bmp_image) : Nat := le32 image.dib_header 0

/-- Field `dib_header.image_width`. -/
def image_width (image : bmp_image) : Int := le32s image.dib_header 4

/-- Field `dib_header.image_height`. -/
def image_height (image : bmp_image) : Int := le32s image.dib_header 8

/-- Field `dib_header.bits_per_pixel`. -/
def bits_per_pixel (image : bmp_image) : Nat := le16 image.dib_header 14

/-- Field `dib_header.compression`. -/
def compression (image : bmp_image) : Nat := le32 image.dib_header 16

end bmp_image

/-- The record after `memset(image, 0, sizeof(*image))`. -/
def zeroed_image : bmp_image where
  file_header := List.replicate 14 0
  dib_header := List.replicate 40 0
  rest_of_dib_header := List.replicate REST_OF_DIB_HEADER_SIZE 0
  payload_size := 0
  payload := none
  raw_pixels := 0
  pixels := none
  absolute_image_width := 0
  absolute_image_height := 0
  pixel_row_padding := 0
  image_size := 0
  aligned_image_size := 0
  channels := 0

/-- Function `bmp_init_image_structure`: a present record is zeroed. -/
def bmp_init_image_structure (image : Option bmp_image) : Option bmp_image :=
  match image with
  | none => none
  | some _ => some zeroed_image

/-- Both buffers are released when present and their pointers set to null: the
body of `bmp_free_image_structure` and of the `cleanup` label. -/
def release_buffers (image : bmp_image) : bmp_image :=
  let image := if image.payload ≠ none then { image with payload := none } else image
  if image.pixels ≠ none then { image with pixels := none } else image

/-- Function `bmp_free_image_structure`: a present record has both buffers
released. -/
def bmp_free_image_structure (image : Option bmp_image) : Option bmp_image :=
  match image with
  | none => none
  | some image => some (release_buffers image)

/-- What a codec call leaves behind: the stream, the record and the message
stored through `error_message` (`none` for the null pointer). -/
structure bmp_result where
  file_descriptor : Option FILE
  image : Option bmp_image
  error_message : Option bmp_error
  deriving DecidableEq, Repr

/-! ## Parsing the headers -/

/-- The number of header bytes after the 40-byte core, as
`bmp_open_image_headers` computes it: `temp = dib_header_size - 40` is a
`size_t` difference converted to `ssize_t`, and a non-positive `temp` gives 0. -/
def rest_dib_header_size (declared : Nat) : Nat :=
  let temp : Int := to_ssize_t (size_sub declared 40)
  if temp > 0 then to_size_t temp else 0

/-- Function `bmp_open_image_headers`. -/
def bmp_open_image_headers (file_descriptor : Option FILE) (image : Option bmp_image) :
    bmp_result :=
  match image with
  | none => ⟨file_descriptor, none, some .Invalid_Image_Structure⟩
  | some image =>
    match file_descriptor with
    | none => ⟨none, some image, some .Invalid_File_Descriptor⟩
    | some file =>
      let bmp_header_size : Nat := 14
      let dib_header_size : Nat := 40
      let total_header_size : Nat := bmp_header_size + dib_header_size
      let r1 := fread bmp_header_size file
      let image := { image with file_header := overwrite image.file_header r1.data }
      if r1.count = 0 then
        ⟨some r1.stream, some image, some .Failed_to_Read_File_Header⟩
      else if image.signature 0 ≠ BMP_First_Magic_Byte ∨
          image.signature 1 ≠ BMP_Second_Magic_Byte then
        ⟨some r1.stream, some image, some .Invalid_File_Signature⟩
      else
        let r2 := fread dib_header_size r1.stream
        let image := { image with dib_header := overwrite image.dib_header r2.data }
        if r2.count = 0 then
          ⟨some r2.stream, some image, some .Failed_to_Read_DIB_Header⟩
        else
          let rest := rest_dib_header_size image.dib_header_size
          if rest > REST_OF_DIB_HEADER_SIZE then
            ⟨some r2.stream, some image, some .Invalid_Dib_Header_Size⟩
          else
            let r3 := if rest > 0 then fread rest r2.stream else ⟨r2.stream, [], 1⟩
            let image :=
              { image with rest_of_dib_header := overwrite image.rest_of_dib_header r3.data }
            if r3.count = 0 then
              ⟨some r3.stream, some image, some .Failed_to_Read_DIB_Header⟩
            else if 24 ≠ image.bits_per_pixel ∧ 32 ≠ image.bits_per_pixel then
              ⟨some r3.stream, some image, some .Unsupported_Color_Depth⟩
            else
              let image := { image with channels := if 24 = image.bits_per_pixel then 3 else 4 }
              if image.file_size ≤ total_header_size then
                ⟨some r3.stream, some image, some .Invalid_Size_Information⟩
              else
                ⟨some r3.stream, some image, none⟩

/-! ## Memory -/

/-- Why a run of the embedding stops without a result. -/
inductive Fault where
  /-- An access outside a buffer. -/
  | out_of_bounds
  /-- An access through a null pointer. -/
  | null_pointer
  /-- The step budget of a loop of the embedding ran out. -/
  | step_limit
  deriving DecidableEq, Repr

/-- A run of code that may stop at an access with no defined result. -/
inductive Run (α : Type) where
  | done (value : α)
  | fault (reason : Fault)
  deriving DecidableEq, Repr

/-- One step of a run followed by the rest of it: a fault ends the run. -/
def Run.and_then {α β : Type} (step : Run α) (rest : α → Run β) : Run β :=
  match step with
  | .done value => rest value
  | .fault reason => .fault reason

/-- Call `memcpy(destination + d, source + s, n)` on two distinct buffers. -/
def memcpy (destination : List Byte) (d : Nat) (source : List Byte) (s n : Nat) :
    Run (List Byte) :=
  if s + n ≤ source.length ∧ d + n ≤ destination.length then
    .done (destination.take d ++ ((source.drop s).take n ++ destination.drop (d + n)))
  else .fault .out_of_bounds

/-- Call `memcpy` at offsets that were computed with a signed `int`. -/
def memcpy_at (destination : List Byte) (d : Int) (source : List Byte) (s : Int) (n : Nat) :
    Run (List Byte) :=
  if d < 0 ∨ s < 0 then .fault .out_of_bounds
  else memcpy destination d.toNat source s.toNat n

/-- Assignment `*(buffer + d) = value` at an offset computed with a signed `int`. -/
def store_at (buffer : List Byte) (d : Int) (value : Byte) : Run (List Byte) :=
  if d < 0 ∨ buffer.length ≤ d.toNat then .fault .out_of_bounds
  else .done (buffer.set d.toNat value)

/-- Largest object size, `PTRDIFF_MAX`. -/
def PTRDIFF_MAX : Nat := 2 ^ 63 - 1

/-- Whether allocation request number `k` of a call, for `n` bytes, is granted.
`alloc` is the answer of the environment; no allocator grants a request above
`PTRDIFF_MAX`. -/
def malloc (alloc : Nat → Nat → Bool) (k n : Nat) : Bool :=
  decide (n ≤ PTRDIFF_MAX) && alloc k n

/-- The content of a freshly allocated buffer of `n` bytes: whatever `junk` the
memory held. -/
def fresh (junk : Nat → Byte) (n : Nat) : List Byte := (List.range n).map junk

/-! ## Reading the payload -/

/-- The magnitude `image_width < 0 ? (size_t) -image_width : (size_t) image_width`
of a signed 32-bit field: the negation is an `int` negation. -/
def absolute (field : Int) : Nat :=
  if field < 0 then to_size_t (to_int (-field)) else to_size_t field

/-- The padding after each row, `(padding * width + 31) / 32 * 4 - row_size`
with `padding` first set to the bit depth. -/
def row_padding (bits_per_pixel width row_size : Nat) : Nat :=
  size_sub (size_mul (size_add (size_mul bits_per_pixel width) 31 / 32) 4) row_size

/-- The size of the plane, `(((size - 1) / 64) + 1) * 64` and then `+= 64`. -/
def aligned_size (extended_to_4_image_size : Nat) : Nat :=
  size_add (size_mul (size_add (size_sub extended_to_4_image_size 1 / 64) 1) 64) 64

/-- The row loop of the 4-channel branch of `bmp_read_image_data`; the first
argument counts the rows still to copy. -/
def read_rows_4 (raw : List Byte) (raw_pixels row_size padding : Nat) :
    Nat → Nat → Nat → List Byte → Run (List Byte)
  | 0, _, _, pixels => .done pixels
  | rows + 1, src_linear_position, dest_linear_position, pixels =>
    match memcpy pixels dest_linear_position raw (raw_pixels + src_linear_position) row_size with
    | .fault f => .fault f
    | .done pixels =>
      read_rows_4 raw raw_pixels row_size padding rows
        (size_add src_linear_position (size_add row_size padding))
        (size_add dest_linear_position row_size) pixels

/-- The inner loop `for (int i = 0, j = 0; i < row_size; i += 3, j += 4)` of the
3-channel branch of `bmp_read_image_data` for the row at `source` in the payload
and at `destination` in the plane. The first argument is a step budget. -/
def expand_row (raw : List Byte) (source destination row_size : Nat) :
    Nat → Int → Int → List Byte → Run (List Byte)
  | 0, i, _, pixels => if to_size_t i < row_size then .fault .step_limit else .done pixels
  | fuel + 1, i, j, pixels =>
    if to_size_t i < row_size then
      (memcpy_at pixels (destination + j) raw (source + i) 3).and_then fun pixels =>
      (store_at pixels (destination + j + 3) 255).and_then fun pixels =>
      expand_row raw source destination row_size fuel (to_int (i + 3)) (to_int (j + 4)) pixels
    else .done pixels

/-- The row loop of the 3-channel branch of `bmp_read_image_data`. -/
def read_rows_3 (raw : List Byte) (raw_pixels row_size padding row_size_extend_to_4 : Nat) :
    Nat → Nat → Nat → List Byte → Run (List Byte)
  | 0, _, _, pixels => .done pixels
  | rows + 1, src_linear_position, dest_linear_position, pixels =>
    (expand_row raw (raw_pixels + src_linear_position) dest_linear_position row_size
        row_size 0 0 pixels).and_then fun pixels =>
    read_rows_3 raw raw_pixels row_size padding row_size_extend_to_4 rows
      (size_add src_linear_position (size_add row_size padding))
      (size_add dest_linear_position row_size_extend_to_4) pixels

/-- The loop that clears the plane from `linear_position` on; the first
argument counts the bytes still to clear. -/
def zero_fill : Nat → Nat → List Byte → List Byte
  | 0, _, pixels => pixels
  | count + 1, linear_position, pixels =>
    zero_fill count (linear_position + 1) (pixels.set linear_position 0)

/-! ### The locals of `bmp_read_image_data` as functions of the record -/

/-- The payload size `file_size - (14 + dib_header_size)` that the reader and
the writer of the payload compute. -/
def payload_length (image : bmp_image) : Nat :=
  size_sub image.file_size (size_add 14 image.dib_header_size)

/-- The index `pixel_array_offset - (14 + dib_header_size)` of the first pixel
byte in the payload. -/
def first_pixel_index (image : bmp_image) : Nat :=
  size_sub image.pixel_array_offset (size_add 14 image.dib_header_size)

/-- The local `width` of the reader. -/
def width_of (image : bmp_image) : Nat := absolute image.image_width

/-- The local `height` of the reader. -/
def height_of (image : bmp_image) : Nat := absolute image.image_height

/-- The local `row_size` of the reader. -/
def row_size_of (image : bmp_image) : Nat := size_mul (width_of image) image.channels

/-- The local `padding` of the reader. -/
def padding_of (image : bmp_image) : Nat :=
  row_padding image.bits_per_pixel (width_of image) (row_size_of image)

/-- The local `extended_to_4_image_size` of the reader. -/
def extended_size_of (image : bmp_image) : Nat :=
  size_mul (height_of image) (size_add (size_mul (width_of image) 4) (padding_of image))

/-- The record of the reader when it compares the image size with the payload
size: the payload `data` is stored and the derived scalars are set. -/
def measured (image : bmp_image) (data : List Byte) : bmp_image :=
  { image with
    payload_size := payload_length image
    payload := some data
    raw_pixels := first_pixel_index image
    absolute_image_width := width_of image
    absolute_image_height := height_of image
    pixel_row_padding := padding_of image
    image_size := size_mul (height_of image) (size_add (row_size_of image) (padding_of image)) }

/-- The plane after the row loops of the reader, before the slack is cleared. -/
def copied_rows (junk : Nat → Byte) (image : bmp_image) (data : List Byte) : Run (List Byte) :=
  if 4 = image.channels then
    read_rows_4 data (first_pixel_index image) (row_size_of image) (padding_of image)
      (height_of image) 0 0 (fresh junk (aligned_size (extended_size_of image)))
  else
    read_rows_3 data (first_pixel_index image) (row_size_of image) (padding_of image)
      (size_mul (width_of image) 4) (height_of image) 0 0
      (fresh junk (aligned_size (extended_size_of image)))

/-- Function `bmp_read_image_data`. The environment decides through `alloc`
which allocation requests are granted and through `junk` what a fresh buffer
holds. The locals of the function are the quantities defined above; the record
is shown with the assignments made up to each exit. -/
def bmp_read_image_data (alloc : Nat → Nat → Bool) (junk : Nat → Byte)
    (file_descriptor : Option FILE) (image : Option bmp_image) : Run bmp_result :=
  match image with
  | none => .done ⟨file_descriptor, none, some .Invalid_Image_Structure⟩
  | some image =>
    match file_descriptor with
    | none => .done ⟨none, some image, some .Invalid_File_Descriptor⟩
    | some file =>
      let payload_size : Nat := payload_length image
      if malloc alloc 0 payload_size = false then
        .done ⟨some file, some { image with payload_size := payload_size, payload := none },
          some .Not_Enough_Memory_to_Read⟩
      else
        let r := fread payload_size file
        if r.count = 0 then
          .done ⟨some r.stream,
            some (release_buffers
              { image with payload_size := payload_size, payload := some r.data }),
            some .Failed_to_Read_Image_Data⟩
        else if first_pixel_index image ≥ payload_size then
          .done ⟨some r.stream,
            some (release_buffers
              { image with payload_size := payload_size, payload := some r.data }),
            some .Invalid_Pixel_Offset_or_DIB_Header_Size⟩
        else if (measured image r.data).image_size > payload_size then
          .done ⟨some r.stream, some (release_buffers (measured image r.data)),
            some .Failed_to_Calculate_Padding⟩
        else
          let aligned_image_size : Nat := aligned_size (extended_size_of image)
          if malloc alloc 1 aligned_image_size = false then
            .done ⟨some r.stream,
              some (release_buffers { measured image r.data with pixels := none }),
              some .Not_Enough_Memory_to_Read⟩
          else
            match copied_rows junk image r.data with
            | .fault f => .fault f
            | .done pixels =>
              .done ⟨some r.stream,
                some { measured image r.data with
                  aligned_image_size := aligned_image_size
                  pixels := some (zero_fill (aligned_image_size - extended_size_of image)
                    (extended_size_of image) pixels) },
                none⟩

/-! ## Writing -/

/-- Function `bmp_write_image_headers`. The second `fwrite` takes
`dib_header_size` bytes from the address of `dib_header`: they run on into
`rest_of_dib_header`, which follows it in the record; what lies after that
array is not described by the embedding. -/
def bmp_write_image_headers (file_descriptor : Option FILE) (image : Option bmp_image) :
    Run bmp_result :=
  match image with
  | none => .done ⟨file_descriptor, none, some .Invalid_Image_Structure⟩
  | some image =>
    match file_descriptor with
    | none => .done ⟨none, some image, some .Invalid_File_Descriptor⟩
    | some file =>
      let w1 := fwrite image.file_header file
      if w1.count = 0 then
        .done ⟨some w1.stream, some image, some .Failed_to_Write_File_Header⟩
      else
        let dib_header_size : Nat := image.dib_header_size
        let memory := image.dib_header ++ image.rest_of_dib_header
        if memory.length < dib_header_size then .fault .out_of_bounds
        else
          let w2 := fwrite (memory.take dib_header_size) w1.stream
          if w2.count = 0 then
            .done ⟨some w2.stream, some image, some .Failed_to_Write_DIB_Header⟩
          else
            .done ⟨some w2.stream, some image, none⟩

/-- The row loop of the 4-channel branch of `bmp_write_image_data`; the first
argument counts the rows still to copy. -/
def write_rows_4 (pixels : List Byte) (raw_pixels row_size padding : Nat) :
    Nat → Nat → Nat → List Byte → Run (List Byte)
  | 0, _, _, payload => .done payload
  | rows + 1, src_linear_position, dest_linear_position, payload =>
    match memcpy payload (raw_pixels + dest_linear_position) pixels src_linear_position
        row_size with
    | .fault f => .fault f
    | .done payload =>
      write_rows_4 pixels raw_pixels row_size padding rows
        (size_add src_linear_position row_size)
        (size_add dest_linear_position (size_add row_size padding)) payload

/-- The inner loop `for (int i = 0, j = 0; i < row_size; i += 3, j += 4)` of the
3-channel branch of `bmp_write_image_data` for the row at `source` in the plane
and at `destination` in the payload. The first argument is a step budget. -/
def pack_row (pixels : List Byte) (source destination row_size : Nat) :
    Nat → Int → Int → List Byte → Run (List Byte)
  | 0, i, _, payload => if to_size_t i < row_size then .fault .step_limit else .done payload
  | fuel + 1, i, j, payload =>
    if to_size_t i < row_size then
      (memcpy_at payload (destination + i) pixels (source + j) 3).and_then fun payload =>
      pack_row pixels source destination row_size fuel (to_int (i + 3)) (to_int (j + 4)) payload
    else .done payload

/-- The row loop of the 3-channel branch of `bmp_write_image_data`. -/
def write_rows_3 (pixels : List Byte) (raw_pixels row_size padding row_size_extend_to_4 : Nat) :
    Nat → Nat → Nat → List Byte → Run (List Byte)
  | 0, _, _, payload => .done payload
  | rows + 1, src_linear_position, dest_linear_position, payload =>
    (pack_row pixels src_linear_position (raw_pixels + dest_linear_position) row_size
        row_size 0 0 payload).and_then fun payload =>
    write_rows_3 pixels raw_pixels row_size padding row_size_extend_to_4 rows
      (size_add src_linear_position row_size_extend_to_4)
      (size_add dest_linear_position (size_add row_size padding)) payload

/-- Function `bmp_write_image_data`. The rows are copied through the pointers
`raw_pixels` and `pixels`; with no row to copy neither is used. -/
def bmp_write_image_data (file_descriptor : Option FILE) (image : Option bmp_image) :
    Run bmp_result :=
  match image with
  | none => .done ⟨file_descriptor, none, some .Invalid_Image_Structure⟩
  | some image =>
    match file_descriptor with
    | none => .done ⟨none, some image, some .Invalid_File_Descriptor⟩
    | some file =>
      let bmp_header_size : Nat := 14
      let dib_header_size : Nat := image.dib_header_size
      let total_header_size : Nat := size_add bmp_header_size dib_header_size
      let payload_size : Nat := size_sub image.file_size total_header_size
      let padding : Nat := image.pixel_row_padding
      let width : Nat := image.absolute_image_width
      let height : Nat := image.absolute_image_height
      let row_size_extend_to_4 : Nat := size_mul width 4
      let row_size : Nat := size_mul width image.channels
      let packed : Run (Option (List Byte)) :=
        if height = 0 then .done image.payload
        else
          match image.payload, image.pixels with
          | some payload, some pixels =>
            let rows :=
              if 4 = image.channels then
                write_rows_4 pixels image.raw_pixels row_size padding height 0 0 payload
              else
                write_rows_3 pixels image.raw_pixels row_size padding row_size_extend_to_4
                  height 0 0 payload
            match rows with
            | .fault f => .fault f
            | .done payload => .done (some payload)
          | _, _ => .fault .null_pointer
      match packed with
      | .fault f => .fault f
      | .done payload =>
        let image := { image with payload := payload }
        if payload_size = 0 then
          .done ⟨some file, some image, some .Failed_to_Write_Image_Data⟩
        else
          match payload with
          | none => .fault .null_pointer
          | some bytes =>
            if bytes.length < payload_size then .fault .out_of_bounds
            else
              let w := fwrite (bytes.take payload_size) file
              if w.count = 0 then
                .done ⟨some w.stream, some image, some .Failed_to_Write_Image_Data⟩
              else
                .done ⟨some w.stream, some image, none⟩

/-! ## The pipeline of the filters -/

/-- The four codec calls in the order in which `main` of the filters makes them
(`brightness.c`, `sepia.c`), with the transform between them left out: the
content of the destination stream, or `none` when a call reported an error. -/
def transcode (alloc : Nat → Nat → Bool) (junk : Nat → Byte) (source destination : FILE) :
    Run (Option (List Byte)) :=
  let opened := bmp_open_image_headers (some source) (bmp_init_image_structure (some zeroed_image))
  if opened.error_message ≠ none then .done none
  else
    match bmp_read_image_data alloc junk opened.file_descriptor opened.image with
    | .fault f => .fault f
    | .done loaded =>
      if loaded.error_message ≠ none then .done none
      else
        match bmp_write_image_headers (some destination) loaded.image with
        | .fault f => .fault f
        | .done headed =>
          if headed.error_message ≠ none then .done none
          else
            match bmp_write_image_data headed.file_descriptor headed.image with
            | .fault f => .fault f
            | .done written =>
              if written.error_message ≠ none then .done none
              else .done (written.file_descriptor.map FILE.output)

/-! ## The words of the specification -/

/-- The smallest multiple of `m` that is not below `n`. -/
def round_up (n m : Nat) : Nat := (n + m - 1) / m * m

/-- The error kinds of the specification; `InvalidImageStructure` stands for the
message about an absent image record, which the taxonomy does not list. -/
inductive ErrorKind where
  | InvalidDescriptor
  | HeaderReadFailure
  | BadSignature
  | OversizedHeader
  | UnsupportedDepth
  | InvalidSizeInformation
  | OutOfMemory
  | PayloadReadFailure
  | InvalidPixelOffset
  | PaddingCalculationFailure
  | HeaderWriteFailure
  | ImageWriteFailure
  | InvalidImageStructure
  deriving DecidableEq, Repr

/-- The kind of each message. -/
def bmp_error.kind : bmp_error → ErrorKind
  | .Invalid_File_Descriptor => .InvalidDescriptor
  | .Failed_to_Read_File_Header => .HeaderReadFailure
  | .Invalid_File_Signature => .BadSignature
  | .Failed_to_Read_DIB_Header => .HeaderReadFailure
  | .Invalid_Dib_Header_Size => .OversizedHeader
  | .Unsupported_Color_Depth => .UnsupportedDepth
  | .Invalid_Size_Information => .InvalidSizeInformation
  | .Invalid_Image_Structure => .InvalidImageStructure
  | .Not_Enough_Memory_to_Read => .OutOfMemory
  | .Failed_to_Read_Image_Data => .PayloadReadFailure
  | .Invalid_Pixel_Offset_or_DIB_Header_Size => .InvalidPixelOffset
  | .Failed_to_Calculate_Padding => .PaddingCalculationFailure
  | .Failed_to_Write_File_Header => .HeaderWriteFailure
  | .Failed_to_Write_DIB_Header => .HeaderWriteFailure
  | .Failed_to_Write_Image_Data => .ImageWriteFailure

/-- The checks of header parsing as the specification lists them, in its order,
on the bytes `stream` still holds (`none` for an absent stream): the kind of the
first check that fails, `none` when none does. The last check is the one of the
specification, `file_size > 14 + info_header_size` with `info_header_size` the
declared size of the DIB header. -/
def first_failing_check (stream : Option (List Byte)) : Option ErrorKind :=
  match stream with
  | none => some .InvalidDescriptor
  | some bytes =>
    if bytes.length < 14 then some .HeaderReadFailure
    else if ¬ (byte_at bytes 0 = 0x42 ∧ byte_at bytes 1 = 0x4D) then some .BadSignature
    else if bytes.length - 14 < 40 then some .HeaderReadFailure
    else if max (le32 bytes 14 - 40) 0 > 256 then some .OversizedHeader
    else if bytes.length - 54 < max (le32 bytes 14 - 40) 0 then some .HeaderReadFailure
    else if ¬ (le16 bytes 28 = 24 ∨ le16 bytes 28 = 32) then some .UnsupportedDepth
    else if ¬ (le32 bytes 2 > 14 + le32 bytes 14) then some .InvalidSizeInformation
    else none

/-- The tests `bmp_open_image_headers` makes, in the order of its source, on the
bytes `stream` still holds (`none` for an absent stream): the kind of the
message the first failing test leaves, `none` when none fails. The last test
is the one of the source, `file_size <= total_header_size`, where
`total_header_size` is `sizeof(file_header) + sizeof(dib_header)`, 54 bytes
whatever size the DIB header declares. -/
def first_failing_test (stream : Option (List Byte)) : Option ErrorKind :=
  match stream with
  | none => some .InvalidDescriptor
  | some bytes =>
    if bytes.length < 14 then some .HeaderReadFailure
    else if ¬ (byte_at bytes 0 = 0x42 ∧ byte_at bytes 1 = 0x4D) then some .BadSignature
    else if bytes.length - 14 < 40 then some .HeaderReadFailure
    else if max (le32 bytes 14 - 40) 0 > 256 then some .OversizedHeader
    else if bytes.length - 54 < max (le32 bytes 14 - 40) 0 then some .HeaderReadFailure
    else if ¬ (le16 bytes 28 = 24 ∨ le16 bytes 28 = 32) then some .UnsupportedDepth
    else if le32 bytes 2 ≤ 14 + 40 then some .InvalidSizeInformation
    else none

/-- The record after the three header reads of `bmp_open_image_headers` on a
stream holding `bytes`. -/
def headers_stored (image : bmp_image) (bytes : List Byte) : bmp_image :=
  { image with
    file_header := overwrite image.file_header (bytes.take 14)
    dib_header := overwrite image.dib_header ((bytes.drop 14).take 40)
    rest_of_dib_header :=
      overwrite image.rest_of_dib_header
        ((bytes.drop 54).take (rest_dib_header_size (le32 bytes 14))) }

/-! ## Sample streams -/

/-- The two bytes of a 16-bit little-endian field. -/
def le16_bytes (n : Nat) : List Byte := [Fin.ofNat n, Fin.ofNat (n / 256)]

/-- The four bytes of a 32-bit little-endian field. -/
def le32_bytes (n : Nat) : List Byte :=
  [Fin.ofNat n, Fin.ofNat (n / 256), Fin.ofNat (n / 65536), Fin.ofNat (n / 16777216)]

/-- The 54 bytes of a file header and a DIB header core with the given fields
(width and height as the unsigned value of their 32 bits). -/
def sample_header (file_size pixel_array_offset dib_header_size width height
    bits_per_pixel : Nat) : List Byte :=
  [0x42, 0x4D] ++ le32_bytes file_size ++ le16_bytes 0 ++ le16_bytes 0
    ++ le32_bytes pixel_array_offset ++ le32_bytes dib_header_size ++ le32_bytes width
    ++ le32_bytes height ++ le16_bytes 1 ++ le16_bytes bits_per_pixel ++ le32_bytes 0
    ++ le32_bytes 0 ++ le32_bytes 2835 ++ le32_bytes 2835 ++ le32_bytes 0 ++ le32_bytes 0

/-- A 2 x 2 bitmap of 24 bits per pixel: each row is 6 pixel bytes and 2
padding bytes. -/
def sample_24 : List Byte :=
  sample_header 70 54 40 2 2 24
    ++ [1, 2, 3, 4, 5, 6, 0xAA, 0xBB, 11, 12, 13, 14, 15, 16, 0xCC, 0xDD]

/-- A top-down 2 x 2 bitmap of 32 bits per pixel (height field -2) with two
bytes between the headers and the pixel array and one byte after it. -/
def sample_32 : List Byte :=
  sample_header 73 56 40 2 (2 ^ 32 - 2) 32
    ++ [0xEE, 0xFF, 1, 2, 3, 4, 5, 6, 7, 8, 11, 12, 13, 14, 15, 16, 17, 18, 0x99]

/-- A 1 x 1 bitmap that declares 8 bits per pixel. -/
def sample_8 : List Byte := sample_header 58 54 40 1 1 8 ++ [1, 0, 0, 0]

/-- A stream that declares a DIB header of 296 bytes and a file size of 100
bytes: the 54 bytes of the headers and the 256 further header bytes. -/
def sample_declared_296 : List Byte := sample_header 100 310 296 1 1 24 ++ List.replicate 256 0

/-- A stream of 32 bits per pixel whose width and height fields both hold
`0x80000000`, with a payload of one byte. -/
def sample_extreme : List Byte := sample_header 55 54 40 (2 ^ 31) (2 ^ 31) 32 ++ [0]

/-- A 1 x 1 bitmap of 32 bits per pixel whose pixel offset, 10, lies inside
the headers. -/
def sample_offset_10 : List Byte := sample_header 58 10 40 1 1 32 ++ [1, 2, 3, 4]

/-- The outcome of `bmp_read_image_data` on `sample_24` after its headers were
parsed into a zeroed record. -/
def sample_24_loaded : bmp_result :=
  match bmp_read_image_data (fun _ _ => true) (fun _ => 0) (some ⟨sample_24.drop 54, [], 0⟩)
      (some { headers_stored zeroed_image sample_24 with channels := 3 }) with
  | .done loaded => loaded
  | .fault _ => ⟨none, none, none⟩

/-- A bitmap of 24 bits per pixel with one row of `2 ^ 29 + 1` pixels: 54 header
bytes, then 1610612739 pixel bytes and one padding byte, all zero. -/
def sample_wide : List Byte :=
  sample_header 1610612794 54 40 (2 ^ 29 + 1) 1 24 ++ List.replicate 1610612740 0

/-- The outcome of `bmp_read_image_data` on `sample_24` after its headers were
parsed into a zeroed record, when fresh memory holds the byte `0xAA`. -/
def sample_24_dirty : bmp_result :=
  match bmp_read_image_data (fun _ _ => true) (fun _ => 0xAA) (some ⟨sample_24.drop 54, [], 0⟩)
      (some { headers_stored zeroed_image sample_24 with channels := 3 }) with
  | .done loaded => loaded
  | .fault _ => ⟨none, none, none⟩

/-- The outcome of `bmp_read_image_data` on `sample_32` after its headers were
parsed into a zeroed record, when the payload is granted and the plane is not. -/
def sample_32_refused : bmp_result :=
  match bmp_read_image_data (fun k _ => decide (k = 0)) (fun _ => 0)
      (some ⟨sample_32.drop 54, [], 0⟩)
      (some { headers_stored zeroed_image sample_32 with channels := 4 }) with
  | .done loaded => loaded
  | .fault _ => ⟨none, none, none⟩

/-- The stream `bytes` with the four bytes `field` in the place of its
compression field, at offset 30. -/
def with_compression (bytes field : List Byte) : List Byte :=
  bytes.take 30 ++ (field ++ bytes.drop 34)

/-- The stream `sample_32` with the compression field set to 1 (run-length
encoding of 8 bits per pixel). -/
def sample_compressed : List Byte := with_compression sample_32 (le32_bytes 1)

/-- The outcome of `bmp_read_image_data` on `sample_compressed` after its
headers were parsed into a zeroed record. -/
def sample_compressed_loaded : bmp_result :=
  match bmp_read_image_data (fun _ _ => true) (fun _ => 0)
      (some ⟨sample_compressed.drop 54, [], 0⟩)
      (some { headers_stored zeroed_image sample_compressed with channels := 4 }) with
  | .done loaded => loaded
  | .fault _ => ⟨none, none, none⟩

/-! ## Pixel addressing -/

/-- Reduction of an integer to the range of `ssize_t` (64-bit two's
complement). -/
def wrap_ssize_t (n : Int) : Int := (n + 2 ^ 63) % 2 ^ 64 - 2 ^ 63

/-- Macro `UTILS_MIN`. -/
def UTILS_MIN (a b : Int) : Int := if a < b then a else b

/-- Macro `UTILS_MAX`. -/
def UTILS_MAX (a b : Int) : Int := if a > b then a else b

/-- Macro `UTILS_CLAMP`. -/
def UTILS_CLAMP (x min max : Int) : Int := UTILS_MIN (UTILS_MAX x min) max

/-- Function `bmp_sample_pixel`: the offset in `pixels` of the returned pointer.
`x` and `y` are the `ssize_t` arguments. -/
def bmp_sample_pixel (x y : Int) (absolute_image_width absolute_image_height : Nat) : Nat :=
  let ux : Nat :=
    to_size_t (UTILS_CLAMP x 0 (wrap_ssize_t (to_ssize_t absolute_image_width - 1)))
  let uy : Nat :=
    to_size_t (UTILS_CLAMP y 0 (wrap_ssize_t (to_ssize_t absolute_image_height - 1)))
  size_add (size_mul uy (size_mul absolute_image_width 4)) (size_mul ux 4)

/-- Function `bmp_sample_raw_pixel`: the offset in `raw_pixels` of the returned
pointer. `x` and `y` are the `ssize_t` arguments. -/
def bmp_sample_raw_pixel (x y : Int) (absolute_image_width absolute_image_height
    row_padding : Nat) : Nat :=
  let ux : Nat :=
    to_size_t (UTILS_CLAMP x 0 (wrap_ssize_t (to_ssize_t absolute_image_width - 1)))
  let uy : Nat :=
    to_size_t (UTILS_CLAMP y 0 (wrap_ssize_t (to_ssize_t absolute_image_height - 1)))
  size_add (size_mul uy (size_add (size_mul absolute_image_width 4) row_padding))
    (size_mul ux 4)

/-- A 2 x 2 bitmap of 32 bits per pixel whose pixel offset, 62, leaves 8 of the
16 payload bytes before the pixel array. -/
def sample_offset_62 : List Byte :=
  sample_header 70 62 40 2 2 32
    ++ [1, 2, 3, 4, 5, 6, 7, 8, 11, 12, 13, 14, 15, 16, 17, 18]

/-- The record after `bmp_open_image_headers` on `sample_offset_62`, parsed
into a zeroed record. -/
def sample_offset_62_parsed : bmp_image :=
  { headers_stored zeroed_image sample_offset_62 with channels := 4 }

/-- The record as `bmp_read_image_data` fills it for `sample_offset_62` on its
way to a return without error, after its range checks passed: the payload and
the scalars it assigns before the row loops, the size of the plane, and the
plane, as in the record of every read that ends without error. The row loop
reads outside the payload on this stream, so what the plane holds is left
open: it is `content`. -/
def sample_offset_62_decoded (content : List Byte) : bmp_image :=
  { measured sample_offset_62_parsed (sample_offset_62.drop 54) with
    aligned_image_size := aligned_size (extended_size_of sample_offset_62_parsed)
    pixels := some content }

/-- A bitmap of 24 bits per pixel, 1 pixel wide and 16 pixels high: each row is
3 pixel bytes and 1 padding byte. -/
def sample_tall : List Byte := sample_header 118 54 40 1 16 24 ++ List.replicate 64 7

/-- The outcome of `bmp_read_image_data` on `sample_tall` after its headers were
parsed into a zeroed record. -/
def sample_tall_loaded : bmp_result :=
  match bmp_read_image_data (fun _ _ => true) (fun _ => 0) (some ⟨sample_tall.drop 54, [], 0⟩)
      (some { headers_stored zeroed_image sample_tall with channels := 3 }) with
  | .done loaded => loaded
  | .fault _ => ⟨none, none, none⟩

/-! ## The blocking queue -/

/-- Modelled from the spec: the type `queue_t` of `queue.h`, a file of the
repository that is not among the sources. The state of the queue is "an ordered
sequence of WorkItem (FIFO)": the items from the front to the back. -/
structure queue_t (α : Type) where
  items : List α
  deriving DecidableEq, Repr

/-- Modelled from the spec: function `queue_init` of `queue.h`, the empty
sequence. -/
def queue_init {α : Type} : queue_t α := ⟨[]⟩

/-- Modelled from the spec: function `queue_is_empty` of `queue.h`. -/
def queue_is_empty {α : Type} (queue : queue_t α) : Bool := queue.items.isEmpty

/-- Modelled from the spec: function `queue_push` of `queue.h`, "append". -/
def queue_push {α : Type} (queue : queue_t α) (data : α) : queue_t α :=
  ⟨queue.items ++ [data]⟩

/-- Modelled from the spec: function `queue_pop` of `queue.h`, "remove and
return the front item"; on an empty queue it returns "empty", the null
pointer. -/
def queue_pop {α : Type} (queue : queue_t α) : queue_t α × Option α :=
  match queue.items with
  | [] => (queue, none)
  | front :: rest => (⟨rest⟩, some front)

/-- The record `sync_queue_t`: the queue behind the mutex and the condition
variable, which are part of the environment. -/
structure sync_queue_t (α : Type) where
  implementation : queue_t α
  deriving DecidableEq, Repr

/-- Error number `ETIMEDOUT` of `errno.h`. -/
def ETIMEDOUT : Int := 110

/-- What a call of `sync_queue_enqueue` leaves: the queue, and whether the
returned pointer is the queue (it is null otherwise). -/
structure enqueue_result (α : Type) where
  queue : sync_queue_t α
  returned : Bool
  deriving DecidableEq, Repr

/-- Function `sync_queue_enqueue`; `lock` and `unlock` are what
`pthread_mutex_lock` and `pthread_mutex_unlock` return. -/
def sync_queue_enqueue {α : Type} (lock unlock : Int) (queue : sync_queue_t α) (data : α) :
    enqueue_result α :=
  if 0 ≠ lock then ⟨queue, false⟩
  else
    let queue : sync_queue_t α := ⟨queue_push queue.implementation data⟩
    if 0 ≠ unlock then ⟨queue, false⟩
    else ⟨queue, true⟩

/-- How the loop `while (queue_is_empty(...))` of `sync_queue_pop` ends. -/
inductive wait_end where
  /-- The loop is left, by its condition or by `break`. -/
  | left
  /-- The function returns from inside the loop. -/
  | returned
  deriving DecidableEq, Repr

/-- The loop `while (queue_is_empty(...))` of `sync_queue_pop` with no other
thread at work: `waits` holds what the successive calls of
`pthread_cond_timedwait` return, and after them the deadline has passed. -/
def wait_until_not_empty {α : Type} (queue : sync_queue_t α) : List Int → wait_end
  | [] => .left
  | res :: waits =>
    if queue_is_empty queue.implementation then
      if 0 ≠ res ∧ res ≠ ETIMEDOUT then .returned
      else if res = ETIMEDOUT then .left
      else wait_until_not_empty queue waits
    else .left

/-- What a call of `sync_queue_pop` leaves: the queue and the returned item
(`none` for the null pointer). -/
structure pop_result (α : Type) where
  queue : sync_queue_t α
  data : Option α
  deriving DecidableEq, Repr

/-- Function `sync_queue_pop`; `lock` and `unlock` are what
`pthread_mutex_lock` and `pthread_mutex_unlock` return, `waits` what the calls
of `pthread_cond_timedwait` return. -/
def sync_queue_pop {α : Type} (lock : Int) (waits : List Int) (unlock : Int)
    (queue : sync_queue_t α) : pop_result α :=
  if 0 ≠ lock then ⟨queue, none⟩
  else
    match wait_until_not_empty queue waits with
    | .returned => ⟨queue, none⟩
    | .left =>
      let popped := queue_pop queue.implementation
      if 0 ≠ unlock then ⟨⟨popped.1⟩, popped.2⟩
      else ⟨⟨popped.1⟩, popped.2⟩

/-- A call on the queue by the one thread that uses it. -/
inductive queue_call (α : Type) where
  /-- Call `sync_queue_enqueue(queue, data)`. -/
  | enqueue (data : α)
  /-- Call `sync_queue_pop(queue)`, with what its waits return. -/
  | pop (waits : List Int)
  deriving DecidableEq, Repr

/-- The items submitted by a sequence of calls, in the order of the calls. -/
def submitted {α : Type} : List (queue_call α) → List α
  | [] => []
  | .enqueue data :: calls => data :: submitted calls
  | .pop _ :: calls => submitted calls

/-- A sequence of calls made one after the other, the mutex never failing: the
queue at the end and the items the calls of `sync_queue_pop` returned, in the
order of the calls. -/
def run_calls {α : Type} : List (queue_call α) → sync_queue_t α → sync_queue_t α × List α
  | [], queue => (queue, [])
  | .enqueue data :: calls, queue =>
    run_calls calls (sync_queue_enqueue 0 0 queue data).queue
  | .pop waits :: calls, queue =>
    let popped := sync_queue_pop 0 waits 0 queue
    let rest := run_calls calls popped.queue
    match popped.data with
    | none => rest
    | some item => (rest.1, item :: rest.2)

/-! ## The filters -/

/-- The local `channels_count` of the filters, `width * height * 4`. -/
def channels_count (width height : Nat) : Nat := size_mul (size_mul width height) 4

/-- The body of the scalar loop of `sepia.c` and of `sepia_processing_task` in
`mt_sepia.c` at `position`: the three colour bytes of a pixel are read, and
each is replaced. `tone c blue green red` stands for the value of
`(uint8_t) UTILS_MIN(Sepia_Coefficients[3 * c] * blue
+ Sepia_Coefficients[3 * c + 1] * green + Sepia_Coefficients[3 * c + 2] * red, 255.0f)`,
a floating-point expression that the embedding leaves open. -/
def sepia_pixel (tone : Nat → Byte → Byte → Byte → Byte) (pixels : List Byte)
    (position : Nat) : Run (List Byte) :=
  match pixels[position]?, pixels[size_add position 1]?, pixels[size_add position 2]? with
  | some blue, some green, some red =>
    .done (((pixels.set position (tone 0 blue green red)).set (size_add position 1)
      (tone 1 blue green red)).set (size_add position 2) (tone 2 blue green red))
  | _, _, _ => .fault .out_of_bounds

/-- The loop `for (; position < end; position += step)` with `step = 4` of the
scalar sepia filters; `stop` is the bound (`channels_count` in `sepia.c`, `end`
in `sepia_processing_task`). The first argument is a step budget. -/
def sepia_loop (tone : Nat → Byte → Byte → Byte → Byte) (stop : Nat) :
    Nat → Nat → List Byte → Run (List Byte)
  | 0, position, pixels => if position < stop then .fault .step_limit else .done pixels
  | fuel + 1, position, pixels =>
    if position < stop then
      (sepia_pixel tone pixels position).and_then fun pixels =>
        sepia_loop tone stop fuel (size_add position 4) pixels
    else .done pixels

/-- One assignment `pixels[i] = (uint8_t) UTILS_CLAMP(pixels[i] * contrast
+ brightness, 0.0f, 255.0f)` of `brightness.c`; `level b` stands for the value
of the floating-point expression on the byte `b`. -/
def brightness_store (level : Byte → Byte) (pixels : List Byte) (i : Nat) : Run (List Byte) :=
  match pixels[i]? with
  | some b => .done (pixels.set i (level b))
  | none => .fault .out_of_bounds

/-- The body of the scalar loop of `brightness.c` at `position`. -/
def brightness_pixel (level : Byte → Byte) (pixels : List Byte) (position : Nat) :
    Run (List Byte) :=
  (brightness_store level pixels position).and_then fun pixels =>
  (brightness_store level pixels (size_add position 1)).and_then fun pixels =>
  brightness_store level pixels (size_add position 2)

/-- The loop `for (size_t position = 0; position < channels_count; position += step)`
with `step = 4` of `brightness.c`. The first argument is a step budget. -/
def brightness_loop (level : Byte → Byte) (channels_count : Nat) :
    Nat → Nat → List Byte → Run (List Byte)
  | 0, position, pixels =>
    if position < channels_count then .fault .step_limit else .done pixels
  | fuel + 1, position, pixels =>
    if position < channels_count then
      (brightness_pixel level pixels position).and_then fun pixels =>
        brightness_loop level channels_count fuel (size_add position 4) pixels
    else .done pixels

/-- The record `filters_sepia_data_t` of `mt_sepia.c`; its three pointers all
point into the state shared by the tasks, `sepia_shared`. -/
structure filters_sepia_data_t where
  position : Nat
  channels_to_process : Nat
  deriving DecidableEq, Repr

/-- What the tasks of `mt_sepia.c` share: the plane and the two static
variables of `main`. -/
structure sepia_shared where
  pixels : List Byte
  channels_left : Int
  barrier_sense : Bool
  deriving DecidableEq, Repr

/-- Function `sepia_processing_task` of `mt_sepia.c`, scalar build: the loop
over the range of the task, then the atomic decrement of `channels_left` and
the setting of `barrier_sense`. `fuel` is the step budget of the loop. -/
def sepia_processing_task (tone : Nat → Byte → Byte → Byte → Byte) (fuel : Nat)
    (data : filters_sepia_data_t) (shared : sepia_shared) : Run sepia_shared :=
  let stop : Nat := size_add data.position data.channels_to_process
  (sepia_loop tone stop fuel data.position shared.pixels).and_then fun pixels =>
    let channels_left : Int :=
      wrap_ssize_t (shared.channels_left - to_ssize_t data.channels_to_process)
    .done ⟨pixels, channels_left,
      if channels_left ≤ 0 then true else shared.barrier_sense⟩

/-- The local `channels_per_thread` of `main` in `mt_sepia.c`, scalar build:
`channels_count / pool_size`, then `((channels_per_thread - 1) / 4 + 1) * 4`.
The pool size is at least 1 (`utils_get_number_of_cpu_cores`). -/
def channels_per_thread (channels_count pool_size : Nat) : Nat :=
  size_mul (size_add (size_sub (channels_count / pool_size) 1 / 4) 1) 4

/-- The task-submission loop of `main` in `mt_sepia.c`: the task records in the
order of submission, and whether the loop ran to its end (it is left when
`malloc_ok k`, the outcome of the allocation of record `k`, is `false`). The
first argument is a step budget. -/
def fan_out (malloc_ok : Nat → Bool) (channels_count channels_per_thread : Nat) :
    Nat → Nat → Nat → Run (List filters_sepia_data_t × Bool)
  | 0, position, _ =>
    if position < channels_count then .fault .step_limit else .done ([], true)
  | fuel + 1, position, k =>
    if position < channels_count then
      if malloc_ok k = false then .done ([], false)
      else
        let task_data : filters_sepia_data_t :=
          ⟨position,
            if size_add position channels_per_thread > channels_count then
              size_sub channels_count position
            else channels_per_thread⟩
        (fan_out malloc_ok channels_count channels_per_thread fuel
            (size_add position channels_per_thread) (k + 1)).and_then fun rest =>
          .done (task_data :: rest.1, rest.2)
    else .done ([], true)

/-- Tasks run to their end one after the other, in the order of the list: an
order in which the pool may complete them. -/
def run_tasks (tone : Nat → Byte → Byte → Byte → Byte) (fuel : Nat) :
    List filters_sepia_data_t → sepia_shared → Run sepia_shared
  | [], shared => .done shared
  | data :: rest, shared =>
    (sepia_processing_task tone fuel data shared).and_then (run_tasks tone fuel rest)

/-- The shared state when `main` of `mt_sepia.c` starts to submit tasks. -/
def sepia_start (pixels : List Byte) (channels_count : Nat) : sepia_shared :=
  ⟨pixels, to_ssize_t channels_count, false⟩

/-- Byte `i` of a pixel after the sepia formula was applied to the pixel it
belongs to: `tone` of the three colour bytes of that pixel. -/
def toned_byte (tone : Nat → Byte → Byte → Byte → Byte) (pixels : List Byte) (i : Nat) : Byte :=
  tone (i % 4) (pixels.getD (i - i % 4) 0) (pixels.getD (i - i % 4 + 1) 0)
    (pixels.getD (i - i % 4 + 2) 0)

/-- The plane in which the first three bytes of every pixel below
`channels_count` are replaced by `tone` of their original values, every other
byte being kept: the result the specification asks of a sepia filter. -/
def toned (tone : Nat → Byte → Byte → Byte → Byte) (pixels : List Byte)
    (channels_count : Nat) : List Byte :=
  (List.range pixels.length).map fun i =>
    if i < channels_count ∧ i % 4 < 3 then toned_byte tone pixels i else pixels.getD i 0

/-- An instance of the sepia formula for the examples: the coefficients in
thousandths, integer arithmetic, the result cut off at 255. -/
def sample_tone (c : Nat) (blue green red : Byte) : Byte :=
  match c with
  | 0 => Fin.ofNat (min ((272 * blue.val + 534 * green.val + 131 * red.val) / 1000) 255)
  | 1 => Fin.ofNat (min ((349 * blue.val + 686 * green.val + 168 * red.val) / 1000) 255)
  | _ => Fin.ofNat (min ((393 * blue.val + 769 * green.val + 189 * red.val) / 1000) 255)

/-- An instance of the brightness formula for the examples: 40 is added and the
result cut off at 255. -/
def sample_level (b : Byte) : Byte := Fin.ofNat (min (b.val + 40) 255)

/-- A plane of 2 x 1 pixels with alpha 255, in 64 bytes. -/
def sample_plane : List Byte := [10, 20, 30, 255, 200, 220, 240, 255] ++ List.replicate 56 0

/-! ## The mutex of the blocking queue -/

/-- Function `sync_queue_enqueue` with the mutex followed: what the call leaves
(as `sync_queue_enqueue` gives it) and whether the calling thread holds
`access_mutex` when the function returns. A failed `pthread_mutex_lock` leaves
the mutex not held, a failed `pthread_mutex_unlock` leaves it held. -/
def sync_queue_enqueue_mutex {α : Type} (lock unlock : Int) (queue : sync_queue_t α)
    (data : α) : enqueue_result α × Bool :=
  if 0 ≠ lock then (⟨queue, false⟩, false)
  else
    let queue : sync_queue_t α := ⟨queue_push queue.implementation data⟩
    if 0 ≠ unlock then (⟨queue, false⟩, true)
    else (⟨queue, true⟩, false)

/-- Function `sync_queue_pop` with the mutex followed: what the call leaves (as
`sync_queue_pop` gives it) and whether the calling thread holds `access_mutex`
when the function returns. `pthread_cond_timedwait` returns with the mutex
held, whatever its result. -/
def sync_queue_pop_mutex {α : Type} (lock : Int) (waits : List Int) (unlock : Int)
    (queue : sync_queue_t α) : pop_result α × Bool :=
  if 0 ≠ lock then (⟨queue, none⟩, false)
  else
    match wait_until_not_empty queue waits with
    | .returned => (⟨queue, none⟩, true)
    | .left =>
      let popped := queue_pop queue.implementation
      if 0 ≠ unlock then (⟨⟨popped.1⟩, popped.2⟩, true)
      else (⟨⟨popped.1⟩, popped.2⟩, false)

/-- Error number `EINVAL` of `errno.h`. -/
def EINVAL : Int := 22

/-! ## The arguments of `brightness` -/

/-- Entry `argv[i]` of the argument vector of `main`: the `argc` strings, then
the null pointer `argv[argc]`; there is nothing beyond it. -/
def argv_entry (argv : List String) (i : Nat) : Run (Option String) :=
  if i < argv.length then .done argv[i]?
  else if i = argv.length then .done none
  else .fault .out_of_bounds

/-- How `main` of `brightness.c` goes on after looking at its arguments. -/
inductive brightness_start where
  /-- The usage line is printed with `argv[0]` and `EXIT_FAILURE` is returned. -/
  | usage (program : Option String)
  /-- The four operands are taken from `argv[1]` to `argv[4]` and `main`
  continues. -/
  | operands (brightness contrast source_file_name destination_file_name : Option String)
  deriving DecidableEq, Repr

/-- The start of `main` of `brightness.c`: the test of `argc`, which is the
length of `argv`, and the reads of the argument vector. -/
def brightness_arguments (argv : List String) : Run brightness_start :=
  if argv.length < 3 then
    (argv_entry argv 0).and_then fun program => .done (.usage program)
  else
    (argv_entry argv 1).and_then fun brightness =>
    (argv_entry argv 2).and_then fun contrast =>
    (argv_entry argv 3).and_then fun source_file_name =>
    (argv_entry argv 4).and_then fun destination_file_name =>
    .done (.operands brightness contrast source_file_name destination_file_name)

/-! ## The worker pool -/

/-- Modelled from the spec: the type `work_item_t` of `work_item.h`, a file of
the repository that is not among the sources: "a task function, an opaque data
pointer, an optional result callback". Functions and pointers are numbered. -/
structure work_item_t where
  task : Nat
  task_data : Nat
  result_callback : Nat
  deriving DecidableEq, Repr

/-- Modelled from the spec: function `work_item_create` of `work_item.h`, which
"wraps into a WorkItem" its three arguments; `granted` tells whether the memory
of the item is granted, and the null pointer is returned when it is not. -/
def work_item_create (granted : Bool) (task task_data result_callback : Nat) :
    Option work_item_t :=
  if granted then some ⟨task, task_data, result_callback⟩ else none

/-- The record `threadpool_t`; the thread handles are part of the
environment. -/
structure threadpool_t where
  queue : sync_queue_t work_item_t
  thread_count : Nat
  request_to_terminate : Nat
  deriving DecidableEq, Repr

/-- Function `check_if_signaled`; its parameter is an `unsigned int`. -/
def check_if_signaled (event : Nat) : Bool := decide (event % 2 ^ 32 > 0)

/-- Function `threadpool_init` with the queue created and the thread array
granted: the record with which the `pool_size` threads start. -/
def threadpool_init (pool_size : Nat) : threadpool_t := ⟨⟨queue_init⟩, pool_size, 0⟩

/-- Function `threadpool_enqueue_task`; `granted` is the answer to the
allocation of the work item, `lock` and `unlock` are what the mutex calls of
`sync_queue_enqueue` return. -/
def threadpool_enqueue_task (granted : Bool) (lock unlock : Int) (threadpool : threadpool_t)
    (task task_data result_callback : Nat) : threadpool_t :=
  match work_item_create granted task task_data result_callback with
  | none => threadpool
  | some work_item =>
    { threadpool with
      queue := (sync_queue_enqueue lock unlock threadpool.queue work_item).queue }

/-- Function `threadpool_destroy` up to its joins: the statement
`__sync_add_and_fetch(&threadpool->request_to_terminate, 1)` on an
`unsigned long`. The joins that follow wait until every thread has returned
from `_thread_start`, and the queue is released after them with the items it
still holds. -/
def threadpool_destroy (threadpool : threadpool_t) : threadpool_t :=
  { threadpool with request_to_terminate := (threadpool.request_to_terminate + 1) % 2 ^ 64 }

/-- A call `work_item->task(work_item->task_data, work_item->result_callback)`
made by thread number `worker` of the pool. -/
structure task_call where
  worker : Nat
  task : Nat
  task_data : Nat
  result_callback : Nat
  deriving DecidableEq, Repr

/-- The work item a call was made for. -/
def task_call.work_item (call : task_call) : work_item_t :=
  ⟨call.task, call.task_data, call.result_callback⟩

/-- A pool at work: the record, the threads that have returned from
`_thread_start`, the calls of task functions made so far and the work items
passed to `work_item_destroy` so far. -/
structure pool_state where
  threadpool : threadpool_t
  returned : List Nat
  calls : List task_call
  destroyed : List work_item_t
  deriving DecidableEq, Repr

/-- Function `_thread_start` of thread number `worker`, one pass through the
body of its loop `while (true)` at a time: the test of the termination request,
the call of `sync_queue_pop` (`lock`, `waits` and `unlock` are what its mutex
and condition calls return), and for a popped item the call of its task and of
`work_item_destroy`. The queue is touched under its mutex only, so the pops
and pushes of all threads take effect one after the other, and a pass is taken
at the moment of its pop: the request is read before it, the waits end before
it, and the task runs after it on the popped item alone. A thread that has
left the loop by `break` has returned; it and a thread the pool does not have
make no pass. -/
def _thread_start (worker : Nat) (lock : Int) (waits : List Int) (unlock : Int)
    (pool : pool_state) : pool_state :=
  if worker ∈ pool.returned ∨ pool.threadpool.thread_count ≤ worker then pool
  else if check_if_signaled pool.threadpool.request_to_terminate then
    { pool with returned := pool.returned ++ [worker] }
  else
    let popped := sync_queue_pop lock waits unlock pool.threadpool.queue
    match popped.data with
    | none => { pool with threadpool := { pool.threadpool with queue := popped.queue } }
    | some work_item =>
      { pool with
        threadpool := { pool.threadpool with queue := popped.queue }
        calls := pool.calls
          ++ [⟨worker, work_item.task, work_item.task_data, work_item.result_callback⟩]
        destroyed := pool.destroyed ++ [work_item] }

/-- What the threads around a pool do, one event at a time. -/
inductive pool_event where
  /-- A call of `threadpool_enqueue_task` by a submitter. -/
  | enqueue_task (granted : Bool) (lock unlock : Int) (task task_data result_callback : Nat)
  /-- A pass of the loop of `_thread_start` by thread number `worker`. -/
  | pass (worker : Nat) (lock : Int) (waits : List Int) (unlock : Int)
  /-- The termination request of `threadpool_destroy`. -/
  | destroy
  deriving DecidableEq, Repr

/-- One event on a pool. -/
def pool_step (event : pool_event) (pool : pool_state) : pool_state :=
  match event with
  | .enqueue_task granted lock unlock task task_data result_callback =>
    { pool with
      threadpool := threadpool_enqueue_task granted lock unlock pool.threadpool
        task task_data result_callback }
  | .pass worker lock waits unlock => _thread_start worker lock waits unlock pool
  | .destroy => { pool with threadpool := threadpool_destroy pool.threadpool }

/-- An interleaving of the threads around a pool: the events in the order in
which they take effect. -/
def run_pool : List pool_event → pool_state → pool_state
  | [], pool => pool
  | event :: events, pool => run_pool events (pool_step event pool)

/-- The work items that a sequence of events puts into the queue, in the order
of the calls of `threadpool_enqueue_task`: those whose memory was granted and
for which the mutex of the queue was acquired. -/
def enqueued : List pool_event → List work_item_t
  | [] => []
  | .enqueue_task granted lock _ task task_data result_callback :: events =>
    if granted = true ∧ lock = 0 then
      ⟨task, task_data, result_callback⟩ :: enqueued events
    else enqueued events
  | .pass _ _ _ _ :: events => enqueued events
  | .destroy :: events => enqueued events

/-- A pool right after `threadpool_create`: no thread has returned and no task
was called. -/
def pool_start (pool_size : Nat) : pool_state := ⟨threadpool_init pool_size, [], [], []⟩

/-! ## Lemmas on the arithmetic, the streams and the header parser -/


theorem byte_at_lt (bytes : List Byte) (i : Nat) : byte_at bytes i < 256 := by
  unfold byte_at; exact (bytes.getD i 0).isLt

theorem le32_lt (bytes : List Byte) (off : Nat) : le32 bytes off < 2 ^ 32 := by
  unfold le32
  have h0 := byte_at_lt bytes off
  have h1 := byte_at_lt bytes (off + 1)
  have h2 := byte_at_lt bytes (off + 2)
  have h3 := byte_at_lt bytes (off + 3)
  omega

theorem le16_lt (bytes : List Byte) (off : Nat) : le16 bytes off < 2 ^ 16 := by
  unfold le16
  have h0 := byte_at_lt bytes off
  have h1 := byte_at_lt bytes (off + 1)
  omega

theorem byte_at_append_left (a b : List Byte) (i : Nat) (h : i < a.length) :
    byte_at (a ++ b) i = byte_at a i := by
  unfold byte_at
  simp [List.getD_eq_getElem?_getD, List.getElem?_append_left h]

theorem byte_at_take (l : List Byte) (n i : Nat) (h : i < n) :
    byte_at (l.take n) i = byte_at l i := by
  unfold byte_at
  simp [List.getD_eq_getElem?_getD, List.getElem?_take, h]

theorem byte_at_drop (l : List Byte) (a i : Nat) :
    byte_at (l.drop a) i = byte_at l (a + i) := by
  unfold byte_at
  simp [List.getD_eq_getElem?_getD, List.getElem?_drop]

theorem size_add_eq (a b : Nat) (h : a + b < 2 ^ 64) : size_add a b = a + b := by
  unfold size_add; exact Nat.mod_eq_of_lt h

theorem size_mul_eq (a b : Nat) (h : a * b < 2 ^ 64) : size_mul a b = a * b := by
  unfold size_mul; exact Nat.mod_eq_of_lt h

theorem size_sub_eq (a b : Nat) (hb : b ≤ a) (ha : a < 2 ^ 64) : size_sub a b = a - b := by
  unfold size_sub; omega

theorem size_sub_wrap (a b : Nat) (hb : a < b) (ha : b < 2 ^ 64) :
    size_sub a b = 2 ^ 64 - (b - a) := by
  unfold size_sub; omega

theorem row_padding_eq (B W C : Nat) (hW : W ≤ 2 ^ 31 - 1) (hB : B ≤ 32)
    (hC : C * W ≤ (B * W + 31) / 32 * 4) :
    row_padding B W (size_mul W C) = (B * W + 31) / 32 * 4 - C * W := by
  have h1 : B * W ≤ 32 * (2 ^ 31 - 1) := Nat.mul_le_mul hB hW
  have h2 : (B * W + 31) / 32 * 4 ≤ 2 ^ 34 := by omega
  unfold row_padding
  rw [size_mul_eq B W (by omega), size_add_eq _ 31 (by omega), size_mul_eq _ 4 (by omega),
    size_mul_eq W C (by rw [Nat.mul_comm]; omega), size_sub_eq _ _ (by rw [Nat.mul_comm]; omega) (by omega),
    Nat.mul_comm W C]

theorem row_padding_formula (W B : Nat) (hW : W ≤ 2 ^ 31 - 1) (hB : B = 24 ∨ B = 32) :
    row_padding B W (size_mul W (if 24 = B then 3 else 4))
      = round_up (B * W) 32 / 8 - (B / 8) * W := by
  rcases hB with rfl | rfl
  · rw [if_pos rfl, row_padding_eq 24 W 3 hW (by omega) (by omega)]
    unfold round_up; omega
  · rw [if_neg (by decide), row_padding_eq 32 W 4 hW (by omega) (by omega)]
    unfold round_up; omega

theorem rest_dib_header_size_eq (d : Nat) (h : d < 2 ^ 32) :
    rest_dib_header_size d = d - 40 := by
  unfold rest_dib_header_size to_ssize_t size_sub to_size_t
  simp only []
  split_ifs <;> omega


theorem fread_short (n : Nat) (f : FILE) (h : f.input.length < n) :
    fread n f = ⟨{ f with input := [] }, f.input, 0⟩ := by
  unfold fread
  rw [if_neg (by omega), if_neg (by omega)]

theorem fread_full (n : Nat) (f : FILE) (h0 : 0 < n) (h : n ≤ f.input.length) :
    fread n f = ⟨{ f with input := f.input.drop n }, f.input.take n, 1⟩ := by
  unfold fread
  rw [if_neg (by omega), if_pos h]

theorem le32_overwrite (old new : List Byte) (off : Nat) (h : off + 4 ≤ new.length) :
    le32 (overwrite old new) off = le32 new off := by
  unfold le32 overwrite
  rw [byte_at_append_left _ _ _ (by omega), byte_at_append_left _ _ _ (by omega),
    byte_at_append_left _ _ _ (by omega), byte_at_append_left _ _ _ (by omega)]

theorem le16_overwrite (old new : List Byte) (off : Nat) (h : off + 2 ≤ new.length) :
    le16 (overwrite old new) off = le16 new off := by
  unfold le16 overwrite
  rw [byte_at_append_left _ _ _ (by omega), byte_at_append_left _ _ _ (by omega)]

theorem byte_at_overwrite (old new : List Byte) (i : Nat) (h : i < new.length) :
    byte_at (overwrite old new) i = byte_at new i := by
  unfold overwrite
  rw [byte_at_append_left _ _ _ h]

theorem le32_take_drop (l : List Byte) (a n off : Nat) (h : off + 4 ≤ n) :
    le32 ((l.drop a).take n) off = le32 l (a + off) := by
  unfold le32
  rw [byte_at_take _ _ _ (by omega), byte_at_take _ _ _ (by omega), byte_at_take _ _ _ (by omega),
    byte_at_take _ _ _ (by omega), byte_at_drop, byte_at_drop, byte_at_drop, byte_at_drop]
  simp only [Nat.add_assoc]

theorem le16_take_drop (l : List Byte) (a n off : Nat) (h : off + 2 ≤ n) :
    le16 ((l.drop a).take n) off = le16 l (a + off) := by
  unfold le16
  rw [byte_at_take _ _ _ (by omega), byte_at_take _ _ _ (by omega), byte_at_drop, byte_at_drop]
  simp only [Nat.add_assoc]

theorem le32_take (l : List Byte) (n off : Nat) (h : off + 4 ≤ n) :
    le32 (l.take n) off = le32 l off := by
  have := le32_take_drop l 0 n off h
  simpa using this

theorem drop_drop_add (l : List Byte) (a b : Nat) : (l.drop a).drop b = l.drop (a + b) := by
  rw [List.drop_drop, Nat.add_comm]

/-- Header parsing once the three reads succeed: the outcome is decided by the
depth and the size fields of the stream. -/
theorem open_past_reads (file : FILE) (image : bmp_image)
    (hmagic : byte_at file.input 0 = 0x42 ∧ byte_at file.input 1 = 0x4D)
    (hextra : rest_dib_header_size (le32 file.input 14) ≤ 256)
    (hlen : 54 + rest_dib_header_size (le32 file.input 14) ≤ file.input.length) :
    bmp_open_image_headers (some file) (some image) =
      if 24 ≠ le16 file.input 28 ∧ 32 ≠ le16 file.input 28 then
        ⟨some { file with input := file.input.drop (54 + rest_dib_header_size (le32 file.input 14)) },
          some (headers_stored image file.input), some .Unsupported_Color_Depth⟩
      else if le32 file.input 2 ≤ 54 then
        ⟨some { file with input := file.input.drop (54 + rest_dib_header_size (le32 file.input 14)) },
          some { headers_stored image file.input with
            channels := if 24 = le16 file.input 28 then 3 else 4 },
          some .Invalid_Size_Information⟩
      else
        ⟨some { file with input := file.input.drop (54 + rest_dib_header_size (le32 file.input 14)) },
          some { headers_stored image file.input with
            channels := if 24 = le16 file.input 28 then 3 else 4 }, none⟩ := by
  obtain ⟨hm0, hm1⟩ := hmagic
  have hl14 : (file.input.take 14).length = 14 := by simp; omega
  have hl40 : ((file.input.drop 14).take 40).length = 40 := by simp; omega
  simp only [bmp_open_image_headers]
  rw [fread_full 14 file (by omega) (by omega)]
  simp only [bmp_image.signature, bmp_image.dib_header_size, bmp_image.bits_per_pixel,
    bmp_image.file_size]
  rw [byte_at_overwrite _ _ 0 (by omega), byte_at_overwrite _ _ 1 (by omega),
    byte_at_take _ _ _ (by omega), byte_at_take _ _ _ (by omega), hm0, hm1]
  rw [fread_full 40 _ (by omega) (by simp; omega)]
  simp only [le32_overwrite _ _ 0 (by omega : 0 + 4 ≤ ((file.input.drop 14).take 40).length),
    le16_overwrite _ _ 14 (by omega : 14 + 2 ≤ ((file.input.drop 14).take 40).length),
    le32_overwrite _ _ 2 (by omega : 2 + 4 ≤ (file.input.take 14).length),
    le32_take_drop _ 14 40 0 (by omega), le16_take_drop _ 14 40 14 (by omega),
    le32_take _ 14 2 (by omega)]
  simp only [BMP_First_Magic_Byte, BMP_Second_Magic_Byte, REST_OF_DIB_HEADER_SIZE, headers_stored]
  by_cases h0 : rest_dib_header_size (le32 file.input 14) = 0
  · have hgt : ¬ rest_dib_header_size (le32 file.input 14) > 256 := by omega
    simp only [Nat.add_zero, hgt, if_false, List.drop_drop, one_ne_zero, ne_eq, not_true_eq_false,
      or_self, Nat.reduceAdd, h0, gt_iff_lt, Nat.lt_irrefl, List.take_zero, Nat.not_lt_zero]
  · rw [if_pos (by omega : rest_dib_header_size (le32 file.input 14) > 0)]
    rw [fread_full (rest_dib_header_size (le32 file.input 14)) _ (by omega) (by simp; omega)]
    have hgt : ¬ rest_dib_header_size (le32 file.input 14) > 256 := by omega
    dsimp only
    rw [if_neg (by decide : ¬ (1 = 0)), if_neg (by decide : ¬ (66 ≠ 66 ∨ 77 ≠ 77)),
      if_neg (by decide : ¬ (1 = 0)), if_neg hgt, if_neg (by decide : ¬ (1 = 0))]
    simp only [List.drop_drop, Nat.reduceAdd]


/-- The outcome of header parsing in terms of the bytes of the stream. -/
theorem open_error_kind (file_descriptor : Option FILE) (image : bmp_image) :
    (bmp_open_image_headers file_descriptor (some image)).error_message.map bmp_error.kind
      = first_failing_test (file_descriptor.map FILE.input) := by
  cases file_descriptor with
  | none => rfl
  | some file =>
    simp only [Option.map_some', first_failing_test]
    by_cases h14 : file.input.length < 14
    · simp only [bmp_open_image_headers]
      rw [fread_short 14 file h14]; simp [h14, bmp_error.kind]
    rw [if_neg h14]
    have hl14 : (file.input.take 14).length = 14 := by simp; omega
    by_cases hmagic : byte_at file.input 0 = 0x42 ∧ byte_at file.input 1 = 0x4D
    swap
    · rw [if_pos hmagic]
      simp only [bmp_open_image_headers]
      rw [fread_full 14 file (by omega) (by omega)]
      simp only [bmp_image.signature]
      rw [byte_at_overwrite _ _ 0 (by omega), byte_at_overwrite _ _ 1 (by omega),
        byte_at_take _ _ _ (by omega), byte_at_take _ _ _ (by omega)]
      rw [if_neg (by decide : ¬ (1 = 0)), if_pos (by
        simp only [BMP_First_Magic_Byte, BMP_Second_Magic_Byte]; 
        by_contra hc; apply hmagic; omega)]
      rfl
    rw [if_neg (by simpa using hmagic)]
    by_cases h40 : file.input.length - 14 < 40
    · rw [if_pos h40]
      simp only [bmp_open_image_headers]
      rw [fread_full 14 file (by omega) (by omega)]
      simp only [bmp_image.signature]
      rw [byte_at_overwrite _ _ 0 (by omega), byte_at_overwrite _ _ 1 (by omega),
        byte_at_take _ _ _ (by omega), byte_at_take _ _ _ (by omega), hmagic.1, hmagic.2]
      rw [fread_short 40 _ (by simp; omega)]
      dsimp only
      rw [if_neg (by decide : ¬ (1 = 0)), if_neg (by decide)]
      rfl
    rw [if_neg h40]
    have hl40 : ((file.input.drop 14).take 40).length = 40 := by simp; omega
    have hrest : max (le32 file.input 14 - 40) 0 = rest_dib_header_size (le32 file.input 14) := by
      rw [rest_dib_header_size_eq _ (le32_lt _ _)]; simp
    rw [hrest]
    by_cases hbig : rest_dib_header_size (le32 file.input 14) > 256
    · rw [if_pos hbig]
      simp only [bmp_open_image_headers]
      rw [fread_full 14 file (by omega) (by omega)]
      simp only [bmp_image.signature, bmp_image.dib_header_size]
      rw [byte_at_overwrite _ _ 0 (by omega), byte_at_overwrite _ _ 1 (by omega),
        byte_at_take _ _ _ (by omega), byte_at_take _ _ _ (by omega), hmagic.1, hmagic.2]
      rw [fread_full 40 _ (by omega) (by simp; omega)]
      simp only [le32_overwrite _ _ 0 (by omega : 0 + 4 ≤ ((file.input.drop 14).take 40).length),
        le32_take_drop _ 14 40 0 (by omega)]
      rw [if_neg (by decide : ¬ (1 = 0)), if_neg (by decide), if_neg (by decide : ¬ (1 = 0)),
        if_pos (by simpa [REST_OF_DIB_HEADER_SIZE] using hbig)]
      rfl
    rw [if_neg hbig]
    by_cases hshort : file.input.length - 54 < rest_dib_header_size (le32 file.input 14)
    · rw [if_pos hshort]
      simp only [bmp_open_image_headers]
      rw [fread_full 14 file (by omega) (by omega)]
      simp only [bmp_image.signature, bmp_image.dib_header_size]
      rw [byte_at_overwrite _ _ 0 (by omega), byte_at_overwrite _ _ 1 (by omega),
        byte_at_take _ _ _ (by omega), byte_at_take _ _ _ (by omega), hmagic.1, hmagic.2]
      rw [fread_full 40 _ (by omega) (by simp; omega)]
      simp only [le32_overwrite _ _ 0 (by omega : 0 + 4 ≤ ((file.input.drop 14).take 40).length),
        le32_take_drop _ 14 40 0 (by omega)]
      rw [if_neg (by decide : ¬ (1 = 0)), if_neg (by decide), if_neg (by decide : ¬ (1 = 0)),
        if_neg (by simpa [REST_OF_DIB_HEADER_SIZE] using hbig),
        if_pos (by simp only [Nat.add_zero]; omega :
          rest_dib_header_size (le32 file.input (14 + 0)) > 0)]
      rw [fread_short _ _ (by simp only [List.length_drop, Nat.add_zero]; omega)]
      rfl
    rw [if_neg hshort, open_past_reads file image hmagic (by omega) (by omega)]
    split_ifs <;> first | rfl | (exfalso; omega)

/-! ## The claims on header parsing and on the padding -/

/-- C6. Depth rejection: on a stream whose file header, 40-byte DIB core and
extra header bytes are all read (the signature is valid, at most 256 extra
bytes are declared and the stream holds them), `bmp_open_image_headers` reports
`Unsupported_Color_Depth`, whose text is "Invalid color depth (not 24 or 32 bits
per pixel)", whenever `bits_per_pixel` is neither 24 nor 32; a depth of 24 gives
3 channels and a depth of 32 gives 4. -/
theorem depth_rejection (file : FILE) (image : bmp_image)
    (hmagic : byte_at file.input 0 = 0x42 ∧ byte_at file.input 1 = 0x4D)
    (hextra : rest_dib_header_size (le32 file.input 14) ≤ 256)
    (hlen : 54 + rest_dib_header_size (le32 file.input 14) ≤ file.input.length) :
    (le16 file.input 28 ≠ 24 ∧ le16 file.input 28 ≠ 32 →
      (bmp_open_image_headers (some file) (some image)).error_message
        = some .Unsupported_Color_Depth) ∧
    (le16 file.input 28 = 24 →
      (bmp_open_image_headers (some file) (some image)).image.map bmp_image.channels = some 3) ∧
    (le16 file.input 28 = 32 →
      (bmp_open_image_headers (some file) (some image)).image.map bmp_image.channels = some 4) ∧
    bmp_error.text .Unsupported_Color_Depth
      = "Invalid color depth (not 24 or 32 bits per pixel)" := by
  rw [open_past_reads file image hmagic hextra hlen]
  refine ⟨?_, ?_, ?_, rfl⟩
  · intro h
    rw [if_pos (by omega)]
  · intro h
    rw [if_neg (by omega)]
    split_ifs <;> first | rfl | (exfalso; omega)
  · intro h
    rw [if_neg (by omega)]
    split_ifs <;> first | rfl | (exfalso; omega)

/-- The stream `sample_8` declares 8 bits per pixel and is rejected for its
depth. -/
theorem depth_rejection_witness :
    (bmp_open_image_headers (some ⟨sample_8, [], 0⟩) (some zeroed_image)).error_message
      = some .Unsupported_Color_Depth :=
  (depth_rejection ⟨sample_8, [], 0⟩ zeroed_image (by decide) (by decide) (by decide)).1
    (by decide)

/-- C10. Padding formula: for every width `W` with `0 ≤ W ≤ 2 ^ 31 - 1` and
every depth `B` in {24, 32}, the row padding `(B * W + 31) / 32 * 4 - row_size`
that `bmp_read_image_data` computes, with `row_size` the width times the channel
count, equals `round_up (B * W) 32 / 8 - (B / 8) * W`. -/
theorem padding_formula (W B : Nat) (hW : W ≤ 2 ^ 31 - 1) (hB : B = 24 ∨ B = 32) :
    row_padding B W (size_mul W (if 24 = B then 3 else 4))
      = round_up (B * W) 32 / 8 - (B / 8) * W :=
  row_padding_formula W B hW hB

/-- The padding formula at the widths 1, 2, 3, 4, 31, 32 and 33 for both
depths. -/
theorem padding_formula_witness :
    (∀ W ∈ [1, 2, 3, 4, 31, 32, 33],
      row_padding 24 W (size_mul W 3) = round_up (24 * W) 32 / 8 - 3 * W ∧
      row_padding 32 W (size_mul W 4) = round_up (32 * W) 32 / 8 - 4 * W) ∧
    (List.map (fun W => row_padding 24 W (size_mul W 3)) [1, 2, 3, 4, 31, 32, 33]
      = [1, 2, 3, 0, 3, 0, 1]) := by
  refine ⟨?_, by decide⟩
  intro W hW
  have hW' : W ≤ 2 ^ 31 - 1 := by
    simp only [List.mem_cons, List.mem_singleton, List.not_mem_nil, or_false] at hW
    omega
  exact ⟨padding_formula W 24 hW' (Or.inl rfl), padding_formula W 32 hW' (Or.inr rfl)⟩

/-- C7. Extra-header bound: for every 32-bit declared size the number of extra
header bytes that `bmp_open_image_headers` computes is `max (declared - 40) 0`
(so a declared size below 40 gives 0); on a stream that holds the 54 bytes of
the two headers under a valid signature the call reports `Invalid_Dib_Header_Size`
exactly when that number exceeds 256, and otherwise, the stream holding them,
it consumes exactly that many further bytes and stores them at the start of
`rest_of_dib_header`; a declared size of 296 gives 256 and one of 297 gives 257. -/
theorem extra_header_bound (file : FILE) (image : bmp_image)
    (hlen : 54 ≤ file.input.length)
    (hmagic : byte_at file.input 0 = 0x42 ∧ byte_at file.input 1 = 0x4D) :
    (∀ d : Nat, d < 2 ^ 32 → (rest_dib_header_size d : Int) = max ((d : Int) - 40) 0) ∧
    ((bmp_open_image_headers (some file) (some image)).error_message
        = some .Invalid_Dib_Header_Size
      ↔ rest_dib_header_size (le32 file.input 14) > 256) ∧
    (rest_dib_header_size (le32 file.input 14) ≤ 256 →
      54 + rest_dib_header_size (le32 file.input 14) ≤ file.input.length →
      (bmp_open_image_headers (some file) (some image)).file_descriptor
        = some { file with
            input := file.input.drop (54 + rest_dib_header_size (le32 file.input 14)) } ∧
      (bmp_open_image_headers (some file) (some image)).image.map
          (fun stored =>
            stored.rest_of_dib_header.take (rest_dib_header_size (le32 file.input 14)))
        = some ((file.input.drop 54).take (rest_dib_header_size (le32 file.input 14)))) ∧
    rest_dib_header_size 296 = 256 ∧ rest_dib_header_size 297 = 257 := by
  refine ⟨?_, ?_, ?_, by decide, by decide⟩
  · intro d hd
    rw [rest_dib_header_size_eq d hd]
    omega
  · have hk := open_error_kind (some file) image
    have hrest : max (le32 file.input 14 - 40) 0 = rest_dib_header_size (le32 file.input 14) := by
      rw [rest_dib_header_size_eq _ (le32_lt _ _)]; simp
    simp only [Option.map_some', first_failing_test, hrest] at hk
    rw [if_neg (by omega), if_neg (by simpa using hmagic), if_neg (by omega)] at hk
    constructor
    · intro he
      rw [he] at hk
      by_contra hc
      rw [if_neg hc] at hk
      simp only [Option.map_some', bmp_error.kind] at hk
      split_ifs at hk <;> simp at hk
    · intro hbig
      rw [if_pos hbig] at hk
      cases he : (bmp_open_image_headers (some file) (some image)).error_message with
      | none => rw [he] at hk; simp at hk
      | some e =>
        rw [he] at hk
        cases e <;> simp [bmp_error.kind] at hk ⊢
  · intro hextra hfull
    rw [open_past_reads file image hmagic hextra hfull]
    have hl : ((file.input.drop 54).take (rest_dib_header_size (le32 file.input 14))).length
        = rest_dib_header_size (le32 file.input 14) := by
      simp only [List.length_take, List.length_drop]; omega
    have ht : (overwrite image.rest_of_dib_header
          ((file.input.drop 54).take (rest_dib_header_size (le32 file.input 14)))).take
          (rest_dib_header_size (le32 file.input 14))
        = (file.input.drop 54).take (rest_dib_header_size (le32 file.input 14)) := by
      unfold overwrite
      rw [List.take_append_of_le_length (by omega), List.take_of_length_le (by omega)]
    split_ifs <;> exact ⟨rfl, by simp only [Option.map_some', headers_stored, ht]⟩

/-- The stream `sample_24` declares a DIB header of 40 bytes: no extra byte is
read and the call does not report `Invalid_Dib_Header_Size`. -/
theorem extra_header_bound_witness :
    ¬ (bmp_open_image_headers (some ⟨sample_24, [], 0⟩) (some zeroed_image)).error_message
        = some .Invalid_Dib_Header_Size := by
  rw [(extra_header_bound ⟨sample_24, [], 0⟩ zeroed_image (by decide) (by decide)).2.1]
  decide

/-- The order of the tests of header parsing: `bmp_open_image_headers` leaves
one message or none, and its kind is that of the first failing test in the
order absent stream, fewer than 14 bytes, wrong signature, fewer than 40 further
bytes, more than 256 extra header bytes, fewer further bytes than the extra
ones, depth not in {24, 32}, file size not above the 54 bytes of the two fixed
headers; no message is left exactly when no test fails. Up to the size check
this is the order of the specification: a kind other than
`InvalidSizeInformation` is the first failing test exactly when it is the first
failing check of the specification, and the two agree altogether on a stream
that declares a DIB header of 40 bytes. In particular a stream of 14 bytes with
a wrong signature gives `Invalid_File_Signature`. -/
theorem header_tests_in_order :
    (∀ (file_descriptor : Option FILE) (image : bmp_image),
      (bmp_open_image_headers file_descriptor (some image)).error_message.map bmp_error.kind
        = first_failing_test (file_descriptor.map FILE.input)) ∧
    (∀ (file_descriptor : Option FILE) (image : bmp_image),
      (bmp_open_image_headers file_descriptor (some image)).error_message = none
        ↔ first_failing_test (file_descriptor.map FILE.input) = none) ∧
    (∀ (stream : Option (List Byte)) (kind : ErrorKind), kind ≠ .InvalidSizeInformation →
      (first_failing_test stream = some kind ↔ first_failing_check stream = some kind)) ∧
    (∀ bytes : List Byte, le32 bytes 14 = 40 →
      first_failing_test (some bytes) = first_failing_check (some bytes)) ∧
    (∀ (file : FILE) (image : bmp_image), file.input.length = 14 →
      ¬ (byte_at file.input 0 = 0x42 ∧ byte_at file.input 1 = 0x4D) →
      (bmp_open_image_headers (some file) (some image)).error_message
        = some .Invalid_File_Signature) := by
  refine ⟨open_error_kind, ?_, ?_, ?_, ?_⟩
  · intro file_descriptor image
    rw [← open_error_kind file_descriptor image]
    cases (bmp_open_image_headers file_descriptor (some image)).error_message <;> simp
  · intro stream kind hkind
    cases stream with
    | none => rfl
    | some bytes =>
      simp only [first_failing_test, first_failing_check]
      split_ifs <;> simp <;> first | exact hkind | exact hkind.symm
  · intro bytes h40
    simp only [first_failing_test, first_failing_check, h40]
    split_ifs <;> first | rfl | (exfalso; omega)
  · intro file image hlen hmagic
    have hk := open_error_kind (some file) image
    simp only [Option.map_some', first_failing_test] at hk
    rw [if_neg (by omega), if_pos hmagic] at hk
    cases he : (bmp_open_image_headers (some file) (some image)).error_message with
    | none => rw [he] at hk; simp at hk
    | some e =>
      rw [he] at hk
      cases e <;> simp [bmp_error.kind] at hk ⊢

set_option maxRecDepth 100000 in
/-- C9. Header-parse error precedence, on the stream `sample_declared_296`,
which holds a valid signature, the 40 bytes of the DIB core, the 256 extra
header bytes it declares and a depth of 24 bits, and whose file size field, 100,
is not above `14 + 296`: every check before the size check passes and the size
check fails, so the first failing check of the order of the specification is
`InvalidSizeInformation`; `bmp_open_image_headers` compares the file size with
the 54 bytes of the two fixed headers instead and leaves no message. -/
theorem precedence_fails_at_size_check :
    le32 sample_declared_296 2 = 100 ∧ le32 sample_declared_296 14 = 296 ∧
    first_failing_check (some sample_declared_296) = some .InvalidSizeInformation ∧
    first_failing_test (some sample_declared_296) = none ∧
    (bmp_open_image_headers (some ⟨sample_declared_296, [], 0⟩)
        (some zeroed_image)).error_message = none := by
  decide

set_option maxRecDepth 100000 in
/-- C8. The stream `sample_declared_296` declares a DIB header of 296 bytes and
a file size of 100 bytes: `bmp_open_image_headers` leaves no message although
the file size is not above `14 + 296`, and the payload size that
`bmp_read_image_data` then computes wraps around to `2 ^ 64 - 210`, a request
no allocator grants. -/
theorem size_check_ignores_declared_size :
    (bmp_open_image_headers (some ⟨sample_declared_296, [], 0⟩)
        (some zeroed_image)).error_message = none ∧
    (bmp_open_image_headers (some ⟨sample_declared_296, [], 0⟩) (some zeroed_image)).image.map
        (fun stored => (stored.file_size, stored.dib_header_size,
          size_sub stored.file_size (size_add 14 stored.dib_header_size)))
      = some (100, 296, 2 ^ 64 - 210) ∧
    (match bmp_read_image_data (fun _ _ => true) (fun _ => 0)
        (bmp_open_image_headers (some ⟨sample_declared_296, [], 0⟩)
          (some zeroed_image)).file_descriptor
        (bmp_open_image_headers (some ⟨sample_declared_296, [], 0⟩)
          (some zeroed_image)).image with
      | .done loaded => loaded.error_message
      | .fault _ => none) = some .Not_Enough_Memory_to_Read := by
  decide

set_option maxRecDepth 100000 in
/-- C5. The stream `sample_extreme` has 32 bits per pixel, a payload of one
byte and the value `0x80000000` in both its width and its height field, whose
magnitudes are `2 ^ 31`: the image size `2 ^ 31 * (4 * 2 ^ 31)` exceeds the
payload, yet `bmp_read_image_data` computes 0 for it, does not report
`Failed_to_Calculate_Padding` and goes on to copy rows outside the payload. -/
theorem size_check_wraps_around :
    (bmp_open_image_headers (some ⟨sample_extreme, [], 0⟩) (some zeroed_image)).error_message
      = none ∧
    (bmp_open_image_headers (some ⟨sample_extreme, [], 0⟩) (some zeroed_image)).image.map
        (fun stored => (stored.image_width.natAbs, stored.image_height.natAbs,
          size_sub stored.file_size (size_add 14 stored.dib_header_size)))
      = some (2 ^ 31, 2 ^ 31, 1) ∧
    size_mul (absolute (-2 ^ 31)) (size_add (size_mul (absolute (-2 ^ 31)) 4)
      (row_padding 32 (absolute (-2 ^ 31)) (size_mul (absolute (-2 ^ 31)) 4))) = 0 ∧
    bmp_read_image_data (fun _ _ => true) (fun _ => 0)
        (bmp_open_image_headers (some ⟨sample_extreme, [], 0⟩) (some zeroed_image)).file_descriptor
        (bmp_open_image_headers (some ⟨sample_extreme, [], 0⟩) (some zeroed_image)).image
      = .fault .out_of_bounds := by
  decide

/-! ## Lemmas on the copies between the payload and the plane -/

theorem memcpy_done (destination : List Byte) (d : Nat) (source : List Byte) (s n : Nat)
    (out : List Byte) (h : memcpy destination d source s n = .done out) :
    s + n ≤ source.length ∧ d + n ≤ destination.length ∧
      out = destination.take d ++ ((source.drop s).take n ++ destination.drop (d + n)) := by
  unfold memcpy at h
  split_ifs at h with hb
  · injection h with h
    exact ⟨hb.1, hb.2, h.symm⟩

theorem memcpy_ok (destination : List Byte) (d : Nat) (source : List Byte) (s n : Nat)
    (hs : s + n ≤ source.length) (hd : d + n ≤ destination.length) :
    memcpy destination d source s n
      = .done (destination.take d ++ ((source.drop s).take n ++ destination.drop (d + n))) := by
  unfold memcpy
  rw [if_pos ⟨hs, hd⟩]

/-- The bytes of a buffer after a copy into it: inside the copied range the
bytes of the source, elsewhere the bytes it had. -/
theorem getElem?_copied (destination : List Byte) (d : Nat) (source : List Byte) (s n : Nat)
    (hs : s + n ≤ source.length) (hd : d + n ≤ destination.length) (i : Nat) :
    (destination.take d ++ ((source.drop s).take n ++ destination.drop (d + n)))[i]?
      = if d ≤ i ∧ i < d + n then source[s + (i - d)]? else destination[i]? := by
  have hl1 : (destination.take d).length = d := by simp; omega
  have hl2 : ((source.drop s).take n).length = n := by simp; omega
  by_cases h1 : i < d
  · rw [if_neg (by omega), List.getElem?_append_left (by omega), List.getElem?_take]
    simp [h1]
  · by_cases h2 : i < d + n
    · rw [if_pos (by omega), List.getElem?_append_right (by omega), hl1,
        List.getElem?_append_left (by omega), List.getElem?_take, if_pos (by omega),
        List.getElem?_drop]
    · rw [if_neg (by omega), List.getElem?_append_right (by omega), hl1,
        List.getElem?_append_right (by omega), hl2, List.getElem?_drop]
      congr 1
      omega

theorem length_copied (destination : List Byte) (d : Nat) (source : List Byte) (s n : Nat)
    (hs : s + n ≤ source.length) (hd : d + n ≤ destination.length) :
    (destination.take d ++ ((source.drop s).take n ++ destination.drop (d + n))).length
      = destination.length := by
  simp only [List.length_append, List.length_take, List.length_drop]
  omega

theorem memcpy_spec (destination : List Byte) (d : Nat) (source : List Byte) (s n : Nat)
    (out : List Byte) (h : memcpy destination d source s n = .done out) :
    s + n ≤ source.length ∧ d + n ≤ destination.length ∧ out.length = destination.length ∧
      ∀ i, out[i]? = if d ≤ i ∧ i < d + n then source[s + (i - d)]? else destination[i]? := by
  obtain ⟨hs, hd, rfl⟩ := memcpy_done _ _ _ _ _ _ h
  exact ⟨hs, hd, length_copied _ _ _ _ _ hs hd, getElem?_copied _ _ _ _ _ hs hd⟩

theorem zero_fill_length (count : Nat) : ∀ (linear_position : Nat) (pixels : List Byte),
    (zero_fill count linear_position pixels).length = pixels.length := by
  induction count with
  | zero => intro _ _; rfl
  | succ n ih => intro lp pixels; simp only [zero_fill]; rw [ih]; simp

theorem zero_fill_below (count : Nat) : ∀ (linear_position : Nat) (pixels : List Byte) (i : Nat),
    i < linear_position → (zero_fill count linear_position pixels)[i]? = pixels[i]? := by
  induction count with
  | zero => intro _ _ _ _; rfl
  | succ n ih =>
    intro lp pixels i hi
    simp only [zero_fill]
    rw [ih (lp + 1) _ i (by omega), List.getElem?_set_ne (by omega)]

theorem zero_fill_at (count : Nat) : ∀ (linear_position : Nat) (pixels : List Byte) (i : Nat),
    linear_position ≤ i → i < linear_position + count → i < pixels.length →
    (zero_fill count linear_position pixels)[i]? = some 0 := by
  induction count with
  | zero => intro _ _ _ h1 h2 _; omega
  | succ n ih =>
    intro lp pixels i h1 h2 h3
    simp only [zero_fill]
    by_cases h : i = lp
    · subst h
      rw [zero_fill_below n _ _ _ (by omega), List.getElem?_set_self h3]
    · rw [ih (lp + 1) _ i (by omega) (by omega) (by simpa using h3)]

/-- What the 4-channel row loop of the reader leaves in the plane. -/
theorem read_rows_4_spec (raw : List Byte) (raw_pixels row_size padding : Nat) (rows : Nat) :
    ∀ (src dest : Nat) (pixels out : List Byte),
    read_rows_4 raw raw_pixels row_size padding rows src dest pixels = .done out →
    row_size + padding < 2 ^ 64 →
    src + rows * (row_size + padding) < 2 ^ 64 → dest + rows * row_size < 2 ^ 64 →
    out.length = pixels.length ∧
    (∀ y k, y < rows → k < row_size →
      out[dest + y * row_size + k]? = raw[raw_pixels + src + y * (row_size + padding) + k]? ∧
      dest + y * row_size + k < pixels.length ∧
      raw_pixels + src + y * (row_size + padding) + k < raw.length) ∧
    (∀ i, i < dest ∨ dest + rows * row_size ≤ i → out[i]? = pixels[i]?) := by
  induction rows with
  | zero =>
    intro src dest pixels out h _ _ _
    simp only [read_rows_4] at h
    injection h with h
    subst h
    exact ⟨rfl, fun y k hy _ => absurd hy (Nat.not_lt_zero y), fun i _ => rfl⟩
  | succ n ih =>
    intro src dest pixels out h hrp hsrc hdest
    simp only [read_rows_4] at h
    cases hm : memcpy pixels dest raw (raw_pixels + src) row_size with
    | fault f => rw [hm] at h; simp at h
    | done p1 =>
      rw [hm] at h
      simp only [] at h
      obtain ⟨hs, hd, hl, hget⟩ := memcpy_spec _ _ _ _ _ _ hm
      have e1 : (n + 1) * (row_size + padding) = n * (row_size + padding) + (row_size + padding) :=
        Nat.succ_mul _ _
      have e2 : (n + 1) * row_size = n * row_size + row_size := Nat.succ_mul _ _
      rw [size_add_eq row_size padding hrp, size_add_eq src _ (by omega),
        size_add_eq dest row_size (by omega)] at h
      obtain ⟨il, irow, iout⟩ := ih _ _ _ _ h hrp (by omega) (by omega)
      refine ⟨by omega, ?_, ?_⟩
      · intro y k hy hk
        cases y with
        | zero =>
          rw [iout _ (Or.inl (by omega)), hget]
          simp only [Nat.zero_mul, Nat.add_zero]
          rw [if_pos (by omega)]
          refine ⟨?_, by omega, by omega⟩
          congr 1; omega
        | succ y =>
          obtain ⟨a, b, c⟩ := irow y k (by omega) hk
          have e3 : (y + 1) * (row_size + padding) = y * (row_size + padding) + (row_size + padding) :=
            Nat.succ_mul _ _
          have e4 : (y + 1) * row_size = y * row_size + row_size := Nat.succ_mul _ _
          have e5 : dest + (y + 1) * row_size + k = dest + row_size + y * row_size + k := by omega
          have e6 : raw_pixels + src + (y + 1) * (row_size + padding) + k
              = raw_pixels + (src + (row_size + padding)) + y * (row_size + padding) + k := by omega
          rw [e5, e6]
          exact ⟨a, by omega, c⟩
      · intro i hi
        rw [iout i (by omega), hget, if_neg (by omega)]

/-- The 4-channel row loop of the reader runs to its end when the rows lie
inside the two buffers. -/
theorem read_rows_4_ok (raw : List Byte) (raw_pixels row_size padding : Nat) (rows : Nat) :
    ∀ (src dest : Nat) (pixels : List Byte),
    row_size + padding < 2 ^ 64 →
    src + rows * (row_size + padding) < 2 ^ 64 → dest + rows * row_size < 2 ^ 64 →
    raw_pixels + src + rows * (row_size + padding) ≤ raw.length →
    dest + rows * row_size ≤ pixels.length →
    ∃ out, read_rows_4 raw raw_pixels row_size padding rows src dest pixels = .done out := by
  induction rows with
  | zero => intro src dest pixels _ _ _ _ _; exact ⟨pixels, rfl⟩
  | succ n ih =>
    intro src dest pixels hrp hsrc hdest hraw hpix
    have e1 : (n + 1) * (row_size + padding) = n * (row_size + padding) + (row_size + padding) :=
      Nat.succ_mul _ _
    have e2 : (n + 1) * row_size = n * row_size + row_size := Nat.succ_mul _ _
    simp only [read_rows_4]
    rw [memcpy_ok _ _ _ _ _ (by omega) (by omega)]
    simp only []
    rw [size_add_eq row_size padding hrp, size_add_eq src _ (by omega),
      size_add_eq dest row_size (by omega)]
    apply ih _ _ _ hrp (by omega) (by omega) (by omega)
    rw [length_copied _ _ _ _ _ (by omega) (by omega)]
    omega

/-- What the 4-channel row loop of the writer leaves in the payload. -/
theorem write_rows_4_spec (pixels : List Byte) (raw_pixels row_size padding : Nat) (rows : Nat) :
    ∀ (src dest : Nat) (payload out : List Byte),
    write_rows_4 pixels raw_pixels row_size padding rows src dest payload = .done out →
    row_size + padding < 2 ^ 64 →
    src + rows * row_size < 2 ^ 64 → dest + rows * (row_size + padding) < 2 ^ 64 →
    out.length = payload.length ∧
    (∀ y k, y < rows → k < row_size →
      out[raw_pixels + dest + y * (row_size + padding) + k]? = pixels[src + y * row_size + k]? ∧
      raw_pixels + dest + y * (row_size + padding) + k < payload.length ∧
      src + y * row_size + k < pixels.length) ∧
    (∀ i, (∀ y, y < rows → ¬ (raw_pixels + dest + y * (row_size + padding) ≤ i ∧
        i < raw_pixels + dest + y * (row_size + padding) + row_size)) →
      out[i]? = payload[i]?) := by
  induction rows with
  | zero =>
    intro src dest payload out h _ _ _
    simp only [write_rows_4] at h
    injection h with h
    subst h
    exact ⟨rfl, fun y k hy _ => absurd hy (Nat.not_lt_zero y), fun i _ => rfl⟩
  | succ n ih =>
    intro src dest payload out h hrp hsrc hdest
    simp only [write_rows_4] at h
    cases hm : memcpy payload (raw_pixels + dest) pixels src row_size with
    | fault f => rw [hm] at h; simp at h
    | done p1 =>
      rw [hm] at h
      simp only [] at h
      obtain ⟨hs, hd, hl, hget⟩ := memcpy_spec _ _ _ _ _ _ hm
      have e1 : (n + 1) * (row_size + padding) = n * (row_size + padding) + (row_size + padding) :=
        Nat.succ_mul _ _
      have e2 : (n + 1) * row_size = n * row_size + row_size := Nat.succ_mul _ _
      rw [size_add_eq row_size padding hrp, size_add_eq dest _ (by omega),
        size_add_eq src row_size (by omega)] at h
      obtain ⟨il, irow, iout⟩ := ih _ _ _ _ h hrp (by omega) (by omega)
      have hstep : ∀ y, (y + 1) * (row_size + padding)
          = y * (row_size + padding) + (row_size + padding) := fun y => Nat.succ_mul _ _
      refine ⟨by omega, ?_, ?_⟩
      · intro y k hy hk
        cases y with
        | zero =>
          rw [iout _ (by
            intro y _
            have := Nat.zero_le (y * (row_size + padding))
            simp only [Nat.zero_mul, Nat.add_zero]
            omega), hget]
          simp only [Nat.zero_mul, Nat.add_zero]
          rw [if_pos (by omega)]
          refine ⟨?_, by omega, by omega⟩
          congr 1; omega
        | succ y =>
          obtain ⟨a, b, c⟩ := irow y k (by omega) hk
          have e3 := hstep y
          have e4 : (y + 1) * row_size = y * row_size + row_size := Nat.succ_mul _ _
          have e5 : src + (y + 1) * row_size + k = src + row_size + y * row_size + k := by omega
          have e6 : raw_pixels + dest + (y + 1) * (row_size + padding) + k
              = raw_pixels + (dest + (row_size + padding)) + y * (row_size + padding) + k := by
            omega
          rw [e5, e6]
          exact ⟨a, by omega, c⟩
      · intro i hi
        rw [iout i (by
          intro y hy
          have h1 := hi (y + 1) (by omega)
          have e3 := hstep y
          omega), hget, if_neg (by
          have h0 := hi 0 (by omega)
          simp only [Nat.zero_mul, Nat.add_zero] at h0
          omega)]

/-- The 4-channel row loop of the writer runs to its end when the rows lie
inside the two buffers. -/
theorem write_rows_4_ok (pixels : List Byte) (raw_pixels row_size padding : Nat) (rows : Nat) :
    ∀ (src dest : Nat) (payload : List Byte),
    row_size + padding < 2 ^ 64 →
    src + rows * row_size < 2 ^ 64 → dest + rows * (row_size + padding) < 2 ^ 64 →
    raw_pixels + dest + rows * (row_size + padding) ≤ payload.length →
    src + rows * row_size ≤ pixels.length →
    ∃ out, write_rows_4 pixels raw_pixels row_size padding rows src dest payload = .done out := by
  induction rows with
  | zero => intro src dest payload _ _ _ _ _; exact ⟨payload, rfl⟩
  | succ n ih =>
    intro src dest payload hrp hsrc hdest hraw hpix
    have e1 : (n + 1) * (row_size + padding) = n * (row_size + padding) + (row_size + padding) :=
      Nat.succ_mul _ _
    have e2 : (n + 1) * row_size = n * row_size + row_size := Nat.succ_mul _ _
    simp only [write_rows_4]
    rw [memcpy_ok _ _ _ _ _ (by omega) (by omega)]
    simp only []
    rw [size_add_eq row_size padding hrp, size_add_eq dest _ (by omega),
      size_add_eq src row_size (by omega)]
    apply ih _ _ _ hrp (by omega) (by omega)
    · rw [length_copied _ _ _ _ _ (by omega) (by omega)]
      omega
    · omega

/-! ## The stages of the reader -/

/-- The reader once the payload is allocated and read in full: the outcome is
decided by the pixel offset, the image size, the second allocation and the row
loops. -/
theorem read_past_payload (alloc : Nat → Nat → Bool) (junk : Nat → Byte) (file : FILE)
    (image : bmp_image)
    (hmem : malloc alloc 0 (payload_length image) = true)
    (hpos : 0 < payload_length image)
    (hfull : payload_length image ≤ file.input.length) :
    bmp_read_image_data alloc junk (some file) (some image) =
      if first_pixel_index image ≥ payload_length image then
        .done ⟨some { file with input := file.input.drop (payload_length image) },
          some (release_buffers { image with
            payload_size := payload_length image
            payload := some (file.input.take (payload_length image)) }),
          some .Invalid_Pixel_Offset_or_DIB_Header_Size⟩
      else if (measured image (file.input.take (payload_length image))).image_size
          > payload_length image then
        .done ⟨some { file with input := file.input.drop (payload_length image) },
          some (release_buffers (measured image (file.input.take (payload_length image)))),
          some .Failed_to_Calculate_Padding⟩
      else if malloc alloc 1 (aligned_size (extended_size_of image)) = false then
        .done ⟨some { file with input := file.input.drop (payload_length image) },
          some (release_buffers
            { measured image (file.input.take (payload_length image)) with pixels := none }),
          some .Not_Enough_Memory_to_Read⟩
      else
        match copied_rows junk image (file.input.take (payload_length image)) with
        | .fault f => .fault f
        | .done pixels =>
          .done ⟨some { file with input := file.input.drop (payload_length image) },
            some { measured image (file.input.take (payload_length image)) with
              aligned_image_size := aligned_size (extended_size_of image)
              pixels := some (zero_fill
                (aligned_size (extended_size_of image) - extended_size_of image)
                (extended_size_of image) pixels) },
            none⟩ := by
  have hm : ¬ (malloc alloc 0 (payload_length image) = false) := by simp [hmem]
  simp only [bmp_read_image_data]
  rw [if_neg hm, fread_full (payload_length image) file hpos hfull]
  dsimp only
  rw [if_neg (by decide : ¬ (1 = 0))]

theorem fread_count_one (n : Nat) (f : FILE) (h : (fread n f).count = 1) :
    0 < n ∧ n ≤ f.input.length := by
  unfold fread at h
  by_cases h1 : n = 0
  · rw [if_pos h1] at h; simp at h
  · rw [if_neg h1] at h
    by_cases h2 : n ≤ f.input.length
    · omega
    · rw [if_neg h2] at h; simp at h

theorem release_buffers_pixels (image : bmp_image) : (release_buffers image).pixels = none := by
  unfold release_buffers
  cases hp : image.payload <;> cases hx : image.pixels <;> simp [hp, hx]

theorem release_buffers_payload (image : bmp_image) : (release_buffers image).payload = none := by
  unfold release_buffers
  cases hp : image.payload <;> cases hx : image.pixels <;> simp [hp, hx]

theorem malloc_granted (alloc : Nat → Nat → Bool) (k n : Nat) (h : malloc alloc k n = true) :
    n ≤ 2 ^ 63 - 1 ∧ alloc k n = true := by
  unfold malloc PTRDIFF_MAX at h
  simpa using h

theorem offset_check_arith (fs d off : Nat) (h1 : fs < 2 ^ 32) (h2 : d < 2 ^ 32)
    (h3 : off < 2 ^ 32) (hpos : 0 < size_sub fs (size_add 14 d))
    (hmax : size_sub fs (size_add 14 d) ≤ 2 ^ 63 - 1) :
    (size_sub off (size_add 14 d) ≥ size_sub fs (size_add 14 d) ↔ (off < 14 + d ∨ off ≥ fs)) ∧
    14 + d < fs ∧ size_sub fs (size_add 14 d) = fs - (14 + d) := by
  rw [size_add_eq 14 d (by omega)] at hpos hmax ⊢
  by_cases hw : fs < 14 + d
  · rw [size_sub_wrap fs (14 + d) hw (by omega)] at hmax
    omega
  · rw [size_sub_eq fs (14 + d) (by omega) (by omega)] at hpos ⊢
    by_cases ho : off < 14 + d
    · rw [size_sub_wrap off (14 + d) ho (by omega)]
      omega
    · rw [size_sub_eq off (14 + d) (by omega) (by omega)]
      omega

/-- The pixel-offset check in terms of the header fields, for a payload size
that an allocator can grant and a read can deliver. -/
theorem offset_check_iff (image : bmp_image)
    (hpos : 0 < payload_length image) (hmax : payload_length image ≤ 2 ^ 63 - 1) :
    (first_pixel_index image ≥ payload_length image
      ↔ (image.pixel_array_offset < 14 + image.dib_header_size
          ∨ image.pixel_array_offset ≥ image.file_size)) ∧
    14 + image.dib_header_size < image.file_size ∧
    payload_length image = image.file_size - (14 + image.dib_header_size) :=
  offset_check_arith image.file_size image.dib_header_size image.pixel_array_offset
    (le32_lt _ _) (le32_lt _ _) (le32_lt _ _) hpos hmax

/-- C4. Pixel-offset rejection: for every record left by a successful
`bmp_open_image_headers` whose payload is allocated and read in full,
`bmp_read_image_data` reports `Invalid_Pixel_Offset_or_DIB_Header_Size`, whose
text is "Invalid pixel offset or DIB header size", if and only if
`pixel_array_offset < 14 + dib_header_size` or `pixel_array_offset ≥ file_size`;
in that case the record it leaves has neither a plane nor a payload. -/
theorem pixel_offset_rejection (alloc : Nat → Nat → Bool) (junk : Nat → Byte)
    (source : FILE) (blank : bmp_image) (file : FILE) (image : bmp_image)
    (_hopen : bmp_open_image_headers (some source) (some blank) = ⟨some file, some image, none⟩)
    (hmem : malloc alloc 0 (payload_length image) = true)
    (hfull : (fread (payload_length image) file).count = 1) :
    ((∃ loaded, bmp_read_image_data alloc junk (some file) (some image) = .done loaded ∧
        loaded.error_message = some .Invalid_Pixel_Offset_or_DIB_Header_Size)
      ↔ (image.pixel_array_offset < 14 + image.dib_header_size
          ∨ image.pixel_array_offset ≥ image.file_size)) ∧
    ((image.pixel_array_offset < 14 + image.dib_header_size
        ∨ image.pixel_array_offset ≥ image.file_size) →
      ∃ loaded stored, bmp_read_image_data alloc junk (some file) (some image) = .done loaded ∧
        loaded.image = some stored ∧ stored.pixels = none ∧ stored.payload = none) ∧
    bmp_error.text .Invalid_Pixel_Offset_or_DIB_Header_Size
      = "Invalid pixel offset or DIB header size" := by
  obtain ⟨hpos, hlen⟩ := fread_count_one _ _ hfull
  obtain ⟨hmax, _⟩ := malloc_granted _ _ _ hmem
  obtain ⟨hiff, _, _⟩ := offset_check_iff image hpos hmax
  rw [read_past_payload alloc junk file image hmem hpos hlen, ← hiff]
  by_cases hc : first_pixel_index image ≥ payload_length image
  · rw [if_pos hc]
    refine ⟨⟨fun _ => hc, fun _ => ⟨_, rfl, rfl⟩⟩, fun _ => ⟨_, _, rfl, rfl, ?_, ?_⟩, rfl⟩
    · exact release_buffers_pixels _
    · exact release_buffers_payload _
  · rw [if_neg hc]
    refine ⟨⟨?_, fun h => absurd h hc⟩, fun h => absurd h hc, rfl⟩
    rintro ⟨loaded, hl, he⟩
    split_ifs at hl with h1 h2
    · injection hl with hl; subst hl; simp at he
    · injection hl with hl; subst hl; simp at he
    · cases hrows : copied_rows junk image (file.input.take (payload_length image)) with
      | fault f => rw [hrows] at hl; simp at hl
      | done pixels =>
        rw [hrows] at hl
        injection hl with hl; subst hl; simp at he

set_option maxRecDepth 100000 in
/-- The stream `sample_offset_10` has its pixel offset inside the headers: the
reader reports the invalid offset. -/
theorem pixel_offset_rejection_witness :
    ∃ loaded, bmp_read_image_data (fun _ _ => true) (fun _ => 0)
        (some ⟨sample_offset_10.drop 54, [], 0⟩)
        (some { headers_stored zeroed_image sample_offset_10 with channels := 4 }) = .done loaded ∧
      loaded.error_message = some .Invalid_Pixel_Offset_or_DIB_Header_Size :=
  (pixel_offset_rejection (fun _ _ => true) (fun _ => 0) ⟨sample_offset_10, [], 0⟩ zeroed_image
    ⟨sample_offset_10.drop 54, [], 0⟩
    { headers_stored zeroed_image sample_offset_10 with channels := 4 }
    (by decide) (by decide) (by decide)).1.2 (by decide)

/-! ## The 3-channel loops of the reader -/

theorem to_int_eq (n : Int) (h0 : -2 ^ 31 ≤ n) (h1 : n < 2 ^ 31) : to_int n = n := by
  unfold to_int; omega

theorem to_size_t_natCast (n : Nat) (h : n < 2 ^ 64) : to_size_t (n : Int) = n := by
  unfold to_size_t; omega

theorem memcpy_at_spec (destination : List Byte) (d : Nat) (source : List Byte) (s n : Nat)
    (out : List Byte) (h : memcpy_at destination (d : Int) source (s : Int) n = .done out) :
    memcpy destination d source s n = .done out := by
  unfold memcpy_at at h
  rw [if_neg (by omega)] at h
  simpa using h

theorem store_at_spec (buffer : List Byte) (d : Nat) (value : Byte) (out : List Byte)
    (h : store_at buffer (d : Int) value = .done out) :
    d < buffer.length ∧ out = buffer.set d value := by
  unfold store_at at h
  by_cases hc : (d : Int) < 0 ∨ buffer.length ≤ (d : Int).toNat
  · rw [if_pos hc] at h; simp at h
  · rw [if_neg hc] at h
    injection h with h
    simp only [Int.toNat_ofNat] at hc h
    exact ⟨by omega, h.symm⟩

theorem and_then_done {α β : Type} (value : α) (rest : α → Run β) :
    (Run.done value).and_then rest = rest value := rfl

theorem and_then_fault {α β : Type} (reason : Fault) (rest : α → Run β) :
    (Run.fault reason : Run α).and_then rest = .fault reason := rfl

theorem memcpy_at_fault (destination : List Byte) (d : Int) (source : List Byte) (s : Int)
    (n : Nat) (f : Fault) (h : memcpy_at destination d source s n = .fault f) :
    f = .out_of_bounds := by
  unfold memcpy_at memcpy at h
  split_ifs at h
  · injection h with h; exact h.symm
  · injection h with h; exact h.symm

theorem store_at_fault (buffer : List Byte) (d : Int) (value : Byte) (f : Fault)
    (h : store_at buffer d value = .fault f) : f = .out_of_bounds := by
  unfold store_at at h
  split_ifs at h
  injection h with h; exact h.symm

/-- A row of more than `2 ^ 29` pixels at the start of the plane: the counter
`j` of the inner loop reaches `2 ^ 31`, wraps around to `-2 ^ 31`, and the copy
of the next pixel lies before the plane. -/
theorem expand_row_wide (raw : List Byte) (source row_size : Nat)
    (hrow : 3 * 2 ^ 29 < row_size) (m : Nat) :
    ∀ (k fuel : Nat) (pixels : List Byte), k + m = 2 ^ 29 →
    expand_row raw source 0 row_size fuel ((3 * k : Nat) : Int) (to_int ((4 * k : Nat) : Int))
        pixels = .fault .out_of_bounds ∨
      expand_row raw source 0 row_size fuel ((3 * k : Nat) : Int) (to_int ((4 * k : Nat) : Int))
        pixels = .fault .step_limit := by
  induction m with
  | zero =>
    intro k fuel pixels hk
    have hk' : k = 2 ^ 29 := by omega
    subst hk'
    have hc : to_size_t ((3 * 2 ^ 29 : Nat) : Int) < row_size := by
      rw [to_size_t_natCast _ (by omega)]; exact hrow
    cases fuel with
    | zero => right; rw [expand_row, if_pos hc]
    | succ fuel =>
      left
      rw [expand_row, if_pos hc]
      have hj : to_int ((4 * 2 ^ 29 : Nat) : Int) = -2 ^ 31 := by decide
      rw [hj]
      have : memcpy_at pixels (((0 : Nat) : Int) + -2 ^ 31) raw
          ((source : Int) + ((3 * 2 ^ 29 : Nat) : Int)) 3 = .fault .out_of_bounds := by
        unfold memcpy_at
        rw [if_pos (Or.inl (by omega))]
      rw [this, and_then_fault]
  | succ m ih =>
    intro k fuel pixels hk
    have hc : to_size_t ((3 * k : Nat) : Int) < row_size := by
      rw [to_size_t_natCast _ (by omega)]; omega
    cases fuel with
    | zero => right; rw [expand_row, if_pos hc]
    | succ fuel =>
      rw [expand_row, if_pos hc]
      cases h1 : memcpy_at pixels (((0 : Nat) : Int) + to_int ((4 * k : Nat) : Int)) raw
          ((source : Int) + ((3 * k : Nat) : Int)) 3 with
      | fault f =>
        left
        rw [memcpy_at_fault _ _ _ _ _ _ h1, and_then_fault]
      | done p1 =>
        rw [and_then_done]
        cases h2 : store_at p1 (((0 : Nat) : Int) + to_int ((4 * k : Nat) : Int) + 3) 255 with
        | fault f =>
          left
          rw [store_at_fault _ _ _ _ h2, and_then_fault]
        | done p2 =>
          rw [and_then_done]
          have e1 : to_int (((3 * k : Nat) : Int) + 3) = ((3 * (k + 1) : Nat) : Int) := by
            rw [to_int_eq _ (by omega) (by omega)]; omega
          have e2 : to_int (to_int ((4 * k : Nat) : Int) + 4)
              = to_int ((4 * (k + 1) : Nat) : Int) := by
            rw [to_int_eq ((4 * k : Nat) : Int) (by omega) (by omega)]
            congr 1
          rw [e1, e2]
          exact ih (k + 1) fuel p2 (by omega)

theorem and_then_eq_done {α β : Type} (step : Run α) (rest : α → Run β) (out : β)
    (h : step.and_then rest = .done out) : ∃ value, step = .done value ∧ rest value = .done out := by
  cases step with
  | done value => exact ⟨value, rfl, h⟩
  | fault reason => rw [and_then_fault] at h; cases h

/-- What the inner loop of the 3-channel branch of the reader leaves in the
plane for a row of at most `2 ^ 29` pixels, from pixel `k` of the row on. -/
theorem expand_row_spec (raw : List Byte) (source dest W : Nat) (hW : W ≤ 2 ^ 29) (fuel : Nat) :
    ∀ (k : Nat) (pixels out : List Byte), k ≤ W →
    expand_row raw source dest (3 * W) fuel ((3 * k : Nat) : Int) (to_int ((4 * k : Nat) : Int))
      pixels = .done out →
    out.length = pixels.length ∧
    (∀ x c, k ≤ x → x < W → c < 3 →
      out[dest + 4 * x + c]? = raw[source + 3 * x + c]? ∧
      dest + 4 * x + c < pixels.length ∧ source + 3 * x + c < raw.length) ∧
    (∀ x, k ≤ x → x < W → out[dest + 4 * x + 3]? = some 255 ∧ dest + 4 * x + 3 < pixels.length) ∧
    (∀ i, i < dest + 4 * k ∨ dest + 4 * W ≤ i → out[i]? = pixels[i]?) := by
  induction fuel with
  | zero =>
    intro k pixels out hk h
    rw [expand_row, to_size_t_natCast _ (by omega)] at h
    by_cases hc : 3 * k < 3 * W
    · rw [if_pos hc] at h; cases h
    · rw [if_neg hc] at h
      injection h with h
      subst h
      exact ⟨rfl, fun x c h1 h2 _ => by omega, fun x h1 h2 => by omega, fun i _ => rfl⟩
  | succ fuel ih =>
    intro k pixels out hk h
    rw [expand_row, to_size_t_natCast _ (by omega)] at h
    by_cases hc : 3 * k < 3 * W
    · rw [if_pos hc] at h
      have ej : to_int ((4 * k : Nat) : Int) = ((4 * k : Nat) : Int) :=
        to_int_eq _ (by omega) (by omega)
      have ed : ((dest : Nat) : Int) + ((4 * k : Nat) : Int) = ((dest + 4 * k : Nat) : Int) := by
        omega
      have es : ((source : Nat) : Int) + ((3 * k : Nat) : Int) = ((source + 3 * k : Nat) : Int) := by
        omega
      have ed3 : ((dest + 4 * k : Nat) : Int) + 3 = ((dest + 4 * k + 3 : Nat) : Int) := by omega
      have e1 : to_int (((3 * k : Nat) : Int) + 3) = ((3 * (k + 1) : Nat) : Int) := by
        rw [to_int_eq _ (by omega) (by omega)]; omega
      have e2 : ((4 * k : Nat) : Int) + 4 = ((4 * (k + 1) : Nat) : Int) := by omega
      rw [ej, ed, es, ed3, e1, e2] at h
      obtain ⟨p1, h1, h⟩ := and_then_eq_done _ _ _ h
      obtain ⟨p2, h2, h⟩ := and_then_eq_done _ _ _ h
      obtain ⟨hs, hd, hl1, hget⟩ := memcpy_spec _ _ _ _ _ _ (memcpy_at_spec _ _ _ _ _ _ h1)
      obtain ⟨hb, hp2⟩ := store_at_spec _ _ _ _ h2
      subst hp2
      obtain ⟨il, irgb, ialpha, iout⟩ := ih (k + 1) _ out (by omega) h
      rw [List.length_set] at il
      refine ⟨by omega, ?_, ?_, ?_⟩
      · intro x c hx1 hx2 hcc
        by_cases hxk : x = k
        · subst hxk
          rw [iout _ (Or.inl (by omega)), List.getElem?_set_ne (by omega), hget,
            if_pos (by omega)]
          have e : source + 3 * x + (dest + 4 * x + c - (dest + 4 * x)) = source + 3 * x + c := by
            omega
          rw [e]
          exact ⟨rfl, by omega, by omega⟩
        · obtain ⟨a, b, c'⟩ := irgb x c (by omega) hx2 hcc
          rw [List.length_set] at b
          exact ⟨a, by omega, c'⟩
      · intro x hx1 hx2
        by_cases hxk : x = k
        · subst hxk
          rw [iout _ (Or.inl (by omega)), List.getElem?_set_self hb]
          exact ⟨rfl, by omega⟩
        · obtain ⟨a, b⟩ := ialpha x (by omega) hx2
          rw [List.length_set] at b
          exact ⟨a, by omega⟩
      · intro i hi
        rw [iout i (by omega), List.getElem?_set_ne (by omega), hget, if_neg (by omega)]
    · rw [if_neg hc] at h
      injection h with h
      subst h
      exact ⟨rfl, fun x c h1 h2 _ => by omega, fun x h1 h2 => by omega, fun i _ => rfl⟩

/-- What the 3-channel row loop of the reader leaves in the plane, for rows of
at most `2 ^ 29` pixels. -/
theorem read_rows_3_spec (raw : List Byte) (raw_pixels W padding : Nat) (hW : W ≤ 2 ^ 29)
    (rows : Nat) :
    ∀ (src dest : Nat) (pixels out : List Byte),
    read_rows_3 raw raw_pixels (3 * W) padding (4 * W) rows src dest pixels = .done out →
    3 * W + padding < 2 ^ 64 →
    src + rows * (3 * W + padding) < 2 ^ 64 → dest + rows * (4 * W) < 2 ^ 64 →
    out.length = pixels.length ∧
    (∀ y x c, y < rows → x < W → c < 3 →
      out[dest + y * (4 * W) + 4 * x + c]?
        = raw[raw_pixels + src + y * (3 * W + padding) + 3 * x + c]? ∧
      dest + y * (4 * W) + 4 * x + c < pixels.length ∧
      raw_pixels + src + y * (3 * W + padding) + 3 * x + c < raw.length) ∧
    (∀ y x, y < rows → x < W →
      out[dest + y * (4 * W) + 4 * x + 3]? = some 255 ∧
      dest + y * (4 * W) + 4 * x + 3 < pixels.length) ∧
    (∀ i, i < dest ∨ dest + rows * (4 * W) ≤ i → out[i]? = pixels[i]?) := by
  induction rows with
  | zero =>
    intro src dest pixels out h _ _ _
    rw [read_rows_3] at h
    injection h with h
    subst h
    exact ⟨rfl, fun y x c hy _ _ => absurd hy (Nat.not_lt_zero y),
      fun y x hy _ => absurd hy (Nat.not_lt_zero y), fun i _ => rfl⟩
  | succ n ih =>
    intro src dest pixels out h hrp hsrc hdest
    rw [read_rows_3] at h
    obtain ⟨p1, h1, h⟩ := and_then_eq_done _ _ _ h
    have hspec := expand_row_spec raw (raw_pixels + src) dest W hW (3 * W) 0 pixels p1 (by omega)
    rw [show ((3 * 0 : Nat) : Int) = 0 from by simp, show to_int 0 = 0 from by decide] at hspec
    obtain ⟨hl, hrgb, halpha, hout⟩ := hspec h1
    have e1 : (n + 1) * (3 * W + padding) = n * (3 * W + padding) + (3 * W + padding) :=
      Nat.succ_mul _ _
    have e2 : (n + 1) * (4 * W) = n * (4 * W) + 4 * W := Nat.succ_mul _ _
    rw [size_add_eq (3 * W) padding hrp, size_add_eq src _ (by omega),
      size_add_eq dest (4 * W) (by omega)] at h
    obtain ⟨il, irgb, ialpha, iout⟩ := ih _ _ _ _ h hrp (by omega) (by omega)
    have hstep : ∀ y, (y + 1) * (3 * W + padding) = y * (3 * W + padding) + (3 * W + padding) :=
      fun y => Nat.succ_mul _ _
    have hstep4 : ∀ y, (y + 1) * (4 * W) = y * (4 * W) + 4 * W := fun y => Nat.succ_mul _ _
    refine ⟨by omega, ?_, ?_, ?_⟩
    · intro y x c hy hx hc
      cases y with
      | zero =>
        obtain ⟨a, b, c'⟩ := hrgb x c (by omega) hx hc
        simp only [Nat.zero_mul, Nat.add_zero]
        rw [iout _ (Or.inl (by omega)), a]
        exact ⟨rfl, b, c'⟩
      | succ y =>
        obtain ⟨a, b, c'⟩ := irgb y x c (by omega) hx hc
        have e3 := hstep y
        have e4 := hstep4 y
        have e5 : dest + (y + 1) * (4 * W) + 4 * x + c = dest + 4 * W + y * (4 * W) + 4 * x + c := by
          omega
        have e6 : raw_pixels + src + (y + 1) * (3 * W + padding) + 3 * x + c
            = raw_pixels + (src + (3 * W + padding)) + y * (3 * W + padding) + 3 * x + c := by
          omega
        rw [e5, e6]
        exact ⟨a, by omega, c'⟩
    · intro y x hy hx
      cases y with
      | zero =>
        obtain ⟨a, b⟩ := halpha x (by omega) hx
        simp only [Nat.zero_mul, Nat.add_zero]
        rw [iout _ (Or.inl (by omega)), a]
        exact ⟨rfl, b⟩
      | succ y =>
        obtain ⟨a, b⟩ := ialpha y x (by omega) hx
        have e4 := hstep4 y
        have e5 : dest + (y + 1) * (4 * W) + 4 * x + 3 = dest + 4 * W + y * (4 * W) + 4 * x + 3 := by
          omega
        rw [e5]
        exact ⟨a, by omega⟩
    · intro i hi
      rw [iout i (by omega), hout i (by omega)]

/-- The first row of the 3-channel loop of the reader is copied by the inner
loop, which does not get through a row of more than `2 ^ 29` pixels. -/
theorem read_rows_3_first (raw : List Byte) (raw_pixels row_size padding extend : Nat)
    (rows : Nat) (pixels out : List Byte) (hrows : 0 < rows)
    (h : read_rows_3 raw raw_pixels row_size padding extend rows 0 0 pixels = .done out) :
    row_size ≤ 3 * 2 ^ 29 := by
  cases rows with
  | zero => omega
  | succ n =>
    rw [read_rows_3] at h
    obtain ⟨p1, h1, _⟩ := and_then_eq_done _ _ _ h
    by_contra hc
    have hwide := expand_row_wide raw (raw_pixels + 0) row_size (by omega) (2 ^ 29) 0 row_size
      pixels (by omega)
    rw [show ((3 * 0 : Nat) : Int) = 0 from by simp, show to_int 0 = 0 from by decide] at hwide
    rcases hwide with hf | hf
    · rw [hf] at h1; cases h1
    · rw [hf] at h1; cases h1

/-- The first row of the 4-channel loop of the reader lies inside the payload. -/
theorem read_rows_4_first (raw : List Byte) (raw_pixels row_size padding : Nat)
    (rows : Nat) (pixels out : List Byte) (hrows : 0 < rows)
    (h : read_rows_4 raw raw_pixels row_size padding rows 0 0 pixels = .done out) :
    raw_pixels + row_size ≤ raw.length := by
  cases rows with
  | zero => omega
  | succ n =>
    simp only [read_rows_4] at h
    cases hm : memcpy pixels 0 raw (raw_pixels + 0) row_size with
    | fault f => rw [hm] at h; simp at h
    | done p1 =>
      obtain ⟨hs, _, _, _⟩ := memcpy_spec _ _ _ _ _ _ hm
      omega

/-! ## What a successful parse and a successful read imply -/

theorem le32s_range (bytes : List Byte) (off : Nat) :
    -2 ^ 31 ≤ le32s bytes off ∧ le32s bytes off < 2 ^ 31 := by
  have h := le32_lt bytes off
  unfold le32s
  split_ifs <;> omega

theorem absolute_eq (field : Int) (h0 : -2 ^ 31 < field) (h1 : field < 2 ^ 31) :
    absolute field = field.natAbs ∧ absolute field ≤ 2 ^ 31 - 1 := by
  unfold absolute
  by_cases hneg : field < 0
  · rw [if_pos hneg, to_int_eq _ (by omega) (by omega)]
    unfold to_size_t
    omega
  · rw [if_neg hneg]
    unfold to_size_t
    omega

theorem absolute_min : absolute (-2 ^ 31) = 2 ^ 64 - 2 ^ 31 := by decide

/-- A successful parse: what the stream holds and what the record becomes. -/
theorem open_success (source : FILE) (blank : bmp_image) (file : FILE) (image : bmp_image)
    (h : bmp_open_image_headers (some source) (some blank) = ⟨some file, some image, none⟩) :
    (byte_at source.input 0 = 0x42 ∧ byte_at source.input 1 = 0x4D) ∧
    rest_dib_header_size (le32 source.input 14) ≤ 256 ∧
    54 + rest_dib_header_size (le32 source.input 14) ≤ source.input.length ∧
    (le16 source.input 28 = 24 ∨ le16 source.input 28 = 32) ∧
    54 < le32 source.input 2 ∧
    file = { source with
      input := source.input.drop (54 + rest_dib_header_size (le32 source.input 14)) } ∧
    image = { headers_stored blank source.input with
      channels := if 24 = le16 source.input 28 then 3 else 4 } := by
  have hk := open_error_kind (some source) blank
  rw [h] at hk
  have hrest : max (le32 source.input 14 - 40) 0 = rest_dib_header_size (le32 source.input 14) := by
    rw [rest_dib_header_size_eq _ (le32_lt _ _)]; simp
  simp only [Option.map_some', Option.map_none', first_failing_test, hrest] at hk
  split_ifs at hk with c1 c2 c3 c4 c5 c6 c7
  have hmagic : byte_at source.input 0 = 0x42 ∧ byte_at source.input 1 = 0x4D := c2
  have hdepth : le16 source.input 28 = 24 ∨ le16 source.input 28 = 32 := c6
  rw [open_past_reads source blank hmagic (by omega) (by omega), if_neg (by omega),
    if_neg (by omega)] at h
  injection h with h1 h2 h3
  injection h1 with h1
  injection h2 with h2
  exact ⟨hmagic, by omega, by omega, hdepth, by omega, h1.symm, h2.symm⟩

/-- The header fields of the record after the three header reads, in terms of
the bytes of the stream. -/
theorem stored_fields (blank : bmp_image) (bytes : List Byte) (c : Nat)
    (hlen : 54 ≤ bytes.length) :
    ({ headers_stored blank bytes with channels := c } : bmp_image).file_size = le32 bytes 2 ∧
    ({ headers_stored blank bytes with channels := c } : bmp_image).pixel_array_offset
      = le32 bytes 10 ∧
    ({ headers_stored blank bytes with channels := c } : bmp_image).dib_header_size
      = le32 bytes 14 ∧
    ({ headers_stored blank bytes with channels := c } : bmp_image).image_width
      = le32s bytes 18 ∧
    ({ headers_stored blank bytes with channels := c } : bmp_image).image_height
      = le32s bytes 22 ∧
    ({ headers_stored blank bytes with channels := c } : bmp_image).bits_per_pixel
      = le16 bytes 28 ∧
    ({ headers_stored blank bytes with channels := c } : bmp_image).channels = c := by
  have hl14 : (bytes.take 14).length = 14 := by simp; omega
  have hl40 : ((bytes.drop 14).take 40).length = 40 := by simp; omega
  simp only [bmp_image.file_size, bmp_image.pixel_array_offset, bmp_image.dib_header_size,
    bmp_image.image_width, bmp_image.image_height, bmp_image.bits_per_pixel, headers_stored,
    le32s]
  rw [le32_overwrite _ _ 2 (by omega), le32_overwrite _ _ 10 (by omega),
    le32_overwrite _ _ 0 (by omega), le32_overwrite _ _ 4 (by omega),
    le32_overwrite _ _ 8 (by omega), le16_overwrite _ _ 14 (by omega),
    le32_take _ 14 2 (by omega), le32_take _ 14 10 (by omega),
    le32_take_drop _ 14 40 0 (by omega), le32_take_drop _ 14 40 4 (by omega),
    le32_take_drop _ 14 40 8 (by omega), le16_take_drop _ 14 40 14 (by omega)]
  exact ⟨rfl, rfl, rfl, rfl, rfl, rfl, trivial⟩

/-- After a successful parse the channel count matches the depth. -/
theorem open_success_depth (source : FILE) (blank : bmp_image) (file : FILE) (image : bmp_image)
    (h : bmp_open_image_headers (some source) (some blank) = ⟨some file, some image, none⟩) :
    (image.channels = 3 ∧ image.bits_per_pixel = 24) ∨
      (image.channels = 4 ∧ image.bits_per_pixel = 32) := by
  obtain ⟨_, _, hlen, hdepth, _, _, himg⟩ := open_success source blank file image h
  obtain ⟨_, _, _, _, _, hb, hc⟩ := stored_fields blank source.input
    (if 24 = le16 source.input 28 then 3 else 4) (by omega)
  rw [← himg] at hb hc
  rcases hdepth with h24 | h32
  · left; rw [hb, hc, h24]; simp
  · right; rw [hb, hc, h32]; simp

/-- A successful read: every check was passed, the row loops ran to their end,
and the record holds the payload and the plane. -/
theorem read_success (alloc : Nat → Nat → Bool) (junk : Nat → Byte) (file : FILE)
    (image : bmp_image) (loaded : bmp_result)
    (h : bmp_read_image_data alloc junk (some file) (some image) = .done loaded)
    (hok : loaded.error_message = none) :
    malloc alloc 0 (payload_length image) = true ∧
    0 < payload_length image ∧ payload_length image ≤ file.input.length ∧
    first_pixel_index image < payload_length image ∧
    (measured image (file.input.take (payload_length image))).image_size
      ≤ payload_length image ∧
    malloc alloc 1 (aligned_size (extended_size_of image)) = true ∧
    ∃ pixels, copied_rows junk image (file.input.take (payload_length image)) = .done pixels ∧
      loaded = ⟨some { file with input := file.input.drop (payload_length image) },
        some { measured image (file.input.take (payload_length image)) with
          aligned_image_size := aligned_size (extended_size_of image)
          pixels := some (zero_fill
            (aligned_size (extended_size_of image) - extended_size_of image)
            (extended_size_of image) pixels) },
        none⟩ := by
  by_cases hmem : malloc alloc 0 (payload_length image) = true
  swap
  · simp only [bmp_read_image_data] at h
    rw [if_pos (by simpa using hmem)] at h
    injection h with h; subst h; simp at hok
  by_cases hcount : (fread (payload_length image) file).count = 1
  swap
  · simp only [bmp_read_image_data] at h
    rw [if_neg (by simp [hmem])] at h
    have hz : (fread (payload_length image) file).count = 0 := by
      unfold fread at hcount ⊢
      split_ifs at hcount ⊢ <;> simp_all
    rw [if_pos hz] at h
    injection h with h; subst h; simp at hok
  obtain ⟨hpos, hlen⟩ := fread_count_one _ _ hcount
  rw [read_past_payload alloc junk file image hmem hpos hlen] at h
  split_ifs at h with c1 c2 c3
  · injection h with h; subst h; simp at hok
  · injection h with h; subst h; simp at hok
  · injection h with h; subst h; simp at hok
  · cases hrows : copied_rows junk image (file.input.take (payload_length image)) with
    | fault f => rw [hrows] at h; simp at h
    | done pixels =>
      rw [hrows] at h
      injection h with h
      exact ⟨hmem, hpos, hlen, by omega, by omega, by simpa using c3, pixels, rfl, h.symm⟩

/-! ## The geometry of a decoded image -/

theorem mul_add_lt_mul (y x H W : Nat) (hy : y < H) (hx : x < W) : y * W + x < H * W := by
  have h1 : (y + 1) * W ≤ H * W := Nat.mul_le_mul_right W hy
  have h2 : (y + 1) * W = y * W + W := Nat.succ_mul _ _
  omega

/-- A height field of `INT32_MIN` with rows of `R` bytes, `0 < R < 2 ^ 33` a
multiple of 4: the image size does not wrap around to a small number. -/
theorem wrapped_height_size (R P : Nat) (hR0 : 0 < R) (hR4 : R % 4 = 0) (hR : R < 2 ^ 33)
    (hP : P < 2 ^ 32) : ¬ size_mul (2 ^ 64 - 2 ^ 31) R ≤ P := by
  obtain ⟨q, hq⟩ : ∃ q, R = 4 * q := ⟨R / 4, by omega⟩
  subst hq
  unfold size_mul
  have e : (2 ^ 64 - 2 ^ 31) * (4 * q) = (2 ^ 64 - 2 ^ 33 * q) + 2 ^ 64 * (4 * q - 1) := by omega
  rw [e, Nat.add_mul_mod_self_left, Nat.mod_eq_of_lt (by omega)]
  omega

/-- The geometry of a 32-bit image whose first row was copied and whose image
size passed the check: neither field holds `INT32_MIN`. -/
theorem geometry_4 (image : bmp_image) (P : Nat) (hP : P < 2 ^ 32)
    (hch : image.channels = 4) (hbpp : image.bits_per_pixel = 32)
    (hW : 0 < width_of image) (hH : 0 < height_of image)
    (hfirst : first_pixel_index image + row_size_of image ≤ P)
    (hsz : size_mul (height_of image) (size_add (row_size_of image) (padding_of image)) ≤ P) :
    width_of image ≤ 2 ^ 31 - 1 ∧ height_of image ≤ 2 ^ 31 - 1 ∧
    row_size_of image = 4 * width_of image ∧ padding_of image = 0 := by
  have hw : -2 ^ 31 ≤ image.image_width ∧ image.image_width < 2 ^ 31 := le32s_range _ _
  have hh : -2 ^ 31 ≤ image.image_height ∧ image.image_height < 2 ^ 31 := le32s_range _ _
  unfold padding_of row_size_of at *
  rw [hch] at hfirst hsz ⊢
  rw [hbpp] at hsz ⊢
  unfold width_of height_of at *
  by_cases hwmin : image.image_width = -2 ^ 31
  · rw [hwmin, absolute_min] at hfirst
    have : size_mul (2 ^ 64 - 2 ^ 31) 4 = 2 ^ 64 - 2 ^ 33 := by decide
    omega
  obtain ⟨_, hwle⟩ := absolute_eq image.image_width (by omega) hw.2
  have hrow : size_mul (absolute image.image_width) 4 = 4 * absolute image.image_width := by
    rw [size_mul_eq _ _ (by omega)]; omega
  have hpad : row_padding 32 (absolute image.image_width) (size_mul (absolute image.image_width) 4)
      = 0 := by
    rw [row_padding_eq 32 _ 4 hwle (by omega) (by omega)]; omega
  rw [hpad, hrow] at hsz
  refine ⟨hwle, ?_, hrow, hpad⟩
  by_cases hhmin : image.image_height = -2 ^ 31
  · rw [hhmin, absolute_min, size_add_eq _ _ (by omega)] at hsz
    exact absurd hsz (wrapped_height_size _ P (by omega) (by omega) (by omega) hP)
  · exact (absolute_eq image.image_height (by omega) hh.2).2

/-- The geometry of a 24-bit image whose first row was copied and whose image
size passed the check: rows of at most `2 ^ 29` pixels, no field holding
`INT32_MIN`. -/
theorem geometry_3 (image : bmp_image) (P : Nat) (hP : P < 2 ^ 32)
    (hch : image.channels = 3) (hbpp : image.bits_per_pixel = 24)
    (hW : 0 < width_of image) (hH : 0 < height_of image)
    (hfirst : row_size_of image ≤ 3 * 2 ^ 29)
    (hsz : size_mul (height_of image) (size_add (row_size_of image) (padding_of image)) ≤ P) :
    width_of image ≤ 2 ^ 29 ∧ height_of image ≤ 2 ^ 31 - 1 ∧
    row_size_of image = 3 * width_of image ∧
    padding_of image = (24 * width_of image + 31) / 32 * 4 - 3 * width_of image ∧
    size_mul (width_of image) 4 = 4 * width_of image := by
  have hw : -2 ^ 31 ≤ image.image_width ∧ image.image_width < 2 ^ 31 := le32s_range _ _
  have hh : -2 ^ 31 ≤ image.image_height ∧ image.image_height < 2 ^ 31 := le32s_range _ _
  unfold padding_of row_size_of at *
  rw [hch] at hfirst hsz ⊢
  rw [hbpp] at hsz ⊢
  unfold width_of height_of at *
  by_cases hwmin : image.image_width = -2 ^ 31
  · rw [hwmin, absolute_min] at hfirst
    have : size_mul (2 ^ 64 - 2 ^ 31) 3 = 2 ^ 64 - 3 * 2 ^ 31 := by decide
    omega
  obtain ⟨_, hwle⟩ := absolute_eq image.image_width (by omega) hw.2
  have hrow : size_mul (absolute image.image_width) 3 = 3 * absolute image.image_width := by
    rw [size_mul_eq _ _ (by omega)]; omega
  have hpad : row_padding 24 (absolute image.image_width) (size_mul (absolute image.image_width) 3)
      = (24 * absolute image.image_width + 31) / 32 * 4 - 3 * absolute image.image_width := by
    rw [row_padding_eq 24 _ 3 hwle (by omega) (by omega)]
  rw [hrow] at hfirst
  rw [hpad, hrow] at hsz
  refine ⟨by omega, ?_, hrow, hpad, by rw [size_mul_eq _ _ (by omega)]; omega⟩
  by_cases hhmin : image.image_height = -2 ^ 31
  · rw [hhmin, absolute_min, size_add_eq _ _ (by omega)] at hsz
    exact absurd hsz (wrapped_height_size _ P (by omega) (by omega) (by omega) hP)
  · exact (absolute_eq image.image_height (by omega) hh.2).2

theorem fresh_length (junk : Nat → Byte) (n : Nat) : (fresh junk n).length = n := by
  unfold fresh; simp

theorem payload_length_lt (image : bmp_image) (hpos : 0 < payload_length image)
    (hmax : payload_length image ≤ 2 ^ 63 - 1) : payload_length image < 2 ^ 32 := by
  obtain ⟨_, _, h⟩ := offset_check_iff image hpos hmax
  have := le32_lt image.file_header 2
  unfold bmp_image.file_size at h
  omega

/-! ## The decoded plane -/

/-- Normalisation where the rows lie inside the payload, which is the case
whenever the embedding of `bmp_read_image_data` ends without a fault: after a
successful `bmp_open_image_headers` and such a read without error, with `W` and
`H` the absolute width and height of the record, `pad` its row padding and the
raw pixel array starting at index `raw_pixels` of the payload, for every row
`y < H` and column `x < W`: with 4 channels byte `4 * (y * W + x) + c` of the
plane is byte `y * (4 * W + pad) + 4 * x + c` of the raw pixel array for `c` in
0..3; with 3 channels it is byte `y * (3 * W + pad) + 3 * x + c` for `c` in 0..2
and byte `4 * (y * W + x) + 3` of the plane is 255. The formulas do not depend on
the sign of the height field: rows keep the order of the file. -/
theorem normalisation_reference (alloc : Nat → Nat → Bool) (junk : Nat → Byte)
    (source : FILE) (blank : bmp_image) (file : FILE) (image : bmp_image) (loaded : bmp_result)
    (hopen : bmp_open_image_headers (some source) (some blank) = ⟨some file, some image, none⟩)
    (hread : bmp_read_image_data alloc junk (some file) (some image) = .done loaded)
    (hok : loaded.error_message = none) :
    ∃ stored payload pixels,
      loaded.image = some stored ∧ stored.payload = some payload ∧ stored.pixels = some pixels ∧
      (stored.channels = 3 ∨ stored.channels = 4) ∧
      ∀ y x, y < stored.absolute_image_height → x < stored.absolute_image_width →
        (stored.channels = 4 → ∀ c, c < 4 →
          4 * (y * stored.absolute_image_width + x) + c < pixels.length ∧
          stored.raw_pixels + (y * (4 * stored.absolute_image_width + stored.pixel_row_padding)
            + 4 * x + c) < payload.length ∧
          pixels[4 * (y * stored.absolute_image_width + x) + c]?
            = payload[stored.raw_pixels
                + (y * (4 * stored.absolute_image_width + stored.pixel_row_padding)
                  + 4 * x + c)]?) ∧
        (stored.channels = 3 →
          (∀ c, c < 3 →
            4 * (y * stored.absolute_image_width + x) + c < pixels.length ∧
            stored.raw_pixels + (y * (3 * stored.absolute_image_width + stored.pixel_row_padding)
              + 3 * x + c) < payload.length ∧
            pixels[4 * (y * stored.absolute_image_width + x) + c]?
              = payload[stored.raw_pixels
                  + (y * (3 * stored.absolute_image_width + stored.pixel_row_padding)
                    + 3 * x + c)]?) ∧
          pixels[4 * (y * stored.absolute_image_width + x) + 3]? = some 255) := by
  obtain ⟨hmem, hpos, hlen, hoff, hsz, hmem1, p1, hcopy, hloaded⟩ :=
    read_success alloc junk file image loaded hread hok
  have hdepth := open_success_depth source blank file image hopen
  have hP : payload_length image < 2 ^ 32 :=
    payload_length_lt image hpos (malloc_granted _ _ _ hmem).1
  have hdata : (file.input.take (payload_length image)).length = payload_length image := by
    rw [List.length_take]; omega
  subst hloaded
  refine ⟨_, _, _, rfl, rfl, rfl, ?_, ?_⟩
  · rcases hdepth with h | h
    · exact Or.inl h.1
    · exact Or.inr h.1
  intro y x hy hx
  change y < height_of image at hy
  change x < width_of image at hx
  change (image.channels = 4 → ∀ c, c < 4 →
      4 * (y * width_of image + x) + c < (zero_fill _ _ p1).length ∧
      first_pixel_index image + (y * (4 * width_of image + padding_of image) + 4 * x + c)
        < (file.input.take (payload_length image)).length ∧
      (zero_fill _ _ p1)[4 * (y * width_of image + x) + c]?
        = (file.input.take (payload_length image))[first_pixel_index image
            + (y * (4 * width_of image + padding_of image) + 4 * x + c)]?) ∧
    (image.channels = 3 →
      (∀ c, c < 3 →
        4 * (y * width_of image + x) + c < (zero_fill _ _ p1).length ∧
        first_pixel_index image + (y * (3 * width_of image + padding_of image) + 3 * x + c)
          < (file.input.take (payload_length image)).length ∧
        (zero_fill _ _ p1)[4 * (y * width_of image + x) + c]?
          = (file.input.take (payload_length image))[first_pixel_index image
              + (y * (3 * width_of image + padding_of image) + 3 * x + c)]?) ∧
      (zero_fill _ _ p1)[4 * (y * width_of image + x) + 3]? = some 255)
  change size_mul (height_of image) (size_add (row_size_of image) (padding_of image))
    ≤ payload_length image at hsz
  have hyx := mul_add_lt_mul y x _ _ hy hx
  rw [zero_fill_length]
  unfold copied_rows at hcopy
  constructor
  · intro hch c hc
    have hbpp : image.bits_per_pixel = 32 := by
      rcases hdepth with h | h
      · omega
      · exact h.2
    rw [if_pos hch.symm] at hcopy
    have hfirst := read_rows_4_first _ _ _ _ _ _ _ (by omega) hcopy
    rw [hdata] at hfirst
    obtain ⟨hWle, hHle, hrow, hpad⟩ :=
      geometry_4 image _ hP hch hbpp (by omega) (by omega) hfirst hsz
    have hHW : height_of image * width_of image ≤ (2 ^ 31 - 1) * (2 ^ 31 - 1) :=
      Nat.mul_le_mul hHle hWle
    have e1 : height_of image * (4 * width_of image + 0) = 4 * (height_of image * width_of image) := by
      ring
    have e2 : height_of image * (4 * width_of image) = 4 * (height_of image * width_of image) := by
      ring
    rw [hrow, hpad] at hcopy
    obtain ⟨hl, hrows, _⟩ := read_rows_4_spec _ _ _ _ _ _ _ _ _ hcopy (by omega) (by omega)
      (by omega)
    obtain ⟨a, b, c'⟩ := hrows y (4 * x + c) hy (by omega)
    have hext : extended_size_of image = 4 * (height_of image * width_of image) := by
      unfold extended_size_of
      rw [hpad, size_mul_eq (width_of image) 4 (by omega), size_add_eq _ _ (by omega),
        size_mul_eq _ _ (by rw [Nat.add_zero, Nat.mul_comm (width_of image) 4, e2]; omega)]
      ring
    have e3 : 0 + y * (4 * width_of image) + (4 * x + c) = 4 * (y * width_of image + x) + c := by
      ring
    have e4 : first_pixel_index image + 0 + y * (4 * width_of image + 0) + (4 * x + c)
        = first_pixel_index image + (y * (4 * width_of image + 0) + 4 * x + c) := by ring
    rw [e3, e4] at a
    rw [e3] at b
    rw [e4] at c'
    rw [hpad, zero_fill_below _ _ _ _ (by rw [hext]; omega), hl]
    exact ⟨b, c', a⟩
  · intro hch
    have hbpp : image.bits_per_pixel = 24 := by
      rcases hdepth with h | h
      · exact h.2
      · omega
    rw [if_neg (by omega)] at hcopy
    have hfirst := read_rows_3_first _ _ _ _ _ _ _ _ (by omega) hcopy
    obtain ⟨hWle, hHle, hrow, hpad, hext4⟩ :=
      geometry_3 image _ hP hch hbpp (by omega) (by omega) hfirst hsz
    have hHW : height_of image * width_of image ≤ (2 ^ 31 - 1) * 2 ^ 29 :=
      Nat.mul_le_mul hHle hWle
    have hpad3 : padding_of image ≤ 3 := by omega
    have e1 : height_of image * (3 * width_of image + padding_of image)
        = 3 * (height_of image * width_of image) + height_of image * padding_of image := by
      ring
    have e1' : height_of image * padding_of image ≤ (2 ^ 31 - 1) * 3 :=
      Nat.mul_le_mul hHle hpad3
    have e2 : height_of image * (4 * width_of image) = 4 * (height_of image * width_of image) := by
      ring
    rw [hrow, hext4] at hcopy
    obtain ⟨hl, hrgb, halpha, _⟩ := read_rows_3_spec _ _ _ _ hWle _ _ _ _ _ hcopy (by omega)
      (by omega) (by omega)
    have hext : 4 * (height_of image * width_of image) ≤ extended_size_of image := by
      unfold extended_size_of
      rw [hext4, size_add_eq _ _ (by omega),
        size_mul_eq _ _ (by
          have : height_of image * (4 * width_of image + padding_of image)
              = 4 * (height_of image * width_of image)
                + height_of image * padding_of image := by ring
          omega)]
      have : height_of image * (4 * width_of image + padding_of image)
          = 4 * (height_of image * width_of image) + height_of image * padding_of image := by
        ring
      omega
    have e3 : ∀ c, 0 + y * (4 * width_of image) + 4 * x + c
        = 4 * (y * width_of image + x) + c := by
      intro c; ring
    have e4 : ∀ c, first_pixel_index image + 0 + y * (3 * width_of image + padding_of image)
          + 3 * x + c
        = first_pixel_index image + (y * (3 * width_of image + padding_of image) + 3 * x + c) := by
      intro c; ring
    constructor
    · intro c hc
      obtain ⟨a, b, c'⟩ := hrgb y x c hy hx hc
      rw [e3, e4] at a
      rw [e3] at b
      rw [e4] at c'
      rw [zero_fill_below _ _ _ _ (by omega), hl]
      exact ⟨b, c', a⟩
    · obtain ⟨a, b⟩ := halpha y x hy hx
      rw [e3] at a
      rw [e3] at b
      rw [zero_fill_below _ _ _ _ (by omega)]
      exact a

/-! ## The writers on a record that was just decoded -/

theorem fwrite_ok (data : List Byte) (stream : FILE) (h0 : 0 < data.length)
    (h : data.length ≤ stream.room) :
    fwrite data stream
      = ⟨{ stream with output := stream.output ++ data, room := stream.room - data.length }, 1⟩ := by
  unfold fwrite
  rw [if_neg (by omega), if_pos h]

/-- The 4-channel row loop of the writer gives back the payload when the plane
holds the rows of that payload. -/
theorem write_rows_4_same (pixels payload : List Byte) (raw_pixels row_size padding rows : Nat)
    (hlen : payload.length < 2 ^ 64)
    (hrp : row_size + padding < 2 ^ 64)
    (hfit : raw_pixels + rows * (row_size + padding) ≤ payload.length)
    (hplane : rows * row_size ≤ pixels.length)
    (hsame : ∀ y k, y < rows → k < row_size →
      pixels[y * row_size + k]? = payload[raw_pixels + y * (row_size + padding) + k]?) :
    write_rows_4 pixels raw_pixels row_size padding rows 0 0 payload = .done payload := by
  have hle : rows * row_size ≤ rows * (row_size + padding) :=
    Nat.mul_le_mul_left rows (Nat.le_add_right _ _)
  obtain ⟨out, hout⟩ := write_rows_4_ok pixels raw_pixels row_size padding rows 0 0 payload hrp
    (by omega) (by omega) (by omega) (by omega)
  obtain ⟨hl, hrow, hrest⟩ := write_rows_4_spec pixels raw_pixels row_size padding rows 0 0
    payload out hout hrp (by omega) (by omega)
  rw [hout]
  congr 1
  apply List.ext_getElem?
  intro i
  by_cases hin : ∃ y, y < rows ∧ raw_pixels + 0 + y * (row_size + padding) ≤ i ∧
      i < raw_pixels + 0 + y * (row_size + padding) + row_size
  · obtain ⟨y, hy, h1, h2⟩ := hin
    obtain ⟨a, _, _⟩ := hrow y (i - (raw_pixels + 0 + y * (row_size + padding))) hy (by omega)
    have e : raw_pixels + 0 + y * (row_size + padding)
        + (i - (raw_pixels + 0 + y * (row_size + padding))) = i := by omega
    rw [e] at a
    rw [a, Nat.zero_add, hsame y _ hy (by omega)]
    congr 1
  · apply hrest
    intro y hy hc
    exact hin ⟨y, hy, hc.1, hc.2⟩

theorem with_payload_same (image : bmp_image) (data : List Byte)
    (h : image.payload = some data) : { image with payload := some data } = image := by
  cases image
  simp only [bmp_image.mk.injEq] at h ⊢
  simp_all

/-- The payload writer on a 4-channel record whose plane holds the rows of its
payload: the payload goes out as it is and the record is left as it was. -/
theorem write_data_same (file : FILE) (image : bmp_image) (data plane : List Byte)
    (hpayload : image.payload = some data) (hpixels : image.pixels = some plane)
    (hch : image.channels = 4)
    (hP : payload_length image = data.length) (hpos : 0 < data.length)
    (hlt : data.length < 2 ^ 64) (hroom : data.length ≤ file.room)
    (hrows : image.absolute_image_height = 0 ∨
      (size_mul image.absolute_image_width 4 + image.pixel_row_padding < 2 ^ 64 ∧
        image.raw_pixels + image.absolute_image_height
          * (size_mul image.absolute_image_width 4 + image.pixel_row_padding) ≤ data.length ∧
        image.absolute_image_height * size_mul image.absolute_image_width 4 ≤ plane.length ∧
        ∀ y k, y < image.absolute_image_height → k < size_mul image.absolute_image_width 4 →
          plane[y * size_mul image.absolute_image_width 4 + k]?
            = data[image.raw_pixels
                + y * (size_mul image.absolute_image_width 4 + image.pixel_row_padding) + k]?)) :
    bmp_write_image_data (some file) (some image) =
      .done ⟨some { file with output := file.output ++ data, room := file.room - data.length },
        some image, none⟩ := by
  have hP' : size_sub image.file_size (size_add 14 image.dib_header_size) = data.length := hP
  obtain ⟨fh, dh, rest, ps, payload, rp, pixels, aw, ah, prp, isz, asz, ch⟩ := image
  simp only [] at hpayload hpixels hch hrows
  subst hpayload hpixels hch
  simp only [bmp_write_image_data]
  rw [hP']
  by_cases h0 : ah = 0
  · rw [if_pos h0]
    simp only []
    rw [if_neg (by omega), if_neg (by omega), List.take_of_length_le (by omega),
      fwrite_ok data file hpos hroom]
    simp only []
    rw [if_neg (by decide)]
  · rcases hrows with h0' | ⟨hrp, hfit, hplane, hsame⟩
    · exact absurd h0' h0
    rw [if_neg h0]
    simp only [if_true]
    rw [write_rows_4_same plane data _ _ _ _ hlt hrp hfit hplane hsame]
    simp only []
    rw [if_neg (by omega), if_neg (by omega), List.take_of_length_le (by omega),
      fwrite_ok data file hpos hroom]
    simp only []
    rw [if_neg (by decide)]

theorem aligned_size_zero : aligned_size 0 = 64 := by decide

theorem aligned_size_bounds (ext : Nat) (h : ext < 2 ^ 62) :
    ext ≤ aligned_size ext ∧ aligned_size ext ≤ ext + 128 := by
  by_cases h0 : ext = 0
  · subst h0; rw [aligned_size_zero]; omega
  · unfold aligned_size
    rw [size_sub_eq ext 1 (by omega) (by omega), size_add_eq _ 1 (by omega),
      size_mul_eq _ 64 (by omega), size_add_eq _ 64 (by omega)]
    omega

/-- The reader on a 32-bit record whose payload is the rest of the stream and
whose pixel rows fit in the payload after the pixel offset: it reports no
error, and the plane holds the rows of the payload. -/
theorem read_valid_4 (alloc : Nat → Nat → Bool) (junk : Nat → Byte) (file : FILE)
    (image : bmp_image) (halloc : ∀ k n, alloc k n = true)
    (hch : image.channels = 4) (hbpp : image.bits_per_pixel = 32)
    (hP : payload_length image = file.input.length) (hpos : 0 < payload_length image)
    (hPlt : payload_length image < 2 ^ 32)
    (hoff : first_pixel_index image < payload_length image)
    (hfit : first_pixel_index image
        + image.image_height.natAbs * (4 * image.image_width.natAbs) ≤ payload_length image) :
    ∃ plane,
      bmp_read_image_data alloc junk (some file) (some image) =
        .done ⟨some { file with input := [] },
          some { measured image file.input with
            aligned_image_size := aligned_size (extended_size_of image)
            pixels := some plane }, none⟩ ∧
      (height_of image = 0 ∨
        (size_mul (width_of image) 4 + padding_of image < 2 ^ 64 ∧
          first_pixel_index image
            + height_of image * (size_mul (width_of image) 4 + padding_of image)
            ≤ file.input.length ∧
          height_of image * size_mul (width_of image) 4 ≤ plane.length ∧
          ∀ y k, y < height_of image → k < size_mul (width_of image) 4 →
            plane[y * size_mul (width_of image) 4 + k]?
              = file.input[first_pixel_index image
                  + y * (size_mul (width_of image) 4 + padding_of image) + k]?)) := by
  have hw : -2 ^ 31 ≤ image.image_width ∧ image.image_width < 2 ^ 31 := le32s_range _ _
  have hh : -2 ^ 31 ≤ image.image_height ∧ image.image_height < 2 ^ 31 := le32s_range _ _
  have hmem : malloc alloc 0 (payload_length image) = true := by
    unfold malloc PTRDIFF_MAX
    rw [halloc]
    simp only [Bool.and_true, decide_eq_true_eq]
    omega
  have htake : file.input.take (payload_length image) = file.input := by
    rw [hP]; exact List.take_of_length_le (Nat.le_refl _)
  have hdrop : file.input.drop (payload_length image) = [] := by
    rw [hP]; exact List.drop_of_length_le (Nat.le_refl _)
  rw [read_past_payload alloc junk file image hmem hpos (by omega), if_neg (by omega), htake,
    hdrop]
  have hrow_eq : row_size_of image = size_mul (width_of image) 4 := by
    unfold row_size_of; rw [hch]
  change ∃ plane, (if size_mul (height_of image) (size_add (row_size_of image) (padding_of image))
      > payload_length image then _ else _) = _ ∧ _
  unfold copied_rows
  rw [if_pos hch.symm, hrow_eq]
  by_cases hH0 : height_of image = 0
  · have hext : extended_size_of image = 0 := by
      unfold extended_size_of size_mul; rw [hH0]; simp
    have hsz : size_mul (height_of image) (size_add (size_mul (width_of image) 4) (padding_of image))
        = 0 := by
      unfold size_mul; rw [hH0]; simp
    rw [hsz, if_neg (by omega), hext, aligned_size_zero]
    have hm1 : malloc alloc 1 64 = true := by
      unfold malloc PTRDIFF_MAX; rw [halloc]; decide
    rw [if_neg (by simp [hm1]), hH0, read_rows_4]
    exact ⟨_, rfl, Or.inl rfl⟩
  · -- the height field is not zero: the width field is not `INT32_MIN`
    have hhabs : 1 ≤ image.image_height.natAbs := by
      unfold height_of absolute to_size_t at hH0
      by_contra hc
      have : image.image_height = 0 := by omega
      rw [this] at hH0
      simp at hH0
    have hwn : image.image_width.natAbs ≤ 2 ^ 30 := by
      have : 1 * (4 * image.image_width.natAbs)
          ≤ image.image_height.natAbs * (4 * image.image_width.natAbs) :=
        Nat.mul_le_mul_right _ hhabs
      omega
    obtain ⟨hWabs, hWle⟩ := absolute_eq image.image_width (by omega) hw.2
    have hW : width_of image = image.image_width.natAbs := hWabs
    have hrow : size_mul (width_of image) 4 = 4 * width_of image := by
      rw [size_mul_eq _ _ (by omega)]; omega
    have hpad : padding_of image = 0 := by
      unfold padding_of
      rw [hbpp, hrow_eq, row_padding_eq 32 _ 4 (by omega) (by omega) (by omega)]
      omega
    -- the bytes of all rows
    have hN : height_of image * (4 * width_of image)
        = image.image_height.natAbs * (4 * image.image_width.natAbs) := by
      by_cases hhmin : image.image_height = -2 ^ 31
      · have h31 : image.image_height.natAbs = 2 ^ 31 := by omega
        rw [h31] at hfit
        have hw0 : image.image_width.natAbs = 0 := by omega
        rw [hW, hw0]; simp
      · have := (absolute_eq image.image_height (by omega) hh.2).1
        unfold height_of
        rw [this, hW]
    rw [hrow, hpad]
    have hsz : size_mul (height_of image) (size_add (4 * width_of image) 0)
        = height_of image * (4 * width_of image) := by
      rw [size_add_eq _ _ (by omega), Nat.add_zero, size_mul_eq _ _ (by omega)]
    have hext : extended_size_of image = height_of image * (4 * width_of image) := by
      unfold extended_size_of; rw [hrow, hpad]; exact hsz
    obtain ⟨hal, hau⟩ := aligned_size_bounds (extended_size_of image) (by omega)
    have hm1 : malloc alloc 1 (aligned_size (extended_size_of image)) = true := by
      unfold malloc PTRDIFF_MAX
      rw [halloc]
      simp only [Bool.and_true, decide_eq_true_eq]
      omega
    rw [hsz, if_neg (by omega), if_neg (by simp [hm1])]
    have e0 : height_of image * (4 * width_of image + 0)
        = height_of image * (4 * width_of image) := by rw [Nat.add_zero]
    obtain ⟨p1, hp1⟩ := read_rows_4_ok file.input (first_pixel_index image) (4 * width_of image) 0
      (height_of image) 0 0 (fresh junk (aligned_size (extended_size_of image))) (by omega)
      (by omega) (by omega) (by omega) (by rw [fresh_length]; omega)
    obtain ⟨hl, hrows, _⟩ := read_rows_4_spec _ _ _ _ _ _ _ _ _ hp1 (by omega) (by omega)
      (by omega)
    rw [hp1]
    refine ⟨_, rfl, Or.inr ⟨by omega, by omega, ?_, ?_⟩⟩
    · rw [zero_fill_length, hl, fresh_length]; omega
    · intro y k hy hk
      have hlt := mul_add_lt_mul y k _ _ hy hk
      obtain ⟨a, _, _⟩ := hrows y k hy hk
      rw [zero_fill_below _ _ _ _ (by omega)]
      rw [Nat.zero_add, Nat.add_zero] at a
      exact a

/-- The header writer when the stream accepts the headers: the file header and
the declared number of bytes from `dib_header` on go out. -/
theorem write_headers_ok (file : FILE) (image : bmp_image)
    (hfh : image.file_header.length = 14) (hd0 : 0 < image.dib_header_size)
    (hd : image.dib_header_size ≤ (image.dib_header ++ image.rest_of_dib_header).length)
    (hroom : 14 + image.dib_header_size ≤ file.room) :
    bmp_write_image_headers (some file) (some image) =
      .done ⟨some { file with
          output := file.output ++ image.file_header
            ++ (image.dib_header ++ image.rest_of_dib_header).take image.dib_header_size
          room := file.room - 14 - image.dib_header_size },
        some image, none⟩ := by
  have hl : ((image.dib_header ++ image.rest_of_dib_header).take image.dib_header_size).length
      = image.dib_header_size := by
    rw [List.length_take]; omega
  simp only [bmp_write_image_headers]
  rw [fwrite_ok image.file_header file (by omega) (by omega)]
  simp only []
  rw [if_neg (by decide), if_neg (by omega), fwrite_ok _ _ (by omega) (by simp only []; omega)]
  simp only []
  rw [if_neg (by decide), hl, hfh]

/-- The header bytes of a zeroed record after the three header reads. -/
theorem stored_header_bytes (bytes : List Byte)
    (hd : 40 ≤ le32 bytes 14 ∧ le32 bytes 14 ≤ 296)
    (hlen : 14 + le32 bytes 14 ≤ bytes.length) :
    (headers_stored zeroed_image bytes).file_header = bytes.take 14 ∧
    ((headers_stored zeroed_image bytes).dib_header
        ++ (headers_stored zeroed_image bytes).rest_of_dib_header).take (le32 bytes 14)
      = (bytes.drop 14).take (le32 bytes 14) ∧
    ((headers_stored zeroed_image bytes).dib_header
        ++ (headers_stored zeroed_image bytes).rest_of_dib_header).length = 296 := by
  have hrest : rest_dib_header_size (le32 bytes 14) = le32 bytes 14 - 40 :=
    rest_dib_header_size_eq _ (le32_lt _ _)
  obtain ⟨x, hx⟩ : ∃ x, le32 bytes 14 = 40 + x := ⟨le32 bytes 14 - 40, by omega⟩
  rw [hx] at hd hlen hrest ⊢
  have hx' : 40 + x - 40 = x := by omega
  rw [hx'] at hrest
  have hl14 : (bytes.take 14).length = 14 := by rw [List.length_take]; omega
  have hl40 : ((bytes.drop 14).take 40).length = 40 := by
    rw [List.length_take, List.length_drop]; omega
  have hlx : ((bytes.drop 54).take x).length = x := by
    rw [List.length_take, List.length_drop]; omega
  simp only [headers_stored, zeroed_image, overwrite, REST_OF_DIB_HEADER_SIZE, hx, hrest, hl14,
    hl40, hlx]
  have e14 : (List.replicate 14 (0 : Byte)).drop 14 = [] := by decide
  have e40 : (List.replicate 40 (0 : Byte)).drop 40 = [] := by decide
  rw [e14, e40, List.append_nil, List.append_nil]
  refine ⟨rfl, ?_, ?_⟩
  · have hA : ∀ (A B C : List Byte), A.length = 40 → B.length = x →
        (A ++ (B ++ C)).take (40 + x) = A ++ B := by
      intro A B C hA hB
      rw [← hA, List.take_append, ← hB, List.take_left]
    rw [hA _ _ _ hl40 hlx, List.take_add, drop_drop_add]
  · simp only [List.length_append, hl40, hlx, List.length_drop, List.length_replicate]
    omega

/-! ## The round trip -/

/-- C1. 32-bit round trip: for every stream that is a valid bitmap of 32 bits
per pixel (valid signature; declared DIB header size between 40 and 296; the
`file_size` field equal to the length of the stream and above `14 + ` the
declared size; `14 + ` declared size `≤ pixel_array_offset < file_size`; the
pixel rows, `|height| * 4 * |width|` bytes, inside the stream after the pixel
offset), when memory is granted and the destination accepts as many bytes as
the stream holds, the four calls `bmp_open_image_headers`, `bmp_read_image_data`,
`bmp_write_image_headers`, `bmp_write_image_data` report no error and append to
the destination exactly the bytes of the stream. -/
theorem round_trip_32 (alloc : Nat → Nat → Bool) (junk : Nat → Byte)
    (source destination : FILE)
    (hmagic : byte_at source.input 0 = 0x42 ∧ byte_at source.input 1 = 0x4D)
    (hdecl : 40 ≤ le32 source.input 14 ∧ le32 source.input 14 ≤ 296)
    (hbpp : le16 source.input 28 = 32)
    (hsize : le32 source.input 2 = source.input.length ∧
      14 + le32 source.input 14 < le32 source.input 2)
    (hoff : 14 + le32 source.input 14 ≤ le32 source.input 10 ∧
      le32 source.input 10 < le32 source.input 2)
    (hfit : le32 source.input 10
        + (le32s source.input 22).natAbs * (4 * (le32s source.input 18).natAbs)
      ≤ source.input.length)
    (halloc : ∀ k n, alloc k n = true)
    (hroom : source.input.length ≤ destination.room) :
    transcode alloc junk source destination
      = .done (some (destination.output ++ source.input)) := by
  have hrest : rest_dib_header_size (le32 source.input 14) = le32 source.input 14 - 40 :=
    rest_dib_header_size_eq _ (le32_lt _ _)
  have hfs := le32_lt source.input 2
  have hopen := open_past_reads source zeroed_image hmagic (by omega) (by omega)
  rw [if_neg (by omega), if_neg (by omega), hbpp, if_neg (by decide), hrest] at hopen
  have e54 : 54 + (le32 source.input 14 - 40) = 14 + le32 source.input 14 := by omega
  rw [e54] at hopen
  obtain ⟨f1, f2, f3, f4, f5, f6, f7⟩ := stored_fields zeroed_image source.input 4 (by omega)
  obtain ⟨b1, b2, b3⟩ := stored_header_bytes source.input hdecl (by omega)
  have hdroplen : (source.input.drop (14 + le32 source.input 14)).length
      = source.input.length - (14 + le32 source.input 14) := List.length_drop _ _
  have hP : payload_length { headers_stored zeroed_image source.input with channels := 4 }
      = source.input.length - (14 + le32 source.input 14) := by
    unfold payload_length
    rw [f1, f3, size_add_eq _ _ (by omega), size_sub_eq _ _ (by omega) (by omega)]
    omega
  have hfpi : first_pixel_index { headers_stored zeroed_image source.input with channels := 4 }
      = le32 source.input 10 - (14 + le32 source.input 14) := by
    unfold first_pixel_index
    rw [f2, f3, size_add_eq _ _ (by omega), size_sub_eq _ _ (by omega) (by omega)]
  obtain ⟨plane, hread, hrows⟩ := read_valid_4 alloc junk
    { source with input := source.input.drop (14 + le32 source.input 14) }
    { headers_stored zeroed_image source.input with channels := 4 } halloc f7
    (by rw [f6]; exact hbpp)
    (by rw [hP]; exact hdroplen.symm) (by omega) (by omega) (by omega)
    (by rw [hfpi, hP, f4, f5]; omega)
  have hwh := write_headers_ok destination
    { measured { headers_stored zeroed_image source.input with channels := 4 }
        (source.input.drop (14 + le32 source.input 14)) with
      aligned_image_size := aligned_size (extended_size_of
        { headers_stored zeroed_image source.input with channels := 4 })
      pixels := some plane }
    (by
      change (headers_stored zeroed_image source.input).file_header.length = 14
      rw [b1, List.length_take]; omega)
    (by
      change 0 < bmp_image.dib_header_size
        { headers_stored zeroed_image source.input with channels := 4 }
      omega)
    (by
      change bmp_image.dib_header_size
          { headers_stored zeroed_image source.input with channels := 4 }
        ≤ ((headers_stored zeroed_image source.input).dib_header
          ++ (headers_stored zeroed_image source.input).rest_of_dib_header).length
      omega)
    (by
      change 14 + bmp_image.dib_header_size
          { headers_stored zeroed_image source.input with channels := 4 } ≤ destination.room
      omega)
  change bmp_write_image_headers _ _ = .done ⟨some { destination with
      output := destination.output ++ (headers_stored zeroed_image source.input).file_header
        ++ ((headers_stored zeroed_image source.input).dib_header
          ++ (headers_stored zeroed_image source.input).rest_of_dib_header).take
            (bmp_image.dib_header_size
              { headers_stored zeroed_image source.input with channels := 4 })
      room := destination.room - 14 - bmp_image.dib_header_size
        { headers_stored zeroed_image source.input with channels := 4 } }, _, none⟩ at hwh
  rw [f3, b1, b2] at hwh
  have hwd := write_data_same
    { destination with
      output := destination.output ++ source.input.take 14
        ++ (source.input.drop 14).take (le32 source.input 14)
      room := destination.room - 14 - le32 source.input 14 }
    { measured { headers_stored zeroed_image source.input with channels := 4 }
        (source.input.drop (14 + le32 source.input 14)) with
      aligned_image_size := aligned_size (extended_size_of
        { headers_stored zeroed_image source.input with channels := 4 })
      pixels := some plane }
    (source.input.drop (14 + le32 source.input 14)) plane rfl rfl f7
    (by
      change payload_length { headers_stored zeroed_image source.input with channels := 4 } = _
      rw [hP, hdroplen])
    (by omega) (by omega) (by simp only []; omega) hrows
  unfold transcode bmp_init_image_structure
  simp only []
  rw [hopen]
  simp only []
  rw [if_neg (by simp), hread]
  simp only []
  rw [if_neg (by simp), hwh]
  simp only []
  rw [if_neg (by simp), hwd]
  simp only []
  rw [if_neg (by simp)]
  simp only [Option.map_some']
  have hout : destination.output ++ source.input.take 14
        ++ (source.input.drop 14).take (le32 source.input 14)
        ++ source.input.drop (14 + le32 source.input 14)
      = destination.output ++ source.input := by
    rw [List.append_assoc, List.append_assoc, ← List.append_assoc (source.input.take 14),
      ← List.take_add, List.take_append_drop]
  rw [hout]

set_option maxRecDepth 100000 in
/-- The stream `sample_32`, a top-down bitmap of 32 bits per pixel with bytes
between the headers and the pixel array and after it, comes out as it went in. -/
theorem round_trip_32_witness :
    transcode (fun _ _ => true) (fun _ => 0) ⟨sample_32, [], 0⟩ ⟨[], [], 73⟩
      = .done (some ([] ++ sample_32)) :=
  round_trip_32 (fun _ _ => true) (fun _ => 0) ⟨sample_32, [], 0⟩ ⟨[], [], 73⟩
    (by decide) (by decide) (by decide) (by decide) (by decide) (by decide)
    (fun _ _ => rfl) (by decide)

set_option maxRecDepth 100000 in
/-- The stream `sample_24` is parsed and read without error, and its record
holds a payload and a plane of a 3-channel image. -/
theorem normalisation_reference_witness :
    ∃ stored payload pixels,
      sample_24_loaded.image = some stored ∧ stored.payload = some payload ∧
      stored.pixels = some pixels ∧ (stored.channels = 3 ∨ stored.channels = 4) := by
  obtain ⟨stored, payload, pixels, h1, h2, h3, h4, _⟩ :=
    normalisation_reference (fun _ _ => true) (fun _ => 0) ⟨sample_24, [], 0⟩ zeroed_image
      ⟨sample_24.drop 54, [], 0⟩ { headers_stored zeroed_image sample_24 with channels := 3 }
      sample_24_loaded (by decide) (by decide) (by decide)
  exact ⟨stored, payload, pixels, h1, h2, h3, h4⟩

set_option maxRecDepth 100000 in
/-- The pixels of the plane decoded from `sample_24`: each pixel triple followed
by 255, the padding bytes of the file left out. -/
theorem sample_24_plane :
    sample_24_loaded.image.bind (fun stored => stored.pixels.map (List.take 16))
      = some [1, 2, 3, 255, 4, 5, 6, 255, 11, 12, 13, 255, 14, 15, 16, 255] := by
  decide

/-! ## Rows of more than `2 ^ 29` pixels -/

/-- A row of more than `2 ^ 29` pixels at the start of the plane, with a step
budget that covers it: the run ends at the copy before the plane. -/
theorem expand_row_wide_fault (raw : List Byte) (source row_size : Nat)
    (hrow : 3 * 2 ^ 29 < row_size) (m : Nat) :
    ∀ (k fuel : Nat) (pixels : List Byte), k + m = 2 ^ 29 → m < fuel →
    expand_row raw source 0 row_size fuel ((3 * k : Nat) : Int) (to_int ((4 * k : Nat) : Int))
        pixels = .fault .out_of_bounds := by
  induction m with
  | zero =>
    intro k fuel pixels hk hfuel
    have hk' : k = 2 ^ 29 := by omega
    subst hk'
    have hc : to_size_t ((3 * 2 ^ 29 : Nat) : Int) < row_size := by
      rw [to_size_t_natCast _ (by omega)]; exact hrow
    cases fuel with
    | zero => omega
    | succ fuel =>
      rw [expand_row, if_pos hc]
      have hj : to_int ((4 * 2 ^ 29 : Nat) : Int) = -2 ^ 31 := by decide
      rw [hj]
      have : memcpy_at pixels (((0 : Nat) : Int) + -2 ^ 31) raw
          ((source : Int) + ((3 * 2 ^ 29 : Nat) : Int)) 3 = .fault .out_of_bounds := by
        unfold memcpy_at
        rw [if_pos (Or.inl (by omega))]
      rw [this, and_then_fault]
  | succ m ih =>
    intro k fuel pixels hk hfuel
    have hc : to_size_t ((3 * k : Nat) : Int) < row_size := by
      rw [to_size_t_natCast _ (by omega)]; omega
    cases fuel with
    | zero => omega
    | succ fuel =>
      rw [expand_row, if_pos hc]
      cases h1 : memcpy_at pixels (((0 : Nat) : Int) + to_int ((4 * k : Nat) : Int)) raw
          ((source : Int) + ((3 * k : Nat) : Int)) 3 with
      | fault f => rw [memcpy_at_fault _ _ _ _ _ _ h1, and_then_fault]
      | done p1 =>
        rw [and_then_done]
        cases h2 : store_at p1 (((0 : Nat) : Int) + to_int ((4 * k : Nat) : Int) + 3) 255 with
        | fault f => rw [store_at_fault _ _ _ _ h2, and_then_fault]
        | done p2 =>
          rw [and_then_done]
          have e1 : to_int (((3 * k : Nat) : Int) + 3) = ((3 * (k + 1) : Nat) : Int) := by
            rw [to_int_eq _ (by omega) (by omega)]; omega
          have e2 : to_int (to_int ((4 * k : Nat) : Int) + 4)
              = to_int ((4 * (k + 1) : Nat) : Int) := by
            rw [to_int_eq ((4 * k : Nat) : Int) (by omega) (by omega)]
            congr 1
          rw [e1, e2]
          exact ih (k + 1) fuel p2 (by omega) (by omega)

/-- The reader on a record that is not of 4 channels, with at least one row
and rows of more than `3 * 2 ^ 29` bytes, once every check is passed: the
first row is not copied to its end. -/
theorem read_wide_row_fault (alloc : Nat → Nat → Bool) (junk : Nat → Byte) (file : FILE)
    (image : bmp_image)
    (hmem : malloc alloc 0 (payload_length image) = true)
    (hpos : 0 < payload_length image) (hfull : payload_length image ≤ file.input.length)
    (hoff : first_pixel_index image < payload_length image)
    (hsz : size_mul (height_of image) (size_add (row_size_of image) (padding_of image))
      ≤ payload_length image)
    (hmem1 : malloc alloc 1 (aligned_size (extended_size_of image)) = true)
    (hch : ¬ 4 = image.channels) (hH : 0 < height_of image)
    (hrow : 3 * 2 ^ 29 < row_size_of image) :
    bmp_read_image_data alloc junk (some file) (some image) = .fault .out_of_bounds := by
  rw [read_past_payload alloc junk file image hmem hpos hfull, if_neg (by omega)]
  change (if size_mul (height_of image) (size_add (row_size_of image) (padding_of image))
    > payload_length image then _ else _) = _
  rw [if_neg (by omega), if_neg (by simp [hmem1])]
  unfold copied_rows
  rw [if_neg hch]
  obtain ⟨n, hn⟩ : ∃ n, height_of image = n + 1 := ⟨height_of image - 1, by omega⟩
  rw [hn, read_rows_3]
  have hwide := expand_row_wide_fault (file.input.take (payload_length image))
    (first_pixel_index image + 0) (row_size_of image) hrow (2 ^ 29) 0 (row_size_of image)
    (fresh junk (aligned_size (extended_size_of image))) (by omega) (by omega)
  rw [show ((3 * 0 : Nat) : Int) = 0 from by simp, show to_int 0 = 0 from by decide] at hwide
  rw [hwide, and_then_fault]

/-- The pipeline stops where the reader stops. -/
theorem transcode_read_fault (alloc : Nat → Nat → Bool) (junk : Nat → Byte)
    (source destination file : FILE) (image : bmp_image) (reason : Fault)
    (hopen : bmp_open_image_headers (some source) (some zeroed_image)
      = ⟨some file, some image, none⟩)
    (hread : bmp_read_image_data alloc junk (some file) (some image) = .fault reason) :
    transcode alloc junk source destination = .fault reason := by
  unfold transcode bmp_init_image_structure
  simp only []
  rw [hopen]
  simp only []
  rw [if_neg (by simp), hread]

theorem sample_wide_length : sample_wide.length = 1610612794 := by
  unfold sample_wide
  rw [List.length_append, List.length_replicate]
  have : (sample_header 1610612794 54 40 (2 ^ 29 + 1) 1 24).length = 54 := by decide
  rw [this]

set_option maxRecDepth 100000 in
theorem sample_wide_fields :
    byte_at sample_wide 0 = 0x42 ∧ byte_at sample_wide 1 = 0x4D ∧
    le32 sample_wide 2 = 1610612794 ∧ le32 sample_wide 10 = 54 ∧ le32 sample_wide 14 = 40 ∧
    le32s sample_wide 18 = 2 ^ 29 + 1 ∧ le32s sample_wide 22 = 1 ∧ le16 sample_wide 28 = 24 := by
  decide

/-- C2. The stream `sample_wide` is a valid bitmap of 24 bits per pixel (valid
signature, declared DIB header size 40, `file_size` equal to its length, pixel
offset 54, one row of `2 ^ 29 + 1` pixels and one padding byte ending with the
stream), yet decoding it does not reach the end: in the inner loop of the
3-channel branch the `int` counter `j` reaches `2 ^ 31`, wraps around, and the
copy of pixel `2 ^ 29` lies before the plane. -/
theorem round_trip_24_wide_row :
    (byte_at sample_wide 0 = 0x42 ∧ byte_at sample_wide 1 = 0x4D ∧
      le32 sample_wide 14 = 40 ∧ le16 sample_wide 28 = 24 ∧
      le32 sample_wide 2 = sample_wide.length ∧ le32 sample_wide 10 = 54 ∧
      le32 sample_wide 10
          + (le32s sample_wide 22).natAbs
            * (3 * (le32s sample_wide 18).natAbs
              + row_padding 24 (le32s sample_wide 18).natAbs
                  (3 * (le32s sample_wide 18).natAbs))
        = sample_wide.length) ∧
    transcode (fun _ _ => true) (fun _ => 0) ⟨sample_wide, [], 0⟩ ⟨[], [], 2 ^ 32⟩
      = .fault .out_of_bounds := by
  obtain ⟨g0, g1, g2, g10, g14, g18, g22, g28⟩ := sample_wide_fields
  have hlen := sample_wide_length
  constructor
  · rw [g0, g1, g2, g10, g14, g18, g22, g28, hlen]
    decide
  have hrest : rest_dib_header_size (le32 sample_wide 14) = 0 := by rw [g14]; decide
  have hopen := open_past_reads ⟨sample_wide, [], 0⟩ zeroed_image ⟨g0, g1⟩
    (by dsimp only; rw [hrest]; omega) (by dsimp only; rw [hrest, hlen]; omega)
  dsimp only at hopen
  rw [if_neg (by omega), if_neg (by omega), g28, if_pos rfl, hrest] at hopen
  obtain ⟨f1, f2, f3, f4, f5, f6, f7⟩ := stored_fields zeroed_image sample_wide 3 (by omega)
  have hP : payload_length { headers_stored zeroed_image sample_wide with channels := 3 }
      = 1610612740 := by
    unfold payload_length; rw [f1, f3, g2, g14]; decide
  have hfpi : first_pixel_index { headers_stored zeroed_image sample_wide with channels := 3 }
      = 0 := by
    unfold first_pixel_index; rw [f2, f3, g10, g14]; decide
  have hW : width_of { headers_stored zeroed_image sample_wide with channels := 3 }
      = 2 ^ 29 + 1 := by
    unfold width_of; rw [f4, g18]; decide
  have hH : height_of { headers_stored zeroed_image sample_wide with channels := 3 } = 1 := by
    unfold height_of; rw [f5, g22]; decide
  have hrow : row_size_of { headers_stored zeroed_image sample_wide with channels := 3 }
      = 3 * (2 ^ 29 + 1) := by
    unfold row_size_of; rw [hW, f7]; decide
  have hpad : padding_of { headers_stored zeroed_image sample_wide with channels := 3 } = 1 := by
    unfold padding_of; rw [hW, hrow, f6, g28]; decide
  have hext : extended_size_of { headers_stored zeroed_image sample_wide with channels := 3 }
      = 2147483653 := by
    unfold extended_size_of; rw [hW, hH, hpad]; decide
  exact transcode_read_fault _ _ _ _ _ _ _ hopen
    (read_wide_row_fault _ _ _ _ (by rw [hP]; decide) (by rw [hP]; decide)
      (by
        change payload_length _ ≤ (sample_wide.drop (54 + 0)).length
        rw [hP, List.length_drop, hlen])
      (by rw [hfpi, hP]; decide) (by rw [hH, hrow, hpad, hP]; decide)
      (by rw [hext]; decide) (by rw [f7]; decide) (by rw [hH]; decide)
      (by rw [hrow]; decide))

/-! ## The image-size check on fields other than `INT32_MIN` -/

/-- The image-size check when neither the width nor the height field holds
`INT32_MIN`: once the pixel offset is accepted, `bmp_read_image_data` reports
`Failed_to_Calculate_Padding` if and only if `H * (channels * W + padding)`
exceeds the payload size, `W` and `H` being the magnitudes of the two fields. -/
theorem image_size_rejection_in_range (alloc : Nat → Nat → Bool) (junk : Nat → Byte)
    (file : FILE) (image : bmp_image)
    (hmem : malloc alloc 0 (payload_length image) = true)
    (hfull : (fread (payload_length image) file).count = 1)
    (hoff : first_pixel_index image < payload_length image)
    (hdepth : (image.channels = 3 ∧ image.bits_per_pixel = 24) ∨
      (image.channels = 4 ∧ image.bits_per_pixel = 32))
    (hw : image.image_width ≠ -2 ^ 31) (hh : image.image_height ≠ -2 ^ 31) :
    (∃ loaded, bmp_read_image_data alloc junk (some file) (some image) = .done loaded ∧
        loaded.error_message = some .Failed_to_Calculate_Padding)
      ↔ image.image_height.natAbs
          * (image.channels * image.image_width.natAbs
            + ((image.bits_per_pixel * image.image_width.natAbs + 31) / 32 * 4
              - image.channels * image.image_width.natAbs))
        > payload_length image := by
  obtain ⟨hpos, hlen⟩ := fread_count_one _ _ hfull
  have hwr : -2 ^ 31 ≤ image.image_width ∧ image.image_width < 2 ^ 31 := le32s_range _ _
  have hhr : -2 ^ 31 ≤ image.image_height ∧ image.image_height < 2 ^ 31 := le32s_range _ _
  obtain ⟨hWabs, hWle⟩ := absolute_eq image.image_width (by omega) hwr.2
  obtain ⟨hHabs, hHle⟩ := absolute_eq image.image_height (by omega) hhr.2
  have hsize : size_mul (height_of image) (size_add (row_size_of image) (padding_of image))
      = image.image_height.natAbs
          * (image.channels * image.image_width.natAbs
            + ((image.bits_per_pixel * image.image_width.natAbs + 31) / 32 * 4
              - image.channels * image.image_width.natAbs)) := by
    unfold padding_of row_size_of width_of height_of
    rw [hWabs, hHabs] at *
    rcases hdepth with ⟨hc, hb⟩ | ⟨hc, hb⟩
    · rw [hc, hb, row_padding_eq 24 _ 3 hWle (by omega) (by omega),
        size_mul_eq _ 3 (by omega), size_add_eq _ _ (by omega)]
      have hb2 : image.image_width.natAbs * 3
          + ((24 * image.image_width.natAbs + 31) / 32 * 4 - 3 * image.image_width.natAbs)
          ≤ 2 ^ 33 := by omega
      have := Nat.mul_le_mul hHle hb2
      rw [size_mul_eq _ _ (by omega), Nat.mul_comm image.image_width.natAbs 3]
    · rw [hc, hb, row_padding_eq 32 _ 4 hWle (by omega) (by omega),
        size_mul_eq _ 4 (by omega), size_add_eq _ _ (by omega)]
      have hb2 : image.image_width.natAbs * 4
          + ((32 * image.image_width.natAbs + 31) / 32 * 4 - 4 * image.image_width.natAbs)
          ≤ 2 ^ 33 := by omega
      have := Nat.mul_le_mul hHle hb2
      rw [size_mul_eq _ _ (by omega), Nat.mul_comm image.image_width.natAbs 4]
  rw [← hsize, read_past_payload alloc junk file image hmem hpos hlen, if_neg (by omega)]
  change (∃ loaded, (if size_mul (height_of image)
      (size_add (row_size_of image) (padding_of image)) > payload_length image then _ else _)
        = Run.done loaded ∧ _) ↔ _
  by_cases hc : size_mul (height_of image) (size_add (row_size_of image) (padding_of image))
      > payload_length image
  · rw [if_pos hc]
    exact ⟨fun _ => hc, fun _ => ⟨_, rfl, rfl⟩⟩
  · rw [if_neg hc]
    refine ⟨?_, fun h => absurd h hc⟩
    rintro ⟨loaded, hl, he⟩
    split_ifs at hl with h2
    · injection hl with hl; subst hl; simp at he
    · cases hrows : copied_rows junk image (file.input.take (payload_length image)) with
      | fault f => rw [hrows] at hl; simp at hl
      | done pixels =>
        rw [hrows] at hl
        injection hl with hl; subst hl; simp at he

/-! ## The 3-channel loops on rows of at most `2 ^ 29` pixels -/

theorem memcpy_at_ok (destination : List Byte) (d : Nat) (source : List Byte) (s n : Nat)
    (hs : s + n ≤ source.length) (hd : d + n ≤ destination.length) :
    memcpy_at destination (d : Int) source (s : Int) n
      = .done (destination.take d ++ ((source.drop s).take n ++ destination.drop (d + n))) := by
  unfold memcpy_at
  rw [if_neg (by omega)]
  simp only [Int.toNat_ofNat]
  exact memcpy_ok _ _ _ _ _ hs hd

theorem store_at_ok (buffer : List Byte) (d : Nat) (value : Byte) (h : d < buffer.length) :
    store_at buffer (d : Int) value = .done (buffer.set d value) := by
  unfold store_at
  rw [if_neg (by simp only [Int.toNat_ofNat]; omega)]
  simp only [Int.toNat_ofNat]

/-- The inner loop of the 3-channel branch of the reader runs to its end on a
row of at most `2 ^ 29` pixels that lies inside the two buffers. -/
theorem expand_row_ok (raw : List Byte) (source dest W : Nat) (hW : W ≤ 2 ^ 29)
    (hraw : source + 3 * W ≤ raw.length) (fuel : Nat) :
    ∀ (k : Nat) (pixels : List Byte), k ≤ W → W - k ≤ fuel → dest + 4 * W ≤ pixels.length →
    ∃ out, expand_row raw source dest (3 * W) fuel ((3 * k : Nat) : Int)
      (to_int ((4 * k : Nat) : Int)) pixels = .done out := by
  induction fuel with
  | zero =>
    intro k pixels hk hfuel _
    rw [expand_row, to_size_t_natCast _ (by omega), if_neg (by omega)]
    exact ⟨pixels, rfl⟩
  | succ fuel ih =>
    intro k pixels hk hfuel hpix
    rw [expand_row, to_size_t_natCast _ (by omega)]
    by_cases hc : 3 * k < 3 * W
    · rw [if_pos hc]
      have ej : to_int ((4 * k : Nat) : Int) = ((4 * k : Nat) : Int) :=
        to_int_eq _ (by omega) (by omega)
      have ed : ((dest : Nat) : Int) + ((4 * k : Nat) : Int) = ((dest + 4 * k : Nat) : Int) := by
        omega
      have es : ((source : Nat) : Int) + ((3 * k : Nat) : Int) = ((source + 3 * k : Nat) : Int) := by
        omega
      have ed3 : ((dest + 4 * k : Nat) : Int) + 3 = ((dest + 4 * k + 3 : Nat) : Int) := by omega
      have e1 : to_int (((3 * k : Nat) : Int) + 3) = ((3 * (k + 1) : Nat) : Int) := by
        rw [to_int_eq _ (by omega) (by omega)]; omega
      have e2 : ((4 * k : Nat) : Int) + 4 = ((4 * (k + 1) : Nat) : Int) := by omega
      rw [ej, ed, es, ed3, e1, e2, memcpy_at_ok _ _ _ _ _ (by omega) (by omega), and_then_done,
        store_at_ok _ _ _ (by rw [length_copied _ _ _ _ _ (by omega) (by omega)]; omega),
        and_then_done]
      apply ih (k + 1) _ (by omega) (by omega)
      rw [List.length_set, length_copied _ _ _ _ _ (by omega) (by omega)]
      exact hpix
    · rw [if_neg hc]
      exact ⟨pixels, rfl⟩

/-- The 3-channel row loop of the reader runs to its end when the rows, of at
most `2 ^ 29` pixels, lie inside the two buffers. -/
theorem read_rows_3_ok (raw : List Byte) (raw_pixels W padding : Nat) (hW : W ≤ 2 ^ 29)
    (rows : Nat) :
    ∀ (src dest : Nat) (pixels : List Byte),
    3 * W + padding < 2 ^ 64 →
    src + rows * (3 * W + padding) < 2 ^ 64 → dest + rows * (4 * W) < 2 ^ 64 →
    raw_pixels + src + rows * (3 * W + padding) ≤ raw.length →
    dest + rows * (4 * W) ≤ pixels.length →
    ∃ out, read_rows_3 raw raw_pixels (3 * W) padding (4 * W) rows src dest pixels = .done out := by
  induction rows with
  | zero => intro src dest pixels _ _ _ _ _; exact ⟨pixels, rfl⟩
  | succ n ih =>
    intro src dest pixels hrp hsrc hdest hraw hpix
    have e1 : (n + 1) * (3 * W + padding) = n * (3 * W + padding) + (3 * W + padding) :=
      Nat.succ_mul _ _
    have e2 : (n + 1) * (4 * W) = n * (4 * W) + 4 * W := Nat.succ_mul _ _
    rw [read_rows_3]
    have hrow := expand_row_ok raw (raw_pixels + src) dest W hW (by omega) (3 * W) 0 pixels
      (by omega) (by omega) (by omega)
    rw [show ((3 * 0 : Nat) : Int) = 0 from by simp, show to_int 0 = 0 from by decide] at hrow
    obtain ⟨p1, hp1⟩ := hrow
    have hspec := expand_row_spec raw (raw_pixels + src) dest W hW (3 * W) 0 pixels p1 (by omega)
    rw [show ((3 * 0 : Nat) : Int) = 0 from by simp, show to_int 0 = 0 from by decide] at hspec
    obtain ⟨hl, _, _, _⟩ := hspec hp1
    rw [hp1, and_then_done, size_add_eq (3 * W) padding hrp, size_add_eq src _ (by omega),
      size_add_eq dest (4 * W) (by omega)]
    exact ih _ _ _ hrp (by omega) (by omega) (by omega) (by omega)

/-! ## The 3-channel loops of the writer on a plane that holds the rows of the payload -/

theorem copied_same (destination : List Byte) (d : Nat) (source : List Byte) (s n : Nat)
    (hs : s + n ≤ source.length) (hd : d + n ≤ destination.length)
    (hsame : ∀ c, c < n → source[s + c]? = destination[d + c]?) :
    destination.take d ++ ((source.drop s).take n ++ destination.drop (d + n)) = destination := by
  apply List.ext_getElem?
  intro i
  rw [getElem?_copied _ _ _ _ _ hs hd]
  by_cases h : d ≤ i ∧ i < d + n
  · rw [if_pos h, hsame (i - d) (by omega)]
    congr 1
    omega
  · rw [if_neg h]

/-- The inner loop of the 3-channel branch of the writer leaves the payload as
it is when the row of the plane holds the colour bytes of the row of the
payload. -/
theorem pack_row_same (pixels payload : List Byte) (source dest W : Nat) (hW : W ≤ 2 ^ 29)
    (hpix : source + 4 * W ≤ pixels.length) (hpay : dest + 3 * W ≤ payload.length)
    (hsame : ∀ x c, x < W → c < 3 → pixels[source + 4 * x + c]? = payload[dest + 3 * x + c]?)
    (fuel : Nat) :
    ∀ (k : Nat), k ≤ W → W - k ≤ fuel →
    pack_row pixels source dest (3 * W) fuel ((3 * k : Nat) : Int)
      (to_int ((4 * k : Nat) : Int)) payload = .done payload := by
  induction fuel with
  | zero =>
    intro k hk hfuel
    rw [pack_row, to_size_t_natCast _ (by omega), if_neg (by omega)]
  | succ fuel ih =>
    intro k hk hfuel
    rw [pack_row, to_size_t_natCast _ (by omega)]
    by_cases hc : 3 * k < 3 * W
    · rw [if_pos hc]
      have ej : to_int ((4 * k : Nat) : Int) = ((4 * k : Nat) : Int) :=
        to_int_eq _ (by omega) (by omega)
      have ed : ((dest : Nat) : Int) + ((3 * k : Nat) : Int) = ((dest + 3 * k : Nat) : Int) := by
        omega
      have es : ((source : Nat) : Int) + ((4 * k : Nat) : Int) = ((source + 4 * k : Nat) : Int) := by
        omega
      have e1 : to_int (((3 * k : Nat) : Int) + 3) = ((3 * (k + 1) : Nat) : Int) := by
        rw [to_int_eq _ (by omega) (by omega)]; omega
      have e2 : ((4 * k : Nat) : Int) + 4 = ((4 * (k + 1) : Nat) : Int) := by omega
      rw [ej, ed, es, e1, e2, memcpy_at_ok _ _ _ _ _ (by omega) (by omega),
        copied_same _ _ _ _ _ (by omega) (by omega)
          (fun c hc3 => by
            have := hsame k c (by omega) hc3
            rw [Nat.add_assoc, Nat.add_assoc]
            rw [Nat.add_assoc, Nat.add_assoc] at this
            exact this),
        and_then_done]
      exact ih (k + 1) (by omega) (by omega)
    · rw [if_neg hc]

/-- The 3-channel row loop of the writer gives back the payload when the plane
holds the colour bytes of the rows of that payload. -/
theorem write_rows_3_same (pixels payload : List Byte) (raw_pixels W padding : Nat)
    (hW : W ≤ 2 ^ 29) (hrp : 3 * W + padding < 2 ^ 64) (rows : Nat) :
    ∀ (src dest : Nat),
    src + rows * (4 * W) < 2 ^ 64 → dest + rows * (3 * W + padding) < 2 ^ 64 →
    raw_pixels + dest + rows * (3 * W + padding) ≤ payload.length →
    src + rows * (4 * W) ≤ pixels.length →
    (∀ y x c, y < rows → x < W → c < 3 →
      pixels[src + y * (4 * W) + 4 * x + c]?
        = payload[raw_pixels + dest + y * (3 * W + padding) + 3 * x + c]?) →
    write_rows_3 pixels raw_pixels (3 * W) padding (4 * W) rows src dest payload
      = .done payload := by
  induction rows with
  | zero => intro src dest _ _ _ _ _; rfl
  | succ n ih =>
    intro src dest hsrc hdest hpay hpix hsame
    have e1 : (n + 1) * (3 * W + padding) = n * (3 * W + padding) + (3 * W + padding) :=
      Nat.succ_mul _ _
    have e2 : (n + 1) * (4 * W) = n * (4 * W) + 4 * W := Nat.succ_mul _ _
    rw [write_rows_3]
    have hrow := pack_row_same pixels payload src (raw_pixels + dest) W hW (by omega) (by omega)
      (fun x c hx hc => by
        have := hsame 0 x c (by omega) hx hc
        rw [Nat.zero_mul, Nat.zero_mul, Nat.add_zero, Nat.add_zero] at this
        exact this)
      (3 * W) 0 (by omega) (by omega)
    rw [show ((3 * 0 : Nat) : Int) = 0 from by simp, show to_int 0 = 0 from by decide] at hrow
    rw [hrow, and_then_done, size_add_eq (3 * W) padding hrp, size_add_eq src _ (by omega),
      size_add_eq dest _ (by omega)]
    apply ih _ _ (by omega) (by omega) (by omega) (by omega)
    intro y x c hy hx hc
    have := hsame (y + 1) x c (by omega) hx hc
    have e3 : (y + 1) * (4 * W) = y * (4 * W) + 4 * W := Nat.succ_mul _ _
    have e4 : (y + 1) * (3 * W + padding) = y * (3 * W + padding) + (3 * W + padding) :=
      Nat.succ_mul _ _
    have e5 : src + 4 * W + y * (4 * W) + 4 * x + c = src + (y + 1) * (4 * W) + 4 * x + c := by
      omega
    have e6 : raw_pixels + (dest + (3 * W + padding)) + y * (3 * W + padding) + 3 * x + c
        = raw_pixels + dest + (y + 1) * (3 * W + padding) + 3 * x + c := by omega
    rw [e5, e6]
    exact this

/-! ## The reader on a valid 24-bit record with rows of at most `2 ^ 29` pixels -/

/-- The reader on a 24-bit record whose payload is the rest of the stream,
whose rows hold at most `2 ^ 29` pixels and, with their padding, fit in the
payload after the pixel offset: it reports no error, and the plane holds the
colour bytes of the rows of the payload. -/
theorem read_valid_3 (alloc : Nat → Nat → Bool) (junk : Nat → Byte) (file : FILE)
    (image : bmp_image) (halloc : ∀ k n, alloc k n = true)
    (hch : image.channels = 3) (hbpp : image.bits_per_pixel = 24)
    (hP : payload_length image = file.input.length) (hpos : 0 < payload_length image)
    (hPlt : payload_length image < 2 ^ 32)
    (hoff : first_pixel_index image < payload_length image)
    (hwide : image.image_width.natAbs ≤ 2 ^ 29)
    (hfit : first_pixel_index image
        + image.image_height.natAbs * (3 * image.image_width.natAbs
          + ((24 * image.image_width.natAbs + 31) / 32 * 4 - 3 * image.image_width.natAbs))
        ≤ payload_length image) :
    ∃ plane,
      bmp_read_image_data alloc junk (some file) (some image) =
        .done ⟨some { file with input := [] },
          some { measured image file.input with
            aligned_image_size := aligned_size (extended_size_of image)
            pixels := some plane }, none⟩ ∧
      (height_of image = 0 ∨
        (width_of image ≤ 2 ^ 29 ∧
          size_mul (width_of image) 3 = 3 * width_of image ∧
          size_mul (width_of image) 4 = 4 * width_of image ∧
          3 * width_of image + padding_of image < 2 ^ 64 ∧
          first_pixel_index image
            + height_of image * (3 * width_of image + padding_of image) ≤ file.input.length ∧
          height_of image * (4 * width_of image) ≤ plane.length ∧
          ∀ y x c, y < height_of image → x < width_of image → c < 3 →
            plane[y * (4 * width_of image) + 4 * x + c]?
              = file.input[first_pixel_index image
                  + y * (3 * width_of image + padding_of image) + 3 * x + c]?)) := by
  have hw : -2 ^ 31 ≤ image.image_width ∧ image.image_width < 2 ^ 31 := le32s_range _ _
  have hh : -2 ^ 31 ≤ image.image_height ∧ image.image_height < 2 ^ 31 := le32s_range _ _
  have hmem : malloc alloc 0 (payload_length image) = true := by
    unfold malloc PTRDIFF_MAX
    rw [halloc]
    simp only [Bool.and_true, decide_eq_true_eq]
    omega
  have htake : file.input.take (payload_length image) = file.input := by
    rw [hP]; exact List.take_of_length_le (Nat.le_refl _)
  have hdrop : file.input.drop (payload_length image) = [] := by
    rw [hP]; exact List.drop_of_length_le (Nat.le_refl _)
  rw [read_past_payload alloc junk file image hmem hpos (by omega), if_neg (by omega), htake,
    hdrop]
  obtain ⟨hWabs, hWle⟩ := absolute_eq image.image_width (by omega) hw.2
  have hW : width_of image = image.image_width.natAbs := hWabs
  have hW29 : width_of image ≤ 2 ^ 29 := by rw [hW]; exact hwide
  have hrow3 : size_mul (width_of image) 3 = 3 * width_of image := by
    rw [size_mul_eq _ _ (by omega)]; omega
  have hrow4 : size_mul (width_of image) 4 = 4 * width_of image := by
    rw [size_mul_eq _ _ (by omega)]; omega
  have hrow_eq : row_size_of image = 3 * width_of image := by
    unfold row_size_of; rw [hch]; exact hrow3
  have hpad : padding_of image
      = (24 * width_of image + 31) / 32 * 4 - 3 * width_of image := by
    unfold padding_of row_size_of
    rw [hbpp, hch]
    exact row_padding_eq 24 (width_of image) 3 (by omega) (by omega) (by omega)
  rw [← hW, ← hpad] at hfit
  change ∃ plane, (if size_mul (height_of image) (size_add (row_size_of image) (padding_of image))
      > payload_length image then _ else _) = _ ∧ _
  unfold copied_rows
  rw [if_neg (show ¬ (4 = image.channels) from by rw [hch]; decide), hrow_eq, hrow4]
  by_cases hH0 : height_of image = 0
  · have hext : extended_size_of image = 0 := by
      unfold extended_size_of size_mul; rw [hH0]; simp
    have hsz : size_mul (height_of image) (size_add (3 * width_of image) (padding_of image))
        = 0 := by
      unfold size_mul; rw [hH0]; simp
    rw [hsz, if_neg (by omega), hext, aligned_size_zero]
    have hm1 : malloc alloc 1 64 = true := by
      unfold malloc PTRDIFF_MAX; rw [halloc]; decide
    rw [if_neg (by simp [hm1]), hH0, read_rows_3]
    exact ⟨_, rfl, Or.inl rfl⟩
  · have hpadlt : padding_of image < 4 := by rw [hpad]; omega
    -- the bytes of all rows
    have hN : height_of image * (3 * width_of image + padding_of image)
        = image.image_height.natAbs * (3 * width_of image + padding_of image) := by
      by_cases hhmin : image.image_height = -2 ^ 31
      · have h31 : image.image_height.natAbs = 2 ^ 31 := by omega
        rw [h31] at hfit
        have hw0 : 3 * width_of image + padding_of image = 0 := by omega
        rw [hw0]; simp
      · have := (absolute_eq image.image_height (by omega) hh.2).1
        unfold height_of
        rw [this]
    rw [← hN] at hfit
    have hle4 : height_of image * (4 * width_of image + padding_of image)
        ≤ height_of image * (3 * width_of image + padding_of image)
          + height_of image * (3 * width_of image + padding_of image) := by
      rw [← Nat.mul_add]
      exact Nat.mul_le_mul_left _ (by omega)
    have hle : height_of image * (4 * width_of image)
        ≤ height_of image * (4 * width_of image + padding_of image) :=
      Nat.mul_le_mul_left _ (by omega)
    have hsz : size_mul (height_of image) (size_add (3 * width_of image) (padding_of image))
        = height_of image * (3 * width_of image + padding_of image) := by
      rw [size_add_eq _ _ (by omega), size_mul_eq _ _ (by omega)]
    have hext : extended_size_of image
        = height_of image * (4 * width_of image + padding_of image) := by
      unfold extended_size_of
      rw [hrow4, size_add_eq _ _ (by omega), size_mul_eq _ _ (by omega)]
    obtain ⟨hal, hau⟩ := aligned_size_bounds (extended_size_of image) (by omega)
    have hm1 : malloc alloc 1 (aligned_size (extended_size_of image)) = true := by
      unfold malloc PTRDIFF_MAX
      rw [halloc]
      simp only [Bool.and_true, decide_eq_true_eq]
      omega
    rw [hsz, if_neg (by omega), if_neg (by simp [hm1])]
    obtain ⟨p1, hp1⟩ := read_rows_3_ok file.input (first_pixel_index image) (width_of image)
      (padding_of image) hW29 (height_of image) 0 0
      (fresh junk (aligned_size (extended_size_of image))) (by omega)
      (by omega) (by omega) (by omega) (by rw [fresh_length]; omega)
    obtain ⟨hl, hrows, _, _⟩ := read_rows_3_spec _ _ _ _ hW29 _ _ _ _ _ hp1 (by omega)
      (by omega) (by omega)
    rw [hp1]
    refine ⟨_, rfl, Or.inr ⟨hW29, hrow3, rfl, by omega, by omega, ?_, ?_⟩⟩
    · rw [zero_fill_length, hl, fresh_length]; omega
    · intro y x c hy hx hc
      have hlt := mul_add_lt_mul y (4 * x + c) _ (4 * width_of image) hy (by omega)
      obtain ⟨a, _, _⟩ := hrows y x c hy hx hc
      rw [zero_fill_below _ _ _ _ (by omega)]
      rw [Nat.zero_add, Nat.add_zero] at a
      exact a

/-! ## Teardown and failed reads -/

theorem release_buffers_eq (image : bmp_image) :
    release_buffers image = { image with payload := none, pixels := none } := by
  obtain ⟨fh, dh, rest, ps, payload, rp, pixels, aw, ah, prp, isz, asz, ch⟩ := image
  unfold release_buffers
  cases payload <;> cases pixels <;> simp

/-- A read that reports an error: the error is one of the four of the reader,
the payload is absent, and the plane is absent when it was absent on entry or
when the error is not the one about memory. -/
theorem read_failure (alloc : Nat → Nat → Bool) (junk : Nat → Byte) (file : FILE)
    (image : bmp_image) (loaded : bmp_result)
    (h : bmp_read_image_data alloc junk (some file) (some image) = .done loaded)
    (herr : loaded.error_message ≠ none) :
    ∃ stored, loaded.image = some stored ∧ stored.payload = none ∧
      (image.pixels = none ∨ loaded.error_message ≠ some .Not_Enough_Memory_to_Read
        → stored.pixels = none) ∧
      (loaded.error_message = some .Not_Enough_Memory_to_Read ∨
        loaded.error_message = some .Failed_to_Read_Image_Data ∨
        loaded.error_message = some .Invalid_Pixel_Offset_or_DIB_Header_Size ∨
        loaded.error_message = some .Failed_to_Calculate_Padding) := by
  by_cases hmem : malloc alloc 0 (payload_length image) = true
  swap
  · simp only [bmp_read_image_data] at h
    rw [if_pos (by simpa using hmem)] at h
    injection h with h; subst h
    refine ⟨_, rfl, rfl, ?_, Or.inl rfl⟩
    intro hp
    rcases hp with hp | hp
    · exact hp
    · exact absurd rfl hp
  by_cases hcount : (fread (payload_length image) file).count = 1
  swap
  · simp only [bmp_read_image_data] at h
    rw [if_neg (by simp [hmem])] at h
    have hz : (fread (payload_length image) file).count = 0 := by
      unfold fread at hcount ⊢
      split_ifs at hcount ⊢ <;> simp_all
    rw [if_pos hz] at h
    injection h with h; subst h
    exact ⟨_, rfl, release_buffers_payload _, fun _ => release_buffers_pixels _,
      Or.inr (Or.inl rfl)⟩
  obtain ⟨hpos, hlen⟩ := fread_count_one _ _ hcount
  rw [read_past_payload alloc junk file image hmem hpos hlen] at h
  split_ifs at h with c1 c2 c3
  · injection h with h; subst h
    exact ⟨_, rfl, release_buffers_payload _, fun _ => release_buffers_pixels _,
      Or.inr (Or.inr (Or.inl rfl))⟩
  · injection h with h; subst h
    exact ⟨_, rfl, release_buffers_payload _, fun _ => release_buffers_pixels _,
      Or.inr (Or.inr (Or.inr rfl))⟩
  · injection h with h; subst h
    exact ⟨_, rfl, release_buffers_payload _, fun _ => release_buffers_pixels _, Or.inl rfl⟩
  · cases hrows : copied_rows junk image (file.input.take (payload_length image)) with
    | fault f => rw [hrows] at h; simp at h
    | done pixels =>
      rw [hrows] at h
      injection h with h
      subst h
      exact absurd rfl herr

/-- A record parsed into a freshly initialised one holds no buffer. -/
theorem open_fresh_buffers (source : FILE) (blank : bmp_image) (file : FILE) (image : bmp_image)
    (h : bmp_open_image_headers (some source) (bmp_init_image_structure (some blank))
      = ⟨some file, some image, none⟩) :
    image.payload = none ∧ image.pixels = none := by
  obtain ⟨_, _, _, _, _, _, himg⟩ := open_success source zeroed_image file image h
  subst himg
  exact ⟨rfl, rfl⟩

/-- C14. Teardown is idempotent: `bmp_free_image_structure` applied twice gives
what it gives applied once; after it the payload and the plane are both absent
and every other field is as before; on a record whose payload and plane are
already absent, such as a freshly initialised one, and on an absent record it
changes nothing. -/
theorem teardown_idempotent :
    (∀ image : Option bmp_image,
      bmp_free_image_structure (bmp_free_image_structure image)
        = bmp_free_image_structure image) ∧
    (∀ image : bmp_image,
      bmp_free_image_structure (some image)
        = some { image with payload := none, pixels := none }) ∧
    (∀ image : bmp_image, image.payload = none → image.pixels = none →
      bmp_free_image_structure (some image) = some image) ∧
    bmp_free_image_structure (bmp_init_image_structure (some zeroed_image))
      = bmp_init_image_structure (some zeroed_image) ∧
    bmp_free_image_structure none = none := by
  refine ⟨?_, ?_, ?_, rfl, rfl⟩
  · intro image
    cases image with
    | none => rfl
    | some image =>
      simp only [bmp_free_image_structure]
      rw [release_buffers_eq, release_buffers_eq]
  · intro image
    simp only [bmp_free_image_structure]
    rw [release_buffers_eq]
  · intro image hp hx
    simp only [bmp_free_image_structure]
    rw [release_buffers_eq]
    obtain ⟨fh, dh, rest, ps, payload, rp, pixels, aw, ah, prp, isz, asz, ch⟩ := image
    simp only [] at hp hx
    subst hp hx
    rfl

/-- The teardown of the record `zeroed_image`, whose buffers are absent, gives
that record. -/
theorem teardown_idempotent_witness :
    zeroed_image.payload = none ∧ zeroed_image.pixels = none ∧
      bmp_free_image_structure (some zeroed_image) = some zeroed_image :=
  ⟨rfl, rfl, teardown_idempotent.2.2.1 zeroed_image rfl rfl⟩

/-- C13. Failure leaves no buffers behind: when `bmp_read_image_data`, called on
the record and stream that `bmp_open_image_headers` left after parsing into a
freshly initialised record, reports an error, the error is the one about memory
(payload or plane), the one about reading the payload, the one about the pixel
offset or the one about the padding, and on return the payload and the plane of
the record are both absent. -/
theorem failure_leaves_no_buffers (alloc : Nat → Nat → Bool) (junk : Nat → Byte)
    (source : FILE) (blank : bmp_image) (file : FILE) (image : bmp_image) (loaded : bmp_result)
    (hopen : bmp_open_image_headers (some source) (bmp_init_image_structure (some blank))
      = ⟨some file, some image, none⟩)
    (hread : bmp_read_image_data alloc junk (some file) (some image) = .done loaded)
    (herr : loaded.error_message ≠ none) :
    ∃ stored, loaded.image = some stored ∧ stored.payload = none ∧ stored.pixels = none ∧
      (loaded.error_message.map bmp_error.kind = some .OutOfMemory ∨
        loaded.error_message.map bmp_error.kind = some .PayloadReadFailure ∨
        loaded.error_message.map bmp_error.kind = some .InvalidPixelOffset ∨
        loaded.error_message.map bmp_error.kind = some .PaddingCalculationFailure) ∧
      bmp_free_image_structure loaded.image = loaded.image := by
  obtain ⟨stored, h1, h2, h3, h4⟩ := read_failure alloc junk file image loaded hread herr
  have hx := h3 (Or.inl (open_fresh_buffers source blank file image hopen).2)
  refine ⟨stored, h1, h2, hx, ?_, ?_⟩
  · rcases h4 with h | h | h | h
    · left; rw [h]; rfl
    · right; left; rw [h]; rfl
    · right; right; left; rw [h]; rfl
    · right; right; right; rw [h]; rfl
  · rw [h1]
    simp only [bmp_free_image_structure]
    rw [release_buffers_eq]
    obtain ⟨fh, dh, rest, ps, payload, rp, pixels, aw, ah, prp, isz, asz, ch⟩ := stored
    simp only [] at h2 hx
    subst h2 hx
    rfl

/-! ## The headers on the way out -/

/-- The header bytes of a zeroed record after the three header reads, for a
declared size below 40. -/
theorem stored_header_bytes_short (bytes : List Byte) (hd : le32 bytes 14 < 40)
    (hlen : 54 ≤ bytes.length) :
    (headers_stored zeroed_image bytes).file_header = bytes.take 14 ∧
    ((headers_stored zeroed_image bytes).dib_header
        ++ (headers_stored zeroed_image bytes).rest_of_dib_header).take (le32 bytes 14)
      = (bytes.drop 14).take (le32 bytes 14) ∧
    ((headers_stored zeroed_image bytes).dib_header
        ++ (headers_stored zeroed_image bytes).rest_of_dib_header).length = 296 := by
  have hrest : rest_dib_header_size (le32 bytes 14) = 0 := by
    rw [rest_dib_header_size_eq _ (le32_lt _ _)]; omega
  have hl14 : (bytes.take 14).length = 14 := by rw [List.length_take]; omega
  have hl40 : ((bytes.drop 14).take 40).length = 40 := by
    rw [List.length_take, List.length_drop]; omega
  simp only [headers_stored, zeroed_image, overwrite, REST_OF_DIB_HEADER_SIZE, hrest, hl14,
    hl40, List.take_zero, List.length_nil, List.drop_zero, List.nil_append]
  have e14 : (List.replicate 14 (0 : Byte)).drop 14 = [] := by decide
  have e40 : (List.replicate 40 (0 : Byte)).drop 40 = [] := by decide
  rw [e14, e40, List.append_nil, List.append_nil]
  refine ⟨rfl, ?_, ?_⟩
  · rw [List.take_append_of_le_length (by omega), List.take_take,
      Nat.min_eq_left (by omega)]
  · simp only [List.length_append, hl40, List.length_replicate]

/-- The header writer on a record parsed into a zeroed one: what goes out is
the start of the stream the record was parsed from. -/
theorem write_headers_back (source : FILE) (file : FILE) (image : bmp_image)
    (destination : FILE)
    (hopen : bmp_open_image_headers (some source) (some zeroed_image)
      = ⟨some file, some image, none⟩)
    (hroom : 14 + le32 source.input 14 ≤ destination.room) :
    14 + le32 source.input 14 ≤ source.input.length ∧
    le32 source.input 14 ≤ 296 ∧
    ∃ written error,
      bmp_write_image_headers (some destination) (some image)
        = .done ⟨some written, some image, error⟩ ∧
      written.output
        = destination.output ++ source.input.take (14 + le32 source.input 14) ∧
      (error = none ↔ 0 < le32 source.input 14) := by
  obtain ⟨hmagic, hrest, hlen, hdepth, hsize, hfile, himg⟩ :=
    open_success source zeroed_image file image hopen
  have hr := rest_dib_header_size_eq (le32 source.input 14) (le32_lt _ _)
  obtain ⟨_, _, f3, _, _, _, _⟩ := stored_fields zeroed_image source.input
    (if 24 = le16 source.input 28 then 3 else 4) (by omega)
  rw [← himg] at f3
  have hb : image.file_header = source.input.take 14 ∧
      (image.dib_header ++ image.rest_of_dib_header).take (le32 source.input 14)
        = (source.input.drop 14).take (le32 source.input 14) ∧
      (image.dib_header ++ image.rest_of_dib_header).length = 296 := by
    rw [himg]
    by_cases hd : le32 source.input 14 < 40
    · exact stored_header_bytes_short source.input hd (by omega)
    · exact stored_header_bytes source.input ⟨by omega, by omega⟩ (by omega)
  obtain ⟨b1, b2, b3⟩ := hb
  have hl14 : image.file_header.length = 14 := by rw [b1, List.length_take]; omega
  have hjoin : source.input.take 14 ++ (source.input.drop 14).take (le32 source.input 14)
      = source.input.take (14 + le32 source.input 14) := by
    rw [List.take_add]
  refine ⟨by omega, by omega, ?_⟩
  by_cases hd0 : 0 < le32 source.input 14
  · have hw := write_headers_ok destination image hl14 (by rw [f3]; exact hd0)
      (by rw [f3, b3]; omega) (by rw [f3]; exact hroom)
    rw [f3, b1, b2] at hw
    refine ⟨_, none, hw, ?_, by simp [hd0]⟩
    simp only []
    rw [List.append_assoc, hjoin]
  · have hd : le32 source.input 14 = 0 := by omega
    simp only [bmp_write_image_headers]
    rw [fwrite_ok image.file_header destination (by omega) (by omega)]
    simp only []
    rw [if_neg (by decide), if_neg (by rw [f3]; omega), f3, hd]
    simp only [List.take_zero, fwrite, List.length_nil, if_true]
    refine ⟨_, _, rfl, ?_, by simp⟩
    simp only []
    rw [b1]

/-- C12. Headers are written back verbatim: for every stream on which
`bmp_open_image_headers`, parsing into a freshly initialised record, succeeded,
with `d` the declared DIB header size, the stream holds at least `14 + d` bytes,
`d` is at most 296, and `bmp_write_image_headers` on a destination that accepts
`14 + d` bytes emits exactly `14 + d` bytes, equal to the first `14 + d` bytes
of the stream: the 14 bytes of the file header, the 40 bytes of the core and,
for `40 < d`, the `d - 40` extra header bytes. It reports no error unless
`d = 0`. -/
theorem headers_written_verbatim (source : FILE) (blank : bmp_image) (file : FILE)
    (image : bmp_image) (destination : FILE)
    (hopen : bmp_open_image_headers (some source) (bmp_init_image_structure (some blank))
      = ⟨some file, some image, none⟩)
    (hroom : 14 + le32 source.input 14 ≤ destination.room) :
    le32 source.input 14 ≤ 296 ∧
    ∃ written error emitted,
      bmp_write_image_headers (some destination) (some image)
        = .done ⟨some written, some image, error⟩ ∧
      written.output = destination.output ++ emitted ∧
      emitted.length = 14 + le32 source.input 14 ∧
      emitted = source.input.take (14 + le32 source.input 14) ∧
      (40 < le32 source.input 14 →
        emitted.drop 54 = (source.input.drop 54).take (le32 source.input 14 - 40)) ∧
      (error = none ↔ 0 < le32 source.input 14) := by
  obtain ⟨hlen, hd, written, error, hw, hout, herr⟩ :=
    write_headers_back source file image destination hopen hroom
  refine ⟨hd, written, error, _, hw, hout, ?_, rfl, ?_, herr⟩
  · rw [List.length_take]; omega
  · intro h40
    have e : 14 + le32 source.input 14 = 54 + (le32 source.input 14 - 40) := by omega
    rw [e, List.take_add, List.drop_append_of_le_length (by rw [List.length_take]; omega)]
    have hl : (source.input.take 54).length = 54 := by rw [List.length_take]; omega
    rw [List.drop_of_length_le (by omega), List.nil_append]

/-! ## Images without pixels -/

theorem absolute_zero : absolute 0 = 0 := by decide

theorem row_padding_zero (bits_per_pixel : Nat) : row_padding bits_per_pixel 0 0 = 0 := by
  unfold row_padding size_sub size_mul size_add
  simp

theorem memcpy_nothing (destination : List Byte) (d : Nat) (source : List Byte) (s : Nat)
    (hs : s ≤ source.length) (hd : d ≤ destination.length) :
    memcpy destination d source s 0 = .done destination := by
  rw [memcpy_ok _ _ _ _ _ (by omega) (by omega)]
  simp

/-- The 4-channel row loop of the reader on rows of no bytes leaves the plane
as it is. -/
theorem read_rows_4_empty (raw : List Byte) (raw_pixels : Nat) (pixels : List Byte)
    (hraw : raw_pixels ≤ raw.length) (rows : Nat) :
    read_rows_4 raw raw_pixels 0 0 rows 0 0 pixels = .done pixels := by
  induction rows with
  | zero => rfl
  | succ n ih =>
    rw [read_rows_4, memcpy_nothing _ _ _ _ (by omega) (by omega)]
    exact ih

/-- The 3-channel row loop of the reader on rows of no pixels leaves the plane
as it is. -/
theorem read_rows_3_empty (raw : List Byte) (raw_pixels : Nat) (pixels : List Byte)
    (rows : Nat) :
    read_rows_3 raw raw_pixels 0 0 0 rows 0 0 pixels = .done pixels := by
  induction rows with
  | zero => rfl
  | succ n ih =>
    rw [read_rows_3, expand_row, if_neg (by decide), and_then_done]
    exact ih

/-- Clearing a buffer from its start to its end leaves zeros only. -/
theorem zero_fill_all (pixels : List Byte) :
    zero_fill pixels.length 0 pixels = List.replicate pixels.length 0 := by
  apply List.ext_getElem?
  intro i
  by_cases h : i < pixels.length
  · rw [zero_fill_at _ _ _ _ (by omega) (by omega) h, List.getElem?_replicate, if_pos h]
  · rw [List.getElem?_eq_none (by rw [zero_fill_length]; omega),
      List.getElem?_eq_none (by rw [List.length_replicate]; omega)]

/-- The geometry of a record whose width field or height field is 0: no row
bytes at all. -/
theorem zero_geometry (image : bmp_image)
    (hzero : image.image_width = 0 ∨ image.image_height = 0) :
    size_mul (height_of image) (size_add (row_size_of image) (padding_of image)) = 0 ∧
    extended_size_of image = 0 ∧
    (height_of image = 0 ∨
      (row_size_of image = 0 ∧ padding_of image = 0 ∧ size_mul (width_of image) 4 = 0)) := by
  rcases hzero with hw | hh
  · have hW : width_of image = 0 := by unfold width_of; rw [hw]; exact absolute_zero
    have hrow : row_size_of image = 0 := by unfold row_size_of size_mul; rw [hW]; simp
    have hpad : padding_of image = 0 := by
      unfold padding_of; rw [hW, hrow]; exact row_padding_zero _
    have h4 : size_mul (width_of image) 4 = 0 := by unfold size_mul; rw [hW]; simp
    refine ⟨?_, ?_, Or.inr ⟨hrow, hpad, h4⟩⟩
    · rw [hrow, hpad]; unfold size_mul size_add; simp
    · unfold extended_size_of; rw [h4, hpad]; unfold size_mul size_add; simp
  · have hH : height_of image = 0 := by unfold height_of; rw [hh]; exact absolute_zero
    refine ⟨?_, ?_, Or.inl hH⟩
    · rw [hH]; unfold size_mul; simp
    · unfold extended_size_of; rw [hH]; unfold size_mul; simp

/-- The row loops of the reader on a record whose width field or height field
is 0 leave the fresh plane as it is. -/
theorem copied_rows_zero (junk : Nat → Byte) (image : bmp_image) (data : List Byte)
    (hraw : first_pixel_index image ≤ data.length)
    (hzero : image.image_width = 0 ∨ image.image_height = 0) :
    copied_rows junk image data = .done (fresh junk 64) := by
  obtain ⟨_, hext, hg⟩ := zero_geometry image hzero
  unfold copied_rows
  rw [hext, aligned_size_zero]
  rcases hg with hH | ⟨hrow, hpad, h4⟩
  · rw [hH]
    by_cases hc : 4 = image.channels
    · rw [if_pos hc, read_rows_4]
    · rw [if_neg hc, read_rows_3]
  · rw [hrow, hpad, h4]
    by_cases hc : 4 = image.channels
    · rw [if_pos hc]; exact read_rows_4_empty _ _ _ hraw _
    · rw [if_neg hc]; exact read_rows_3_empty _ _ _ _

/-- C15. Zero dimensions are accepted: for every record whose payload was
allocated and read and whose pixel offset is valid, if the width field or the
height field is 0 and the 64 bytes of the plane are granted, then
`bmp_read_image_data` reports no error; the row loops leave the fresh plane as
it was (no pixel byte is copied); the image size and the size of the pixel
rows are 0; the allocated size, `((0 - 1) / 64 + 1) * 64 + 64` modulo `2 ^ 64`,
is exactly 64; and the plane is 64 zero bytes. -/
theorem zero_dimensions_accepted (alloc : Nat → Nat → Bool) (junk : Nat → Byte)
    (file : FILE) (image : bmp_image)
    (hmem : malloc alloc 0 (payload_length image) = true)
    (hfull : (fread (payload_length image) file).count = 1)
    (hoff : first_pixel_index image < payload_length image)
    (hplane : alloc 1 64 = true)
    (hzero : image.image_width = 0 ∨ image.image_height = 0) :
    bmp_read_image_data alloc junk (some file) (some image)
      = .done ⟨some { file with input := file.input.drop (payload_length image) },
          some { measured image (file.input.take (payload_length image)) with
            aligned_image_size := 64
            pixels := some (List.replicate 64 0) }, none⟩ ∧
    copied_rows junk image (file.input.take (payload_length image)) = .done (fresh junk 64) ∧
    (measured image (file.input.take (payload_length image))).image_size = 0 ∧
    height_of image * (4 * width_of image) = 0 ∧
    aligned_size (height_of image * (4 * width_of image)) = 64 ∧
    size_add (size_mul (size_add (size_sub 0 1 / 64) 1) 64) 64 = 64 := by
  obtain ⟨hpos, hlen⟩ := fread_count_one _ _ hfull
  obtain ⟨hsz, hext, hg⟩ := zero_geometry image hzero
  have hdata : (file.input.take (payload_length image)).length = payload_length image := by
    rw [List.length_take]; omega
  have hcopy := copied_rows_zero junk image (file.input.take (payload_length image))
    (by omega) hzero
  have hm1 : malloc alloc 1 64 = true := by
    unfold malloc PTRDIFF_MAX; rw [hplane]; decide
  have hrows : height_of image * (4 * width_of image) = 0 := by
    rcases hzero with hw | hh
    · have hW : width_of image = 0 := by unfold width_of; rw [hw]; exact absolute_zero
      rw [hW, Nat.mul_zero]
    · have hH : height_of image = 0 := by unfold height_of; rw [hh]; exact absolute_zero
      rw [hH, Nat.zero_mul]
  refine ⟨?_, hcopy, hsz, hrows, by rw [hrows]; exact aligned_size_zero, by decide⟩
  rw [read_past_payload alloc junk file image hmem hpos hlen, if_neg (by omega)]
  change (if size_mul (height_of image) (size_add (row_size_of image) (padding_of image))
      > payload_length image then _ else _) = _
  rw [hsz, if_neg (by omega), hext, aligned_size_zero, if_neg (by simp [hm1]), hcopy]
  have hz := zero_fill_all (fresh junk 64)
  rw [fresh_length] at hz
  simp only [Nat.sub_zero]
  rw [hz]

/-! ## Concrete runs of the reader -/

set_option maxRecDepth 100000 in
/-- C16. Zero-filled slack, on the stream `sample_24` (2 x 2 pixels of 24 bits,
rows of 6 pixel bytes and 2 padding bytes) when fresh memory holds `0xAA`: the
read succeeds, the absolute width and height are 2 and the plane has 128 bytes;
the bytes of the plane at the indices 16 to 19, beyond the last row of
`2 * 2 * 4 = 16` bytes, are `0xAA` and not 0; the bytes from index
`2 * (2 * 4 + 2) = 20` on are 0. -/
theorem slack_not_cleared_24 :
    bmp_open_image_headers (some ⟨sample_24, [], 0⟩) (bmp_init_image_structure (some zeroed_image))
      = ⟨some ⟨sample_24.drop 54, [], 0⟩,
          some { headers_stored zeroed_image sample_24 with channels := 3 }, none⟩ ∧
    bmp_read_image_data (fun _ _ => true) (fun _ => 0xAA) (some ⟨sample_24.drop 54, [], 0⟩)
        (some { headers_stored zeroed_image sample_24 with channels := 3 })
      = .done sample_24_dirty ∧
    sample_24_dirty.error_message = none ∧
    sample_24_dirty.image.map
        (fun stored => (stored.absolute_image_width, stored.absolute_image_height,
          stored.aligned_image_size, stored.pixels.map List.length))
      = some (2, 2, 128, some 128) ∧
    sample_24_dirty.image.bind (fun stored => stored.pixels.map (List.take 20))
      = some [1, 2, 3, 255, 4, 5, 6, 255, 11, 12, 13, 255, 14, 15, 16, 255,
          0xAA, 0xAA, 0xAA, 0xAA] ∧
    sample_24_dirty.image.bind (fun stored => stored.pixels.map (List.drop 20))
      = some (List.replicate 108 0) := by
  decide

set_option maxRecDepth 100000 in
/-- The stream `sample_32` when the payload is granted and the plane is not:
the read reports the error about memory and leaves no buffer. -/
theorem failure_leaves_no_buffers_witness :
    ∃ stored, sample_32_refused.image = some stored ∧ stored.payload = none ∧
      stored.pixels = none ∧
      (sample_32_refused.error_message.map bmp_error.kind = some .OutOfMemory ∨
        sample_32_refused.error_message.map bmp_error.kind = some .PayloadReadFailure ∨
        sample_32_refused.error_message.map bmp_error.kind = some .InvalidPixelOffset ∨
        sample_32_refused.error_message.map bmp_error.kind = some .PaddingCalculationFailure) ∧
      bmp_free_image_structure sample_32_refused.image = sample_32_refused.image :=
  failure_leaves_no_buffers (fun k _ => decide (k = 0)) (fun _ => 0) ⟨sample_32, [], 0⟩
    zeroed_image ⟨sample_32.drop 54, [], 0⟩
    { headers_stored zeroed_image sample_32 with channels := 4 } sample_32_refused
    (by decide) (by decide) (by decide)

set_option maxRecDepth 100000 in
/-- The headers of `sample_declared_296`, with 256 extra header bytes, go out
as the first 310 bytes of the stream. -/
theorem headers_written_verbatim_witness :
    le32 sample_declared_296 14 ≤ 296 ∧
    ∃ written error emitted,
      bmp_write_image_headers (some ⟨[], [], 310⟩)
          (some { headers_stored zeroed_image sample_declared_296 with channels := 3 })
        = .done ⟨some written,
            some { headers_stored zeroed_image sample_declared_296 with channels := 3 },
            error⟩ ∧
      written.output = [] ++ emitted ∧
      emitted.length = 14 + le32 sample_declared_296 14 ∧
      emitted = sample_declared_296.take (14 + le32 sample_declared_296 14) ∧
      (40 < le32 sample_declared_296 14 →
        emitted.drop 54
          = (sample_declared_296.drop 54).take (le32 sample_declared_296 14 - 40)) ∧
      (error = none ↔ 0 < le32 sample_declared_296 14) :=
  headers_written_verbatim ⟨sample_declared_296, [], 0⟩ zeroed_image
    ⟨sample_declared_296.drop 310, [], 0⟩
    { headers_stored zeroed_image sample_declared_296 with channels := 3 } ⟨[], [], 310⟩
    (by decide) (by decide)

set_option maxRecDepth 100000 in
/-- C20, counterexample. The stream `sample_compressed`, whose compression
field holds 1, is parsed and read without error; the compression field of the
decoded header is 1, and the plane holds the bytes of the payload as pixel
rows. -/
theorem compressed_stream_decoded :
    bmp_open_image_headers (some ⟨sample_compressed, [], 0⟩)
        (bmp_init_image_structure (some zeroed_image))
      = ⟨some ⟨sample_compressed.drop 54, [], 0⟩,
          some { headers_stored zeroed_image sample_compressed with channels := 4 }, none⟩ ∧
    bmp_read_image_data (fun _ _ => true) (fun _ => 0)
        (some ⟨sample_compressed.drop 54, [], 0⟩)
        (some { headers_stored zeroed_image sample_compressed with channels := 4 })
      = .done sample_compressed_loaded ∧
    sample_compressed_loaded.error_message = none ∧
    sample_compressed_loaded.image.map bmp_image.compression = some 1 ∧
    sample_compressed_loaded.image.bind (fun stored => stored.pixels.map (List.take 16))
      = some [1, 2, 3, 4, 5, 6, 7, 8, 11, 12, 13, 14, 15, 16, 17, 18] := by
  decide

/-! ## Clamped addressing -/

theorem UTILS_CLAMP_eq (x : Int) (max : Int) (hmax : 0 ≤ max) :
    0 ≤ UTILS_CLAMP x 0 max ∧ UTILS_CLAMP x 0 max ≤ max ∧
    (x < 0 → UTILS_CLAMP x 0 max = 0) ∧
    (0 ≤ x → x ≤ max → UTILS_CLAMP x 0 max = x) ∧
    (max ≤ x → UTILS_CLAMP x 0 max = max) ∧
    UTILS_CLAMP x 0 max = Min.min (Max.max x 0) max := by
  unfold UTILS_CLAMP UTILS_MIN UTILS_MAX
  split_ifs <;> omega

/-- The bound of a clamp in `bmp_sample_pixel`, `(ssize_t) size - 1`, for a size
that a plane can have. -/
theorem clamp_bound (size : Nat) (h1 : 1 ≤ size) (h2 : size < 2 ^ 62) :
    wrap_ssize_t (to_ssize_t size - 1) = (size : Int) - 1 := by
  unfold wrap_ssize_t to_ssize_t
  rw [Nat.mod_eq_of_lt (by omega), if_pos (by omega)]
  omega

/-- The offset `bmp_sample_pixel` computes, with the two clamped coordinates
named. -/
theorem sample_pixel_offset (W H : Nat) (x y : Int) (hW : 1 ≤ W) (hH : 1 ≤ H)
    (hplane : H * W * 4 < 2 ^ 64) :
    ∃ cx cy : Nat, cx ≤ W - 1 ∧ cy ≤ H - 1 ∧
      (cx : Int) = UTILS_CLAMP x 0 ((W : Int) - 1) ∧
      (cy : Int) = UTILS_CLAMP y 0 ((H : Int) - 1) ∧
      bmp_sample_pixel x y W H = 4 * (cy * W + cx) ∧
      4 * (cy * W + cx) + 4 ≤ H * W * 4 := by
  have hHW : 1 * W ≤ H * W := Nat.mul_le_mul_right W hH
  have hWH : H * 1 ≤ H * W := Nat.mul_le_mul_left H hW
  obtain ⟨x0, x1, _⟩ := UTILS_CLAMP_eq x ((W : Int) - 1) (by omega)
  obtain ⟨y0, y1, _⟩ := UTILS_CLAMP_eq y ((H : Int) - 1) (by omega)
  obtain ⟨cx, hcx⟩ : ∃ cx : Nat, (cx : Int) = UTILS_CLAMP x 0 ((W : Int) - 1) :=
    ⟨(UTILS_CLAMP x 0 ((W : Int) - 1)).toNat, by omega⟩
  obtain ⟨cy, hcy⟩ : ∃ cy : Nat, (cy : Int) = UTILS_CLAMP y 0 ((H : Int) - 1) :=
    ⟨(UTILS_CLAMP y 0 ((H : Int) - 1)).toNat, by omega⟩
  have hcxW : cx ≤ W - 1 := by omega
  have hcyH : cy ≤ H - 1 := by omega
  have hrow : cy * W ≤ (H - 1) * W := Nat.mul_le_mul_right W hcyH
  have hsub : (H - 1) * W = H * W - W := by rw [Nat.sub_mul, Nat.one_mul]
  refine ⟨cx, cy, hcxW, hcyH, hcx, hcy, ?_, by omega⟩
  unfold bmp_sample_pixel
  simp only []
  rw [clamp_bound W hW (by omega), clamp_bound H hH (by omega), ← hcx, ← hcy,
    to_size_t_natCast cx (by omega), to_size_t_natCast cy (by omega),
    size_mul_eq W 4 (by omega), size_mul_eq cx 4 (by omega)]
  have e : cy * (W * 4) = 4 * (cy * W) := by ring
  rw [size_mul_eq cy (W * 4) (by rw [e]; omega), size_add_eq _ _ (by rw [e]; omega), e]
  omega

/-- C17. Clamped addressing: for every width `W ≥ 1` and height `H ≥ 1` of a
plane of `H * W * 4` bytes (a size below `2 ^ 64`) and all signed `x`, `y`,
`bmp_sample_pixel` returns the offset `4 * (cy * W + cx)` with
`cx = min (max x 0) (W - 1)` and `cy = min (max y 0) (H - 1)`; sampling at any
`x < 0` gives the address of `x = 0`, sampling at any `x ≥ W` gives the address
of `x = W - 1`, and the 4 bytes addressed lie inside the plane. -/
theorem clamped_addressing (W H : Nat) (x y : Int) (hW : 1 ≤ W) (hH : 1 ≤ H)
    (hplane : H * W * 4 < 2 ^ 64) :
    (bmp_sample_pixel x y W H : Int)
      = 4 * (Min.min (Max.max y 0) ((H : Int) - 1) * W + Min.min (Max.max x 0) ((W : Int) - 1)) ∧
    (x < 0 → bmp_sample_pixel x y W H = bmp_sample_pixel 0 y W H) ∧
    ((W : Int) ≤ x → bmp_sample_pixel x y W H = bmp_sample_pixel ((W : Int) - 1) y W H) ∧
    bmp_sample_pixel x y W H + 4 ≤ H * W * 4 := by
  obtain ⟨cx, cy, _, _, hcx, hcy, hoff, hin⟩ := sample_pixel_offset W H x y hW hH hplane
  obtain ⟨_, _, xneg, _, xbig, xeq⟩ := UTILS_CLAMP_eq x ((W : Int) - 1) (by omega)
  obtain ⟨_, _, _, _, _, yeq⟩ := UTILS_CLAMP_eq y ((H : Int) - 1) (by omega)
  refine ⟨?_, ?_, ?_, by rw [hoff]; exact hin⟩
  · rw [hoff, ← xeq, ← yeq, ← hcx, ← hcy]
    push_cast
    ring
  · intro hx
    obtain ⟨cx0, cy0, _, _, hcx0, hcy0, hoff0, _⟩ := sample_pixel_offset W H 0 y hW hH hplane
    obtain ⟨_, _, _, zin, _, _⟩ := UTILS_CLAMP_eq 0 ((W : Int) - 1) (by omega)
    have e1 : cx = cx0 := by
      have := xneg hx
      have := zin (by omega) (by omega)
      omega
    have e2 : cy = cy0 := by omega
    rw [hoff, hoff0, e1, e2]
  · intro hx
    obtain ⟨cx1, cy1, _, _, hcx1, hcy1, hoff1, _⟩ :=
      sample_pixel_offset W H ((W : Int) - 1) y hW hH hplane
    obtain ⟨_, _, _, _, wbig, _⟩ := UTILS_CLAMP_eq ((W : Int) - 1) ((W : Int) - 1) (by omega)
    have e1 : cx = cx1 := by
      have := xbig (by omega)
      have := wbig (by omega)
      omega
    have e2 : cy = cy1 := by omega
    rw [hoff, hoff1, e1, e2]

/-- A plane of 3 x 2 pixels: sampling at `x = -5` and at `x = 8` in row 1. -/
theorem clamped_addressing_witness :
    (bmp_sample_pixel (-5) 1 3 2 : Int)
      = 4 * (Min.min (Max.max (1 : Int) 0) (((2 : Nat) : Int) - 1) * (3 : Nat)
          + Min.min (Max.max (-5 : Int) 0) (((3 : Nat) : Int) - 1)) ∧
    ((-5 : Int) < 0 → bmp_sample_pixel (-5) 1 3 2 = bmp_sample_pixel 0 1 3 2) ∧
    (((3 : Nat) : Int) ≤ -5 →
      bmp_sample_pixel (-5) 1 3 2 = bmp_sample_pixel (((3 : Nat) : Int) - 1) 1 3 2) ∧
    bmp_sample_pixel (-5) 1 3 2 + 4 ≤ 2 * 3 * 4 :=
  clamped_addressing 3 2 (-5) 1 (by decide) (by decide) (by decide)

/-! ## The blocking queue, one call after the other -/

theorem enqueue_appends {α : Type} (queue : sync_queue_t α) (data : α) :
    sync_queue_enqueue 0 0 queue data = ⟨⟨⟨queue.implementation.items ++ [data]⟩⟩, true⟩ := by
  unfold sync_queue_enqueue queue_push
  rw [if_neg (by decide)]
  simp only []
  rw [if_neg (by decide)]

theorem wait_not_needed {α : Type} (queue : sync_queue_t α) (waits : List Int)
    (h : queue_is_empty queue.implementation = false) :
    wait_until_not_empty queue waits = .left := by
  cases waits with
  | nil => rfl
  | cons res waits => rw [wait_until_not_empty, if_neg (by simp [h])]

theorem pop_front {α : Type} (queue : sync_queue_t α) (waits : List Int) (front : α)
    (rest : List α) (h : queue.implementation.items = front :: rest) :
    sync_queue_pop 0 waits 0 queue = ⟨⟨⟨rest⟩⟩, some front⟩ := by
  have hne : queue_is_empty queue.implementation = false := by
    unfold queue_is_empty; rw [h]; rfl
  unfold sync_queue_pop
  rw [if_neg (by decide), wait_not_needed queue waits hne]
  simp only [queue_pop, h]
  rw [if_neg (by decide)]

/-- A call of `sync_queue_pop` on an empty queue returns the null pointer and
leaves the queue empty. -/
theorem pop_empty {α : Type} (queue : sync_queue_t α) (waits : List Int)
    (h : queue.implementation.items = []) :
    sync_queue_pop 0 waits 0 queue = ⟨queue, none⟩ := by
  obtain ⟨⟨items⟩⟩ := queue
  simp only [] at h
  subst h
  unfold sync_queue_pop
  rw [if_neg (by decide)]
  cases wait_until_not_empty (⟨⟨[]⟩⟩ : sync_queue_t α) waits with
  | returned => rfl
  | left =>
    simp only [queue_pop]
    rw [if_neg (by decide)]

/-- What a sequence of calls delivers, followed by what it leaves in the queue,
is what the queue held followed by what the calls submitted. -/
theorem run_calls_fifo {α : Type} (calls : List (queue_call α)) :
    ∀ queue : sync_queue_t α,
      (run_calls calls queue).2 ++ (run_calls calls queue).1.implementation.items
        = queue.implementation.items ++ submitted calls := by
  induction calls with
  | nil => intro queue; simp [run_calls, submitted]
  | cons call calls ih =>
    intro queue
    cases call with
    | enqueue data =>
      rw [run_calls, enqueue_appends, submitted]
      simp only []
      rw [ih]
      simp
    | pop waits =>
      cases hitems : queue.implementation.items with
      | nil =>
        rw [run_calls, pop_empty queue waits hitems, submitted]
        simp only []
        rw [ih, hitems]
      | cons front rest =>
        rw [run_calls, pop_front queue waits front rest hitems, submitted]
        simp only [List.cons_append]
        rw [ih]

/-- C18. Queue FIFO delivery, with the state of the queue a sequence and the
calls made one after the other by one thread, the mutex never failing:
`sync_queue_enqueue` appends the item at the back and returns the queue;
`sync_queue_pop` on a non-empty queue removes and returns the front item; and
for every sequence of calls, from every state, the items returned followed by
the items left in the queue are the items the queue held followed by the items
submitted, in the order of submission: from the empty queue the items returned
are a prefix of the items submitted, so each is delivered at most once, in
submission order, none dropped or duplicated. -/
theorem queue_fifo_delivery {α : Type} :
    (∀ (queue : sync_queue_t α) (data : α),
      sync_queue_enqueue 0 0 queue data
        = ⟨⟨⟨queue.implementation.items ++ [data]⟩⟩, true⟩) ∧
    (∀ (queue : sync_queue_t α) (waits : List Int) (front : α) (rest : List α),
      queue.implementation.items = front :: rest →
      sync_queue_pop 0 waits 0 queue = ⟨⟨⟨rest⟩⟩, some front⟩) ∧
    (∀ (calls : List (queue_call α)) (queue : sync_queue_t α),
      (run_calls calls queue).2 ++ (run_calls calls queue).1.implementation.items
        = queue.implementation.items ++ submitted calls) ∧
    (∀ calls : List (queue_call α),
      (run_calls calls ⟨queue_init⟩).2 <+: submitted calls) :=
  ⟨enqueue_appends, pop_front, run_calls_fifo, fun calls =>
    ⟨(run_calls calls ⟨queue_init⟩).1.implementation.items, by
      rw [run_calls_fifo calls ⟨queue_init⟩]; rfl⟩⟩

/-- Three items submitted and popped in between: they come back in the order
of submission, and a call on the empty queue returns nothing. -/
theorem queue_fifo_delivery_witness :
    (⟨⟨[7, 8]⟩⟩ : sync_queue_t Nat).implementation.items = 7 :: [8] ∧
    sync_queue_pop 0 [0, 110] 0 (⟨⟨[7, 8]⟩⟩ : sync_queue_t Nat) = ⟨⟨⟨[8]⟩⟩, some 7⟩ ∧
    run_calls [.enqueue 1, .enqueue 2, .pop [], .enqueue 3, .pop [0], .pop [], .pop [110]]
        (⟨queue_init⟩ : sync_queue_t Nat)
      = (⟨⟨[]⟩⟩, [1, 2, 3]) :=
  ⟨rfl, queue_fifo_delivery.2.1 ⟨⟨[7, 8]⟩⟩ [0, 110] 7 [8] rfl, by decide⟩

/-! ## The compression field -/

theorem with_compression_length (bytes field : List Byte) (hlen : 34 ≤ bytes.length)
    (hfield : field.length = 4) : (with_compression bytes field).length = bytes.length := by
  unfold with_compression
  simp only [List.length_append, List.length_take, List.length_drop]
  omega

theorem byte_at_with_compression (bytes field : List Byte) (hlen : 34 ≤ bytes.length)
    (hfield : field.length = 4) (i : Nat) (hi : i < 30 ∨ 34 ≤ i) :
    byte_at (with_compression bytes field) i = byte_at bytes i := by
  have hl : (bytes.take 30).length = 30 := by rw [List.length_take]; omega
  unfold with_compression byte_at
  simp only [List.getD_eq_getElem?_getD]
  rcases hi with hi | hi
  · rw [List.getElem?_append_left (by omega), List.getElem?_take, if_pos hi]
  · rw [List.getElem?_append_right (by omega), List.getElem?_append_right (by omega),
      List.getElem?_drop, hl, hfield, show 34 + (i - 30 - 4) = i from by omega]

theorem le32_with_compression (bytes field : List Byte) (hlen : 34 ≤ bytes.length)
    (hfield : field.length = 4) (off : Nat) (hoff : off + 4 ≤ 30 ∨ 34 ≤ off) :
    le32 (with_compression bytes field) off = le32 bytes off := by
  unfold le32
  rw [byte_at_with_compression _ _ hlen hfield _ (by omega),
    byte_at_with_compression _ _ hlen hfield _ (by omega),
    byte_at_with_compression _ _ hlen hfield _ (by omega),
    byte_at_with_compression _ _ hlen hfield _ (by omega)]

theorem le16_with_compression (bytes field : List Byte) (hlen : 34 ≤ bytes.length)
    (hfield : field.length = 4) (off : Nat) (hoff : off + 2 ≤ 30 ∨ 34 ≤ off) :
    le16 (with_compression bytes field) off = le16 bytes off := by
  unfold le16
  rw [byte_at_with_compression _ _ hlen hfield _ (by omega),
    byte_at_with_compression _ _ hlen hfield _ (by omega)]

theorem le32_compression_field (bytes field : List Byte) (hlen : 34 ≤ bytes.length)
    (hfield : field.length = 4) : le32 (with_compression bytes field) 30 = le32 field 0 := by
  have hl : (bytes.take 30).length = 30 := by rw [List.length_take]; omega
  have hb : ∀ i, i < 4 → byte_at (with_compression bytes field) (30 + i) = byte_at field i := by
    intro i hi
    unfold with_compression byte_at
    simp only [List.getD_eq_getElem?_getD]
    rw [List.getElem?_append_right (by omega), List.getElem?_append_left (by omega), hl,
      show 30 + i - 30 = i from by omega]
  unfold le32
  rw [hb 0 (by omega), hb 1 (by omega), hb 2 (by omega), hb 3 (by omega)]

theorem drop_with_compression (bytes field : List Byte) (hlen : 34 ≤ bytes.length)
    (hfield : field.length = 4) (n : Nat) (hn : 34 ≤ n) :
    (with_compression bytes field).drop n = bytes.drop n := by
  apply List.ext_getElem?
  intro i
  have hl : (bytes.take 30).length = 30 := by rw [List.length_take]; omega
  unfold with_compression
  rw [List.getElem?_drop, List.getElem?_drop, List.getElem?_append_right (by omega),
    List.getElem?_append_right (by omega), List.getElem?_drop, hl, hfield]
  congr 1
  omega

/-- The compression field of the record after the header reads. -/
theorem stored_compression (blank : bmp_image) (bytes : List Byte) (c : Nat)
    (hlen : 54 ≤ bytes.length) :
    ({ headers_stored blank bytes with channels := c } : bmp_image).compression
      = le32 bytes 30 := by
  have hl40 : ((bytes.drop 14).take 40).length = 40 := by simp; omega
  simp only [bmp_image.compression, headers_stored]
  rw [le32_overwrite _ _ 16 (by omega), le32_take_drop _ 14 40 16 (by omega)]

/-- The reader consults the record through seven header fields only: where it
succeeds on one record it succeeds, with the same stream left and the same
plane, on every record with the same seven fields. -/
theorem read_same_fields (alloc : Nat → Nat → Bool) (junk : Nat → Byte) (file : FILE)
    (image other : bmp_image) (loaded : bmp_result)
    (h : bmp_read_image_data alloc junk (some file) (some image) = .done loaded)
    (hok : loaded.error_message = none)
    (hfs : other.file_size = image.file_size)
    (hpo : other.pixel_array_offset = image.pixel_array_offset)
    (hds : other.dib_header_size = image.dib_header_size)
    (hiw : other.image_width = image.image_width)
    (hih : other.image_height = image.image_height)
    (hbp : other.bits_per_pixel = image.bits_per_pixel)
    (hch : other.channels = image.channels) :
    ∃ stored plane,
      loaded.image = some stored ∧ stored.pixels = some plane ∧
      bmp_read_image_data alloc junk (some file) (some other)
        = .done ⟨loaded.file_descriptor,
            some { measured other (file.input.take (payload_length other)) with
              aligned_image_size := aligned_size (extended_size_of other)
              pixels := some plane }, none⟩ := by
  obtain ⟨hmem, hpos, hlen, hoff, hsz, hmem1, p1, hcopy, hloaded⟩ :=
    read_success alloc junk file image loaded h hok
  have eP : payload_length other = payload_length image := by
    unfold payload_length; rw [hfs, hds]
  have eF : first_pixel_index other = first_pixel_index image := by
    unfold first_pixel_index; rw [hpo, hds]
  have eW : width_of other = width_of image := by unfold width_of; rw [hiw]
  have eH : height_of other = height_of image := by unfold height_of; rw [hih]
  have eR : row_size_of other = row_size_of image := by unfold row_size_of; rw [eW, hch]
  have ePad : padding_of other = padding_of image := by
    unfold padding_of; rw [hbp, eW, eR]
  have eE : extended_size_of other = extended_size_of image := by
    unfold extended_size_of; rw [eH, eW, ePad]
  have eC : ∀ data, copied_rows junk other data = copied_rows junk image data := by
    intro data
    unfold copied_rows
    rw [hch, eF, eR, ePad, eH, eE, eW]
  change size_mul (height_of image) (size_add (row_size_of image) (padding_of image))
    ≤ payload_length image at hsz
  subst hloaded
  refine ⟨_, _, rfl, rfl, ?_⟩
  rw [read_past_payload alloc junk file other (by rw [eP]; exact hmem) (by omega) (by omega),
    if_neg (by omega)]
  change (if size_mul (height_of other) (size_add (row_size_of other) (padding_of other))
      > payload_length other then _ else _) = _
  rw [eH, eR, ePad, eP, if_neg (by omega), eE, if_neg (by simp [hmem1]), eC, hcopy]

/-- Header parsing does not consult the compression field: where it succeeds on
a stream it succeeds on the stream with any other four bytes in that field,
leaving the same stream and a record with the same fields otherwise. -/
theorem open_with_compression (source : FILE) (blank : bmp_image) (file : FILE)
    (image : bmp_image) (field : List Byte) (hfield : field.length = 4)
    (hopen : bmp_open_image_headers (some source) (some blank) = ⟨some file, some image, none⟩) :
    ∃ other,
      bmp_open_image_headers
          (some { source with input := with_compression source.input field }) (some blank)
        = ⟨some file, some other, none⟩ ∧
      other.compression = le32 field 0 ∧
      other.file_size = image.file_size ∧
      other.pixel_array_offset = image.pixel_array_offset ∧
      other.dib_header_size = image.dib_header_size ∧
      other.image_width = image.image_width ∧
      other.image_height = image.image_height ∧
      other.bits_per_pixel = image.bits_per_pixel ∧
      other.channels = image.channels := by
  obtain ⟨hmagic, hrest, hlen, hdepth, hsize, hfile, himg⟩ :=
    open_success source blank file image hopen
  have h34 : 34 ≤ source.input.length := by omega
  have e14 := le32_with_compression source.input field h34 hfield 14 (by omega)
  have e2 := le32_with_compression source.input field h34 hfield 2 (by omega)
  have e10 := le32_with_compression source.input field h34 hfield 10 (by omega)
  have e18 := le32_with_compression source.input field h34 hfield 18 (by omega)
  have e22 := le32_with_compression source.input field h34 hfield 22 (by omega)
  have e28 := le16_with_compression source.input field h34 hfield 28 (by omega)
  have e0 := byte_at_with_compression source.input field h34 hfield 0 (by omega)
  have e1 := byte_at_with_compression source.input field h34 hfield 1 (by omega)
  have el := with_compression_length source.input field h34 hfield
  have hpast := open_past_reads { source with input := with_compression source.input field }
    blank (by simp only []; rw [e0, e1]; exact hmagic) (by simp only []; rw [e14]; exact hrest)
    (by simp only []; rw [e14, el]; exact hlen)
  simp only [] at hpast
  rw [e28, e2, e14, if_neg (by omega), if_neg (by omega),
    drop_with_compression _ _ h34 hfield _ (by omega)] at hpast
  obtain ⟨a1, a2, a3, a4, a5, a6, a7⟩ := stored_fields blank source.input
    (if 24 = le16 source.input 28 then 3 else 4) (by omega)
  obtain ⟨b1, b2, b3, b4, b5, b6, b7⟩ := stored_fields blank
    (with_compression source.input field) (if 24 = le16 source.input 28 then 3 else 4)
    (by omega)
  have hc := stored_compression blank (with_compression source.input field)
    (if 24 = le16 source.input 28 then 3 else 4) (by omega)
  unfold le32s at a4 a5 b4 b5
  rw [e18] at b4
  rw [e22] at b5
  refine ⟨{ headers_stored blank (with_compression source.input field) with
    channels := if 24 = le16 source.input 28 then 3 else 4 }, ?_, ?_, ?_, ?_, ?_, ?_, ?_, ?_, ?_⟩
  · rw [hpast, hfile]
  · rw [hc, le32_compression_field _ _ h34 hfield]
  · rw [himg, b1, a1, e2]
  · rw [himg, b2, a2, e10]
  · rw [himg, b3, a3, e14]
  · rw [himg, b4, a4]
  · rw [himg, b5, a5]
  · rw [himg, b6, a6, e28]
  · subst himg; rfl

/-- C20, amended. The compression field is not examined: for every input
stream, if `bmp_open_image_headers` followed by `bmp_read_image_data` both
report no error, the compression field of the decoded DIB header is the value
the stream holds at offset 30, whatever it is; and with any other four bytes in
that field of the stream the two calls report no error either, leave the same
stream, and decode the same plane. -/
theorem compression_not_examined (alloc : Nat → Nat → Bool) (junk : Nat → Byte)
    (source : FILE) (blank : bmp_image) (file : FILE) (image : bmp_image) (loaded : bmp_result)
    (hopen : bmp_open_image_headers (some source) (some blank) = ⟨some file, some image, none⟩)
    (hread : bmp_read_image_data alloc junk (some file) (some image) = .done loaded)
    (hok : loaded.error_message = none) :
    ∃ stored plane,
      loaded.image = some stored ∧ stored.pixels = some plane ∧
      stored.compression = le32 source.input 30 ∧
      ∀ field : List Byte, field.length = 4 →
        ∃ other again,
          bmp_open_image_headers
              (some { source with input := with_compression source.input field }) (some blank)
            = ⟨some file, some other, none⟩ ∧
          bmp_read_image_data alloc junk (some file) (some other)
            = .done ⟨loaded.file_descriptor, some again, none⟩ ∧
          again.compression = le32 field 0 ∧
          again.pixels = some plane := by
  obtain ⟨_, _, hlen, _, _, _, himg⟩ := open_success source blank file image hopen
  obtain ⟨_, _, _, _, _, _, _, _, hloaded⟩ :=
    read_success alloc junk file image loaded hread hok
  have hcomp := stored_compression blank source.input
    (if 24 = le16 source.input 28 then 3 else 4) (by omega)
  rw [← himg] at hcomp
  obtain ⟨stored, plane, hs, hp, _⟩ := read_same_fields alloc junk file image image loaded
    hread hok rfl rfl rfl rfl rfl rfl rfl
  refine ⟨stored, plane, hs, hp, ?_, ?_⟩
  · rw [hloaded] at hs
    injection hs with hs
    rw [← hs]
    exact hcomp
  · intro field hfield
    obtain ⟨other, ho, hc, f1, f2, f3, f4, f5, f6, f7⟩ :=
      open_with_compression source blank file image field hfield hopen
    obtain ⟨stored2, plane2, hs2, hp2, hr2⟩ := read_same_fields alloc junk file image other
      loaded hread hok f1 f2 f3 f4 f5 f6 f7
    have e : plane2 = plane := by
      rw [hs] at hs2
      injection hs2 with hs2
      rw [← hs2, hp] at hp2
      injection hp2 with hp2
      exact hp2.symm
    exact ⟨other, _, ho, hr2, hc, by rw [e]⟩

set_option maxRecDepth 100000 in
/-- The stream `sample_32`, decoded, and the same stream with the compression
field set to 1. -/
theorem compression_not_examined_witness :
    ∃ stored plane,
      sample_compressed_loaded.image = some stored ∧ stored.pixels = some plane ∧
      stored.compression = le32 sample_compressed 30 :=
  (compression_not_examined (fun _ _ => true) (fun _ => 0) ⟨sample_compressed, [], 0⟩
    zeroed_image ⟨sample_compressed.drop 54, [], 0⟩
    { headers_stored zeroed_image sample_compressed with channels := 4 }
    sample_compressed_loaded (by decide) (by decide) (by decide)).imp
    fun _ h => h.imp fun _ h => ⟨h.1, h.2.1, h.2.2.1⟩

/-- A bitmap of 32 bits per pixel whose width field is 0: the plane is 64 zero
bytes. -/
theorem zero_dimensions_accepted_witness :
    bmp_read_image_data (fun _ _ => true) (fun _ => 0xAA)
        (some ⟨[1, 2, 3, 4], [], 0⟩)
        (some { headers_stored zeroed_image (sample_header 58 54 40 0 5 32) with channels := 4 })
      = .done ⟨some ⟨[], [], 0⟩,
          some { measured
              { headers_stored zeroed_image (sample_header 58 54 40 0 5 32) with channels := 4 }
              [1, 2, 3, 4] with
            aligned_image_size := 64
            pixels := some (List.replicate 64 0) }, none⟩ :=
  (zero_dimensions_accepted (fun _ _ => true) (fun _ => 0xAA) ⟨[1, 2, 3, 4], [], 0⟩
    { headers_stored zeroed_image (sample_header 58 54 40 0 5 32) with channels := 4 }
    (by decide) (by decide) (by decide) (by decide) (Or.inl (by decide))).1

/-! ## The 3-channel loops of the writer on any plane -/

/-- The inner loop of the 3-channel branch of the writer on a row of at most
`2 ^ 29` pixels that lies inside the two buffers: it runs to its end, the three
colour bytes of each pixel of the row come from the plane, and the rest of the
payload is as it was. -/
theorem pack_row_run (pixels : List Byte) (source dest W : Nat) (hW : W ≤ 2 ^ 29)
    (hpix : source + 4 * W ≤ pixels.length) (fuel : Nat) :
    ∀ (k : Nat) (payload : List Byte), k ≤ W → W - k ≤ fuel →
    (∀ x c, x < W → c < 3 → dest + 3 * x + c < payload.length) →
    ∃ out, pack_row pixels source dest (3 * W) fuel ((3 * k : Nat) : Int)
        (to_int ((4 * k : Nat) : Int)) payload = .done out ∧
      out.length = payload.length ∧
      (∀ x c, k ≤ x → x < W → c < 3 →
        out[dest + 3 * x + c]? = pixels[source + 4 * x + c]?) ∧
      (∀ i, i < dest + 3 * k ∨ dest + 3 * W ≤ i → out[i]? = payload[i]?) := by
  induction fuel with
  | zero =>
    intro k payload hk hfuel _
    rw [pack_row, to_size_t_natCast _ (by omega), if_neg (by omega)]
    exact ⟨payload, rfl, rfl, fun x c h1 h2 _ => by omega, fun i _ => rfl⟩
  | succ fuel ih =>
    intro k payload hk hfuel hpay
    rw [pack_row, to_size_t_natCast _ (by omega)]
    by_cases hc : 3 * k < 3 * W
    · rw [if_pos hc]
      have hb := hpay k 2 (by omega) (by omega)
      have ej : to_int ((4 * k : Nat) : Int) = ((4 * k : Nat) : Int) :=
        to_int_eq _ (by omega) (by omega)
      have ed : ((dest : Nat) : Int) + ((3 * k : Nat) : Int) = ((dest + 3 * k : Nat) : Int) := by
        omega
      have es : ((source : Nat) : Int) + ((4 * k : Nat) : Int) = ((source + 4 * k : Nat) : Int) := by
        omega
      have e1 : to_int (((3 * k : Nat) : Int) + 3) = ((3 * (k + 1) : Nat) : Int) := by
        rw [to_int_eq _ (by omega) (by omega)]; omega
      have e2 : ((4 * k : Nat) : Int) + 4 = ((4 * (k + 1) : Nat) : Int) := by omega
      have hl := length_copied payload (dest + 3 * k) pixels (source + 4 * k) 3 (by omega)
        (by omega)
      have hget := getElem?_copied payload (dest + 3 * k) pixels (source + 4 * k) 3 (by omega)
        (by omega)
      rw [ej, ed, es, e1, e2, memcpy_at_ok _ _ _ _ _ (by omega) (by omega), and_then_done]
      obtain ⟨out, hout, hlen, hrow, hrest⟩ := ih (k + 1) _ (by omega) (by omega)
        (fun x c hx hc3 => by rw [hl]; exact hpay x c hx hc3)
      refine ⟨out, hout, by rw [hlen, hl], ?_, ?_⟩
      · intro x c hkx hx hc3
        by_cases hxk : x = k
        · subst hxk
          rw [hrest _ (Or.inl (by omega)), hget, if_pos (by omega),
            show source + 4 * x + (dest + 3 * x + c - (dest + 3 * x)) = source + 4 * x + c from by
              omega]
        · exact hrow x c (by omega) hx hc3
      · intro i hi
        rw [hrest i (by omega), hget, if_neg (by omega)]
    · rw [if_neg hc]
      exact ⟨payload, rfl, rfl, fun x c h1 h2 _ => by omega, fun i _ => rfl⟩

/-- The 3-channel row loop of the writer on rows of at most `2 ^ 29` pixels
inside the two buffers: it runs to its end, the colour bytes of every pixel come
from the plane, and every other byte of the payload is as it was. -/
theorem write_rows_3_run (pixels : List Byte) (raw_pixels W padding : Nat) (hW : W ≤ 2 ^ 29)
    (hrp : 3 * W + padding < 2 ^ 64) (rows : Nat) :
    ∀ (src dest : Nat) (payload : List Byte),
    src + rows * (4 * W) < 2 ^ 64 → dest + rows * (3 * W + padding) < 2 ^ 64 →
    src + rows * (4 * W) ≤ pixels.length →
    (∀ y x c, y < rows → x < W → c < 3 →
      raw_pixels + dest + y * (3 * W + padding) + 3 * x + c < payload.length) →
    ∃ out, write_rows_3 pixels raw_pixels (3 * W) padding (4 * W) rows src dest payload
        = .done out ∧
      out.length = payload.length ∧
      (∀ y x c, y < rows → x < W → c < 3 →
        out[raw_pixels + dest + y * (3 * W + padding) + 3 * x + c]?
          = pixels[src + y * (4 * W) + 4 * x + c]?) ∧
      (∀ i, (∀ y, y < rows → ¬ (raw_pixels + dest + y * (3 * W + padding) ≤ i ∧
          i < raw_pixels + dest + y * (3 * W + padding) + 3 * W)) →
        out[i]? = payload[i]?) := by
  induction rows with
  | zero =>
    intro src dest payload _ _ _ _
    exact ⟨payload, rfl, rfl, fun y x c hy _ _ => absurd hy (Nat.not_lt_zero y), fun i _ => rfl⟩
  | succ n ih =>
    intro src dest payload hsrc hdest hpix hpay
    have e1 : (n + 1) * (3 * W + padding) = n * (3 * W + padding) + (3 * W + padding) :=
      Nat.succ_mul _ _
    have e2 : (n + 1) * (4 * W) = n * (4 * W) + 4 * W := Nat.succ_mul _ _
    rw [write_rows_3]
    obtain ⟨p1, hp1, hl1, hrow1, hrest1⟩ := pack_row_run pixels src (raw_pixels + dest) W hW
      (by omega) (3 * W) 0 payload (by omega) (by omega)
      (fun x c hx hc => by
        have := hpay 0 x c (by omega) hx hc
        rw [Nat.zero_mul, Nat.add_zero] at this
        exact this)
    rw [show ((3 * 0 : Nat) : Int) = 0 from by simp, show to_int 0 = 0 from by decide] at hp1
    rw [hp1, and_then_done, size_add_eq (3 * W) padding hrp, size_add_eq src _ (by omega),
      size_add_eq dest _ (by omega)]
    have shift : ∀ y, (y + 1) * (3 * W + padding) = y * (3 * W + padding) + (3 * W + padding) :=
      fun y => Nat.succ_mul _ _
    have shift4 : ∀ y, (y + 1) * (4 * W) = y * (4 * W) + 4 * W := fun y => Nat.succ_mul _ _
    obtain ⟨out, hout, hlen, hrows, hrest⟩ := ih (src + 4 * W) (dest + (3 * W + padding)) p1
      (by omega) (by omega) (by omega)
      (fun y x c hy hx hc => by
        have := hpay (y + 1) x c (by omega) hx hc
        have := shift y
        rw [hl1]
        omega)
    refine ⟨out, hout, by rw [hlen, hl1], ?_, ?_⟩
    · intro y x c hy hx hc
      cases y with
      | zero =>
        rw [Nat.zero_mul, Nat.zero_mul, Nat.add_zero, Nat.add_zero]
        rw [hrest _ (fun y' hy' hin => by
          have := shift y'
          have hle : 0 ≤ y' * (3 * W + padding) := Nat.zero_le _
          omega)]
        exact hrow1 x c (by omega) hx hc
      | succ y =>
        have := hrows y x c (by omega) hx hc
        have hs := shift y
        have hs4 := shift4 y
        have ea : raw_pixels + (dest + (3 * W + padding)) + y * (3 * W + padding) + 3 * x + c
            = raw_pixels + dest + (y + 1) * (3 * W + padding) + 3 * x + c := by omega
        have eb : src + 4 * W + y * (4 * W) + 4 * x + c
            = src + (y + 1) * (4 * W) + 4 * x + c := by omega
        rw [ea, eb] at this
        exact this
    · intro i hi
      rw [hrest i (fun y hy hin => by
        have := hi (y + 1) (by omega)
        have := shift y
        omega)]
      apply hrest1
      have := hi 0 (by omega)
      rw [Nat.zero_mul, Nat.add_zero] at this
      omega

/-! ## The payload writer on any plane -/

/-- The payload writer on a 4-channel record whose rows lie inside the payload
and the plane: every row of the payload comes from the plane, every other byte
of the payload is as it was, and the payload goes out. -/
theorem write_data_repacks_4 (file : FILE) (image : bmp_image) (data content : List Byte)
    (hpayload : image.payload = some data) (hpixels : image.pixels = some content)
    (hch : image.channels = 4)
    (hP : payload_length image = data.length) (hpos : 0 < data.length)
    (hlt : data.length < 2 ^ 64) (hroom : data.length ≤ file.room)
    (hrows : image.absolute_image_height = 0 ∨
      (size_mul image.absolute_image_width 4 + image.pixel_row_padding < 2 ^ 64 ∧
        image.raw_pixels + image.absolute_image_height
          * (size_mul image.absolute_image_width 4 + image.pixel_row_padding) ≤ data.length ∧
        image.absolute_image_height * size_mul image.absolute_image_width 4
          ≤ content.length)) :
    ∃ out,
      bmp_write_image_data (some file) (some image) =
        .done ⟨some { file with output := file.output ++ out, room := file.room - out.length },
          some { image with payload := some out }, none⟩ ∧
      out.length = data.length ∧
      (∀ y k, y < image.absolute_image_height → k < size_mul image.absolute_image_width 4 →
        out[image.raw_pixels
            + y * (size_mul image.absolute_image_width 4 + image.pixel_row_padding) + k]?
          = content[y * size_mul image.absolute_image_width 4 + k]? ∧
        image.raw_pixels
            + y * (size_mul image.absolute_image_width 4 + image.pixel_row_padding) + k
          < out.length ∧
        y * size_mul image.absolute_image_width 4 + k < content.length) ∧
      (∀ i, (∀ y, y < image.absolute_image_height →
          ¬ (image.raw_pixels
              + y * (size_mul image.absolute_image_width 4 + image.pixel_row_padding) ≤ i ∧
            i < image.raw_pixels
              + y * (size_mul image.absolute_image_width 4 + image.pixel_row_padding)
              + size_mul image.absolute_image_width 4)) →
        out[i]? = data[i]?) := by
  have hP' : size_sub image.file_size (size_add 14 image.dib_header_size) = data.length := hP
  obtain ⟨fh, dh, rest, ps, payload, rp, pixels, aw, ah, prp, isz, asz, ch⟩ := image
  simp only [] at hpayload hpixels hch hrows ⊢
  subst hpayload hpixels hch
  simp only [bmp_write_image_data]
  rw [hP']
  by_cases h0 : ah = 0
  · rw [if_pos h0]
    simp only []
    rw [if_neg (by omega), if_neg (by omega), List.take_of_length_le (by omega),
      fwrite_ok data file hpos hroom]
    simp only []
    rw [if_neg (by decide)]
    refine ⟨data, rfl, rfl, ?_, fun i _ => rfl⟩
    intro y k hy
    omega
  · rcases hrows with h0' | ⟨hrp, hfit, hplane⟩
    · exact absurd h0' h0
    rw [if_neg h0]
    simp only [if_true]
    have hle : ah * size_mul aw 4 ≤ ah * (size_mul aw 4 + prp) :=
      Nat.mul_le_mul_left ah (Nat.le_add_right _ _)
    obtain ⟨out, hout⟩ := write_rows_4_ok content rp (size_mul aw 4) prp ah 0 0 data hrp
      (by omega) (by omega) (by omega) (by omega)
    obtain ⟨hl, hrow, hrest⟩ := write_rows_4_spec content rp (size_mul aw 4) prp ah 0 0
      data out hout hrp (by omega) (by omega)
    rw [hout]
    simp only []
    rw [if_neg (by omega), if_neg (by omega), List.take_of_length_le (by omega),
      fwrite_ok out file (by omega) (by omega)]
    simp only []
    rw [if_neg (by decide)]
    refine ⟨out, rfl, hl, ?_, ?_⟩
    · intro y k hy hk
      obtain ⟨a, b, c⟩ := hrow y k hy hk
      rw [Nat.add_zero] at a b
      rw [Nat.zero_add] at a c
      exact ⟨a, by rw [hl]; exact b, c⟩
    · intro i hi
      apply hrest
      intro y hy
      rw [Nat.add_zero]
      exact hi y hy

/-- The payload writer on a 3-channel record whose rows, of at most `2 ^ 29`
pixels, lie inside the payload and the plane: the colour bytes of every pixel of
the payload come from the plane, every other byte of the payload is as it was,
and the payload goes out. -/
theorem write_data_repacks_3 (file : FILE) (image : bmp_image) (data content : List Byte)
    (hpayload : image.payload = some data) (hpixels : image.pixels = some content)
    (hch : image.channels = 3)
    (hP : payload_length image = data.length) (hpos : 0 < data.length)
    (hlt : data.length < 2 ^ 64) (hroom : data.length ≤ file.room)
    (hrows : image.absolute_image_height = 0 ∨
      (image.absolute_image_width ≤ 2 ^ 29 ∧
        3 * image.absolute_image_width + image.pixel_row_padding < 2 ^ 64 ∧
        image.absolute_image_height
          * (3 * image.absolute_image_width + image.pixel_row_padding) < 2 ^ 64 ∧
        image.absolute_image_height * (4 * image.absolute_image_width) < 2 ^ 64 ∧
        image.absolute_image_height * (4 * image.absolute_image_width) ≤ content.length ∧
        ∀ y x c, y < image.absolute_image_height → x < image.absolute_image_width → c < 3 →
          image.raw_pixels
              + y * (3 * image.absolute_image_width + image.pixel_row_padding) + 3 * x + c
            < data.length)) :
    ∃ out,
      bmp_write_image_data (some file) (some image) =
        .done ⟨some { file with output := file.output ++ out, room := file.room - out.length },
          some { image with payload := some out }, none⟩ ∧
      out.length = data.length ∧
      (∀ y x c, y < image.absolute_image_height → x < image.absolute_image_width → c < 3 →
        out[image.raw_pixels
            + y * (3 * image.absolute_image_width + image.pixel_row_padding) + 3 * x + c]?
          = content[y * (4 * image.absolute_image_width) + 4 * x + c]?) ∧
      (∀ i, (∀ y, y < image.absolute_image_height →
          ¬ (image.raw_pixels
              + y * (3 * image.absolute_image_width + image.pixel_row_padding) ≤ i ∧
            i < image.raw_pixels
              + y * (3 * image.absolute_image_width + image.pixel_row_padding)
              + 3 * image.absolute_image_width)) →
        out[i]? = data[i]?) := by
  have hP' : size_sub image.file_size (size_add 14 image.dib_header_size) = data.length := hP
  obtain ⟨fh, dh, rest, ps, payload, rp, pixels, aw, ah, prp, isz, asz, ch⟩ := image
  simp only [] at hpayload hpixels hch hrows ⊢
  subst hpayload hpixels hch
  simp only [bmp_write_image_data]
  rw [hP']
  by_cases h0 : ah = 0
  · rw [if_pos h0]
    simp only []
    rw [if_neg (by omega), if_neg (by omega), List.take_of_length_le (by omega),
      fwrite_ok data file hpos hroom]
    simp only []
    rw [if_neg (by decide)]
    refine ⟨data, rfl, rfl, ?_, fun i _ => rfl⟩
    intro y x c hy
    omega
  · rcases hrows with h0' | ⟨hW, hrp, hsz, hsz4, hplane, hbytes⟩
    · exact absurd h0' h0
    rw [if_neg h0]
    have h3 : size_mul aw 3 = 3 * aw := by rw [size_mul_eq _ _ (by omega)]; omega
    have h4 : size_mul aw 4 = 4 * aw := by rw [size_mul_eq _ _ (by omega)]; omega
    obtain ⟨out, hout, hl, hrow, hrest⟩ := write_rows_3_run content rp aw prp hW hrp ah 0 0 data
      (by omega) (by omega) (by omega)
      (fun y x c hy hx hc => by
        have := hbytes y x c hy hx hc
        rw [Nat.add_zero]
        exact this)
    simp only [show ((4 : Nat) = 3) = False from by decide, if_false]
    rw [h3, h4, hout]
    simp only []
    rw [if_neg (by omega), if_neg (by omega), List.take_of_length_le (by omega),
      fwrite_ok out file (by omega) (by omega)]
    simp only []
    rw [if_neg (by decide)]
    refine ⟨out, rfl, hl, ?_, ?_⟩
    · intro y x c hy hx hc
      have a := hrow y x c hy hx hc
      rw [Nat.add_zero, Nat.zero_add] at a
      exact a
    · intro i hi
      apply hrest
      intro y hy
      rw [Nat.add_zero]
      exact hi y hy

/-! ## The geometry behind a plane that was decoded -/

theorem zero_width_geometry (image : bmp_image) (hW : width_of image = 0) :
    row_size_of image = 0 ∧ padding_of image = 0 ∧ size_mul (width_of image) 4 = 0 ∧
      extended_size_of image = 0 := by
  have hrow : row_size_of image = 0 := by unfold row_size_of size_mul; rw [hW]; simp
  have hpad : padding_of image = 0 := by
    unfold padding_of; rw [hW, hrow]; exact row_padding_zero _
  have h4 : size_mul (width_of image) 4 = 0 := by unfold size_mul; rw [hW]; simp
  refine ⟨hrow, hpad, h4, ?_⟩
  unfold extended_size_of; rw [h4, hpad]; unfold size_mul size_add; simp

/-- The geometry of a 32-bit record whose rows were copied into the plane: the
plane has its allocated size, and unless the height is 0 the rows, of `4 * W`
bytes with no padding, lie inside the payload and the plane. -/
theorem copied_geometry_4 (junk : Nat → Byte) (image : bmp_image) (data p1 : List Byte)
    (hdata : data.length = payload_length image) (hP : payload_length image < 2 ^ 32)
    (hoff : first_pixel_index image < payload_length image)
    (hsz : size_mul (height_of image) (size_add (row_size_of image) (padding_of image))
      ≤ payload_length image)
    (hch : image.channels = 4) (hbpp : image.bits_per_pixel = 32)
    (hcopy : copied_rows junk image data = .done p1) :
    p1.length = aligned_size (extended_size_of image) ∧
    (height_of image = 0 ∨
      (size_mul (width_of image) 4 = 4 * width_of image ∧ padding_of image = 0 ∧
        4 * width_of image < 2 ^ 64 ∧
        first_pixel_index image + height_of image * (4 * width_of image) ≤ data.length ∧
        height_of image * (4 * width_of image) ≤ aligned_size (extended_size_of image))) := by
  unfold copied_rows at hcopy
  rw [if_pos hch.symm] at hcopy
  by_cases hH : height_of image = 0
  · rw [hH, read_rows_4] at hcopy
    injection hcopy with hcopy
    rw [← hcopy, fresh_length]
    exact ⟨rfl, Or.inl hH⟩
  by_cases hW : width_of image = 0
  · obtain ⟨hrow, hpad, h4, hext⟩ := zero_width_geometry image hW
    rw [hrow, hpad, read_rows_4_empty _ _ _ (by omega)] at hcopy
    injection hcopy with hcopy
    rw [← hcopy, fresh_length]
    refine ⟨rfl, Or.inr ⟨by rw [h4, hW], hpad, by omega, ?_, ?_⟩⟩
    · rw [hW]; simp only [Nat.mul_zero, Nat.add_zero]; omega
    · rw [hW]; simp only [Nat.mul_zero]; omega
  · have hfirst := read_rows_4_first _ _ _ _ _ _ _ (by omega) hcopy
    rw [hdata] at hfirst
    obtain ⟨hWle, hHle, hrow, hpad⟩ :=
      geometry_4 image _ hP hch hbpp (by omega) (by omega) hfirst hsz
    have h4 : size_mul (width_of image) 4 = 4 * width_of image := by
      unfold row_size_of at hrow; rw [hch] at hrow; exact hrow
    rw [hrow, hpad, size_add_eq _ _ (by omega), Nat.add_zero] at hsz
    have hHW : height_of image * (4 * width_of image) < 2 ^ 64 :=
      Nat.lt_of_le_of_lt (Nat.mul_le_mul hHle (by omega : 4 * width_of image ≤ 2 ^ 33))
        (by decide)
    rw [size_mul_eq _ _ hHW] at hsz
    rw [hrow, hpad] at hcopy
    obtain ⟨hl, hrows, _⟩ := read_rows_4_spec _ _ _ _ _ _ _ _ _ hcopy (by omega)
      (by rw [Nat.add_zero]; omega) (by omega)
    obtain ⟨y, hy⟩ : ∃ y, height_of image = y + 1 := ⟨height_of image - 1, by omega⟩
    obtain ⟨_, _, hlast⟩ := hrows y (4 * width_of image - 1) (by omega) (by omega)
    have hsucc : (y + 1) * (4 * width_of image) = y * (4 * width_of image) + 4 * width_of image :=
      Nat.succ_mul _ _
    have hext : extended_size_of image = height_of image * (4 * width_of image) := by
      unfold extended_size_of
      rw [h4, hpad, size_add_eq _ _ (by omega), Nat.add_zero, size_mul_eq _ _ hHW]
    obtain ⟨hal, _⟩ := aligned_size_bounds (extended_size_of image) (by omega)
    rw [hl, fresh_length]
    refine ⟨rfl, Or.inr ⟨h4, hpad, by omega, ?_, by omega⟩⟩
    rw [hy, hsucc]
    simp only [Nat.add_zero] at hlast
    omega

/-- The geometry of a 24-bit record whose rows were copied into the plane: the
plane has its allocated size, and unless the height is 0 the rows hold at most
`2 ^ 29` pixels, and their pixel bytes lie inside the payload and the plane. -/
theorem copied_geometry_3 (junk : Nat → Byte) (image : bmp_image) (data p1 : List Byte)
    (hdata : data.length = payload_length image) (hP : payload_length image < 2 ^ 32)
    (hoff : first_pixel_index image < payload_length image)
    (hsz : size_mul (height_of image) (size_add (row_size_of image) (padding_of image))
      ≤ payload_length image)
    (hch : image.channels = 3) (hbpp : image.bits_per_pixel = 24)
    (hcopy : copied_rows junk image data = .done p1) :
    p1.length = aligned_size (extended_size_of image) ∧
    (height_of image = 0 ∨
      (width_of image ≤ 2 ^ 29 ∧ padding_of image < 4 ∧
        height_of image * (3 * width_of image + padding_of image) < 2 ^ 32 ∧
        height_of image * (4 * width_of image) < 2 ^ 33 ∧
        height_of image * (4 * width_of image) ≤ extended_size_of image ∧
        extended_size_of image ≤ aligned_size (extended_size_of image) ∧
        ∀ y x c, y < height_of image → x < width_of image → c < 3 →
          first_pixel_index image
              + y * (3 * width_of image + padding_of image) + 3 * x + c < data.length)) := by
  unfold copied_rows at hcopy
  rw [if_neg (show ¬ (4 = image.channels) from by rw [hch]; decide)] at hcopy
  by_cases hH : height_of image = 0
  · rw [hH, read_rows_3] at hcopy
    injection hcopy with hcopy
    rw [← hcopy, fresh_length]
    exact ⟨rfl, Or.inl hH⟩
  by_cases hW : width_of image = 0
  · obtain ⟨hrow, hpad, h4, hext⟩ := zero_width_geometry image hW
    rw [hrow, hpad, h4, read_rows_3_empty] at hcopy
    injection hcopy with hcopy
    rw [← hcopy, fresh_length]
    refine ⟨rfl, Or.inr ⟨by omega, by omega, ?_, ?_, ?_, ?_, ?_⟩⟩
    · rw [hW, hpad]; simp
    · rw [hW]; simp
    · rw [hW]; simp
    · rw [hext, aligned_size_zero]; omega
    · intro y x c _ hx; omega
  · have hfirst := read_rows_3_first _ _ _ _ _ _ _ _ (by omega) hcopy
    obtain ⟨hWle, hHle, hrow, hpad, hext4⟩ :=
      geometry_3 image _ hP hch hbpp (by omega) (by omega) hfirst hsz
    have hpad3 : padding_of image < 4 := by omega
    rw [hrow, size_add_eq _ _ (by omega)] at hsz
    have hprod : height_of image * (3 * width_of image + padding_of image) < 2 ^ 64 :=
      Nat.lt_of_le_of_lt
        (Nat.mul_le_mul hHle (by omega : 3 * width_of image + padding_of image ≤ 2 ^ 31))
        (by decide)
    rw [size_mul_eq _ _ hprod] at hsz
    have hle4 : height_of image * (4 * width_of image + padding_of image)
        ≤ height_of image * (3 * width_of image + padding_of image)
          + height_of image * (3 * width_of image + padding_of image) := by
      rw [← Nat.mul_add]
      exact Nat.mul_le_mul_left _ (by omega)
    have hle : height_of image * (4 * width_of image)
        ≤ height_of image * (4 * width_of image + padding_of image) :=
      Nat.mul_le_mul_left _ (by omega)
    have hext : extended_size_of image
        = height_of image * (4 * width_of image + padding_of image) := by
      unfold extended_size_of
      rw [hext4, size_add_eq _ _ (by omega), size_mul_eq _ _ (by omega)]
    obtain ⟨hal, _⟩ := aligned_size_bounds (extended_size_of image) (by omega)
    rw [hrow, hext4] at hcopy
    obtain ⟨hl, hrgb, _, _⟩ := read_rows_3_spec _ _ _ _ hWle _ _ _ _ _ hcopy (by omega)
      (by omega) (by omega)
    rw [hl, fresh_length]
    refine ⟨rfl, Or.inr ⟨hWle, hpad3, by omega, by omega, by omega, hal, ?_⟩⟩
    intro y x c hy hx hc
    obtain ⟨_, _, hb⟩ := hrgb y x c hy hx hc
    rw [Nat.add_zero] at hb
    exact hb

/-! ## Repacking -/

/-- Repacking where the rows lie inside the payload, which is the case whenever
the embedding of `bmp_read_image_data` ends without a fault: for every image
decoded by a successful `bmp_open_image_headers` and such a read without error,
the payload has `file_size - (14 + dib_header_size)` bytes, and for every content of
the plane (of the size of the plane) and every destination that accepts the
payload, `bmp_write_image_data` reports no error, writes exactly the repacked
payload, of that same length, and leaves it in the record. With `W` and `H` the
absolute width and height, `pad` the row padding and `raw_pixels` the index of
the pixel array in the payload: with 4 channels byte `k < 4 * W` of payload row
`y` is byte `y * 4 * W + k` of the plane; with 3 channels colour byte `c < 3` of
pixel `(x, y)`, at `y * (3 * W + pad) + 3 * x + c` of the pixel array, is byte
`4 * (y * W + x) + c` of the plane, the alpha byte being dropped; and every byte
of the payload that is not a pixel byte is as it was read. -/
theorem repacking_inverse (alloc : Nat → Nat → Bool) (junk : Nat → Byte)
    (source : FILE) (blank : bmp_image) (file : FILE) (image : bmp_image) (loaded : bmp_result)
    (hopen : bmp_open_image_headers (some source) (some blank) = ⟨some file, some image, none⟩)
    (hread : bmp_read_image_data alloc junk (some file) (some image) = .done loaded)
    (hok : loaded.error_message = none) :
    ∃ stored payload plane,
      loaded.image = some stored ∧ stored.payload = some payload ∧ stored.pixels = some plane ∧
      (stored.channels = 3 ∨ stored.channels = 4) ∧
      payload.length = stored.file_size - (14 + stored.dib_header_size) ∧
      ∀ (content : List Byte) (destination : FILE),
        content.length = plane.length → payload.length ≤ destination.room →
        ∃ repacked,
          bmp_write_image_data (some destination) (some { stored with pixels := some content })
            = .done ⟨some { destination with
                  output := destination.output ++ repacked
                  room := destination.room - repacked.length },
                some { stored with pixels := some content, payload := some repacked }, none⟩ ∧
          repacked.length = payload.length ∧
          (stored.channels = 4 →
            ∀ y k, y < stored.absolute_image_height → k < 4 * stored.absolute_image_width →
              stored.raw_pixels
                  + y * (4 * stored.absolute_image_width + stored.pixel_row_padding) + k
                < repacked.length ∧
              y * (4 * stored.absolute_image_width) + k < content.length ∧
              repacked[stored.raw_pixels
                  + y * (4 * stored.absolute_image_width + stored.pixel_row_padding) + k]?
                = content[y * (4 * stored.absolute_image_width) + k]?) ∧
          (stored.channels = 3 →
            ∀ y x c, y < stored.absolute_image_height → x < stored.absolute_image_width →
              c < 3 →
              stored.raw_pixels
                  + y * (3 * stored.absolute_image_width + stored.pixel_row_padding) + 3 * x + c
                < repacked.length ∧
              4 * (y * stored.absolute_image_width + x) + c < content.length ∧
              repacked[stored.raw_pixels
                  + y * (3 * stored.absolute_image_width + stored.pixel_row_padding)
                  + 3 * x + c]?
                = content[4 * (y * stored.absolute_image_width + x) + c]?) ∧
          ∀ i, (∀ y k, y < stored.absolute_image_height →
              k < stored.channels * stored.absolute_image_width →
              i ≠ stored.raw_pixels
                + y * (stored.channels * stored.absolute_image_width
                  + stored.pixel_row_padding) + k) →
            repacked[i]? = payload[i]? := by
  obtain ⟨hmem, hpos, hlen, hoff, hsz, hmem1, p1, hcopy, hloaded⟩ :=
    read_success alloc junk file image loaded hread hok
  have hdepth := open_success_depth source blank file image hopen
  have hmax := (malloc_granted _ _ _ hmem).1
  have hP : payload_length image < 2 ^ 32 := payload_length_lt image hpos hmax
  obtain ⟨_, _, hPeq⟩ := offset_check_iff image hpos hmax
  have hdata : (file.input.take (payload_length image)).length = payload_length image := by
    rw [List.length_take]; omega
  change size_mul (height_of image) (size_add (row_size_of image) (padding_of image))
    ≤ payload_length image at hsz
  subst hloaded
  refine ⟨_, _, _, rfl, rfl, rfl, ?_, ?_, ?_⟩
  · rcases hdepth with h | h
    · exact Or.inl h.1
    · exact Or.inr h.1
  · rw [hdata]; exact hPeq
  intro content destination hcontent hroom
  rw [zero_fill_length] at hcontent
  rw [hdata] at hroom
  rcases hdepth with ⟨hch, hbpp⟩ | ⟨hch, hbpp⟩
  · -- 3 channels
    obtain ⟨hl, hgeo⟩ := copied_geometry_3 junk image _ p1 hdata hP hoff hsz hch hbpp hcopy
    obtain ⟨out, hw, hlo, hrow, hrest⟩ := write_data_repacks_3 destination
      { measured image (file.input.take (payload_length image)) with
        aligned_image_size := aligned_size (extended_size_of image)
        pixels := some content }
      (file.input.take (payload_length image)) content rfl rfl hch
      (by
        change payload_length image = _
        rw [hdata])
      (by omega) (by omega) (by omega)
      (by
        change height_of image = 0 ∨
          (width_of image ≤ 2 ^ 29 ∧ 3 * width_of image + padding_of image < 2 ^ 64 ∧
            height_of image * (3 * width_of image + padding_of image) < 2 ^ 64 ∧
            height_of image * (4 * width_of image) < 2 ^ 64 ∧
            height_of image * (4 * width_of image) ≤ content.length ∧
            ∀ y x c, y < height_of image → x < width_of image → c < 3 →
              first_pixel_index image
                  + y * (3 * width_of image + padding_of image) + 3 * x + c
                < (file.input.take (payload_length image)).length)
        rcases hgeo with h0 | ⟨g1, g2, g3, g4, g5, g6, g7⟩
        · exact Or.inl h0
        · exact Or.inr ⟨g1, by omega, by omega, by omega, by omega, g7⟩)
    refine ⟨out, hw, hlo, ?_, ?_, ?_⟩
    · intro h4
      change image.channels = 4 at h4
      omega
    · intro _ y x c hy hx hc
      change y < height_of image at hy
      change x < width_of image at hx
      change first_pixel_index image
            + y * (3 * width_of image + padding_of image) + 3 * x + c < out.length ∧
          4 * (y * width_of image + x) + c < content.length ∧
          out[first_pixel_index image
              + y * (3 * width_of image + padding_of image) + 3 * x + c]?
            = content[4 * (y * width_of image + x) + c]?
      rcases hgeo with h0 | ⟨g1, g2, g3, g4, g5, g6, g7⟩
      · omega
      have hlt := mul_add_lt_mul y (4 * x + c) _ (4 * width_of image) hy (by omega)
      have e : y * (4 * width_of image) + 4 * x + c = 4 * (y * width_of image + x) + c := by
        ring
      have a := hrow y x c hy hx hc
      change out[first_pixel_index image
            + y * (3 * width_of image + padding_of image) + 3 * x + c]?
          = content[y * (4 * width_of image) + 4 * x + c]? at a
      rw [e] at a
      refine ⟨by rw [hlo]; exact g7 y x c hy hx hc, by omega, a⟩
    · intro i hi
      apply hrest
      intro y hy hin
      change y < height_of image at hy
      change first_pixel_index image + y * (3 * width_of image + padding_of image) ≤ i ∧
        i < first_pixel_index image + y * (3 * width_of image + padding_of image)
          + 3 * width_of image at hin
      have := hi y (i - (first_pixel_index image
        + y * (3 * width_of image + padding_of image))) hy
        (by
          change _ < image.channels * width_of image
          rw [hch]; omega)
      apply this
      change i = first_pixel_index image + y * (image.channels * width_of image
        + padding_of image) + _
      rw [hch]
      omega
  · -- 4 channels
    obtain ⟨hl, hgeo⟩ := copied_geometry_4 junk image _ p1 hdata hP hoff hsz hch hbpp hcopy
    obtain ⟨out, hw, hlo, hrow, hrest⟩ := write_data_repacks_4 destination
      { measured image (file.input.take (payload_length image)) with
        aligned_image_size := aligned_size (extended_size_of image)
        pixels := some content }
      (file.input.take (payload_length image)) content rfl rfl hch
      (by
        change payload_length image = _
        rw [hdata])
      (by omega) (by omega) (by omega)
      (by
        change height_of image = 0 ∨
          (size_mul (width_of image) 4 + padding_of image < 2 ^ 64 ∧
            first_pixel_index image
                + height_of image * (size_mul (width_of image) 4 + padding_of image)
              ≤ (file.input.take (payload_length image)).length ∧
            height_of image * size_mul (width_of image) 4 ≤ content.length)
        rcases hgeo with h0 | ⟨g1, g2, g3, g4, g5⟩
        · exact Or.inl h0
        · rw [g1, g2]
          exact Or.inr ⟨by omega, by rw [Nat.add_zero]; exact g4, by omega⟩)
    refine ⟨out, hw, hlo, ?_, ?_, ?_⟩
    · intro _ y k hy hk
      change y < height_of image at hy
      change k < 4 * width_of image at hk
      change first_pixel_index image + y * (4 * width_of image + padding_of image) + k
            < out.length ∧
          y * (4 * width_of image) + k < content.length ∧
          out[first_pixel_index image + y * (4 * width_of image + padding_of image) + k]?
            = content[y * (4 * width_of image) + k]?
      rcases hgeo with h0 | ⟨g1, g2, g3, g4, g5⟩
      · omega
      have a := hrow y k hy (by
        change k < size_mul (width_of image) 4
        rw [g1]; exact hk)
      change out[first_pixel_index image
            + y * (size_mul (width_of image) 4 + padding_of image) + k]?
          = content[y * size_mul (width_of image) 4 + k]? ∧
        first_pixel_index image + y * (size_mul (width_of image) 4 + padding_of image) + k
          < out.length ∧
        y * size_mul (width_of image) 4 + k < content.length at a
      rw [g1] at a
      exact ⟨a.2.1, a.2.2, a.1⟩
    · intro h3
      change image.channels = 3 at h3
      omega
    · intro i hi
      apply hrest
      intro y hy hin
      change y < height_of image at hy
      change first_pixel_index image
            + y * (size_mul (width_of image) 4 + padding_of image) ≤ i ∧
        i < first_pixel_index image + y * (size_mul (width_of image) 4 + padding_of image)
          + size_mul (width_of image) 4 at hin
      rcases hgeo with h0 | ⟨g1, g2, g3, g4, g5⟩
      · omega
      rw [g1] at hin
      have := hi y (i - (first_pixel_index image
        + y * (4 * width_of image + padding_of image))) hy
        (by
          change _ < image.channels * width_of image
          rw [hch]; omega)
      apply this
      change i = first_pixel_index image + y * (image.channels * width_of image
        + padding_of image) + _
      rw [hch]
      omega

set_option maxRecDepth 100000 in
/-- The record decoded from `sample_24`: it holds a payload of
`70 - (14 + 40)` bytes and a plane; with every byte of the plane set to 9 the
payload that goes out has 9 in every pixel byte and the two padding bytes of
each row as they were read. -/
theorem repacking_inverse_witness :
    (∃ stored payload plane,
      sample_24_loaded.image = some stored ∧ stored.payload = some payload ∧
      stored.pixels = some plane ∧ (stored.channels = 3 ∨ stored.channels = 4) ∧
      payload.length = stored.file_size - (14 + stored.dib_header_size)) ∧
    (match bmp_write_image_data (some ⟨[], [], 16⟩)
        (sample_24_loaded.image.map
          fun stored => { stored with pixels := some (List.replicate 128 9) }) with
      | .done written => written.file_descriptor.map FILE.output
      | .fault _ => none)
      = some [9, 9, 9, 9, 9, 9, 0xAA, 0xBB, 9, 9, 9, 9, 9, 9, 0xCC, 0xDD] := by
  constructor
  · obtain ⟨stored, payload, plane, h1, h2, h3, h4, h5, _⟩ :=
      repacking_inverse (fun _ _ => true) (fun _ => 0) ⟨sample_24, [], 0⟩ zeroed_image
        ⟨sample_24.drop 54, [], 0⟩ { headers_stored zeroed_image sample_24 with channels := 3 }
        sample_24_loaded (by decide) (by decide) (by decide)
    exact ⟨stored, payload, plane, h1, h2, h3, h4, h5⟩
  · decide

/-- The slack the reader clears: after a successful `bmp_open_image_headers`
and a successful `bmp_read_image_data` the plane has `aligned_image_size` bytes
and its bytes from index `H * (4 * W + pad)` on are 0, with `W`, `H` and `pad`
the absolute width, the absolute height and the row padding of the record. -/
theorem slack_cleared_from_extended_size (alloc : Nat → Nat → Bool) (junk : Nat → Byte)
    (source : FILE) (blank : bmp_image) (file : FILE) (image : bmp_image) (loaded : bmp_result)
    (hopen : bmp_open_image_headers (some source) (some blank) = ⟨some file, some image, none⟩)
    (hread : bmp_read_image_data alloc junk (some file) (some image) = .done loaded)
    (hok : loaded.error_message = none) :
    ∃ stored plane,
      loaded.image = some stored ∧ stored.pixels = some plane ∧
      plane.length = stored.aligned_image_size ∧
      (stored.channels = 4 → stored.absolute_image_height = 0 ∨ stored.pixel_row_padding = 0) ∧
      ∀ i, stored.absolute_image_height
            * (4 * stored.absolute_image_width + stored.pixel_row_padding) ≤ i →
          i < stored.aligned_image_size → plane[i]? = some 0 := by
  obtain ⟨hmem, hpos, hlen, hoff, hsz, hmem1, p1, hcopy, hloaded⟩ :=
    read_success alloc junk file image loaded hread hok
  have hdepth := open_success_depth source blank file image hopen
  have hmax := (malloc_granted _ _ _ hmem).1
  have hP : payload_length image < 2 ^ 32 := payload_length_lt image hpos hmax
  have hdata : (file.input.take (payload_length image)).length = payload_length image := by
    rw [List.length_take]; omega
  change size_mul (height_of image) (size_add (row_size_of image) (padding_of image))
    ≤ payload_length image at hsz
  subst hloaded
  have hfacts : p1.length = aligned_size (extended_size_of image) ∧
      (image.channels = 4 → height_of image = 0 ∨ padding_of image = 0) ∧
      extended_size_of image
        = height_of image * (4 * width_of image + padding_of image) := by
    rcases hdepth with ⟨hch, hbpp⟩ | ⟨hch, hbpp⟩
    · obtain ⟨hl, hgeo⟩ := copied_geometry_3 junk image _ p1 hdata hP hoff hsz hch hbpp hcopy
      refine ⟨hl, fun h => by omega, ?_⟩
      rcases hgeo with h0 | ⟨g1, g2, g3, g4, g5, g6, g7⟩
      · unfold extended_size_of size_mul; rw [h0]; simp
      · have hle4 : height_of image * (4 * width_of image + padding_of image)
            ≤ height_of image * (3 * width_of image + padding_of image)
              + height_of image * (3 * width_of image + padding_of image) := by
          rw [← Nat.mul_add]
          exact Nat.mul_le_mul_left _ (by omega)
        unfold extended_size_of
        rw [size_mul_eq (width_of image) 4 (by omega), size_add_eq _ _ (by omega),
          size_mul_eq _ _ (by
            rw [Nat.mul_comm (width_of image) 4]; omega),
          Nat.mul_comm (width_of image) 4]
    · obtain ⟨hl, hgeo⟩ := copied_geometry_4 junk image _ p1 hdata hP hoff hsz hch hbpp hcopy
      refine ⟨hl, ?_, ?_⟩
      · intro _
        rcases hgeo with h0 | ⟨g1, g2, g3, g4, g5⟩
        · exact Or.inl h0
        · exact Or.inr g2
      · rcases hgeo with h0 | ⟨g1, g2, g3, g4, g5⟩
        · unfold extended_size_of size_mul; rw [h0]; simp
        · unfold extended_size_of
          rw [g1, g2, size_add_eq _ _ (by omega), size_mul_eq _ _ (by
            rw [Nat.add_zero]; omega)]
  obtain ⟨hl, hpad, hext⟩ := hfacts
  refine ⟨_, _, rfl, rfl, ?_, hpad, ?_⟩
  · rw [zero_fill_length]; exact hl
  · intro i hlo hhi
    change height_of image * (4 * width_of image + padding_of image) ≤ i at hlo
    change i < aligned_size (extended_size_of image) at hhi
    rw [← hext] at hlo
    exact zero_fill_at _ _ _ _ hlo (by omega) (by omega)

/-! ## Rows, sizes and raw addressing -/

/-- The plane size the reader computes, without wraparound: the extended size
rounded up to a multiple of 64, plus 64. -/
theorem aligned_size_round_up (ext : Nat) (h : ext < 2 ^ 62) :
    aligned_size ext = round_up ext 64 + 64 := by
  by_cases h0 : ext = 0
  · subst h0; decide
  · unfold aligned_size round_up
    rw [size_sub_eq ext 1 (by omega) (by omega), size_add_eq _ 1 (by omega),
      size_mul_eq _ 64 (by omega), size_add_eq _ 64 (by omega)]
    omega

/-- C23. Rows are 4-byte aligned: for every width `W` with `0 ≤ W ≤ 2 ^ 31 - 1`
and depth `B` in {24, 32}, with 3 channels for 24 and 4 for 32, the padding
computed by `bmp_read_image_data` is at most 3, `channels * W + padding` is a
multiple of 4, the padding is 0 for 32 bits and `W mod 4` for 24 bits; and this
is the padding of every record with a supported depth whose width field is not
`INT32_MIN`. -/
theorem rows_four_byte_aligned (W B : Nat) (hW : W ≤ 2 ^ 31 - 1) (hB : B = 24 ∨ B = 32) :
    row_padding B W (size_mul W (if 24 = B then 3 else 4)) ≤ 3 ∧
    ((if 24 = B then 3 else 4) * W
      + row_padding B W (size_mul W (if 24 = B then 3 else 4))) % 4 = 0 ∧
    (B = 32 → row_padding B W (size_mul W (if 24 = B then 3 else 4)) = 0) ∧
    (B = 24 → row_padding B W (size_mul W (if 24 = B then 3 else 4)) = W % 4) ∧
    ∀ image : bmp_image, image.bits_per_pixel = B →
      image.channels = (if 24 = B then 3 else 4) → image.image_width.natAbs = W →
      padding_of image = row_padding B W (size_mul W (if 24 = B then 3 else 4)) := by
  have hpad : row_padding B W (size_mul W (if 24 = B then 3 else 4))
      = (B * W + 31) / 32 * 4 - (if 24 = B then 3 else 4) * W := by
    rcases hB with rfl | rfl
    · rw [if_pos rfl]; exact row_padding_eq 24 W 3 hW (by omega) (by omega)
    · rw [if_neg (by decide)]; exact row_padding_eq 32 W 4 hW (by omega) (by omega)
  refine ⟨?_, ?_, ?_, ?_, ?_⟩
  · rw [hpad]; rcases hB with rfl | rfl
    · rw [if_pos rfl]; omega
    · rw [if_neg (by decide)]; omega
  · rw [hpad]; rcases hB with rfl | rfl
    · rw [if_pos rfl]; omega
    · rw [if_neg (by decide)]; omega
  · intro h; subst h; rw [hpad, if_neg (by decide)]; omega
  · intro h; subst h; rw [hpad, if_pos rfl]; omega
  · intro image hb hc hw
    have hr := le32s_range image.dib_header 4
    have hwf : -2 ^ 31 < image.image_width := by
      unfold bmp_image.image_width at hw ⊢
      omega
    obtain ⟨hWabs, _⟩ := absolute_eq image.image_width hwf (by
      unfold bmp_image.image_width; exact hr.2)
    unfold padding_of row_size_of width_of
    rw [hWabs, hw, hb, hc]

/-- A row of 5 pixels of 24 bits: 15 pixel bytes and 1 padding byte. -/
theorem rows_four_byte_aligned_witness :
    row_padding 24 5 (size_mul 5 (if 24 = 24 then 3 else 4)) ≤ 3 ∧
    ((if 24 = 24 then 3 else 4) * 5
      + row_padding 24 5 (size_mul 5 (if 24 = 24 then 3 else 4))) % 4 = 0 ∧
    row_padding 24 5 (size_mul 5 (if 24 = 24 then 3 else 4)) = 5 % 4 :=
  have h := rows_four_byte_aligned 5 24 (by decide) (Or.inl rfl)
  ⟨h.1, h.2.1, h.2.2.2.1 rfl⟩

set_option maxRecDepth 100000 in
/-- C21. Raw pixel reads stay inside the payload, on the stream
`sample_offset_62` (2 x 2 pixels of 32 bits, a payload of 16 bytes with the
pixel array at index 8): the headers are parsed without error; the pixel-offset
check passes, `8 < 16`; the image-size check passes, `16 ≤ 16`; yet
`first_pixel_index + H * (channels * W + padding) = 24` exceeds the payload
size, and the row copy of `bmp_read_image_data` reads outside the payload. -/
theorem raw_read_outside_payload :
    bmp_open_image_headers (some ⟨sample_offset_62, [], 0⟩)
        (bmp_init_image_structure (some zeroed_image))
      = ⟨some ⟨sample_offset_62.drop 54, [], 0⟩,
          some { headers_stored zeroed_image sample_offset_62 with channels := 4 }, none⟩ ∧
    payload_length { headers_stored zeroed_image sample_offset_62 with channels := 4 } = 16 ∧
    first_pixel_index { headers_stored zeroed_image sample_offset_62 with channels := 4 } = 8 ∧
    (measured { headers_stored zeroed_image sample_offset_62 with channels := 4 }
      (sample_offset_62.drop 54)).image_size = 16 ∧
    (measured { headers_stored zeroed_image sample_offset_62 with channels := 4 }
      (sample_offset_62.drop 54)).absolute_image_height
      * (4 * (measured { headers_stored zeroed_image sample_offset_62 with channels := 4 }
          (sample_offset_62.drop 54)).absolute_image_width
        + (measured { headers_stored zeroed_image sample_offset_62 with channels := 4 }
          (sample_offset_62.drop 54)).pixel_row_padding) = 16 ∧
    bmp_read_image_data (fun _ _ => true) (fun _ => 0) (some ⟨sample_offset_62.drop 54, [], 0⟩)
        (some { headers_stored zeroed_image sample_offset_62 with channels := 4 })
      = .fault .out_of_bounds := by
  decide

set_option maxRecDepth 100000 in
/-- C22. Plane allocation size, on the stream `sample_tall` (1 x 16 pixels of 24
bits, rows of 3 pixel bytes and 1 padding byte): the read succeeds with absolute
width 1 and height 16; `round_up (16 * 1 * 4) 64 + 64` is 128, and
`aligned_image_size` is `round_up (16 * (1 * 4 + 1)) 64 + 64 = 192`. -/
theorem plane_size_counts_padding :
    bmp_open_image_headers (some ⟨sample_tall, [], 0⟩)
        (bmp_init_image_structure (some zeroed_image))
      = ⟨some ⟨sample_tall.drop 54, [], 0⟩,
          some { headers_stored zeroed_image sample_tall with channels := 3 }, none⟩ ∧
    bmp_read_image_data (fun _ _ => true) (fun _ => 0) (some ⟨sample_tall.drop 54, [], 0⟩)
        (some { headers_stored zeroed_image sample_tall with channels := 3 })
      = .done sample_tall_loaded ∧
    sample_tall_loaded.error_message = none ∧
    sample_tall_loaded.image.map
        (fun stored => (stored.absolute_image_width, stored.absolute_image_height,
          stored.pixel_row_padding, stored.aligned_image_size))
      = some (1, 16, 1, 192) ∧
    round_up (16 * 1 * 4) 64 + 64 = 128 ∧
    round_up (16 * (1 * 4 + 1)) 64 + 64 = 192 := by
  decide

set_option maxRecDepth 100000 in
/-- C24. Raw-plane addressing, on the image decoded from `sample_24` (2 x 2
pixels of 24 bits, row padding 2): for pixel `(1, 0)` `bmp_sample_pixel` gives
the plane offset 4, where the decoder stored the bytes 4, 5, 6 it read at
offset 3 of the raw pixel array, and `bmp_sample_raw_pixel` gives the raw
offset 4, where the pixel array holds 5, 6 and a padding byte; for pixel
`(0, 1)` the plane offset 8 holds 11, 12, 13, read at raw offset 8, and
`bmp_sample_raw_pixel` gives the raw offset 10. -/
theorem raw_addressing_24 :
    sample_24_loaded.image.map
        (fun stored => (stored.absolute_image_width, stored.absolute_image_height,
          stored.pixel_row_padding, stored.raw_pixels, stored.channels))
      = some (2, 2, 2, 0, 3) ∧
    bmp_sample_pixel 1 0 2 2 = 4 ∧ bmp_sample_raw_pixel 1 0 2 2 2 = 4 ∧
    bmp_sample_pixel 0 1 2 2 = 8 ∧ bmp_sample_raw_pixel 0 1 2 2 2 = 10 ∧
    sample_24_loaded.image.bind
        (fun stored => stored.pixels.map (fun plane => ((plane.drop 4).take 3,
          (plane.drop 8).take 3)))
      = some ([4, 5, 6], [11, 12, 13]) ∧
    sample_24_loaded.image.bind
        (fun stored => stored.payload.map (fun raw => ((raw.drop 3).take 3,
          (raw.drop 4).take 3, (raw.drop 8).take 3, (raw.drop 10).take 3)))
      = some ([4, 5, 6], [5, 6, 0xAA], [11, 12, 13], [13, 14, 15]) := by
  decide

/-! ## The scalar loops of the filters -/

theorem getElem?_getD_of_lt (pixels : List Byte) (i : Nat) (h : i < pixels.length) :
    pixels[i]? = some (pixels.getD i 0) := by
  rw [List.getD_eq_getElem?_getD, List.getElem?_eq_getElem h]
  rfl

/-- The three stores of the sepia body: the colour bytes of the pixel at
`position` are replaced, every other byte is kept. -/
theorem sepia_pixel_spec (tone : Nat → Byte → Byte → Byte → Byte) (pixels : List Byte)
    (position : Nat) (h : position + 3 ≤ pixels.length) (hl : pixels.length < 2 ^ 64) :
    ∃ out, sepia_pixel tone pixels position = .done out ∧ out.length = pixels.length ∧
      ∀ i, out[i]? =
        if position ≤ i ∧ i < position + 3 then
          some (tone (i - position) (pixels.getD position 0) (pixels.getD (position + 1) 0)
            (pixels.getD (position + 2) 0))
        else pixels[i]? := by
  unfold sepia_pixel
  rw [size_add_eq _ _ (by omega), size_add_eq _ _ (by omega),
    getElem?_getD_of_lt pixels position (by omega),
    getElem?_getD_of_lt pixels (position + 1) (by omega),
    getElem?_getD_of_lt pixels (position + 2) (by omega)]
  refine ⟨_, rfl, by simp, ?_⟩
  intro i
  rw [List.getElem?_set, List.getElem?_set, List.getElem?_set]
  simp only [List.length_set]
  by_cases h2 : position + 2 = i
  · subst h2
    rw [if_pos rfl, if_pos (by omega), if_pos (by omega)]
    congr 2
    omega
  · rw [if_neg h2]
    by_cases h1 : position + 1 = i
    · subst h1
      rw [if_pos rfl, if_pos (by omega), if_pos (by omega)]
      congr 2
      omega
    · rw [if_neg h1]
      by_cases h0 : position = i
      · subst h0
        rw [if_pos rfl, if_pos (by omega), if_pos (by omega)]
        congr 2
        omega
      · rw [if_neg h0, if_neg (by omega)]

/-- Reading through a plane in which other bytes were replaced. -/
theorem getD_congr (a b : List Byte) (i : Nat) (h : a[i]? = b[i]?) :
    a.getD i 0 = b.getD i 0 := by
  rw [List.getD_eq_getElem?_getD, List.getD_eq_getElem?_getD, h]

/-- The sepia loop from `position` to `stop`, both multiples of 4 inside the
plane: it runs to its end, the colour bytes of the pixels of the range are
replaced by `tone` of their original values, and every other byte is kept. -/
theorem sepia_loop_spec (tone : Nat → Byte → Byte → Byte → Byte) (stop : Nat)
    (hstop : stop % 4 = 0) (fuel : Nat) :
    ∀ (position : Nat) (pixels : List Byte), position % 4 = 0 → position ≤ stop →
    stop ≤ pixels.length → pixels.length < 2 ^ 64 → stop - position ≤ 4 * fuel →
    ∃ out, sepia_loop tone stop fuel position pixels = .done out ∧
      out.length = pixels.length ∧
      ∀ i, out[i]? =
        if position ≤ i ∧ i < stop ∧ i % 4 < 3 then some (toned_byte tone pixels i)
        else pixels[i]? := by
  induction fuel with
  | zero =>
    intro position pixels _ hle _ _ hfuel
    rw [sepia_loop, if_neg (by omega)]
    exact ⟨pixels, rfl, rfl, fun i => by rw [if_neg (by omega)]⟩
  | succ fuel ih =>
    intro position pixels hpos hle hlen hl hfuel
    rw [sepia_loop]
    by_cases hc : position < stop
    · rw [if_pos hc]
      obtain ⟨p1, hp1, hl1, hs1⟩ := sepia_pixel_spec tone pixels position (by omega) hl
      rw [hp1, and_then_done, size_add_eq _ _ (by omega)]
      obtain ⟨out, hout, hlo, hso⟩ := ih (position + 4) p1 (by omega) (by omega)
        (by omega) (by omega) (by omega)
      refine ⟨out, hout, by rw [hlo, hl1], ?_⟩
      intro i
      rw [hso i]
      by_cases hi : position + 4 ≤ i ∧ i < stop ∧ i % 4 < 3
      · rw [if_pos hi, if_pos (by omega)]
        unfold toned_byte
        rw [getD_congr p1 pixels (i - i % 4) (by rw [hs1, if_neg (by omega)]),
          getD_congr p1 pixels (i - i % 4 + 1) (by rw [hs1, if_neg (by omega)]),
          getD_congr p1 pixels (i - i % 4 + 2) (by rw [hs1, if_neg (by omega)])]
      · rw [if_neg hi, hs1 i]
        by_cases hj : position ≤ i ∧ i < position + 3
        · rw [if_pos hj, if_pos (by omega)]
          unfold toned_byte
          have e1 : i - i % 4 = position := by omega
          have e2 : i % 4 = i - position := by omega
          rw [e1, e2]
        · rw [if_neg hj, if_neg (by omega)]
    · rw [if_neg hc]
      exact ⟨pixels, rfl, rfl, fun i => by rw [if_neg (by omega)]⟩

/-! ## The fan-out of `mt_sepia.c` -/

/-- The number of channels per task, without wraparound: the quotient rounded
up to a multiple of 4 when it is not 0. -/
theorem channels_per_thread_eq (C P : Nat) (hC : C < 2 ^ 63) (hq : 1 ≤ C / P) :
    channels_per_thread C P = ((C / P - 1) / 4 + 1) * 4 ∧
    0 < channels_per_thread C P ∧ channels_per_thread C P % 4 = 0 ∧
    C / P ≤ channels_per_thread C P ∧ channels_per_thread C P ≤ C / P + 3 := by
  have hle : C / P ≤ C := Nat.div_le_self C P
  have e : channels_per_thread C P = ((C / P - 1) / 4 + 1) * 4 := by
    unfold channels_per_thread
    rw [size_sub_eq _ 1 hq (by omega), size_add_eq _ 1 (by omega), size_mul_eq _ 4 (by omega)]
  rw [e]
  omega

/-- With fewer channels than workers the quotient is 0 and the number of
channels per task wraps around to 0. -/
theorem channels_per_thread_zero (C P : Nat) (hq : C / P = 0) :
    channels_per_thread C P = 0 := by
  unfold channels_per_thread
  rw [hq]
  decide

/-- The task-submission loop from `position` on, with a positive number of
channels per task: it runs to its end, and the ranges of its tasks follow one
another from `position` to `channels_count`. -/
theorem fan_out_spec (malloc_ok : Nat → Bool) (hmem : ∀ k, malloc_ok k = true) (C cpt : Nat)
    (hC4 : C % 4 = 0) (hcpt : 0 < cpt) (hcpt4 : cpt % 4 = 0) (hno : C + cpt < 2 ^ 64)
    (fuel : Nat) :
    ∀ (position k : Nat), position % 4 = 0 → position < C + cpt → C - position ≤ 4 * fuel →
    ∃ tasks, fan_out malloc_ok C cpt fuel position k = .done (tasks, true) ∧
      (∀ t, t ∈ tasks → position ≤ t.position ∧ t.position % 4 = 0 ∧
        0 < t.channels_to_process ∧ t.channels_to_process % 4 = 0 ∧
        t.channels_to_process ≤ cpt ∧ t.position + t.channels_to_process ≤ C) ∧
      tasks.Pairwise (fun a b => a.position + a.channels_to_process ≤ b.position) ∧
      (tasks.map filters_sepia_data_t.channels_to_process).sum = C - position ∧
      (∀ b, position ≤ b → b < C →
        ∃ t, t ∈ tasks ∧ t.position ≤ b ∧ b < t.position + t.channels_to_process) ∧
      tasks.Chain' (fun a b => a.position + a.channels_to_process = b.position) ∧
      (∀ t, tasks.head? = some t → t.position = position) := by
  induction fuel with
  | zero =>
    intro position k _ _ hfuel
    rw [fan_out, if_neg (by omega)]
    refine ⟨[], rfl, ?_, List.Pairwise.nil, by simp; omega, ?_, List.chain'_nil, ?_⟩
    · intro t ht; cases ht
    · intro b h1 h2; omega
    · intro t ht; cases ht
  | succ fuel ih =>
    intro position k hp4 hlt hfuel
    rw [fan_out]
    by_cases hc : position < C
    · rw [if_pos hc, if_neg (by rw [hmem]; decide), size_add_eq _ _ (by omega)]
      obtain ⟨rest, hrest, hmemb, hpair, hsum, hcover, hchain, hhead⟩ :=
        ih (position + cpt) (k + 1) (by omega) (by omega) (by omega)
      rw [hrest, and_then_done]
      have hlen : (if position + cpt > C then size_sub C position else cpt) ≤ cpt ∧
          0 < (if position + cpt > C then size_sub C position else cpt) ∧
          (if position + cpt > C then size_sub C position else cpt) % 4 = 0 ∧
          position + (if position + cpt > C then size_sub C position else cpt) ≤ C ∧
          (position + cpt ≤ C →
            (if position + cpt > C then size_sub C position else cpt) = cpt) ∧
          (position + cpt > C →
            (if position + cpt > C then size_sub C position else cpt) = C - position) := by
        by_cases hover : position + cpt > C
        · rw [if_pos hover, size_sub_eq _ _ (by omega) (by omega)]
          omega
        · rw [if_neg hover]
          omega
      obtain ⟨l1, l2, l3, l4, l5, l6⟩ := hlen
      refine ⟨_, rfl, ?_, ?_, ?_, ?_, ?_, ?_⟩
      · intro t ht
        rcases List.mem_cons.mp ht with h | h
        · subst h
          exact ⟨Nat.le_refl _, hp4, l2, l3, l1, l4⟩
        · obtain ⟨a, b, c, d, e, f⟩ := hmemb t h
          exact ⟨by omega, b, c, d, e, f⟩
      · rw [List.pairwise_cons]
        refine ⟨?_, hpair⟩
        intro t ht
        obtain ⟨a, _⟩ := hmemb t ht
        show position + (if position + cpt > C then size_sub C position else cpt) ≤ t.position
        omega
      · rw [List.map_cons, List.sum_cons, hsum]
        show (if position + cpt > C then size_sub C position else cpt) + _ = _
        by_cases hover : position + cpt > C
        · rw [l6 hover]; omega
        · rw [l5 (by omega)]; omega
      · intro b hb1 hb2
        by_cases hb : b < position + cpt
        · refine ⟨_, List.mem_cons_self _ _, hb1, ?_⟩
          show b < position + (if position + cpt > C then size_sub C position else cpt)
          by_cases hover : position + cpt > C
          · rw [l6 hover]; omega
          · rw [l5 (by omega)]; omega
        · obtain ⟨t, ht, h1, h2⟩ := hcover b (by omega) hb2
          exact ⟨t, List.mem_cons_of_mem _ ht, h1, h2⟩
      · rw [List.chain'_cons']
        refine ⟨?_, hchain⟩
        intro t ht
        have hpos := hhead t ht
        obtain ⟨_, _, c, _, _, f⟩ := hmemb t (List.mem_of_mem_head? ht)
        show position + (if position + cpt > C then size_sub C position else cpt) = t.position
        rw [l5 (by omega)]
        omega
      · intro t ht
        simp only [List.head?_cons, Option.some.injEq] at ht
        rw [← ht]
    · rw [if_neg hc]
      refine ⟨[], rfl, ?_, List.Pairwise.nil, by simp; omega, ?_, List.chain'_nil, ?_⟩
      · intro t ht; cases ht
      · intro b h1 h2; omega
      · intro t ht; cases ht

/-- With no channels per task the task-submission loop does not advance: no
step budget is enough for it while `position` is below the number of
channels. -/
theorem fan_out_stuck (malloc_ok : Nat → Bool) (hmem : ∀ k, malloc_ok k = true) (C : Nat)
    (fuel : Nat) :
    ∀ (position k : Nat), position < C → position < 2 ^ 64 →
    fan_out malloc_ok C 0 fuel position k = .fault .step_limit := by
  induction fuel with
  | zero => intro position k hc _; rw [fan_out, if_pos hc]
  | succ fuel ih =>
    intro position k hc hl
    rw [fan_out, if_pos hc, if_neg (by rw [hmem]; decide), size_add_eq _ _ (by omega),
      Nat.add_zero, ih position (k + 1) hc hl, and_then_fault]

/-! ## Tasks run one after the other -/

/-- One task on a range of whole pixels inside the plane: its loop runs to its
end and replaces the colour bytes of the range; the count of channels left goes
down by the length of the range, and the flag is set when the count is not
positive. -/
theorem sepia_processing_task_spec (tone : Nat → Byte → Byte → Byte → Byte) (fuel : Nat)
    (data : filters_sepia_data_t) (shared : sepia_shared)
    (hp4 : data.position % 4 = 0) (hc4 : data.channels_to_process % 4 = 0)
    (hin : data.position + data.channels_to_process ≤ shared.pixels.length)
    (hl : shared.pixels.length < 2 ^ 64) (hfuel : data.channels_to_process ≤ 4 * fuel) :
    ∃ out, sepia_processing_task tone fuel data shared
        = .done ⟨out,
            wrap_ssize_t (shared.channels_left - to_ssize_t data.channels_to_process),
            if wrap_ssize_t (shared.channels_left - to_ssize_t data.channels_to_process) ≤ 0
            then true else shared.barrier_sense⟩ ∧
      out.length = shared.pixels.length ∧
      ∀ i, out[i]? =
        if data.position ≤ i ∧ i < data.position + data.channels_to_process ∧ i % 4 < 3 then
          some (toned_byte tone shared.pixels i)
        else shared.pixels[i]? := by
  obtain ⟨out, hout, hlen, hspec⟩ := sepia_loop_spec tone
    (data.position + data.channels_to_process) (by omega) fuel data.position shared.pixels hp4
    (by omega) hin hl (by omega)
  unfold sepia_processing_task
  simp only []
  rw [size_add_eq _ _ (by omega), hout, and_then_done]
  exact ⟨out, rfl, hlen, hspec⟩

/-- Tasks on pairwise disjoint ranges of whole pixels inside the plane, run one
after the other in any order: every task runs to its end, the colour bytes of
the pixels in the ranges are replaced by `tone` of their original values, and
every other byte is kept. -/
theorem run_tasks_pixels (tone : Nat → Byte → Byte → Byte → Byte) (fuel : Nat)
    (order : List filters_sepia_data_t) :
    ∀ shared : sepia_shared,
    (∀ t, t ∈ order → t.position % 4 = 0 ∧ t.channels_to_process % 4 = 0 ∧
      t.position + t.channels_to_process ≤ shared.pixels.length ∧
      t.channels_to_process ≤ 4 * fuel) →
    order.Pairwise (fun a b => a.position + a.channels_to_process ≤ b.position ∨
      b.position + b.channels_to_process ≤ a.position) →
    shared.pixels.length < 2 ^ 64 →
    ∃ final, run_tasks tone fuel order shared = .done final ∧
      final.pixels.length = shared.pixels.length ∧
      (∀ i, (∃ t, t ∈ order ∧ t.position ≤ i ∧ i < t.position + t.channels_to_process) →
        i % 4 < 3 → final.pixels[i]? = some (toned_byte tone shared.pixels i)) ∧
      (∀ i, (∀ t, t ∈ order → ¬ (t.position ≤ i ∧ i < t.position + t.channels_to_process)) ∨
          ¬ i % 4 < 3 → final.pixels[i]? = shared.pixels[i]?) := by
  induction order with
  | nil =>
    intro shared _ _ _
    refine ⟨shared, rfl, rfl, ?_, fun i _ => rfl⟩
    intro i h
    obtain ⟨t, ht, _⟩ := h
    cases ht
  | cons t rest ih =>
    intro shared hall hpair hl
    obtain ⟨t1, t2, t3, t4⟩ := hall t (List.mem_cons_self _ _)
    obtain ⟨p1, hp1, hl1, hs1⟩ := sepia_processing_task_spec tone fuel t shared t1 t2 t3 hl t4
    rw [List.pairwise_cons] at hpair
    obtain ⟨hdis, hpair⟩ := hpair
    rw [run_tasks, hp1, and_then_done]
    obtain ⟨final, hfinal, hlf, hin, hout⟩ := ih
      ⟨p1, wrap_ssize_t (shared.channels_left - to_ssize_t t.channels_to_process),
        if wrap_ssize_t (shared.channels_left - to_ssize_t t.channels_to_process) ≤ 0
        then true else shared.barrier_sense⟩
      (fun u hu => by
        obtain ⟨u1, u2, u3, u4⟩ := hall u (List.mem_cons_of_mem _ hu)
        exact ⟨u1, u2, by show _ ≤ p1.length; rw [hl1]; exact u3, u4⟩)
      hpair (by show p1.length < _; rw [hl1]; exact hl)
    change final.pixels.length = p1.length at hlf
    change ∀ i, (∃ u, u ∈ rest ∧ u.position ≤ i ∧ i < u.position + u.channels_to_process) →
      i % 4 < 3 → final.pixels[i]? = some (toned_byte tone p1 i) at hin
    change ∀ i, (∀ u, u ∈ rest → ¬ (u.position ≤ i ∧ i < u.position + u.channels_to_process)) ∨
      ¬ i % 4 < 3 → final.pixels[i]? = p1[i]? at hout
    refine ⟨final, hfinal, by rw [hlf, hl1], ?_, ?_⟩
    · intro i hex h3
      by_cases hrest : ∃ u, u ∈ rest ∧ u.position ≤ i ∧ i < u.position + u.channels_to_process
      · rw [hin i hrest h3]
        obtain ⟨u, hu, hu1, hu2⟩ := hrest
        obtain ⟨u4, u5, _, _⟩ := hall u (List.mem_cons_of_mem _ hu)
        have hd := hdis u hu
        unfold toned_byte
        rw [getD_congr p1 shared.pixels (i - i % 4) (by rw [hs1, if_neg (by omega)]),
          getD_congr p1 shared.pixels (i - i % 4 + 1) (by rw [hs1, if_neg (by omega)]),
          getD_congr p1 shared.pixels (i - i % 4 + 2) (by rw [hs1, if_neg (by omega)])]
      · rw [hout i (Or.inl (fun u hu hin' => hrest ⟨u, hu, hin'.1, hin'.2⟩)), hs1 i]
        obtain ⟨u, hu, hu1, hu2⟩ := hex
        rcases List.mem_cons.mp hu with h | h
        · subst h
          rw [if_pos ⟨hu1, hu2, h3⟩]
        · exact absurd ⟨u, h, hu1, hu2⟩ hrest
    · intro i hno
      rw [hout i (by
        rcases hno with h | h
        · exact Or.inl (fun u hu => h u (List.mem_cons_of_mem _ hu))
        · exact Or.inr h), hs1 i]
      rcases hno with h | h
      · have := h t (List.mem_cons_self _ _)
        rw [if_neg (by omega)]
      · rw [if_neg (by omega)]

/-- The count of channels left and the flag after tasks with non-empty ranges
were run, when the count at the start is the number of channels of these tasks
and of `r` more: the count is `r` at the end; the flag is as it was when
`r > 0`, and it is set when `r = 0` and at least one task was run. -/
theorem run_tasks_counts (tone : Nat → Byte → Byte → Byte → Byte) (fuel : Nat)
    (order : List filters_sepia_data_t) :
    ∀ (shared final : sepia_shared) (r : Nat),
    run_tasks tone fuel order shared = .done final →
    (∀ t, t ∈ order → 0 < t.channels_to_process) →
    shared.channels_left
      = (((order.map filters_sepia_data_t.channels_to_process).sum + r : Nat) : Int) →
    (order.map filters_sepia_data_t.channels_to_process).sum + r < 2 ^ 63 →
    final.channels_left = (r : Int) ∧
    (0 < r → final.barrier_sense = shared.barrier_sense) ∧
    (r = 0 → order ≠ [] → final.barrier_sense = true) := by
  induction order with
  | nil =>
    intro shared final r h _ hcl _
    rw [run_tasks] at h
    injection h with h
    subst h
    refine ⟨by rw [hcl]; simp, fun _ => rfl, fun _ hne => absurd rfl hne⟩
  | cons t rest ih =>
    intro shared final r h hpos hcl hlt
    rw [run_tasks] at h
    obtain ⟨s1, hs1, hrest⟩ := and_then_eq_done _ _ _ h
    unfold sepia_processing_task at hs1
    simp only [] at hs1
    obtain ⟨p1, _, hs1⟩ := and_then_eq_done _ _ _ hs1
    injection hs1 with hs1
    rw [List.map_cons, List.sum_cons] at hcl hlt
    have htpos := hpos t (List.mem_cons_self _ _)
    have hconv : to_ssize_t t.channels_to_process = (t.channels_to_process : Int) := by
      unfold to_ssize_t
      rw [Nat.mod_eq_of_lt (by omega), if_pos (by omega)]
    have hcl1 : wrap_ssize_t (shared.channels_left - to_ssize_t t.channels_to_process)
        = (((rest.map filters_sepia_data_t.channels_to_process).sum + r : Nat) : Int) := by
      rw [hconv, hcl]
      unfold wrap_ssize_t
      omega
    rw [hcl1] at hs1
    subst hs1
    obtain ⟨a, b, c⟩ := ih _ final r hrest (fun u hu => hpos u (List.mem_cons_of_mem _ hu))
      rfl (by omega)
    refine ⟨a, ?_, ?_⟩
    · intro hr
      rw [b hr]
      show (if _ then true else shared.barrier_sense) = shared.barrier_sense
      rw [if_neg (by omega)]
    · intro hr _
      cases rest with
      | nil =>
        rw [run_tasks] at hrest
        injection hrest with hrest
        rw [← hrest]
        show (if _ then true else shared.barrier_sense) = true
        rw [if_pos (by simp [hr])]
      | cons u rest2 => exact c hr (List.cons_ne_nil _ _)

/-- The bytes of the plane the specification asks for. -/
theorem getElem?_toned (tone : Nat → Byte → Byte → Byte → Byte) (pixels : List Byte)
    (C i : Nat) :
    (toned tone pixels C)[i]? =
      if i < pixels.length then
        some (if i < C ∧ i % 4 < 3 then toned_byte tone pixels i else pixels.getD i 0)
      else none := by
  unfold toned
  rw [List.getElem?_map]
  by_cases h : i < pixels.length
  · rw [List.getElem?_range h, if_pos h]
    rfl
  · rw [if_neg h, List.getElem?_eq_none (by rw [List.length_range]; omega)]
    rfl

/-! ## The scalar loop of `brightness.c` -/

theorem brightness_store_spec (level : Byte → Byte) (pixels : List Byte) (i : Nat)
    (h : i < pixels.length) :
    brightness_store level pixels i = .done (pixels.set i (level (pixels.getD i 0))) := by
  unfold brightness_store
  rw [getElem?_getD_of_lt pixels i h]

/-- The three stores of the brightness body: the colour bytes of the pixel at
`position` are replaced, every other byte is kept. -/
theorem brightness_pixel_spec (level : Byte → Byte) (pixels : List Byte) (position : Nat)
    (h : position + 3 ≤ pixels.length) (hl : pixels.length < 2 ^ 64) :
    ∃ out, brightness_pixel level pixels position = .done out ∧
      out.length = pixels.length ∧
      ∀ i, out[i]? =
        if position ≤ i ∧ i < position + 3 then some (level (pixels.getD i 0))
        else pixels[i]? := by
  unfold brightness_pixel
  rw [size_add_eq _ _ (by omega), size_add_eq _ _ (by omega),
    brightness_store_spec level pixels position (by omega), and_then_done,
    brightness_store_spec level _ (position + 1) (by rw [List.length_set]; omega),
    and_then_done,
    brightness_store_spec level _ (position + 2) (by
      rw [List.length_set, List.length_set]; omega)]
  refine ⟨_, rfl, by simp, ?_⟩
  intro i
  have g1 : (pixels.set position (level (pixels.getD position 0))).getD (position + 1) 0
      = pixels.getD (position + 1) 0 :=
    getD_congr _ _ _ (by rw [List.getElem?_set_ne (by omega)])
  have g2 : ((pixels.set position (level (pixels.getD position 0))).set (position + 1)
        (level ((pixels.set position (level (pixels.getD position 0))).getD
          (position + 1) 0))).getD (position + 2) 0
      = pixels.getD (position + 2) 0 :=
    getD_congr _ _ _ (by
      rw [List.getElem?_set_ne (by omega), List.getElem?_set_ne (by omega)])
  rw [g2, g1, List.getElem?_set, List.getElem?_set, List.getElem?_set]
  simp only [List.length_set]
  by_cases h2 : position + 2 = i
  · subst h2
    rw [if_pos rfl, if_pos (by omega), if_pos (by omega)]
  · rw [if_neg h2]
    by_cases h1 : position + 1 = i
    · subst h1
      rw [if_pos rfl, if_pos (by omega), if_pos (by omega)]
    · rw [if_neg h1]
      by_cases h0 : position = i
      · subst h0
        rw [if_pos rfl, if_pos (by omega), if_pos (by omega)]
      · rw [if_neg h0, if_neg (by omega)]

/-- The brightness loop from `position`, a multiple of 4, to `channels_count`,
a multiple of 4 inside the plane: it runs to its end, every colour byte of the
range is replaced by `level` of its original value, and every other byte is
kept. -/
theorem brightness_loop_spec (level : Byte → Byte) (C : Nat) (hC : C % 4 = 0) (fuel : Nat) :
    ∀ (position : Nat) (pixels : List Byte), position % 4 = 0 → position ≤ C →
    C ≤ pixels.length → pixels.length < 2 ^ 64 → C - position ≤ 4 * fuel →
    ∃ out, brightness_loop level C fuel position pixels = .done out ∧
      out.length = pixels.length ∧
      ∀ i, out[i]? =
        if position ≤ i ∧ i < C ∧ i % 4 < 3 then some (level (pixels.getD i 0))
        else pixels[i]? := by
  induction fuel with
  | zero =>
    intro position pixels _ hle _ _ hfuel
    rw [brightness_loop, if_neg (by omega)]
    exact ⟨pixels, rfl, rfl, fun i => by rw [if_neg (by omega)]⟩
  | succ fuel ih =>
    intro position pixels hpos hle hlen hl hfuel
    rw [brightness_loop]
    by_cases hc : position < C
    · rw [if_pos hc]
      obtain ⟨p1, hp1, hl1, hs1⟩ := brightness_pixel_spec level pixels position (by omega) hl
      rw [hp1, and_then_done, size_add_eq _ _ (by omega)]
      obtain ⟨out, hout, hlo, hso⟩ := ih (position + 4) p1 (by omega) (by omega)
        (by omega) (by omega) (by omega)
      refine ⟨out, hout, by rw [hlo, hl1], ?_⟩
      intro i
      rw [hso i]
      by_cases hi : position + 4 ≤ i ∧ i < C ∧ i % 4 < 3
      · rw [if_pos hi, if_pos (by omega),
          getD_congr p1 pixels i (by rw [hs1, if_neg (by omega)])]
      · rw [if_neg hi, hs1 i]
        by_cases hj : position ≤ i ∧ i < position + 3
        · rw [if_pos hj, if_pos (by omega)]
        · rw [if_neg hj, if_neg (by omega)]
    · rw [if_neg hc]
      exact ⟨pixels, rfl, rfl, fun i => by rw [if_neg (by omega)]⟩

/-! ## The tasks of `mt_sepia.c` in any order -/

theorem channels_count_eq (W H : Nat) (h : W * H * 4 < 2 ^ 64) :
    channels_count W H = W * H * 4 := by
  unfold channels_count
  rw [size_mul_eq W H (by omega), size_mul_eq _ 4 h]

/-- A positive number of channels per task means at least one channel per
worker. -/
theorem quotient_of_channels_per_thread (C P : Nat)
    (h : 0 < channels_per_thread C P) : 1 ≤ C / P := by
  by_contra hq
  rw [channels_per_thread_zero C P (Nat.lt_one_iff.mp (Nat.lt_of_not_le hq))] at h
  omega

/-- The tasks `main` of `mt_sepia.c` submits for a plane of `W * H` pixels when
the number of channels per task is positive. -/
theorem fan_out_tasks (malloc_ok : Nat → Bool) (hmem : ∀ k, malloc_ok k = true)
    (W H P fuel : Nat) (hplane : W * H * 4 < 2 ^ 63)
    (hcpt : 0 < channels_per_thread (channels_count W H) P)
    (hfuel : W * H * 4 ≤ 4 * fuel) :
    ∃ tasks,
      fan_out malloc_ok (channels_count W H) (channels_per_thread (channels_count W H) P)
        fuel 0 0 = .done (tasks, true) ∧
      (∀ t, t ∈ tasks → t.position % 4 = 0 ∧ 0 < t.channels_to_process ∧
        t.channels_to_process % 4 = 0 ∧ t.position + t.channels_to_process ≤ W * H * 4) ∧
      tasks.Pairwise (fun a b => a.position + a.channels_to_process ≤ b.position) ∧
      (tasks.map filters_sepia_data_t.channels_to_process).sum = W * H * 4 ∧
      (∀ b, b < W * H * 4 →
        ∃ t, t ∈ tasks ∧ t.position ≤ b ∧ b < t.position + t.channels_to_process) ∧
      tasks.Chain' (fun a b => a.position + a.channels_to_process = b.position) ∧
      (∀ t, tasks.head? = some t → t.position = 0) := by
  have hC := channels_count_eq W H (by omega)
  rw [hC] at hcpt ⊢
  have hq := quotient_of_channels_per_thread _ _ hcpt
  obtain ⟨_, _, h4, _, hle⟩ := channels_per_thread_eq (W * H * 4) P hplane hq
  have hdiv : W * H * 4 / P ≤ W * H * 4 := Nat.div_le_self _ _
  obtain ⟨tasks, hrun, hmemb, hpair, hsum, hcover, hchain, hhead⟩ :=
    fan_out_spec malloc_ok hmem (W * H * 4) (channels_per_thread (W * H * 4) P) (by omega)
      hcpt h4 (by omega) fuel 0 0 (by omega) (by omega) (by omega)
  refine ⟨tasks, hrun, ?_, hpair, by rw [hsum]; omega, fun b hb => hcover b (by omega) hb,
    hchain, hhead⟩
  intro t ht
  obtain ⟨_, a, b, c, _, e⟩ := hmemb t ht
  exact ⟨a, b, c, e⟩

/-- Tasks that cover the channels of the plane with pairwise disjoint ranges of
whole pixels, run to their end one after the other in any order: the plane
they leave is the plane the specification asks for. -/
theorem run_order_toned (tone : Nat → Byte → Byte → Byte → Byte) (fuel C : Nat)
    (tasks order : List filters_sepia_data_t) (shared : sepia_shared)
    (hmemb : ∀ t, t ∈ tasks → t.position % 4 = 0 ∧ 0 < t.channels_to_process ∧
      t.channels_to_process % 4 = 0 ∧ t.position + t.channels_to_process ≤ C)
    (hpair : tasks.Pairwise (fun a b => a.position + a.channels_to_process ≤ b.position))
    (hcover : ∀ b, b < C →
      ∃ t, t ∈ tasks ∧ t.position ≤ b ∧ b < t.position + t.channels_to_process)
    (horder : order.Perm tasks)
    (hC : C ≤ shared.pixels.length) (hl : shared.pixels.length < 2 ^ 64)
    (hfuel : C ≤ 4 * fuel) :
    ∃ final, run_tasks tone fuel order shared = .done final ∧
      final.pixels = toned tone shared.pixels C := by
  have hsym : tasks.Pairwise (fun a b => a.position + a.channels_to_process ≤ b.position ∨
      b.position + b.channels_to_process ≤ a.position) :=
    hpair.imp (fun h => Or.inl h)
  have hpo := (horder.pairwise_iff (fun h => Or.symm h)).mpr hsym
  obtain ⟨final, hrun, hlen, hin, hout⟩ := run_tasks_pixels tone fuel order shared
    (fun t ht => by
      obtain ⟨a, _, c, d⟩ := hmemb t (horder.mem_iff.mp ht)
      exact ⟨a, c, by omega, by omega⟩)
    hpo hl
  refine ⟨final, hrun, ?_⟩
  apply List.ext_getElem?
  intro i
  rw [getElem?_toned]
  by_cases hi : i < shared.pixels.length
  · rw [if_pos hi]
    by_cases hc : i < C ∧ i % 4 < 3
    · rw [if_pos hc]
      obtain ⟨t, ht, h1, h2⟩ := hcover i hc.1
      exact hin i ⟨t, horder.mem_iff.mpr ht, h1, h2⟩ hc.2
    · rw [if_neg hc, hout i (by
        by_cases h3 : i % 4 < 3
        · left
          intro t ht hr
          obtain ⟨_, _, _, d⟩ := hmemb t (horder.mem_iff.mp ht)
          omega
        · exact Or.inr h3)]
      exact getElem?_getD_of_lt _ _ hi
  · rw [if_neg hi, List.getElem?_eq_none (by omega)]

/-! ## The claims on the filters -/

/-- C25. The fan-out partitions the plane: in `main` of `mt_sepia.c`, for a
plane of `W * H` pixels (`C = W * H * 4` channels, a size below `2 ^ 63`) and a
pool size `P` with `C / P ≥ 1`, when every task record is allocated, the
submission loop ends and the ranges `[position, position + channels_to_process)`
of its tasks are non-empty, start at multiples of 4, never extend past `C`,
follow one another without a gap from 0 (each starts where the one before
ends), are pairwise disjoint, cover every byte below `C`, and have lengths that
sum to `C`; no byte lies in the ranges of two tasks. -/
theorem fan_out_partitions (malloc_ok : Nat → Bool) (hmem : ∀ k, malloc_ok k = true)
    (W H P fuel : Nat) (hplane : W * H * 4 < 2 ^ 63)
    (hq : 1 ≤ channels_count W H / P) (hfuel : W * H * 4 ≤ 4 * fuel) :
    channels_count W H = W * H * 4 ∧
    ∃ tasks,
      fan_out malloc_ok (channels_count W H) (channels_per_thread (channels_count W H) P)
        fuel 0 0 = .done (tasks, true) ∧
      (∀ t, t ∈ tasks → t.position % 4 = 0 ∧ 0 < t.channels_to_process ∧
        t.position + t.channels_to_process ≤ W * H * 4) ∧
      tasks.Pairwise (fun a b => a.position + a.channels_to_process ≤ b.position) ∧
      tasks.Chain' (fun a b => a.position + a.channels_to_process = b.position) ∧
      (∀ t, tasks.head? = some t → t.position = 0) ∧
      (∀ b, b < W * H * 4 →
        ∃ t, t ∈ tasks ∧ t.position ≤ b ∧ b < t.position + t.channels_to_process) ∧
      (tasks.map filters_sepia_data_t.channels_to_process).sum = W * H * 4 ∧
      (∀ t u b, t ∈ tasks → u ∈ tasks →
        t.position ≤ b ∧ b < t.position + t.channels_to_process →
        u.position ≤ b ∧ b < u.position + u.channels_to_process → t = u) := by
  have hC := channels_count_eq W H (by omega)
  have hcpt : 0 < channels_per_thread (channels_count W H) P :=
    (channels_per_thread_eq _ P (by rw [hC]; exact hplane) hq).2.1
  obtain ⟨tasks, hrun, hmemb, hpair, hsum, hcover, hchain, hhead⟩ :=
    fan_out_tasks malloc_ok hmem W H P fuel hplane hcpt hfuel
  refine ⟨hC, tasks, hrun, ?_, hpair, hchain, hhead, hcover, hsum, ?_⟩
  · intro t ht
    obtain ⟨a, b, _, d⟩ := hmemb t ht
    exact ⟨a, b, d⟩
  · intro t u b ht hu hbt hbu
    by_contra hne
    have hsym : tasks.Pairwise (fun a b => a.position + a.channels_to_process ≤ b.position ∨
        b.position + b.channels_to_process ≤ a.position) :=
      hpair.imp (fun h => Or.inl h)
    have := hsym.forall (fun _ _ h => Or.symm h) ht hu hne
    omega

/-- A plane of 2 x 2 pixels on 3 workers: two tasks of 8 channels each. -/
theorem fan_out_partitions_witness :
    channels_count 2 2 = 2 * 2 * 4 ∧
    fan_out (fun _ => true) (channels_count 2 2) (channels_per_thread (channels_count 2 2) 3)
      4 0 0 = .done ([⟨0, 8⟩, ⟨8, 8⟩], true) := by
  obtain ⟨h, _⟩ := fan_out_partitions (fun _ => true) (fun _ => rfl) 2 2 3 4 (by decide)
    (by decide) (by decide)
  exact ⟨h, by decide⟩

/-- With fewer channels than workers, and at least one channel, the
submission loop of `mt_sepia.c` does not end: no step budget is enough. -/
theorem fan_out_stuck_below_pool_size (C P fuel : Nat) (hC : 0 < C) (hP : C < P) :
    channels_per_thread C P = 0 ∧
    fan_out (fun _ => true) C (channels_per_thread C P) fuel 0 0 = .fault .step_limit := by
  have h0 := channels_per_thread_zero C P (Nat.div_eq_of_lt hP)
  rw [h0]
  exact ⟨rfl, fan_out_stuck (fun _ => true) (fun _ => rfl) C fuel 0 0 hC (by decide)⟩

/-- C26. The fan-out loop, for a 1 x 1 image (`C = 4` channels) on 8 workers:
the quotient `C / P` is 0, `channels_per_thread`, `((0 - 1) / 4 + 1) * 4` in
64-bit unsigned arithmetic, is 0, and the submission loop, whose `position`
stays 0, does not end: no step budget is enough for it. -/
theorem fan_out_never_ends :
    channels_count 1 1 = 4 ∧ channels_count 1 1 / 8 = 0 ∧
    channels_per_thread (channels_count 1 1) 8 = 0 ∧
    ∀ fuel, fan_out (fun _ => true) (channels_count 1 1)
      (channels_per_thread (channels_count 1 1) 8) fuel 0 0 = .fault .step_limit := by
  refine ⟨by decide, by decide, by decide, ?_⟩
  intro fuel
  rw [show channels_count 1 1 = 4 from by decide, show channels_per_thread 4 8 = 0 from by decide]
  exact fan_out_stuck (fun _ => true) (fun _ => rfl) 4 fuel 0 0 (by decide) (by decide)

/-- C27. Completion on an image with no pixels: for width 0 (any height, any
pool size, any plane) the number of channels is 0, the submission loop of
`mt_sepia.c` submits no task, and with all of its tasks run, none, the flag
`barrier_sense` is still `false`: the loop `while (!barrier_sense) { }` of
`main` cannot end. -/
theorem completion_without_tasks (tone : Nat → Byte → Byte → Byte → Byte)
    (pixels : List Byte) (H P fuel : Nat) :
    channels_count 0 H = 0 ∧
    fan_out (fun _ => true) (channels_count 0 H) (channels_per_thread (channels_count 0 H) P)
      fuel 0 0 = .done ([], true) ∧
    run_tasks tone fuel [] (sepia_start pixels (channels_count 0 H))
      = .done ⟨pixels, 0, false⟩ := by
  have hC : channels_count 0 H = 0 := by
    unfold channels_count size_mul; simp
  rw [hC]
  refine ⟨rfl, ?_, rfl⟩
  cases fuel with
  | zero => rw [fan_out, if_neg (by omega)]
  | succ n => rw [fan_out, if_neg (by omega)]

/-- C28. Completion is never signalled early: in `mt_sepia.c`, for a plane of
`W * H` pixels with `C = W * H * 4 > 0` channels and a pool size with
`channels_per_thread > 0`, the submitted tasks completing in any order: after
any `k` of them, `k` less than their number, the flag `barrier_sense` is `false`
and the count `channels_left` is positive, the number of channels of the tasks
still to complete; after the last one the count is exactly 0 and the flag is
`true`. -/
theorem completion_not_early (tone : Nat → Byte → Byte → Byte → Byte)
    (malloc_ok : Nat → Bool) (hmem : ∀ k, malloc_ok k = true)
    (W H P fuel : Nat) (pixels : List Byte)
    (hplane : W * H * 4 ≤ pixels.length) (hl : pixels.length < 2 ^ 63)
    (hC : 0 < channels_count W H)
    (hcpt : 0 < channels_per_thread (channels_count W H) P)
    (hfuel : W * H * 4 ≤ 4 * fuel) :
    ∃ tasks,
      fan_out malloc_ok (channels_count W H) (channels_per_thread (channels_count W H) P)
        fuel 0 0 = .done (tasks, true) ∧
      ∀ order : List filters_sepia_data_t, order.Perm tasks →
        (∀ k, k < order.length →
          ∃ shared, run_tasks tone fuel (order.take k)
              (sepia_start pixels (channels_count W H)) = .done shared ∧
            shared.barrier_sense = false ∧ 0 < shared.channels_left ∧
            shared.channels_left
              = (((order.drop k).map filters_sepia_data_t.channels_to_process).sum : Nat)) ∧
        ∃ final, run_tasks tone fuel order (sepia_start pixels (channels_count W H))
            = .done final ∧
          final.barrier_sense = true ∧ final.channels_left = 0 := by
  have hCeq := channels_count_eq W H (by omega)
  obtain ⟨tasks, hrun, hmemb, hpair, hsum, hcover, _, _⟩ :=
    fan_out_tasks malloc_ok hmem W H P fuel (by omega) hcpt hfuel
  refine ⟨tasks, hrun, ?_⟩
  intro order horder
  have hsym : tasks.Pairwise (fun a b => a.position + a.channels_to_process ≤ b.position ∨
      b.position + b.channels_to_process ≤ a.position) :=
    hpair.imp (fun h => Or.inl h)
  have hpo := (horder.pairwise_iff (fun h => Or.symm h)).mpr hsym
  have hall : ∀ t, t ∈ order → t.position % 4 = 0 ∧ t.channels_to_process % 4 = 0 ∧
      t.position + t.channels_to_process ≤ pixels.length ∧
      t.channels_to_process ≤ 4 * fuel := by
    intro t ht
    obtain ⟨a, _, c, d⟩ := hmemb t (horder.mem_iff.mp ht)
    exact ⟨a, c, by omega, by omega⟩
  have hpos : ∀ t, t ∈ order → 0 < t.channels_to_process := fun t ht =>
    (hmemb t (horder.mem_iff.mp ht)).2.1
  have htotal : (order.map filters_sepia_data_t.channels_to_process).sum = W * H * 4 := by
    rw [(horder.map _).sum_eq, hsum]
  have hstart : (sepia_start pixels (channels_count W H)).channels_left
      = ((W * H * 4 : Nat) : Int) := by
    rw [hCeq]
    unfold sepia_start to_ssize_t
    simp only []
    rw [Nat.mod_eq_of_lt (by omega), if_pos (by omega)]
  constructor
  · intro k hk
    have hsplit : ((order.take k).map filters_sepia_data_t.channels_to_process).sum
        + ((order.drop k).map filters_sepia_data_t.channels_to_process).sum = W * H * 4 := by
      rw [← List.sum_append, ← List.map_append, List.take_append_drop, htotal]
    have hrest : 0 < ((order.drop k).map filters_sepia_data_t.channels_to_process).sum := by
      cases hd : order.drop k with
      | nil =>
        have := congrArg List.length hd
        rw [List.length_drop, List.length_nil] at this
        omega
      | cons t rest =>
        have ht : t ∈ order := List.mem_of_mem_drop (by rw [hd]; exact List.mem_cons_self _ _)
        have := hpos t ht
        rw [List.map_cons, List.sum_cons]
        omega
    obtain ⟨shared, hshared, _, _, _⟩ := run_tasks_pixels tone fuel (order.take k)
      (sepia_start pixels (channels_count W H))
      (fun t ht => hall t (List.mem_of_mem_take ht))
      (hpo.sublist (List.take_sublist k order)) (by show pixels.length < _; omega)
    obtain ⟨a, b, _⟩ := run_tasks_counts tone fuel (order.take k) _ shared
      (((order.drop k).map filters_sepia_data_t.channels_to_process).sum) hshared
      (fun t ht => hpos t (List.mem_of_mem_take ht)) (by rw [hstart, hsplit]) (by omega)
    refine ⟨shared, hshared, ?_, by rw [a]; omega, a⟩
    rw [b hrest]
    rfl
  · obtain ⟨final, hfinal, _, _, _⟩ := run_tasks_pixels tone fuel order
      (sepia_start pixels (channels_count W H)) hall hpo (by show pixels.length < _; omega)
    obtain ⟨a, _, c⟩ := run_tasks_counts tone fuel order _ final 0 hfinal hpos
      (by rw [hstart, Nat.add_zero, htotal]) (by omega)
    refine ⟨final, hfinal, c rfl ?_, by rw [a]; rfl⟩
    intro hnil
    rw [hnil, List.map_nil, List.sum_nil] at htotal
    rw [hCeq] at hC
    omega

/-- C29. Multi-threaded sepia refines single-threaded sepia, scalar build, with
the sepia formula a function `tone` of the output channel and of the blue, green
and red bytes of a pixel: for every plane of `W * H` pixels and every pool size
with `channels_per_thread > 0`, the sequential loop of `sepia.c` leaves the
plane in which the first three bytes of every pixel are `tone` of their original
values and every other byte is kept, and the tasks submitted by `mt_sepia.c`,
run to their end in any order, leave that same plane. -/
theorem mt_sepia_refines_sepia (tone : Nat → Byte → Byte → Byte → Byte)
    (malloc_ok : Nat → Bool) (hmem : ∀ k, malloc_ok k = true)
    (W H P fuel : Nat) (pixels : List Byte)
    (hplane : W * H * 4 ≤ pixels.length) (hl : pixels.length < 2 ^ 63)
    (hcpt : 0 < channels_per_thread (channels_count W H) P)
    (hfuel : W * H * 4 ≤ 4 * fuel) :
    sepia_loop tone (channels_count W H) fuel 0 pixels
      = .done (toned tone pixels (W * H * 4)) ∧
    ∃ tasks,
      fan_out malloc_ok (channels_count W H) (channels_per_thread (channels_count W H) P)
        fuel 0 0 = .done (tasks, true) ∧
      ∀ order : List filters_sepia_data_t, order.Perm tasks →
        ∃ final, run_tasks tone fuel order (sepia_start pixels (channels_count W H))
            = .done final ∧
          final.pixels = toned tone pixels (W * H * 4) := by
  have hCeq := channels_count_eq W H (by omega)
  constructor
  · obtain ⟨out, hout, hlen, hspec⟩ := sepia_loop_spec tone (W * H * 4) (by omega) fuel 0
      pixels (by omega) (by omega) hplane (by omega) (by omega)
    rw [hCeq, hout]
    congr 1
    apply List.ext_getElem?
    intro i
    rw [hspec i, getElem?_toned]
    by_cases hi : i < pixels.length
    · rw [if_pos hi]
      by_cases hc : i < W * H * 4 ∧ i % 4 < 3
      · rw [if_pos hc, if_pos ⟨by omega, hc.1, hc.2⟩]
      · rw [if_neg hc, if_neg (by omega)]
        exact getElem?_getD_of_lt _ _ hi
    · rw [if_neg hi, if_neg (by omega), List.getElem?_eq_none (by omega)]
  · obtain ⟨tasks, hrun, hmemb, hpair, _, hcover, _, _⟩ :=
      fan_out_tasks malloc_ok hmem W H P fuel (by omega) hcpt hfuel
    refine ⟨tasks, hrun, ?_⟩
    intro order horder
    exact run_order_toned tone fuel (W * H * 4) tasks order
      (sepia_start pixels (channels_count W H)) hmemb hpair hcover horder hplane
      (by show pixels.length < _; omega) hfuel

/-- The bytes the specification's sepia plane keeps. -/
theorem toned_frame (tone : Nat → Byte → Byte → Byte → Byte) (pixels : List Byte)
    (C i : Nat) (h : i % 4 = 3 ∨ C ≤ i) : (toned tone pixels C)[i]? = pixels[i]? := by
  rw [getElem?_toned]
  by_cases hi : i < pixels.length
  · rw [if_pos hi, if_neg (by omega)]
    exact (getElem?_getD_of_lt _ _ hi).symm
  · rw [if_neg hi, List.getElem?_eq_none (by omega)]

/-- C30. Transforms leave alpha alone, scalar builds: for every plane of
`W * H` pixels, the loop of `brightness.c`, the loop of `sepia.c` and the tasks
of `mt_sepia.c` (for a pool size with `channels_per_thread > 0`, run to their
end in any order) leave a plane of the same length in which every byte at an
index congruent to 3 modulo 4 and every byte at an index from `W * H * 4` on has
the value it had; an alpha byte that was 255 is 255. -/
theorem transforms_leave_alpha (tone : Nat → Byte → Byte → Byte → Byte)
    (level : Byte → Byte) (malloc_ok : Nat → Bool) (hmem : ∀ k, malloc_ok k = true)
    (W H P fuel : Nat) (pixels : List Byte)
    (hplane : W * H * 4 ≤ pixels.length) (hl : pixels.length < 2 ^ 63)
    (hfuel : W * H * 4 ≤ 4 * fuel) :
    (∃ out, brightness_loop level (channels_count W H) fuel 0 pixels = .done out ∧
      out.length = pixels.length ∧
      (∀ i, i % 4 = 3 ∨ W * H * 4 ≤ i → out[i]? = pixels[i]?) ∧
      ∀ n, pixels[4 * n + 3]? = some 255 → out[4 * n + 3]? = some 255) ∧
    (∃ out, sepia_loop tone (channels_count W H) fuel 0 pixels = .done out ∧
      out.length = pixels.length ∧
      (∀ i, i % 4 = 3 ∨ W * H * 4 ≤ i → out[i]? = pixels[i]?) ∧
      ∀ n, pixels[4 * n + 3]? = some 255 → out[4 * n + 3]? = some 255) ∧
    (0 < channels_per_thread (channels_count W H) P →
      ∃ tasks,
        fan_out malloc_ok (channels_count W H) (channels_per_thread (channels_count W H) P)
          fuel 0 0 = .done (tasks, true) ∧
        ∀ order : List filters_sepia_data_t, order.Perm tasks →
          ∃ final, run_tasks tone fuel order (sepia_start pixels (channels_count W H))
              = .done final ∧
            final.pixels.length = pixels.length ∧
            (∀ i, i % 4 = 3 ∨ W * H * 4 ≤ i → final.pixels[i]? = pixels[i]?) ∧
            ∀ n, pixels[4 * n + 3]? = some 255 → final.pixels[4 * n + 3]? = some 255) := by
  have hCeq := channels_count_eq W H (by omega)
  have hlen_toned : (toned tone pixels (W * H * 4)).length = pixels.length := by
    unfold toned; simp
  refine ⟨?_, ?_, ?_⟩
  · obtain ⟨out, hout, hlen, hspec⟩ := brightness_loop_spec level (W * H * 4) (by omega) fuel
      0 pixels (by omega) (by omega) hplane (by omega) (by omega)
    have hframe : ∀ i, i % 4 = 3 ∨ W * H * 4 ≤ i → out[i]? = pixels[i]? := by
      intro i hi
      rw [hspec i, if_neg (by omega)]
    rw [hCeq]
    exact ⟨out, hout, hlen, hframe, fun n h => by rw [hframe _ (Or.inl (by omega))]; exact h⟩
  · obtain ⟨out, hout, hlen, hspec⟩ := sepia_loop_spec tone (W * H * 4) (by omega) fuel 0
      pixels (by omega) (by omega) hplane (by omega) (by omega)
    have hframe : ∀ i, i % 4 = 3 ∨ W * H * 4 ≤ i → out[i]? = pixels[i]? := by
      intro i hi
      rw [hspec i, if_neg (by omega)]
    rw [hCeq]
    exact ⟨out, hout, hlen, hframe, fun n h => by rw [hframe _ (Or.inl (by omega))]; exact h⟩
  · intro hcpt
    obtain ⟨tasks, hrun, hmemb, hpair, _, hcover, _, _⟩ :=
      fan_out_tasks malloc_ok hmem W H P fuel (by omega) hcpt hfuel
    refine ⟨tasks, hrun, ?_⟩
    intro order horder
    obtain ⟨final, hfinal, hpix⟩ := run_order_toned tone fuel (W * H * 4) tasks order
      (sepia_start pixels (channels_count W H)) hmemb hpair hcover horder hplane
      (by show pixels.length < _; omega) hfuel
    change final.pixels = toned tone pixels (W * H * 4) at hpix
    refine ⟨final, hfinal, by rw [hpix, hlen_toned], ?_, ?_⟩
    · intro i hi
      rw [hpix]
      exact toned_frame tone pixels _ i hi
    · intro n h
      rw [hpix, toned_frame tone pixels _ _ (Or.inl (by omega))]
      exact h

/-! ## The filters on a plane of two pixels -/

set_option maxRecDepth 100000 in
/-- The plane `sample_plane` on 2 workers: two tasks of one pixel each; in both
orders the flag is `false` after the first task and `true` after the second. -/
theorem completion_not_early_witness :
    ∃ tasks,
      fan_out (fun _ => true) (channels_count 2 1) (channels_per_thread (channels_count 2 1) 2)
        2 0 0 = .done (tasks, true) ∧
      ∀ order : List filters_sepia_data_t, order.Perm tasks →
        (∀ k, k < order.length →
          ∃ shared, run_tasks sample_tone 2 (order.take k)
              (sepia_start sample_plane (channels_count 2 1)) = .done shared ∧
            shared.barrier_sense = false ∧ 0 < shared.channels_left ∧
            shared.channels_left
              = (((order.drop k).map filters_sepia_data_t.channels_to_process).sum : Nat)) ∧
        ∃ final, run_tasks sample_tone 2 order (sepia_start sample_plane (channels_count 2 1))
            = .done final ∧
          final.barrier_sense = true ∧ final.channels_left = 0 :=
  completion_not_early sample_tone (fun _ => true) (fun _ => rfl) 2 1 2 2 sample_plane
    (by decide) (by decide) (by decide) (by decide) (by decide)

set_option maxRecDepth 100000 in
/-- The plane `sample_plane` through the loop of `sepia.c` and through the two
tasks of `mt_sepia.c` in the order opposite to their submission. -/
theorem mt_sepia_refines_sepia_witness :
    sepia_loop sample_tone (channels_count 2 1) 2 0 sample_plane
      = .done (toned sample_tone sample_plane (2 * 1 * 4)) ∧
    toned sample_tone sample_plane (2 * 1 * 4)
      = [17, 22, 24, 255, 203, 255, 255, 255] ++ List.replicate 56 0 ∧
    run_tasks sample_tone 2 [⟨4, 4⟩, ⟨0, 4⟩] (sepia_start sample_plane (channels_count 2 1))
      = .done ⟨[17, 22, 24, 255, 203, 255, 255, 255] ++ List.replicate 56 0, 0, true⟩ :=
  ⟨(mt_sepia_refines_sepia sample_tone (fun _ => true) (fun _ => rfl) 2 1 2 2 sample_plane
      (by decide) (by decide) (by decide) (by decide)).1, by decide, by decide⟩

set_option maxRecDepth 100000 in
/-- The plane `sample_plane` through the loop of `brightness.c`: the alpha bytes
and the bytes after the two pixels are as they were. -/
theorem transforms_leave_alpha_witness :
    (∃ out, brightness_loop sample_level (channels_count 2 1) 2 0 sample_plane = .done out ∧
      out.length = sample_plane.length ∧
      (∀ i, i % 4 = 3 ∨ 2 * 1 * 4 ≤ i → out[i]? = sample_plane[i]?) ∧
      ∀ n, sample_plane[4 * n + 3]? = some 255 → out[4 * n + 3]? = some 255) ∧
    brightness_loop sample_level (channels_count 2 1) 2 0 sample_plane
      = .done ([50, 60, 70, 255, 240, 255, 255, 255] ++ List.replicate 56 0) :=
  ⟨(transforms_leave_alpha sample_tone sample_level (fun _ => true) (fun _ => rfl) 2 1 2 2
      sample_plane (by decide) (by decide) (by decide)).1, by decide⟩

/-! ## The size of a decoded plane and raw addressing without padding -/

/-- The extended size of a decoded image, without wraparound. -/
theorem extended_size_decoded (alloc : Nat → Nat → Bool) (junk : Nat → Byte)
    (source : FILE) (blank : bmp_image) (file : FILE) (image : bmp_image) (loaded : bmp_result)
    (hopen : bmp_open_image_headers (some source) (some blank) = ⟨some file, some image, none⟩)
    (hread : bmp_read_image_data alloc junk (some file) (some image) = .done loaded)
    (hok : loaded.error_message = none) :
    extended_size_of image = height_of image * (4 * width_of image + padding_of image) ∧
    extended_size_of image < 2 ^ 34 ∧
    (image.channels = 4 → height_of image = 0 ∨ padding_of image = 0) ∧
    loaded.image.map bmp_image.aligned_image_size
      = some (aligned_size (extended_size_of image)) ∧
    loaded.image.map bmp_image.absolute_image_width = some (width_of image) ∧
    loaded.image.map bmp_image.absolute_image_height = some (height_of image) ∧
    loaded.image.map bmp_image.pixel_row_padding = some (padding_of image) ∧
    loaded.image.map bmp_image.channels = some image.channels := by
  obtain ⟨hmem, hpos, hlen, hoff, hsz, hmem1, p1, hcopy, hloaded⟩ :=
    read_success alloc junk file image loaded hread hok
  have hdepth := open_success_depth source blank file image hopen
  have hmax := (malloc_granted _ _ _ hmem).1
  have hP : payload_length image < 2 ^ 32 := payload_length_lt image hpos hmax
  have hdata : (file.input.take (payload_length image)).length = payload_length image := by
    rw [List.length_take]; omega
  change size_mul (height_of image) (size_add (row_size_of image) (padding_of image))
    ≤ payload_length image at hsz
  subst hloaded
  refine ⟨?_, ?_, ?_, rfl, rfl, rfl, rfl, rfl⟩
  · rcases hdepth with ⟨hch, hbpp⟩ | ⟨hch, hbpp⟩
    · obtain ⟨_, hgeo⟩ := copied_geometry_3 junk image _ p1 hdata hP hoff hsz hch hbpp hcopy
      rcases hgeo with h0 | ⟨g1, g2, g3, g4, g5, g6, g7⟩
      · unfold extended_size_of size_mul; rw [h0]; simp
      · have hle4 : height_of image * (4 * width_of image + padding_of image)
            ≤ height_of image * (3 * width_of image + padding_of image)
              + height_of image * (3 * width_of image + padding_of image) := by
          rw [← Nat.mul_add]
          exact Nat.mul_le_mul_left _ (by omega)
        unfold extended_size_of
        rw [size_mul_eq (width_of image) 4 (by omega), size_add_eq _ _ (by omega),
          size_mul_eq _ _ (by
            rw [Nat.mul_comm (width_of image) 4]; omega),
          Nat.mul_comm (width_of image) 4]
    · obtain ⟨_, hgeo⟩ := copied_geometry_4 junk image _ p1 hdata hP hoff hsz hch hbpp hcopy
      rcases hgeo with h0 | ⟨g1, g2, g3, g4, g5⟩
      · unfold extended_size_of size_mul; rw [h0]; simp
      · unfold extended_size_of
        rw [g1, g2, size_add_eq _ _ (by omega), size_mul_eq _ _ (by
          rw [Nat.add_zero]; omega)]
  · rcases hdepth with ⟨hch, hbpp⟩ | ⟨hch, hbpp⟩
    · obtain ⟨_, hgeo⟩ := copied_geometry_3 junk image _ p1 hdata hP hoff hsz hch hbpp hcopy
      rcases hgeo with h0 | ⟨g1, g2, g3, g4, g5, g6, g7⟩
      · have : extended_size_of image = 0 := by
          unfold extended_size_of size_mul; rw [h0]; simp
        omega
      · have hle4 : height_of image * (4 * width_of image + padding_of image)
            ≤ height_of image * (3 * width_of image + padding_of image)
              + height_of image * (3 * width_of image + padding_of image) := by
          rw [← Nat.mul_add]
          exact Nat.mul_le_mul_left _ (by omega)
        have : extended_size_of image
            = height_of image * (4 * width_of image + padding_of image) := by
          unfold extended_size_of
          rw [size_mul_eq (width_of image) 4 (by omega), size_add_eq _ _ (by omega),
            size_mul_eq _ _ (by
              rw [Nat.mul_comm (width_of image) 4]; omega),
            Nat.mul_comm (width_of image) 4]
        omega
    · obtain ⟨_, hgeo⟩ := copied_geometry_4 junk image _ p1 hdata hP hoff hsz hch hbpp hcopy
      rcases hgeo with h0 | ⟨g1, g2, g3, g4, g5⟩
      · have : extended_size_of image = 0 := by
          unfold extended_size_of size_mul; rw [h0]; simp
        omega
      · have : extended_size_of image = height_of image * (4 * width_of image) := by
          unfold extended_size_of
          rw [g1, g2, size_add_eq _ _ (by omega), Nat.add_zero, size_mul_eq _ _ (by omega)]
        omega
  · intro hch
    rcases hdepth with ⟨h3, _⟩ | ⟨_, hbpp⟩
    · omega
    · obtain ⟨_, hgeo⟩ := copied_geometry_4 junk image _ p1 hdata hP hoff hsz hch hbpp hcopy
      rcases hgeo with h0 | ⟨g1, g2, g3, g4, g5⟩
      · exact Or.inl h0
      · exact Or.inr g2

/-- The size of the plane of a decoded image: `H * (4 * W + pad)` rounded up to
a multiple of 64, plus 64; with 4 channels that is `H * W * 4` rounded up to a
multiple of 64, plus 64. -/
theorem plane_size_decoded (alloc : Nat → Nat → Bool) (junk : Nat → Byte)
    (source : FILE) (blank : bmp_image) (file : FILE) (image : bmp_image) (loaded : bmp_result)
    (hopen : bmp_open_image_headers (some source) (some blank) = ⟨some file, some image, none⟩)
    (hread : bmp_read_image_data alloc junk (some file) (some image) = .done loaded)
    (hok : loaded.error_message = none) :
    ∃ stored, loaded.image = some stored ∧
      stored.aligned_image_size
        = round_up (stored.absolute_image_height
            * (4 * stored.absolute_image_width + stored.pixel_row_padding)) 64 + 64 ∧
      (stored.channels = 4 →
        stored.aligned_image_size
          = round_up (stored.absolute_image_height * stored.absolute_image_width * 4) 64
            + 64) := by
  obtain ⟨hext, hlt, hpad, ha, hw, hh, hp, hc⟩ :=
    extended_size_decoded alloc junk source blank file image loaded hopen hread hok
  cases hl : loaded.image with
  | none => rw [hl] at ha; cases ha
  | some stored =>
    rw [hl] at ha hw hh hp hc
    simp only [Option.map_some', Option.some.injEq] at ha hw hh hp hc
    refine ⟨stored, rfl, ?_, ?_⟩
    · rw [ha, hw, hh, hp, ← hext]
      exact aligned_size_round_up _ (by omega)
    · intro h4
      rw [ha, hw, hh, aligned_size_round_up _ (by omega), hext]
      rcases hpad (by rw [← hc]; exact h4) with h0 | h0
      · rw [h0]; simp
      · rw [h0, Nat.add_zero]
        congr 2
        ring

/-- With no row padding `bmp_sample_raw_pixel` computes the offset that
`bmp_sample_pixel` computes. -/
theorem sample_raw_pixel_unpadded (x y : Int) (W H : Nat) :
    bmp_sample_raw_pixel x y W H 0 = bmp_sample_pixel x y W H := by
  unfold bmp_sample_raw_pixel bmp_sample_pixel
  have e : size_add (size_mul W 4) 0 = size_mul W 4 := by
    unfold size_add size_mul
    simp
  simp only []
  rw [e]

/-! ## The mutex of the queue and the arguments of `brightness` -/

/-- Following the mutex does not change what `sync_queue_enqueue` leaves. -/
theorem enqueue_mutex_result {α : Type} (lock unlock : Int) (queue : sync_queue_t α) (data : α) :
    (sync_queue_enqueue_mutex lock unlock queue data).1
      = sync_queue_enqueue lock unlock queue data := by
  unfold sync_queue_enqueue_mutex sync_queue_enqueue
  split_ifs <;> rfl

/-- Following the mutex does not change what `sync_queue_pop` leaves. -/
theorem pop_mutex_result {α : Type} (lock : Int) (waits : List Int) (unlock : Int)
    (queue : sync_queue_t α) :
    (sync_queue_pop_mutex lock waits unlock queue).1 = sync_queue_pop lock waits unlock queue := by
  unfold sync_queue_pop_mutex sync_queue_pop
  by_cases hl : 0 ≠ lock
  · rw [if_pos hl, if_pos hl]
  · rw [if_neg hl, if_neg hl]
    cases wait_until_not_empty queue waits with
    | returned => rfl
    | left =>
      simp only []
      split_ifs <;> rfl

/-- With `pthread_mutex_unlock` succeeding, `sync_queue_enqueue` never returns
with the mutex held. -/
theorem enqueue_releases {α : Type} (lock : Int) (queue : sync_queue_t α) (data : α) :
    (sync_queue_enqueue_mutex lock 0 queue data).2 = false := by
  unfold sync_queue_enqueue_mutex
  by_cases hl : 0 ≠ lock
  · rw [if_pos hl]
  · rw [if_neg hl]
    simp only []
    rw [if_neg (by decide)]

/-- With `pthread_mutex_unlock` succeeding, `sync_queue_pop` returns with the
mutex held exactly when it acquired the mutex and left from inside the wait
loop. -/
theorem pop_holds_iff {α : Type} (lock : Int) (waits : List Int) (queue : sync_queue_t α) :
    (sync_queue_pop_mutex lock waits 0 queue).2 = true
      ↔ lock = 0 ∧ wait_until_not_empty queue waits = .returned := by
  unfold sync_queue_pop_mutex
  by_cases hl : 0 ≠ lock
  · rw [if_pos hl]
    constructor
    · intro h; cases h
    · intro h; exact absurd h.1.symm hl
  · rw [if_neg hl]
    have hl0 : lock = 0 := by omega
    cases hw : wait_until_not_empty queue waits with
    | returned => simp [hl0]
    | left =>
      simp only []
      rw [if_neg (by decide)]
      simp

/-- A call of `sync_queue_pop` that returns the null pointer leaves the items
of the queue as they were. -/
theorem pop_none_unchanged {α : Type} (lock : Int) (waits : List Int) (unlock : Int)
    (queue : sync_queue_t α)
    (h : (sync_queue_pop lock waits unlock queue).data = none) :
    (sync_queue_pop lock waits unlock queue).queue = queue := by
  unfold sync_queue_pop at h ⊢
  by_cases hl : 0 ≠ lock
  · rw [if_pos hl]
  · rw [if_neg hl] at h ⊢
    cases hw : wait_until_not_empty queue waits with
    | returned => rfl
    | left =>
      rw [hw] at h
      obtain ⟨⟨items⟩⟩ := queue
      cases items with
      | nil => simp only [queue_pop]; split_ifs <;> rfl
      | cons front rest =>
        simp only [queue_pop] at h
        split_ifs at h

/-- C31. The queue lock, on an empty queue when the first
`pthread_cond_timedwait` returns `EINVAL`, an error other than `ETIMEDOUT`, the
mutex calls succeeding: `sync_queue_pop` acquires the mutex, returns the null
pointer from inside the wait loop, leaves the queue as it was, and the calling
thread still holds the mutex. -/
theorem pop_leaves_mutex_held :
    sync_queue_pop_mutex 0 [EINVAL] 0 (⟨queue_init⟩ : sync_queue_t Nat)
      = (⟨⟨queue_init⟩, none⟩, true) ∧
    sync_queue_pop 0 [EINVAL] 0 (⟨queue_init⟩ : sync_queue_t Nat) = ⟨⟨queue_init⟩, none⟩ ∧
    sync_queue_pop_mutex 0 [ETIMEDOUT] 0 (⟨queue_init⟩ : sync_queue_t Nat)
      = (⟨⟨queue_init⟩, none⟩, false) ∧
    sync_queue_pop_mutex 0 [0, ETIMEDOUT] 0 (⟨queue_init⟩ : sync_queue_t Nat)
      = (⟨⟨queue_init⟩, none⟩, false) := by
  decide

/-- C32. The argument count of `brightness`: called with two operands
(`argc = 3`) `main` does not print the usage line but reads `argv[3]`, the null
pointer `argv[argc]`, and `argv[4]`, which lies beyond the argument vector;
called with three operands (`argc = 4`) it continues with the null pointer
`argv[4]` as the name of the destination; only below `argc = 3` does it
print the usage line. -/
theorem brightness_arguments_unchecked :
    brightness_arguments [ "brightness", "40", "1.5" ] = .fault .out_of_bounds ∧
    brightness_arguments [ "brightness", "40", "1.5", "in.bmp" ]
      = .done (.operands (some "40") (some "1.5") (some "in.bmp") none) ∧
    brightness_arguments [ "brightness", "40" ] = .done (.usage (some "brightness")) ∧
    brightness_arguments [ "brightness", "40", "1.5", "in.bmp", "out.bmp" ]
      = .done (.operands (some "40") (some "1.5") (some "in.bmp") (some "out.bmp")) := by
  decide

/-! ## The worker pool, event by event -/

/-- What `threadpool_enqueue_task` adds to the queue. -/
theorem enqueue_task_items (granted : Bool) (lock unlock : Int) (threadpool : threadpool_t)
    (task task_data result_callback : Nat) :
    (threadpool_enqueue_task granted lock unlock threadpool task task_data
        result_callback).queue.implementation.items
      = threadpool.queue.implementation.items
        ++ (if granted = true ∧ lock = 0 then [⟨task, task_data, result_callback⟩] else []) ∧
    (threadpool_enqueue_task granted lock unlock threadpool task task_data
        result_callback).thread_count = threadpool.thread_count ∧
    (threadpool_enqueue_task granted lock unlock threadpool task task_data
        result_callback).request_to_terminate = threadpool.request_to_terminate := by
  cases granted with
  | false => exact ⟨by simp [threadpool_enqueue_task, work_item_create], rfl, rfl⟩
  | true =>
    refine ⟨?_, rfl, rfl⟩
    by_cases hl : lock = 0
    · subst hl
      by_cases hu : 0 ≠ unlock
      · simp [threadpool_enqueue_task, work_item_create, sync_queue_enqueue, queue_push, hu]
      · simp [threadpool_enqueue_task, work_item_create, sync_queue_enqueue, queue_push, hu]
    · have hl2 : 0 ≠ lock := fun h => hl h.symm
      simp [threadpool_enqueue_task, work_item_create, sync_queue_enqueue, hl, hl2]

/-- The item a call of `sync_queue_pop` returns, followed by the items it
leaves, are the items the queue held. -/
theorem pop_accounts {α : Type} (lock : Int) (waits : List Int) (unlock : Int)
    (queue : sync_queue_t α) :
    (sync_queue_pop lock waits unlock queue).data.toList
        ++ (sync_queue_pop lock waits unlock queue).queue.implementation.items
      = queue.implementation.items := by
  unfold sync_queue_pop
  by_cases hl : 0 ≠ lock
  · rw [if_pos hl]; rfl
  · rw [if_neg hl]
    cases wait_until_not_empty queue waits with
    | returned => rfl
    | left =>
      obtain ⟨⟨items⟩⟩ := queue
      cases items with
      | nil => simp only [queue_pop]; split_ifs <;> rfl
      | cons front rest => simp only [queue_pop]; split_ifs <;> rfl

/-- A pass of `_thread_start` moves at most one item from the front of the
queue to the calls, releases that item, and leaves the rest of the record. -/
theorem thread_start_accounts (worker : Nat) (lock : Int) (waits : List Int) (unlock : Int)
    (pool : pool_state) :
    (_thread_start worker lock waits unlock pool).calls.map task_call.work_item
        ++ (_thread_start worker lock waits unlock pool).threadpool.queue.implementation.items
      = pool.calls.map task_call.work_item ++ pool.threadpool.queue.implementation.items ∧
    (pool.destroyed = pool.calls.map task_call.work_item →
      (_thread_start worker lock waits unlock pool).destroyed
        = (_thread_start worker lock waits unlock pool).calls.map task_call.work_item) ∧
    ((∀ call ∈ pool.calls, call.worker < pool.threadpool.thread_count) →
      ∀ call ∈ (_thread_start worker lock waits unlock pool).calls,
        call.worker < pool.threadpool.thread_count) ∧
    (_thread_start worker lock waits unlock pool).threadpool.thread_count
      = pool.threadpool.thread_count := by
  unfold _thread_start
  by_cases hw : worker ∈ pool.returned ∨ pool.threadpool.thread_count ≤ worker
  · rw [if_pos hw]
    exact ⟨rfl, fun h => h, fun h => h, rfl⟩
  · rw [if_neg hw]
    by_cases hs : check_if_signaled pool.threadpool.request_to_terminate = true
    · rw [if_pos hs]
      exact ⟨rfl, fun h => h, fun h => h, rfl⟩
    · rw [if_neg hs]
      have hpop := pop_accounts lock waits unlock pool.threadpool.queue
      cases hd : (sync_queue_pop lock waits unlock pool.threadpool.queue).data with
      | none =>
        rw [hd] at hpop
        simp only [Option.toList_none, List.nil_append] at hpop
        simp only [hd]
        exact ⟨by rw [hpop], fun h => h, fun h => h, trivial⟩
      | some work_item =>
        rw [hd] at hpop
        simp only [Option.toList_some, List.singleton_append] at hpop
        simp only [hd]
        refine ⟨?_, ?_, ?_, trivial⟩
        · rw [← hpop]
          simp [task_call.work_item]
        · intro h
          rw [h]
          simp [task_call.work_item]
        · intro h call hcall
          rw [List.mem_append] at hcall
          rcases hcall with hcall | hcall
          · exact h call hcall
          · rw [List.mem_singleton] at hcall
            subst hcall
            simp only []
            omega

/-- One event: the items called so far followed by the items in the queue grow
by the item the event puts into the queue, if it does. -/
theorem pool_step_accounts (event : pool_event) (pool : pool_state) :
    (pool_step event pool).calls.map task_call.work_item
        ++ (pool_step event pool).threadpool.queue.implementation.items
      = pool.calls.map task_call.work_item ++ pool.threadpool.queue.implementation.items
        ++ enqueued [event] ∧
    (pool.destroyed = pool.calls.map task_call.work_item →
      (pool_step event pool).destroyed = (pool_step event pool).calls.map task_call.work_item) ∧
    ((∀ call ∈ pool.calls, call.worker < pool.threadpool.thread_count) →
      ∀ call ∈ (pool_step event pool).calls, call.worker < pool.threadpool.thread_count) ∧
    (pool_step event pool).threadpool.thread_count = pool.threadpool.thread_count := by
  cases event with
  | enqueue_task granted lock unlock task task_data result_callback =>
    obtain ⟨h1, h2, _⟩ := enqueue_task_items granted lock unlock pool.threadpool task task_data
      result_callback
    simp only [pool_step, enqueued]
    refine ⟨?_, fun h => h, fun h => h, h2⟩
    rw [h1]
    split_ifs <;> simp
  | pass worker lock waits unlock =>
    obtain ⟨h1, h2, h3, h4⟩ := thread_start_accounts worker lock waits unlock pool
    simp only [pool_step, enqueued, List.append_nil]
    exact ⟨h1, h2, h3, h4⟩
  | destroy =>
    simp only [pool_step, enqueued, List.append_nil, threadpool_destroy]
    exact ⟨trivial, fun h => h, fun h => h, trivial⟩

theorem enqueued_cons (event : pool_event) (events : List pool_event) :
    enqueued (event :: events) = enqueued [event] ++ enqueued events := by
  cases event with
  | enqueue_task granted lock unlock task task_data result_callback =>
    simp only [enqueued]
    split_ifs <;> simp
  | pass worker lock waits unlock => simp [enqueued]
  | destroy => simp [enqueued]

/-- An interleaving: the items called followed by the items left in the queue
are the items called and held before followed by the items put into the queue,
in order; every called item is released; every call is by a thread of the
pool. -/
theorem run_pool_accounts (events : List pool_event) :
    ∀ pool : pool_state,
      ((run_pool events pool).calls.map task_call.work_item
          ++ (run_pool events pool).threadpool.queue.implementation.items
        = pool.calls.map task_call.work_item ++ pool.threadpool.queue.implementation.items
          ++ enqueued events) ∧
      (pool.destroyed = pool.calls.map task_call.work_item →
        (run_pool events pool).destroyed
          = (run_pool events pool).calls.map task_call.work_item) ∧
      ((∀ call ∈ pool.calls, call.worker < pool.threadpool.thread_count) →
        ∀ call ∈ (run_pool events pool).calls, call.worker < pool.threadpool.thread_count) := by
  induction events with
  | nil => intro pool; simp [run_pool, enqueued]
  | cons event events ih =>
    intro pool
    obtain ⟨h1, h2, h3, h4⟩ := pool_step_accounts event pool
    obtain ⟨i1, i2, i3⟩ := ih (pool_step event pool)
    rw [run_pool]
    refine ⟨?_, fun h => i2 (h2 h), ?_⟩
    · rw [i1, h1, enqueued_cons event events]
      simp only [List.append_assoc]
    · intro h
      rw [h4] at i3
      exact i3 (h3 h)

/-- A pass of `_thread_start` that reads a raised termination request calls no
task and leaves the queue as it is. -/
theorem thread_start_signaled (pool : pool_state) (worker : Nat) (lock : Int)
    (waits : List Int) (unlock : Int)
    (h : check_if_signaled pool.threadpool.request_to_terminate = true) :
    (_thread_start worker lock waits unlock pool).calls = pool.calls ∧
    (_thread_start worker lock waits unlock pool).threadpool = pool.threadpool := by
  unfold _thread_start
  by_cases hw : worker ∈ pool.returned ∨ pool.threadpool.thread_count ≤ worker
  · rw [if_pos hw]; exact ⟨rfl, rfl⟩
  · rw [if_neg hw, if_pos h]; exact ⟨rfl, rfl⟩

/-- A pass of `_thread_start` by a thread of the pool that is still in its loop,
with no termination request raised and the mutex acquired, on a queue that is
not empty: the task of the front item is called with the data pointer and the
callback of that item, and the item is released. -/
theorem thread_start_runs_front (pool : pool_state) (worker : Nat) (waits : List Int)
    (unlock : Int) (front : work_item_t) (rest : List work_item_t)
    (hw : worker < pool.threadpool.thread_count) (hr : worker ∉ pool.returned)
    (hs : check_if_signaled pool.threadpool.request_to_terminate = false)
    (hq : pool.threadpool.queue.implementation.items = front :: rest) :
    _thread_start worker 0 waits unlock pool
      = { pool with
          threadpool := { pool.threadpool with queue := ⟨⟨rest⟩⟩ }
          calls := pool.calls
            ++ [⟨worker, front.task, front.task_data, front.result_callback⟩]
          destroyed := pool.destroyed ++ [front] } := by
  have hne : queue_is_empty pool.threadpool.queue.implementation = false := by
    unfold queue_is_empty; rw [hq]; rfl
  have hpop : sync_queue_pop 0 waits unlock pool.threadpool.queue = ⟨⟨⟨rest⟩⟩, some front⟩ := by
    unfold sync_queue_pop
    rw [if_neg (by decide), wait_not_needed pool.threadpool.queue waits hne]
    simp only [queue_pop, hq]
    split_ifs <;> rfl
  unfold _thread_start
  rw [if_neg (by intro h; rcases h with h | h; exact hr h; omega), hs, hpop]
  rfl


/-- An interleaving in two parts. -/
theorem run_pool_append (first second : List pool_event) :
    ∀ pool : pool_state,
      run_pool (first ++ second) pool = run_pool second (run_pool first pool) := by
  induction first with
  | nil => intro pool; rfl
  | cons event first ih => intro pool; simp only [List.cons_append, run_pool]; exact ih _

theorem enqueued_append (first second : List pool_event) :
    enqueued (first ++ second) = enqueued first ++ enqueued second := by
  induction first with
  | nil => rfl
  | cons event first ih =>
    rw [List.cons_append, enqueued_cons, ih, enqueued_cons event first, List.append_assoc]

/-- A pass of `_thread_start` with no termination request raised leaves every
thread in its loop. -/
theorem thread_start_stays (pool : pool_state) (worker : Nat) (lock : Int) (waits : List Int)
    (unlock : Int) (hs : check_if_signaled pool.threadpool.request_to_terminate = false) :
    (_thread_start worker lock waits unlock pool).returned = pool.returned ∧
    (_thread_start worker lock waits unlock pool).threadpool.request_to_terminate
      = pool.threadpool.request_to_terminate ∧
    (_thread_start worker lock waits unlock pool).threadpool.thread_count
      = pool.threadpool.thread_count := by
  unfold _thread_start
  by_cases hw : worker ∈ pool.returned ∨ pool.threadpool.thread_count ≤ worker
  · rw [if_pos hw]; exact ⟨rfl, rfl, rfl⟩
  · rw [if_neg hw, if_neg (by simp [hs])]
    cases hd : (sync_queue_pop lock waits unlock pool.threadpool.queue).data with
    | none => simp only [hd]; exact ⟨trivial, trivial, trivial⟩
    | some work_item => simp only [hd]; exact ⟨trivial, trivial, trivial⟩

/-- A pass of `_thread_start` puts nothing into the queue. -/
theorem thread_start_queue_le (pool : pool_state) (worker : Nat) (lock : Int)
    (waits : List Int) (unlock : Int) :
    (_thread_start worker lock waits unlock pool).threadpool.queue.implementation.items.length
      ≤ pool.threadpool.queue.implementation.items.length := by
  have hpop := congrArg List.length (pop_accounts lock waits unlock pool.threadpool.queue)
  rw [List.length_append] at hpop
  unfold _thread_start
  by_cases hw : worker ∈ pool.returned ∨ pool.threadpool.thread_count ≤ worker
  · rw [if_pos hw]
  · rw [if_neg hw]
    by_cases hs : check_if_signaled pool.threadpool.request_to_terminate = true
    · rw [if_pos hs]
    · rw [if_neg hs]
      cases hd : (sync_queue_pop lock waits unlock pool.threadpool.queue).data with
      | none => simp only [hd]; omega
      | some work_item => simp only [hd]; omega

/-- An event other than the termination request, on a pool with no request
raised, leaves every thread in its loop and no request raised. -/
theorem pool_step_stays (event : pool_event) (pool : pool_state)
    (he : event ≠ .destroy)
    (hs : check_if_signaled pool.threadpool.request_to_terminate = false) :
    (pool_step event pool).returned = pool.returned ∧
    (pool_step event pool).threadpool.request_to_terminate
      = pool.threadpool.request_to_terminate ∧
    (pool_step event pool).threadpool.thread_count = pool.threadpool.thread_count := by
  cases event with
  | enqueue_task granted lock unlock task task_data result_callback =>
    obtain ⟨_, h2, h3⟩ := enqueue_task_items granted lock unlock pool.threadpool task task_data
      result_callback
    exact ⟨rfl, h3, h2⟩
  | pass worker lock waits unlock => exact thread_start_stays pool worker lock waits unlock hs
  | destroy => exact absurd rfl he

/-- An interleaving without the termination request, from the start of a pool:
every thread is still in its loop and no request is raised. -/
theorem run_pool_stays (events : List pool_event) :
    ∀ pool : pool_state, (∀ event ∈ events, event ≠ .destroy) →
      check_if_signaled pool.threadpool.request_to_terminate = false →
      (run_pool events pool).returned = pool.returned ∧
      (run_pool events pool).threadpool.request_to_terminate
        = pool.threadpool.request_to_terminate ∧
      (run_pool events pool).threadpool.thread_count = pool.threadpool.thread_count := by
  induction events with
  | nil => intro pool _ _; exact ⟨rfl, rfl, rfl⟩
  | cons event events ih =>
    intro pool he hs
    obtain ⟨h1, h2, h3⟩ := pool_step_stays event pool (he event (List.mem_cons_self _ _)) hs
    obtain ⟨i1, i2, i3⟩ := ih (pool_step event pool)
      (fun e hmem => he e (List.mem_cons_of_mem _ hmem)) (by rw [h2]; exact hs)
    rw [run_pool]
    exact ⟨by rw [i1, h1], by rw [i2, h2], by rw [i3, h3]⟩

/-- Passes that acquire the mutex, by threads of the pool that are in their
loops with no termination request raised: as many passes as the queue holds
items leave it empty. -/
theorem run_pool_drains (passes : List pool_event) :
    ∀ pool : pool_state,
      (∀ event ∈ passes, ∃ worker waits unlock,
        event = .pass worker 0 waits unlock ∧ worker < pool.threadpool.thread_count) →
      pool.returned = [] →
      check_if_signaled pool.threadpool.request_to_terminate = false →
      pool.threadpool.queue.implementation.items.length ≤ passes.length →
      (run_pool passes pool).threadpool.queue.implementation.items = [] := by
  induction passes with
  | nil =>
    intro pool _ _ _ hlen
    exact List.eq_nil_of_length_eq_zero (by simpa using hlen)
  | cons event passes ih =>
    intro pool hp hr hs hlen
    obtain ⟨worker, waits, unlock, he, hw⟩ := hp event (List.mem_cons_self _ _)
    subst he
    obtain ⟨s1, s2, s3⟩ := thread_start_stays pool worker 0 waits unlock hs
    rw [run_pool]
    apply ih (pool_step (.pass worker 0 waits unlock) pool)
    · intro e hmem
      obtain ⟨w, ws, u, h1, h2⟩ := hp e (List.mem_cons_of_mem _ hmem)
      exact ⟨w, ws, u, h1, by rw [show (pool_step (.pass worker 0 waits unlock) pool)
        = _thread_start worker 0 waits unlock pool from rfl, s3]; exact h2⟩
    · rw [show (pool_step (.pass worker 0 waits unlock) pool)
        = _thread_start worker 0 waits unlock pool from rfl, s1, hr]
    · rw [show (pool_step (.pass worker 0 waits unlock) pool)
        = _thread_start worker 0 waits unlock pool from rfl, s2]; exact hs
    · rw [show (pool_step (.pass worker 0 waits unlock) pool)
        = _thread_start worker 0 waits unlock pool from rfl]
      cases hq : pool.threadpool.queue.implementation.items with
      | nil =>
        have hle := thread_start_queue_le pool worker 0 waits unlock
        rw [hq] at hle
        exact Nat.le_trans hle (Nat.zero_le _)
      | cons front rest =>
        rw [thread_start_runs_front pool worker waits unlock front rest hw
          (by rw [hr]; exact List.not_mem_nil _) hs hq]
        rw [hq] at hlen
        simp only [List.length_cons] at hlen ⊢
        omega

/-- Passes put nothing into the queue. -/
theorem enqueued_passes (passes : List pool_event)
    (h : ∀ event ∈ passes, ∃ worker lock waits unlock, event = .pass worker lock waits unlock) :
    enqueued passes = [] := by
  induction passes with
  | nil => rfl
  | cons event passes ih =>
    obtain ⟨worker, lock, waits, unlock, he⟩ := h event (List.mem_cons_self _ _)
    subst he
    rw [enqueued]
    exact ih (fun e hmem => h e (List.mem_cons_of_mem _ hmem))

/-- With no termination request raised before the threads of the pool have
made as many passes as tasks were put into the queue, each pass acquiring the
mutex: the queue is empty and the tasks called are the tasks put into the
queue, in order. -/
theorem run_pool_completes (pool_size : Nat) (events passes : List pool_event)
    (hnd : ∀ event ∈ events, event ≠ .destroy)
    (hp : ∀ event ∈ passes, ∃ worker waits unlock,
      event = .pass worker 0 waits unlock ∧ worker < pool_size)
    (hlen : (enqueued events).length ≤ passes.length) :
    (run_pool (events ++ passes) (pool_start pool_size)).calls.map task_call.work_item
      = enqueued events ∧
    (run_pool (events ++ passes) (pool_start pool_size)).threadpool.queue.implementation.items
      = [] := by
  obtain ⟨s1, s2, s3⟩ := run_pool_stays events (pool_start pool_size) hnd rfl
  have hacc := (run_pool_accounts events (pool_start pool_size)).1
  have hq : (run_pool events (pool_start pool_size)).threadpool.queue.implementation.items.length
      ≤ passes.length := by
    have h := congrArg List.length hacc
    simp only [List.length_append, List.length_map] at h
    have hc : (pool_start pool_size).calls.length = 0 := rfl
    have hi : (pool_start pool_size).threadpool.queue.implementation.items.length = 0 := rfl
    omega
  have hempty : (run_pool (events ++ passes)
      (pool_start pool_size)).threadpool.queue.implementation.items = [] := by
    rw [run_pool_append]
    apply run_pool_drains passes (run_pool events (pool_start pool_size))
    · intro e hmem
      obtain ⟨w, ws, u, h1, h2⟩ := hp e hmem
      exact ⟨w, ws, u, h1, by rw [s3]; exact h2⟩
    · rw [s1]; rfl
    · rw [s2]; rfl
    · exact hq
  have hall := (run_pool_accounts (events ++ passes) (pool_start pool_size)).1
  rw [hempty, List.append_nil, enqueued_append, enqueued_passes passes (fun e hmem => by
    obtain ⟨w, ws, u, h1, _⟩ := hp e hmem
    exact ⟨w, 0, ws, u, h1⟩), List.append_nil] at hall
  exact ⟨by rw [hall]; rfl, hempty⟩
/-- C19, counterexample. A pool of one thread: two tasks are submitted through
`threadpool_enqueue_task`, the thread makes one pass of its loop,
`threadpool_destroy` raises the termination request, and the thread makes its
next pass. Both work items were put into the queue before the request; the
task of the first was called; the thread has returned from `_thread_start` and
the second item is still in the queue, its task never called; further passes
change nothing. A task submitted alone before the request is not called
either when the request is read first. -/
theorem shutdown_leaves_task_queued :
    enqueued [.enqueue_task true 0 0 1 10 0, .enqueue_task true 0 0 2 20 0, .pass 0 0 [] 0,
        .destroy, .pass 0 0 [] 0]
      = [⟨1, 10, 0⟩, ⟨2, 20, 0⟩] ∧
    run_pool [.enqueue_task true 0 0 1 10 0, .enqueue_task true 0 0 2 20 0, .pass 0 0 [] 0,
        .destroy, .pass 0 0 [] 0] (pool_start 1)
      = ⟨⟨⟨⟨[⟨2, 20, 0⟩]⟩⟩, 1, 1⟩, [0], [⟨0, 1, 10, 0⟩], [⟨1, 10, 0⟩]⟩ ∧
    run_pool [.enqueue_task true 0 0 1 10 0, .enqueue_task true 0 0 2 20 0, .pass 0 0 [] 0,
        .destroy, .pass 0 0 [] 0, .pass 0 0 [] 0, .pass 0 0 [0, 0] 0] (pool_start 1)
      = ⟨⟨⟨⟨[⟨2, 20, 0⟩]⟩⟩, 1, 1⟩, [0], [⟨0, 1, 10, 0⟩], [⟨1, 10, 0⟩]⟩ ∧
    run_pool [.enqueue_task true 0 0 1 10 0, .destroy, .pass 0 0 [] 0] (pool_start 1)
      = ⟨⟨⟨⟨[⟨1, 10, 0⟩]⟩⟩, 1, 1⟩, [0], [], []⟩ := by
  decide

/-- C19, amended. The pool runs each submitted task at most once, and every
task when no termination request comes before the pops: for every pool of
`pool_size` threads and every interleaving of calls of
`threadpool_enqueue_task`, passes of the loops of `_thread_start` and the
termination request of `threadpool_destroy`, the work items whose task was
called (each with the data pointer and the callback of the item, by a thread
of the pool), followed by the work items still in the queue, are the work
items put into the queue, in the order of submission; the items released are
the items whose task was called; so every submitted task has been called
exactly once exactly when the queue is empty. When the interleaving holds no
termination request and is followed by at least as many passes of threads of
the pool as tasks were put into the queue, each pass acquiring the mutex, the
queue is empty and every task has been called exactly once. A pass that reads
a raised termination request calls no task and leaves the queue as it is. A
pass of a thread in its loop with no request raised, on a queue that is not
empty, calls the task of the front item and releases the item. -/
theorem pool_runs_tasks_at_most_once (pool_size : Nat) (events : List pool_event) :
    ((run_pool events (pool_start pool_size)).calls.map task_call.work_item
        ++ (run_pool events (pool_start pool_size)).threadpool.queue.implementation.items
      = enqueued events) ∧
    ((run_pool events (pool_start pool_size)).destroyed
      = (run_pool events (pool_start pool_size)).calls.map task_call.work_item) ∧
    (∀ call ∈ (run_pool events (pool_start pool_size)).calls, call.worker < pool_size) ∧
    ((run_pool events (pool_start pool_size)).calls.map task_call.work_item = enqueued events
      ↔ (run_pool events (pool_start pool_size)).threadpool.queue.implementation.items = []) ∧
    (∀ passes : List pool_event,
      (∀ event ∈ events, event ≠ .destroy) →
      (∀ event ∈ passes, ∃ worker waits unlock,
        event = .pass worker 0 waits unlock ∧ worker < pool_size) →
      (enqueued events).length ≤ passes.length →
      (run_pool (events ++ passes) (pool_start pool_size)).calls.map task_call.work_item
        = enqueued events ∧
      (run_pool (events ++ passes)
        (pool_start pool_size)).threadpool.queue.implementation.items = []) ∧
    (∀ (pool : pool_state) (worker : Nat) (lock : Int) (waits : List Int) (unlock : Int),
      check_if_signaled pool.threadpool.request_to_terminate = true →
      (_thread_start worker lock waits unlock pool).calls = pool.calls ∧
      (_thread_start worker lock waits unlock pool).threadpool = pool.threadpool) ∧
    (∀ (pool : pool_state) (worker : Nat) (waits : List Int) (unlock : Int)
        (front : work_item_t) (rest : List work_item_t),
      worker < pool.threadpool.thread_count → worker ∉ pool.returned →
      check_if_signaled pool.threadpool.request_to_terminate = false →
      pool.threadpool.queue.implementation.items = front :: rest →
      _thread_start worker 0 waits unlock pool
        = { pool with
            threadpool := { pool.threadpool with queue := ⟨⟨rest⟩⟩ }
            calls := pool.calls
              ++ [⟨worker, front.task, front.task_data, front.result_callback⟩]
            destroyed := pool.destroyed ++ [front] }) := by
  obtain ⟨h1, h2, h3⟩ := run_pool_accounts events (pool_start pool_size)
  have h1' : (run_pool events (pool_start pool_size)).calls.map task_call.work_item
        ++ (run_pool events (pool_start pool_size)).threadpool.queue.implementation.items
      = enqueued events := by
    rw [h1]; rfl
  refine ⟨h1', h2 rfl, h3 (fun call hcall => by cases hcall), ?_,
    fun passes hnd hp hlen => run_pool_completes pool_size events passes hnd hp hlen,
    thread_start_signaled, thread_start_runs_front⟩
  constructor
  · intro h
    have h4 := h1'
    rw [h] at h4
    exact List.append_right_eq_self.mp h4
  · intro h
    rw [h, List.append_nil] at h1'
    exact h1'

/-- A pool of two threads. Two tasks are submitted and popped by different
threads with no termination request: both are called, once each, and the queue
is empty. With a third task submitted after the pops and the request raised
before the next passes, that task is still queued when both threads have
returned. -/
theorem pool_runs_tasks_at_most_once_witness :
    ((run_pool ([.enqueue_task true 0 0 1 10 0, .enqueue_task true 0 0 2 20 0]
          ++ [.pass 1 0 [] 0, .pass 0 0 [ETIMEDOUT] 0]) (pool_start 2)).calls.map
          task_call.work_item
        = enqueued [.enqueue_task true 0 0 1 10 0, .enqueue_task true 0 0 2 20 0] ∧
      (run_pool ([.enqueue_task true 0 0 1 10 0, .enqueue_task true 0 0 2 20 0]
          ++ [.pass 1 0 [] 0, .pass 0 0 [ETIMEDOUT] 0])
        (pool_start 2)).threadpool.queue.implementation.items = []) ∧
    ((run_pool [.enqueue_task true 0 0 1 10 0, .enqueue_task true 0 0 2 20 0,
          .pass 1 0 [] 0, .pass 0 0 [] 0, .enqueue_task true 0 0 3 30 0, .destroy,
          .pass 0 0 [] 0, .pass 1 0 [] 0] (pool_start 2)).calls.map task_call.work_item
        ++ (run_pool [.enqueue_task true 0 0 1 10 0, .enqueue_task true 0 0 2 20 0,
          .pass 1 0 [] 0, .pass 0 0 [] 0, .enqueue_task true 0 0 3 30 0, .destroy,
          .pass 0 0 [] 0, .pass 1 0 [] 0] (pool_start 2)).threadpool.queue.implementation.items
      = [⟨1, 10, 0⟩, ⟨2, 20, 0⟩, ⟨3, 30, 0⟩]) ∧
    run_pool [.enqueue_task true 0 0 1 10 0, .enqueue_task true 0 0 2 20 0,
        .pass 1 0 [] 0, .pass 0 0 [] 0, .enqueue_task true 0 0 3 30 0, .destroy,
        .pass 0 0 [] 0, .pass 1 0 [] 0] (pool_start 2)
      = ⟨⟨⟨⟨[⟨3, 30, 0⟩]⟩⟩, 2, 1⟩, [0, 1], [⟨1, 1, 10, 0⟩, ⟨0, 2, 20, 0⟩],
          [⟨1, 10, 0⟩, ⟨2, 20, 0⟩]⟩ ∧
    (check_if_signaled 1 = true ∧
      (_thread_start 0 0 [] 0 ⟨⟨⟨⟨[⟨3, 30, 0⟩]⟩⟩, 2, 1⟩, [], [], []⟩).calls = []) ∧
    (0 < 2 ∧ 0 ∉ ([] : List Nat) ∧ check_if_signaled 0 = false ∧
      _thread_start 0 0 [] 0 ⟨⟨⟨⟨[⟨3, 30, 0⟩]⟩⟩, 2, 0⟩, [], [], []⟩
        = ⟨⟨⟨⟨[]⟩⟩, 2, 0⟩, [], [⟨0, 3, 30, 0⟩], [⟨3, 30, 0⟩]⟩) :=
  ⟨(pool_runs_tasks_at_most_once 2
      [.enqueue_task true 0 0 1 10 0, .enqueue_task true 0 0 2 20 0]).2.2.2.2.1
      [.pass 1 0 [] 0, .pass 0 0 [ETIMEDOUT] 0] (by decide)
      (fun event hmem => by
        simp only [List.mem_cons, List.mem_singleton, List.not_mem_nil, or_false] at hmem
        rcases hmem with h | h
        · exact ⟨1, [], 0, h, by decide⟩
        · exact ⟨0, [ETIMEDOUT], 0, h, by decide⟩)
      (by decide),
    (pool_runs_tasks_at_most_once 2 [.enqueue_task true 0 0 1 10 0,
      .enqueue_task true 0 0 2 20 0, .pass 1 0 [] 0, .pass 0 0 [] 0,
      .enqueue_task true 0 0 3 30 0, .destroy, .pass 0 0 [] 0, .pass 1 0 [] 0]).1,
    by decide,
    ⟨by decide, ((pool_runs_tasks_at_most_once 2 []).2.2.2.2.2.1
      ⟨⟨⟨⟨[⟨3, 30, 0⟩]⟩⟩, 2, 1⟩, [], [], []⟩ 0 0 [] 0 (by decide)).1⟩,
    ⟨by decide, by decide, by decide, (pool_runs_tasks_at_most_once 2 []).2.2.2.2.2.2
      ⟨⟨⟨⟨[⟨3, 30, 0⟩]⟩⟩, 2, 0⟩, [], [], []⟩ 0 [] 0 ⟨3, 30, 0⟩ [] (by decide) (by decide)
      (by decide) rfl⟩⟩

/-! ## The claims that fail where the rows leave the payload -/

set_option maxRecDepth 100000 in
/-- C3. Normalisation equals its reference definition, on the stream
`sample_offset_62` (2 x 2 pixels of 32 bits, no row padding, 16 payload bytes
with the pixel array at index 8): the headers are parsed without error, and in
`bmp_read_image_data` the pixel-offset check and the image-size check pass, so
the call goes on to normalise with `W = 2`, `H = 2`, `pad = 0` and 4 channels.
The raw pixel array, the payload from the pixel offset on, holds 8 bytes, those
of row 0, and the first pass of the row loop copies them to row 0 of the plane
as the reference definition says. For row 1 the reference definition names the
bytes of the raw pixel array from index `1 * (4 * 2 + 0)` on, and there are
none: the second pass of the row loop takes its 8 bytes from the payload
indices 16 to 23, outside the 16 bytes of the payload. -/
theorem normalisation_row_outside_raw :
    bmp_open_image_headers (some ⟨sample_offset_62, [], 0⟩)
        (bmp_init_image_structure (some zeroed_image))
      = ⟨some ⟨sample_offset_62.drop 54, [], 0⟩, some sample_offset_62_parsed, none⟩ ∧
    first_pixel_index sample_offset_62_parsed < payload_length sample_offset_62_parsed ∧
    (measured sample_offset_62_parsed (sample_offset_62.drop 54)).image_size
      ≤ payload_length sample_offset_62_parsed ∧
    ((measured sample_offset_62_parsed (sample_offset_62.drop 54)).absolute_image_width,
      (measured sample_offset_62_parsed (sample_offset_62.drop 54)).absolute_image_height,
      (measured sample_offset_62_parsed (sample_offset_62.drop 54)).pixel_row_padding,
      (measured sample_offset_62_parsed (sample_offset_62.drop 54)).channels,
      (measured sample_offset_62_parsed (sample_offset_62.drop 54)).raw_pixels,
      (measured sample_offset_62_parsed (sample_offset_62.drop 54)).payload_size)
      = (2, 2, 0, 4, 8, 16) ∧
    (sample_offset_62.drop 54).drop 8 = [11, 12, 13, 14, 15, 16, 17, 18] ∧
    ((sample_offset_62.drop 54).drop 8).drop (1 * (4 * 2 + 0)) = [] ∧
    read_rows_4 (sample_offset_62.drop 54) 8 8 0 1 0 0 (fresh (fun _ => 0) 128)
      = .done ([11, 12, 13, 14, 15, 16, 17, 18] ++ List.replicate 120 0) ∧
    read_rows_4 (sample_offset_62.drop 54) 8 8 0 2 0 0 (fresh (fun _ => 0) 128)
      = .fault .out_of_bounds ∧
    copied_rows (fun _ => 0) sample_offset_62_parsed (sample_offset_62.drop 54)
      = .fault .out_of_bounds ∧
    bmp_read_image_data (fun _ _ => true) (fun _ => 0) (some ⟨sample_offset_62.drop 54, [], 0⟩)
        (some sample_offset_62_parsed)
      = .fault .out_of_bounds := by
  decide

/-- The row loop of the writer on a payload of 16 bytes with the pixel array
at index 8 and two rows of 8 bytes: the second row is copied to the payload
indices 16 to 23, whatever the plane holds. -/
theorem write_rows_4_past_payload (content payload : List Byte) (h : payload.length = 16) :
    write_rows_4 content 8 8 0 2 0 0 payload = .fault .out_of_bounds := by
  rw [write_rows_4]
  cases h1 : memcpy payload (8 + 0) content 0 8 with
  | fault f =>
    simp only []
    unfold memcpy at h1
    split_ifs at h1
    cases h1
    rfl
  | done copied =>
    simp only []
    have hlen : copied.length = 16 := by
      unfold memcpy at h1
      split_ifs at h1 with hc
      cases h1
      simp only [List.length_append, List.length_take, List.length_drop]
      omega
    rw [write_rows_4]
    have h2 : memcpy copied (8 + size_add 0 (size_add 8 0)) content (size_add 0 8) 8
        = .fault .out_of_bounds := by
      unfold memcpy
      rw [if_neg]
      rw [hlen]
      have : size_add 0 (size_add 8 0) = 8 := by decide
      rw [this]
      omega
    rw [h2]

set_option maxRecDepth 100000 in
/-- The writer on the record of `sample_offset_62`, whatever the plane holds:
the row loop leaves the payload. -/
theorem write_offset_62 (content : List Byte) :
    bmp_write_image_data (some ⟨[], [], 16⟩) (some (sample_offset_62_decoded content))
      = .fault .out_of_bounds := by
  have e1 : (sample_offset_62_decoded content).absolute_image_height = 2 :=
    (by decide : (sample_offset_62_decoded []).absolute_image_height = 2)
  have e2 : (sample_offset_62_decoded content).absolute_image_width = 2 :=
    (by decide : (sample_offset_62_decoded []).absolute_image_width = 2)
  have e3 : (sample_offset_62_decoded content).channels = 4 :=
    (by decide : (sample_offset_62_decoded []).channels = 4)
  have e4 : (sample_offset_62_decoded content).pixel_row_padding = 0 :=
    (by decide : (sample_offset_62_decoded []).pixel_row_padding = 0)
  have e5 : (sample_offset_62_decoded content).raw_pixels = 8 :=
    (by decide : (sample_offset_62_decoded []).raw_pixels = 8)
  have e6 : (sample_offset_62_decoded content).payload = some (sample_offset_62.drop 54) := rfl
  have e7 : (sample_offset_62_decoded content).pixels = some content := rfl
  have hrows := write_rows_4_past_payload content (sample_offset_62.drop 54) (by decide)
  unfold bmp_write_image_data
  simp only [e1, e2, e3, e4, e5, e6, e7]
  rw [show size_mul 2 4 = 8 from by decide, hrows]
  simp

set_option maxRecDepth 100000 in
/-- C11. Repacking is the inverse layout map, on the image of
`sample_offset_62` (2 x 2 pixels of 32 bits, 16 payload bytes with the pixel
array at index 8): the pixel-offset check and the image-size check of
`bmp_read_image_data` pass, and the record the call fills has a payload of
`70 - (14 + 40) = 16` bytes, the pixel array at index 8, two rows of `4 * 2`
bytes and no padding, and a plane of 128 bytes. Whatever the plane holds, `bmp_write_image_data` copies row 1 to the
payload indices 16 to 23, outside the 16 bytes of the payload, and no payload
with the pixel bytes of row 1 is written; with every byte of the plane set to 9
the first row copy leaves the payload bytes 8 to 15 at 9 and the 8 bytes before
the pixel array as they were. -/
theorem repacking_row_outside_payload :
    first_pixel_index sample_offset_62_parsed < payload_length sample_offset_62_parsed ∧
    (measured sample_offset_62_parsed (sample_offset_62.drop 54)).image_size
      ≤ payload_length sample_offset_62_parsed ∧
    ((sample_offset_62_decoded []).file_size
        - (14 + (sample_offset_62_decoded []).dib_header_size),
      (sample_offset_62_decoded []).payload.map List.length,
      (sample_offset_62_decoded []).raw_pixels,
      (sample_offset_62_decoded []).aligned_image_size)
      = (16, some 16, 8, 128) ∧
    ((sample_offset_62_decoded []).absolute_image_width,
      (sample_offset_62_decoded []).absolute_image_height,
      (sample_offset_62_decoded []).pixel_row_padding,
      (sample_offset_62_decoded []).channels)
      = (2, 2, 0, 4) ∧
    write_rows_4 (List.replicate 128 9) 8 8 0 1 0 0 (sample_offset_62.drop 54)
      = .done [1, 2, 3, 4, 5, 6, 7, 8, 9, 9, 9, 9, 9, 9, 9, 9] ∧
    write_rows_4 (List.replicate 128 9) 8 8 0 2 0 0 (sample_offset_62.drop 54)
      = .fault .out_of_bounds ∧
    (∀ content : List Byte,
      bmp_write_image_data (some ⟨[], [], 16⟩) (some (sample_offset_62_decoded content))
        = .fault .out_of_bounds) :=
  ⟨by decide, by decide, by decide, by decide, by decide, by decide, write_offset_62⟩

end BMP
